import Mathlib

/-!
# Deckhouse release updater (`modules/002-deckhouse/hooks/update_deckhouse_image.go`)

A shallow embedding of the self-update hook.  Go values become Lean structures, the
patch and metrics collectors become explicit output lists that are threaded through
every function, pointers into `du.releases` become indices into that list, and a Go
runtime panic (slice index out of range, failed type assertion) is the result `none`.

Code that lives outside the repository (the semver library, `time`, `fmt`, `strings`,
the requirement and disruption registries, the update-window evaluator, the registry
client) is collected in the structure `Env` and taken as a parameter.
-/

namespace Deckhouse

/-! ## Data model -/

/-- The values of `status.phase`: the empty string of a freshly created release and
the four constants `v1alpha1.PhasePending`, `PhaseDeployed`, `PhaseOutdated`,
`PhaseSuspended`. -/
inductive Phase where
  | empty
  | pending
  | deployed
  | outdated
  | suspended
deriving DecidableEq, Repr

/-- The fields of `semver.Version` the hook reads: `Major()`, `Minor()`, `Patch()`,
`Prerelease()`, `Metadata()` and `Original()`. -/
structure Version where
  major : Nat
  minor : Nat
  patch : Nat
  pre : String
  metadata : String
  original : String
deriving DecidableEq, Repr

/-- The struct `v1alpha1.DeckhouseReleaseStatus` as kept in the snapshot (the
transition time is left out of the snapshot by `filterDeckhouseRelease`). -/
structure DeckhouseReleaseStatus where
  Phase : Phase
  Approved : Bool
  Message : String
deriving DecidableEq, Repr

/-- The struct `deckhouseRelease`.  `Requirements` is a Go map; it is kept as the list
of its entries in the order in which the `range` loop of `checkReleaseRequirements`
visits them. Times are instants on an integer clock. -/
structure deckhouseRelease where
  Name : String
  Version : Version
  ManuallyApproved : Bool
  HasSuspendAnnotation : Bool
  HasForceAnnotation : Bool
  HasDisruptionApprovedAnnotation : Bool
  Requirements : List (String × String)
  Disruptions : List String
  ApplyAfter : Option Int
  CooldownUntil : Option Int
  Status : DeckhouseReleaseStatus
deriving DecidableEq, Repr

/-- The struct `deckhousePodInfo`. -/
structure deckhousePodInfo where
  Name : String
  Namespace : String
  Image : String
  ImageID : String
  Ready : Bool
deriving DecidableEq, Repr

/-- The struct `deckhouseUpdater`.  Indices are Go `int`s, `-1` meaning "none". -/
structure deckhouseUpdater where
  now : Int
  inManualMode : Bool
  releases : List deckhouseRelease
  totalPendingManualReleases : Nat
  predictedReleaseIndex : Int
  skippedPatchesIndexes : List Int
  currentDeployedReleaseIndex : Int
  forcedReleaseIndex : Int
  deckhousePodIsReady : Bool
  deckhouseIsBootstrapping : Bool
deriving DecidableEq, Repr

/-- The type `statusPatch`: the body of a merge patch of the `/status` subresource. -/
structure statusPatch where
  Phase : Phase
  Message : String
  Approved : Bool
  TransitionTime : Int
deriving DecidableEq, Repr

/-- One call on `input.PatchCollector`. -/
inductive PatchOp where
  /-- The call `MergePatch(statusPatch, ..., name, WithSubresource("/status"))`. -/
  | mergeStatus (name : String) (st : statusPatch)
  /-- The call `MergePatch` setting the annotation `key` of release `name` to nil. -/
  | removeAnnotation (name : String) (key : String)
  /-- The call `Create(cm, UpdateIfExists())` of the config map `d8-release-updating`. -/
  | createUpdatingCM (version : String)
  /-- The call `Delete` of the config map `d8-release-updating`. -/
  | deleteUpdatingCM
  /-- The call `Filter` on the deployment `d8-system/deckhouse` that sets the image
  of its first container. -/
  | setDeploymentImage (image : String)
  /-- The call `Delete("v1", "Pod", namespace, name)`. -/
  | deletePod (ns : String) (name : String)
deriving DecidableEq, Repr

/-- One call on `input.MetricsCollector`. -/
inductive MetricOp where
  | expire (group : String)
  | set (name : String) (value : Nat) (labels : List (String × String)) (group : Option String)
  | inc (name : String)
deriving DecidableEq, Repr

/-- What a hook run has emitted so far: the patch collector and the metrics
collector, each in emission order. Log lines are not modelled. -/
structure HookOut where
  patches : List PatchOp
  metrics : List MetricOp
deriving DecidableEq, Repr

/-- The result of `requirements.CheckRequirement`: the verdict, whether the error
satisfies `errors.Is(err, requirements.ErrNotRegistered)`, and the error as printed
by the verb `%s`. -/
structure CheckResult where
  passed : Bool
  notRegistered : Bool
  errText : String
deriving DecidableEq, Repr

/-- An entry of `update.Windows`; the type is declared in `go_lib/hooks/update` and
is only handed through to the window evaluator. -/
structure Window where
  raw : String
deriving DecidableEq, Repr

/-- Everything the hook calls that is not defined in its own file. -/
structure Env where
  /-- The clock: `time.Now().UTC()`, read as one instant for the whole pass. -/
  now : Int
  /-- Whether `os.Getenv("D8_IS_TESTS_ENVIRONMENT")` is non-empty. -/
  isTestsEnvironment : Bool
  /-- The instant `time.Date(2021, 01, 01, 13, 30, 00, 00, time.UTC)`. -/
  testsDate : Int
  /-- The method `semver.Version.LessThan`. -/
  lessThan : Version → Version → Bool
  /-- The method `semver.Version.String`. -/
  versionString : Version → String
  /-- The formatting `t.Format(time.RFC822)`. -/
  formatRFC822 : Int → String
  /-- The verb `%q` of `fmt.Sprintf`. -/
  quote : String → String
  /-- The function `strings.ToLower`. -/
  toLower : String → String
  /-- The function `strings.TrimSpace`. -/
  trimSpace : String → String
  /-- The function `update.FromJSON`. -/
  windowsFromJSON : String → Except String (List Window)
  /-- The method `update.Windows.IsAllowed`. -/
  windowsIsAllowed : List Window → Int → Bool
  /-- The function `requirements.CheckRequirement` on the current values. -/
  checkRequirement : String → String → CheckResult
  /-- The function `requirements.HasDisruption`. -/
  hasDisruption : String → Bool × String
  /-- The call `dc.GetRegistryClient(repo, ...)`: `none` on success, the error otherwise. -/
  getRegistryClient : String → Option String
  /-- The call `regClient.Digest(tag)` for the client of `repo`. -/
  digest : String → String → Except String String

/-- The part of `go_hook.HookInput` the hook reads: the three snapshots and the
values it looks up. An entry of the pod snapshot is `none` when the filter returned
nil. -/
structure HookInput where
  deckhouse_pod : List (Option deckhousePodInfo)
  releases : List deckhouseRelease
  updating_cm : List String
  /-- Whether `input.Values.Exists("deckhouse.releaseChannel")`. -/
  releaseChannelExists : Bool
  /-- The value `deckhouse.update.mode` as a string. -/
  updateMode : String
  /-- The raw value `deckhouse.update.windows`, when it exists. -/
  updateWindows : Option String
  /-- The value `deckhouse.update.disruptionApprovalMode`, when it exists. -/
  disruptionApprovalMode : Option String
  /-- The value `global.modulesImages.registry` as a string. -/
  registry : String

/-- The empty collectors a hook run starts with. -/
def HookOut.init : HookOut :=
  { patches := [], metrics := [] }

/-- Append one operation to the patch collector. -/
def HookOut.patch (out : HookOut) (op : PatchOp) : HookOut :=
  { out with patches := out.patches ++ [op] }

/-- Append one operation to the metrics collector. -/
def HookOut.metric (out : HookOut) (op : MetricOp) : HookOut :=
  { out with metrics := out.metrics ++ [op] }

/-- Go slice indexing `xs[i]` with an `int` index: `none` is the index-out-of-range
panic. -/
def sliceAt {α : Type} (xs : List α) (i : Int) : Option α :=
  if i < 0 then none else xs[i.toNat]?

/-! ## The predictor -/

/-- The constructor `newDeckhouseUpdater`, with the clock passed in. -/
def newDeckhouseUpdater (now : Int) (mode : String) (podIsReady isBootstrapping : Bool) :
    deckhouseUpdater :=
  { now := now
    inManualMode := mode == "Manual"
    releases := []
    totalPendingManualReleases := 0
    predictedReleaseIndex := -1
    skippedPatchesIndexes := []
    currentDeployedReleaseIndex := -1
    forcedReleaseIndex := -1
    deckhousePodIsReady := podIsReady
    deckhouseIsBootstrapping := isBootstrapping }

/-- The method `processPendingRelease`. -/
def processPendingRelease (du : deckhouseUpdater) (index : Int) (release : deckhouseRelease) :
    Option deckhouseUpdater :=
  if du.predictedReleaseIndex ≥ 0 then
    match sliceAt du.releases du.predictedReleaseIndex with
    | none => none
    | some previousPredictedRelease =>
      if previousPredictedRelease.Version.major ≠ release.Version.major then
        some du
      else if previousPredictedRelease.Version.minor ≠ release.Version.minor then
        some du
      else
        some { du with
          skippedPatchesIndexes := du.skippedPatchesIndexes ++ [du.predictedReleaseIndex]
          predictedReleaseIndex := index }
  else
    some { du with predictedReleaseIndex := index }

/-- One iteration of the loop of `PredictNextRelease`, for index `i` and element
`release`. -/
def predictStep (du : deckhouseUpdater) (i : Int) (release : deckhouseRelease) :
    Option deckhouseUpdater :=
  let afterSwitch : Option deckhouseUpdater :=
    match release.Status.Phase with
    | Phase.outdated => some du
    | Phase.suspended => some du
    | Phase.pending => processPendingRelease du i release
    | Phase.deployed => some { du with currentDeployedReleaseIndex := i }
    | Phase.empty => some du
  match afterSwitch with
  | none => none
  | some du1 =>
    if release.HasForceAnnotation then some { du1 with forcedReleaseIndex := i } else some du1

/-- The loop `for i, release := range du.releases` of `PredictNextRelease`, from
index `i` on, `rest` being the elements not yet visited. -/
def predictLoop : Nat → List deckhouseRelease → deckhouseUpdater → Option deckhouseUpdater
  | _, [], du => some du
  | i, release :: rest, du =>
    match predictStep du (i : Int) release with
    | none => none
    | some du1 => predictLoop (i + 1) rest du1

/-- The method `PredictNextRelease`. -/
def PredictNextRelease (du : deckhouseUpdater) : Option deckhouseUpdater :=
  predictLoop 0 du.releases du

/-- The method `LastReleaseDeployed`. -/
def LastReleaseDeployed (du : deckhouseUpdater) : Bool :=
  du.currentDeployedReleaseIndex == (du.releases.length : Int) - 1

/-- The method `HasForceRelease`. -/
def HasForceRelease (du : deckhouseUpdater) : Bool :=
  du.forcedReleaseIndex != -1

/-- The method `PredictedReleaseIsPatch`. -/
def PredictedReleaseIsPatch (du : deckhouseUpdater) : Option Bool :=
  if du.currentDeployedReleaseIndex = -1 then some false
  else if du.predictedReleaseIndex = -1 then some false
  else
    match sliceAt du.releases du.currentDeployedReleaseIndex,
      sliceAt du.releases du.predictedReleaseIndex with
    | some current, some predicted =>
      if current.Version.major ≠ predicted.Version.major then some false
      else if current.Version.minor ≠ predicted.Version.minor then some false
      else some true
    | _, _ => none

/-! ## Status patches and the normalizer -/

/-- The constant `metricReleasesGroup`. -/
def metricReleasesGroup : String := "d8_releases"

/-- The constant `metricUpdatingGroup`. -/
def metricUpdatingGroup : String := "d8_updating"

/-- The function `updateStatus`; the variadic `approvedFlag` is the list of its
values. Returns the collectors and the release the pointer refers to. -/
def updateStatus (env : Env) (out : HookOut) (release : deckhouseRelease) (msg : String)
    (phase : Phase) (approvedFlag : List Bool) : HookOut × deckhouseRelease :=
  let approved : Bool :=
    match approvedFlag with
    | b :: _ => b
    | [] => release.Status.Approved
  if phase = release.Status.Phase ∧ msg = release.Status.Message
      ∧ approved = release.Status.Approved then
    (out, release)
  else
    (out.patch (PatchOp.mergeStatus release.Name
        { Phase := phase, Message := msg, Approved := approved, TransitionTime := env.now }),
      { release with Status := { Phase := phase, Approved := approved, Message := msg } })

/-- The call `updateStatus(input, &du.releases[i], ...)`: the release is updated in
place in the slice. -/
def updateStatusAt (env : Env) (out : HookOut) (du : deckhouseUpdater) (i : Nat) (msg : String)
    (phase : Phase) (approvedFlag : List Bool) : Option (HookOut × deckhouseUpdater) :=
  match du.releases[i]? with
  | none => none
  | some release =>
    let r := updateStatus env out release msg phase approvedFlag
    some (r.1, { du with releases := du.releases.set i r.2 })

/-- The function `createUpdatingCM`. -/
def createUpdatingCM (out : HookOut) (version : String) : HookOut :=
  out.patch (PatchOp.createUpdatingCM version)

/-- The function `isUpdatingCMExists`. -/
def isUpdatingCMExists (input : HookInput) : Bool :=
  decide (input.updating_cm.length > 0)

/-- The function `deleteUpdatingCM`. -/
def deleteUpdatingCM (out : HookOut) : HookOut :=
  out.patch PatchOp.deleteUpdatingCM

/-- The method `patchInitialStatus`. -/
def patchInitialStatus (env : Env) (out : HookOut) (release : deckhouseRelease) :
    HookOut × deckhouseRelease :=
  if release.Status.Phase ≠ Phase.empty then (out, release)
  else updateStatus env out release "" Phase.pending []

/-- The method `patchSuspendedStatus`. -/
def patchSuspendedStatus (env : Env) (out : HookOut) (release : deckhouseRelease) :
    HookOut × deckhouseRelease :=
  if ¬ release.HasSuspendAnnotation then (out, release)
  else
    updateStatus env
      (out.patch (PatchOp.removeAnnotation release.Name "release.deckhouse.io/suspended"))
      release "Release is suspended" Phase.suspended [false]

/-- The method `patchManualRelease`; it also returns the updater, whose counter
`totalPendingManualReleases` it increments. -/
def patchManualRelease (out : HookOut) (du : deckhouseUpdater) (release : deckhouseRelease) :
    HookOut × deckhouseUpdater × deckhouseRelease :=
  if release.Status.Phase ≠ Phase.pending then (out, du, release)
  else if du.inManualMode ∧ ¬ release.ManuallyApproved then
    let patch : statusPatch :=
      { Phase := release.Status.Phase, Approved := false
        Message := "Release is waiting for manual approval", TransitionTime := du.now }
    let du1 := { du with totalPendingManualReleases := du.totalPendingManualReleases + 1 }
    if release.Status.Approved then
      (out.patch (PatchOp.mergeStatus release.Name patch), du1,
        { release with Status := { release.Status with Approved := patch.Approved } })
    else (out, du1, release)
  else
    let patch : statusPatch :=
      { Phase := release.Status.Phase, Approved := true, Message := "", TransitionTime := du.now }
    if ¬ release.Status.Approved then
      (out.patch (PatchOp.mergeStatus release.Name patch), du,
        { release with Status := { release.Status with Approved := patch.Approved } })
    else (out, du, release)

/-- The method `byVersion.Less` on two elements. -/
def byVersionLess (env : Env) (a b : deckhouseRelease) : Bool :=
  env.lessThan a.Version b.Version

/-- Insert a release in front of the first element that is not less than it. -/
def insertByVersion (env : Env) (r : deckhouseRelease) : List deckhouseRelease → List deckhouseRelease
  | [] => [r]
  | x :: xs => if byVersionLess env x r then x :: insertByVersion env r xs else r :: x :: xs

/-- The call `sort.Sort(byVersion(releases))`, as an insertion sort. The library sort
is not stable; on releases with pairwise different versions every sort gives the
same list. -/
def sortByVersion (env : Env) : List deckhouseRelease → List deckhouseRelease
  | [] => []
  | x :: xs => insertByVersion env x (sortByVersion env xs)

/-- The body of the loop of `FetchAndPrepareReleases` for one snapshot entry: the
three normalizer steps in order. -/
def prepareRelease (env : Env) (out : HookOut) (du : deckhouseUpdater) (rl : deckhouseRelease) :
    HookOut × deckhouseUpdater × deckhouseRelease :=
  let r1 := patchInitialStatus env out rl
  let r2 := patchSuspendedStatus env r1.1 r1.2
  patchManualRelease r2.1 du r2.2

/-- The loop of `FetchAndPrepareReleases` over the snapshot; `acc` is the slice
`releases` built so far. -/
def prepareLoop (env : Env) : List deckhouseRelease → HookOut → deckhouseUpdater →
    List deckhouseRelease → HookOut × deckhouseUpdater × List deckhouseRelease
  | [], out, du, acc => (out, du, acc)
  | rl :: snap, out, du, acc =>
    let r := prepareRelease env out du rl
    prepareLoop env snap r.1 r.2.1 (acc ++ [r.2.2])

/-- The method `FetchAndPrepareReleases`. -/
def FetchAndPrepareReleases (env : Env) (input : HookInput) (out : HookOut)
    (du : deckhouseUpdater) : HookOut × deckhouseUpdater :=
  if input.releases.length = 0 then (out, du)
  else
    let r := prepareLoop env input.releases out du []
    (r.1, { r.2.1 with releases := sortByVersion env r.2.2 })

/-! ## Gates and the deployer -/

/-- The loop of `checkReleaseRequirements` over the entries of `rl.Requirements` that
are still to be visited. The third component is the returned verdict. -/
def checkRequirementsLoop (env : Env) (out : HookOut) (rl : deckhouseRelease) :
    List (String × String) → HookOut × deckhouseRelease × Bool
  | [] => (out, rl, true)
  | (key, value) :: rest =>
    let res := env.checkRequirement key value
    if ¬ res.passed then
      let msg : String :=
        if res.notRegistered then env.quote key ++ " requirement not registered"
        else env.quote key ++ " requirement for deckhouseRelease "
          ++ env.quote (env.versionString rl.Version) ++ " not met: " ++ res.errText
      let r := updateStatus env out rl msg Phase.pending [false]
      (r.1, r.2, false)
    else checkRequirementsLoop env out rl rest

/-- The method `checkReleaseRequirements`. -/
def checkReleaseRequirements (env : Env) (out : HookOut) (rl : deckhouseRelease) :
    HookOut × deckhouseRelease × Bool :=
  checkRequirementsLoop env out rl rl.Requirements

/-- The loop of `checkReleaseDisruptions` over the keys of `rl.Disruptions` that are
still to be visited. -/
def checkDisruptionsLoop (env : Env) (out : HookOut) (rl : deckhouseRelease) :
    List String → HookOut × deckhouseRelease × Bool
  | [] => (out, rl, true)
  | key :: rest =>
    let d := env.hasDisruption key
    if d.1 ∧ ¬ rl.HasDisruptionApprovedAnnotation then
      let msg : String :=
        "Release requires disruption approval (`kubectl annotate DeckhouseRelease "
          ++ rl.Name ++ " release.deckhouse.io/disruption-approved=true`): " ++ d.2
      let r := updateStatus env out rl msg Phase.pending []
      (r.1, r.2, false)
    else checkDisruptionsLoop env out rl rest

/-- The method `checkReleaseDisruptions`. -/
def checkReleaseDisruptions (env : Env) (input : HookInput) (out : HookOut)
    (rl : deckhouseRelease) : HookOut × deckhouseRelease × Bool :=
  match input.disruptionApprovalMode with
  | none => (out, rl, true)
  | some dMode =>
    if dMode = "Auto" then (out, rl, true)
    else checkDisruptionsLoop env out rl rl.Disruptions

/-- The loop of `runReleaseDeploy` over `du.skippedPatchesIndexes`: each skipped
release is copied out of the slice and the copy is patched. -/
def skippedLoop (env : Env) (releases : List deckhouseRelease) :
    List Int → HookOut → Option HookOut
  | [], out => some out
  | index :: rest, out =>
    match sliceAt releases index with
    | none => none
    | some release =>
      skippedLoop env releases rest
        (updateStatus env out release "Skipped because of new patches" Phase.outdated [true]).1

/-- The method `runReleaseDeploy`. The pointers `predictedRelease` and
`currentRelease` are positions in `du.releases` (every caller passes the address of
a slice element), `currentRelease = none` being the nil pointer. -/
def runReleaseDeploy (env : Env) (input : HookInput) (out : HookOut) (du : deckhouseUpdater)
    (predictedRelease : Nat) (currentRelease : Option Nat) : Option (HookOut × deckhouseUpdater) :=
  match du.releases[predictedRelease]? with
  | none => none
  | some p =>
    let out1 := createUpdatingCM out (env.versionString p.Version)
    let out2 := out1.patch (PatchOp.setDeploymentImage (input.registry ++ ":" ++ p.Version.original))
    match updateStatusAt env out2 du predictedRelease "" Phase.deployed [true] with
    | none => none
    | some (out3, du3) =>
      let afterCurrent : Option (HookOut × deckhouseUpdater) :=
        match currentRelease with
        | some c => updateStatusAt env out3 du3 c "Last Deployed release outdated" Phase.outdated []
        | none => some (out3, du3)
      match afterCurrent with
      | none => none
      | some (out4, du4) =>
        match skippedLoop env du4.releases du4.skippedPatchesIndexes out4 with
        | none => none
        | some out5 => some (out5, du4)

/-- The pointer `currentRelease` computed at the start of `ApplyPredictedRelease` and
of `ApplyForcedRelease`: nil when there is no deployed release, else the address of
`du.releases[du.currentDeployedReleaseIndex]` (outer `none`: the indexing panics). -/
def currentReleasePtr (du : deckhouseUpdater) : Option (Option Nat) :=
  if du.currentDeployedReleaseIndex ≠ -1 then
    match sliceAt du.releases du.currentDeployedReleaseIndex with
    | none => none
    | some _ => some (some du.currentDeployedReleaseIndex.toNat)
  else some none

/-- The tail of `ApplyPredictedRelease` from the canary check on; `isPatch` is the
value of `du.PredictedReleaseIsPatch()`. -/
def applyPredictedGates (env : Env) (input : HookInput) (out : HookOut) (du : deckhouseUpdater)
    (predictedRelease : deckhouseRelease) (currentRelease : Option Nat) (isPatch : Bool) :
    Option (HookOut × deckhouseUpdater) :=
  let p := du.predictedReleaseIndex.toNat
  let canaryBlocks : Option Int :=
    match predictedRelease.ApplyAfter with
    | some t => if du.now < t then some t else none
    | none => none
  match canaryBlocks with
  | some t =>
    updateStatusAt env out du p ("Waiting for canary apply time: " ++ env.formatRFC822 t)
      Phase.pending []
  | none =>
    if ¬ predictedRelease.Status.Approved ∧ ¬ isPatch then
      updateStatusAt env
        (out.metric (MetricOp.set "d8_release_waiting_manual" du.totalPendingManualReleases
          [("name", predictedRelease.Name)] (some metricReleasesGroup)))
        du p "Waiting for manual approval" Phase.pending []
    else
      let req := checkReleaseRequirements env out predictedRelease
      let du1 := { du with releases := du.releases.set p req.2.1 }
      if ¬ req.2.2 then
        some (req.1.metric (MetricOp.set "d8_release_blocked" 1
          [("name", predictedRelease.Name), ("reason", "requirement")]
          (some metricReleasesGroup)), du1)
      else
        let dis := checkReleaseDisruptions env input req.1 req.2.1
        let du2 := { du1 with releases := du1.releases.set p dis.2.1 }
        if ¬ dis.2.2 then
          some (dis.1.metric (MetricOp.set "d8_release_blocked" 1
            [("name", predictedRelease.Name), ("reason", "disruption")]
            (some metricReleasesGroup)), du2)
        else runReleaseDeploy env input dis.1 du2 p currentRelease

/-- The method `ApplyPredictedRelease`. -/
def ApplyPredictedRelease (env : Env) (input : HookInput) (out : HookOut)
    (du : deckhouseUpdater) : Option (HookOut × deckhouseUpdater) :=
  if du.predictedReleaseIndex = -1 then some (out, du)
  else
    match sliceAt du.releases du.predictedReleaseIndex with
    | none => none
    | some predictedRelease =>
      let p := du.predictedReleaseIndex.toNat
      match currentReleasePtr du with
      | none => none
      | some currentRelease =>
        if du.deckhouseIsBootstrapping ∧ du.releases.length = 1 then
          runReleaseDeploy env input out du p currentRelease
        else
          match PredictedReleaseIsPatch du with
          | none => none
          | some isPatch =>
            let cooldownBlocks : Option Int :=
              match predictedRelease.CooldownUntil with
              | some t => if du.now < t then some t else none
              | none => none
            if ¬ isPatch then
              match cooldownBlocks with
              | some t =>
                updateStatusAt env out du p
                  ("Release is in cooldown until: " ++ env.formatRFC822 t) Phase.pending []
              | none =>
                if ¬ du.deckhousePodIsReady then
                  updateStatusAt env out du p "Waiting for Deckhouse pod to be ready"
                    Phase.pending []
                else
                  applyPredictedGates env input out du predictedRelease currentRelease isPatch
            else
              applyPredictedGates env input out du predictedRelease currentRelease isPatch

/-- The method `PredictedRelease`: the position of the predicted release, inner
`none` being the nil pointer. -/
def PredictedRelease (du : deckhouseUpdater) : Option (Option Nat) :=
  if du.predictedReleaseIndex = -1 then some none
  else
    match sliceAt du.releases du.predictedReleaseIndex with
    | none => none
    | some _ => some (some du.predictedReleaseIndex.toNat)

/-- The last loop of `ApplyForcedRelease`: every element in front of the forced index
is copied and the copy is patched to `Outdated`, approved. -/
def outdateLoop (env : Env) (forced : Int) : Nat → List deckhouseRelease → HookOut → HookOut
  | _, [], out => out
  | i, release :: rest, out =>
    if (i : Int) < forced then
      outdateLoop env forced (i + 1) rest (updateStatus env out release "" Phase.outdated [true]).1
    else outdateLoop env forced (i + 1) rest out

/-- The method `ApplyForcedRelease`. -/
def ApplyForcedRelease (env : Env) (input : HookInput) (out : HookOut)
    (du : deckhouseUpdater) : Option (HookOut × deckhouseUpdater) :=
  if du.forcedReleaseIndex = -1 then some (out, du)
  else
    match sliceAt du.releases du.forcedReleaseIndex with
    | none => none
    | some forcedRelease =>
      match currentReleasePtr du with
      | none => none
      | some currentRelease =>
        match runReleaseDeploy env input out du du.forcedReleaseIndex.toNat currentRelease with
        | none => none
        | some (out1, du1) =>
          let out2 := out1.patch
            (PatchOp.removeAnnotation forcedRelease.Name "release.deckhouse.io/force")
          some (outdateLoop env du1.forcedReleaseIndex 0 du1.releases out2, du1)

/-! ## The pod, the update windows and the tag-based path -/

/-- The call `strings.LastIndex(s, sep)` for a one-character separator, on the
characters of `s`; `none` is the result `-1`. -/
def lastIndexChar (c : Char) : List Char → Option Nat
  | [] => none
  | x :: xs =>
    match lastIndexChar c xs with
    | some i => some (i + 1)
    | none => if x = c then some 0 else none

/-- The method `isBootstrapImage`. -/
def isBootstrapImage (env : Env) (dpi : deckhousePodInfo) : Bool :=
  match lastIndexChar ':' dpi.Image.data with
  | none => false
  | some colonIndex =>
    let tag := String.mk (dpi.Image.data.drop (colonIndex + 1))
    if tag = "" then false
    else
      let t := env.toLower tag
      decide (t = "alpha" ∨ t = "beta" ∨ t = "early-access" ∨ t = "stable" ∨ t = "rock-solid")

/-- The zero value of `deckhousePodInfo`. -/
def zeroPodInfo : deckhousePodInfo :=
  { Name := "", Namespace := "", Image := "", ImageID := "", Ready := false }

/-- The loop of the default case of `getDeckhousePod`: the first entry that is not
nil, or the zero value. -/
def firstPodInfo : List (Option deckhousePodInfo) → deckhousePodInfo
  | [] => zeroPodInfo
  | none :: rest => firstPodInfo rest
  | some p :: _ => p

/-- The function `getDeckhousePod`. The outer `none` is the panic of the type
assertion `snap[0].(deckhousePodInfo)` on a nil entry, the inner `none` the nil
pointer. -/
def getDeckhousePod (snap : List (Option deckhousePodInfo)) : Option (Option deckhousePodInfo) :=
  match snap with
  | [] => some none
  | [sn] =>
    match sn with
    | none => none
    | some p => some (some p)
  | _ => some (some (firstPodInfo snap))

/-- The function `getUpdateWindows`. -/
def getUpdateWindows (env : Env) (input : HookInput) : Except String (List Window) :=
  match input.updateWindows with
  | none => Except.ok []
  | some raw => env.windowsFromJSON raw

/-- The function `isUpdatePermitted`. -/
def isUpdatePermitted (env : Env) (windows : List Window) : Bool :=
  if windows.length = 0 then true
  else
    let now := if env.isTestsEnvironment then env.testsDate else env.now
    env.windowsIsAllowed windows now

/-- What a hook run returns: the collectors and the returned `error` (`none` is nil). -/
structure HookResult where
  out : HookOut
  err : Option String
deriving DecidableEq, Repr

/-- The function `tagUpdate`. -/
def tagUpdate (env : Env) (out : HookOut) (deckhousePod : deckhousePodInfo) : HookResult :=
  if deckhousePod.Image = "" ∧ deckhousePod.ImageID = "" then { out := out, err := none }
  else if deckhousePod.Image = "" ∨ deckhousePod.ImageID = "" then { out := out, err := none }
  else
    match lastIndexChar '@' deckhousePod.ImageID.data with
    | none => { out := out, err := some ("image hash not found: " ++ deckhousePod.ImageID) }
    | some idSplitIndex =>
      let imageHash := String.mk (deckhousePod.ImageID.data.drop (idSplitIndex + 1))
      match lastIndexChar ':' deckhousePod.Image.data with
      | none => { out := out, err := some ("image tag not found: " ++ deckhousePod.Image) }
      | some imageSplitIndex =>
        let repo := String.mk (deckhousePod.Image.data.take imageSplitIndex)
        let tag := String.mk (deckhousePod.Image.data.drop (imageSplitIndex + 1))
        match env.getRegistryClient repo with
        | some _ => { out := out, err := none }
        | none =>
          let out1 := (out.metric (MetricOp.inc "deckhouse_registry_check_total")).metric
            (MetricOp.inc "deckhouse_kube_image_digest_check_total")
          match env.digest repo tag with
          | Except.error _ =>
            { out := out1.metric (MetricOp.inc "deckhouse_registry_check_errors_total")
              err := none }
          | Except.ok repoDigest =>
            let out2 := out1.metric
              (MetricOp.set "deckhouse_kube_image_digest_check_success" 1 [] none)
            if env.trimSpace repoDigest = env.trimSpace imageHash then { out := out2, err := none }
            else
              { out := out2.patch (PatchOp.deletePod deckhousePod.Namespace deckhousePod.Name)
                err := none }

/-! ## The hook -/

/-- The updater as `updateDeckhouse` has it right after `FetchAndPrepareReleases`,
together with the collectors at that point. -/
def prepareUpdater (env : Env) (input : HookInput) (deckhousePod : deckhousePodInfo) :
    HookOut × deckhouseUpdater :=
  let out0 := HookOut.init.metric (MetricOp.expire metricReleasesGroup)
  let out1 :=
    if deckhousePod.Ready then
      let o := out0.metric (MetricOp.expire metricUpdatingGroup)
      if isUpdatingCMExists input then deleteUpdatingCM o else o
    else if isUpdatingCMExists input then
      out0.metric (MetricOp.set "d8_is_updating" 1 [] (some metricUpdatingGroup))
    else out0
  let updater := newDeckhouseUpdater env.now input.updateMode deckhousePod.Ready
    (isBootstrapImage env deckhousePod)
  FetchAndPrepareReleases env input out1 updater

/-- Drop the updater from the result of an apply method and return nil. -/
def finishPass (r : Option (HookOut × deckhouseUpdater)) : Option HookResult :=
  match r with
  | none => none
  | some (out, _) => some { out := out, err := none }

/-- The part of `updateDeckhouse` after `PredictNextRelease`. -/
def decidePass (env : Env) (input : HookInput) (out : HookOut) (updater : deckhouseUpdater) :
    Option HookResult :=
  if LastReleaseDeployed updater then some { out := out, err := none }
  else if HasForceRelease updater then finishPass (ApplyForcedRelease env input out updater)
  else
    match PredictedReleaseIsPatch updater with
    | none => none
    | some true => finishPass (ApplyPredictedRelease env input out updater)
    | some false =>
      if ¬ updater.inManualMode then
        match getUpdateWindows env input with
        | Except.error err =>
          some { out := out, err := some ("update windows configuration is not valid: " ++ err) }
        | Except.ok windows =>
          if ¬ isUpdatePermitted env windows then
            match PredictedRelease updater with
            | none => none
            | some none => some { out := out, err := none }
            | some (some release) =>
              finishPass (updateStatusAt env out updater release
                "Release is waiting for update window" Phase.pending [])
          else finishPass (ApplyPredictedRelease env input out updater)
      else finishPass (ApplyPredictedRelease env input out updater)

/-- The hook `updateDeckhouse`. The result `none` is a panic. -/
def updateDeckhouse (env : Env) (input : HookInput) : Option HookResult :=
  match getDeckhousePod input.deckhouse_pod with
  | none => none
  | some none => some { out := HookOut.init, err := none }
  | some (some deckhousePod) =>
    if ¬ input.releaseChannelExists then some (tagUpdate env HookOut.init deckhousePod)
    else
      let prepared := prepareUpdater env input deckhousePod
      if prepared.2.releases.length = 0 then some { out := prepared.1, err := none }
      else
        match PredictNextRelease prepared.2 with
        | none => none
        | some updater => decidePass env input prepared.1 updater

/-! ## Concrete inputs -/

/-- A version `major.minor.patch` without prerelease or metadata. -/
def mkVersion (major minor patch : Nat) (original : String) : Version :=
  { major := major, minor := minor, patch := patch, pre := "", metadata := "", original := original }

/-- A release with the given name, version and phase, not approved, without
annotations, requirements, disruptions, canary time or cooldown. -/
def mkRelease (name : String) (v : Version) (phase : Phase) : deckhouseRelease :=
  { Name := name, Version := v, ManuallyApproved := false, HasSuspendAnnotation := false
    HasForceAnnotation := false, HasDisruptionApprovedAnnotation := false
    Requirements := [], Disruptions := [], ApplyAfter := none, CooldownUntil := none
    Status := { Phase := phase, Approved := false, Message := "" } }

/-- Precedence of versions without prerelease: major, then minor, then patch. -/
def versionLess (a b : Version) : Bool :=
  decide (a.major < b.major ∨ (a.major = b.major ∧ (a.minor < b.minor
    ∨ (a.minor = b.minor ∧ a.patch < b.patch))))

/-- The method `String` of `semver.Version`: `major.minor.patch`, then `-` and the
prerelease when there is one, then `+` and the metadata when there is some; the
original text (with its `v`) is not used. -/
def semverString (v : Version) : String :=
  toString v.major ++ "." ++ toString v.minor ++ "." ++ toString v.patch
    ++ (if v.pre = "" then "" else "-" ++ v.pre)
    ++ (if v.metadata = "" then "" else "+" ++ v.metadata)

/-- An environment for concrete runs: the clock reads 100, no update window allows
an update, the only registered requirement is `k8s` (which passes), the only
disruption that applies is `nodeReboot`. -/
def sampleEnv : Env :=
  { now := 100
    isTestsEnvironment := false
    testsDate := 0
    lessThan := versionLess
    versionString := semverString
    formatRFC822 := fun _ => "later"
    quote := fun s => "\"" ++ s ++ "\""
    toLower := fun s => s
    trimSpace := fun s => s
    windowsFromJSON := fun raw => if raw = "" then Except.error "empty" else Except.ok [{ raw := raw }]
    windowsIsAllowed := fun _ _ => false
    checkRequirement := fun key _ =>
      if key = "k8s" then { passed := true, notRegistered := false, errText := "" }
      else { passed := false, notRegistered := true, errText := "not registered" }
    hasDisruption := fun key => if key = "nodeReboot" then (true, "node reboot") else (false, "")
    getRegistryClient := fun _ => none
    digest := fun _ _ => Except.ok "sha256:0" }

/-- A ready Deckhouse pod running the image `registry/deckhouse:v1.0.0`. -/
def samplePod : deckhousePodInfo :=
  { Name := "deckhouse", Namespace := "d8-system", Image := "registry/deckhouse:v1.0.0"
    ImageID := "registry/deckhouse@sha256:0", Ready := true }

/-- A hook input on the release-channel path in `Auto` mode with the given pod and
releases, without update windows. -/
def mkInput (pod : deckhousePodInfo) (releases : List deckhouseRelease) : HookInput :=
  { deckhouse_pod := [some pod], releases := releases, updating_cm := []
    releaseChannelExists := true, updateMode := "Auto", updateWindows := none
    disruptionApprovalMode := none, registry := "registry/deckhouse" }

/-- A fresh updater (as `newDeckhouseUpdater` returns it) holding `releases`. -/
def freshUpdater (now : Int) (mode : String) (podIsReady isBootstrapping : Bool)
    (releases : List deckhouseRelease) : deckhouseUpdater :=
  { newDeckhouseUpdater now mode podIsReady isBootstrapping with releases := releases }

/-! ## Invariants of the predictor loop -/

/-- Two releases are on the same minor line: equal major and equal minor version. -/
def sameLine (a b : deckhouseRelease) : Prop :=
  a.Version.major = b.Version.major ∧ a.Version.minor = b.Version.minor

/-- The index `i` is the last position below `n` whose release satisfies `P`, or `-1`
when there is none. -/
def LastIdx (P : deckhouseRelease → Prop) (rs : List deckhouseRelease) (n : Nat) (i : Int) : Prop :=
  (i = -1 ∧ ∀ (j : Nat) (r : deckhouseRelease), j < n → rs[j]? = some r → ¬ P r)
  ∨ ∃ (k : Nat) (r : deckhouseRelease), i = (k : Int) ∧ k < n ∧ rs[k]? = some r ∧ P r
      ∧ ∀ (j : Nat) (r1 : deckhouseRelease), k < j → j < n → rs[j]? = some r1 → ¬ P r1

/-- The state of the prediction after the positions below `n` have been visited:
either nothing is predicted, no visited release is pending and nothing is skipped; or
the predicted position `p` holds the last visited pending release on the line of the
first pending release (position `f`), and the skipped list holds, in ascending
order, the other visited pending releases of that line. -/
def PredictedInv (rs : List deckhouseRelease) (n : Nat) (predicted : Int) (skipped : List Int) :
    Prop :=
  (predicted = -1 ∧ skipped = []
    ∧ ∀ (j : Nat) (r : deckhouseRelease), j < n → rs[j]? = some r → r.Status.Phase ≠ Phase.pending)
  ∨ ∃ (p f : Nat) (rp rf : deckhouseRelease), predicted = (p : Int) ∧ p < n ∧ f ≤ p
      ∧ rs[p]? = some rp ∧ rs[f]? = some rf
      ∧ rp.Status.Phase = Phase.pending ∧ rf.Status.Phase = Phase.pending
      ∧ (∀ (j : Nat) (r : deckhouseRelease), j < f → rs[j]? = some r →
          r.Status.Phase ≠ Phase.pending)
      ∧ sameLine rp rf
      ∧ (∀ (j : Nat) (r : deckhouseRelease), p < j → j < n → rs[j]? = some r →
          ¬ (r.Status.Phase = Phase.pending ∧ sameLine r rf))
      ∧ skipped.Pairwise (fun a b => a < b)
      ∧ ∀ z : Int, z ∈ skipped ↔ ∃ (k : Nat) (r : deckhouseRelease), z = (k : Int) ∧ k < p
          ∧ rs[k]? = some r ∧ r.Status.Phase = Phase.pending ∧ sameLine r rf

/-- The loop invariant of `PredictNextRelease` after `n` iterations over `rs`. -/
structure PredictInv (rs : List deckhouseRelease) (n : Nat) (du : deckhouseUpdater) : Prop where
  releases_eq : du.releases = rs
  forced : LastIdx (fun r => r.HasForceAnnotation = true) rs n du.forcedReleaseIndex
  deployed : LastIdx (fun r => r.Status.Phase = Phase.deployed) rs n
    du.currentDeployedReleaseIndex
  predicted : PredictedInv rs n du.predictedReleaseIndex du.skippedPatchesIndexes

/-! ## Reading the emitted patches -/

/-- A patch that deploys: the update-in-progress marker, the image patch of the
deployment, or a status patch to phase `Deployed`. -/
def isDeployOp : PatchOp → Bool
  | PatchOp.mergeStatus _ st => decide (st.Phase = Phase.deployed)
  | PatchOp.setDeploymentImage _ => true
  | PatchOp.createUpdatingCM _ => true
  | _ => false

/-- A patch of the `/status` subresource of a release. -/
def isStatusPatch : PatchOp → Bool
  | PatchOp.mergeStatus _ _ => true
  | _ => false

/-- Modelled from the spec: the patch sink, which is not part of the hook, applies a
status patch (phase, message, approved) to the release it is keyed by and an
annotation-removal patch to the annotation of that release; the other patches do not
touch release objects. -/
def applyPatchOp (rs : List deckhouseRelease) : PatchOp → List deckhouseRelease
  | PatchOp.mergeStatus name st =>
    rs.map (fun r =>
      if r.Name = name then
        { r with Status := { Phase := st.Phase, Approved := st.Approved, Message := st.Message } }
      else r)
  | PatchOp.removeAnnotation name key =>
    rs.map (fun r =>
      if r.Name = name then
        if key = "release.deckhouse.io/force" then { r with HasForceAnnotation := false }
        else if key = "release.deckhouse.io/suspended" then { r with HasSuspendAnnotation := false }
        else r
      else r)
  | _ => rs

/-- Modelled from the spec: the release objects after the patch sink has applied the
emitted patches in emission order. -/
def applyPatches (rs : List deckhouseRelease) (ops : List PatchOp) : List deckhouseRelease :=
  ops.foldl applyPatchOp rs

/-- The release `v1.0.0`, `Deployed` and approved. -/
def deployed100 : deckhouseRelease :=
  { mkRelease "v1.0.0" (mkVersion 1 0 0 "v1.0.0") Phase.deployed with
    Status := { Phase := Phase.deployed, Approved := true, Message := "" } }

/-- The release `v1.1.0`, `Pending`. -/
def pending110 : deckhouseRelease :=
  mkRelease "v1.1.0" (mkVersion 1 1 0 "v1.1.0") Phase.pending

/-- A ready Deckhouse pod running the bootstrap image `registry/deckhouse:stable`. -/
def bootstrapPod : deckhousePodInfo :=
  { samplePod with Image := "registry/deckhouse:stable" }

/-- A release `v1.1.0` that is `Pending`, not approved, whose only requirement is the
unregistered key `unknown` and whose message is the one that requirement check
writes. -/
def blockedByRequirement : deckhouseRelease :=
  { pending110 with
    Requirements := [("unknown", "1")]
    Status := { Phase := Phase.pending, Approved := false
                Message := "\"unknown\" requirement not registered" } }

/-! ## How the collectors grow -/

/-- The collectors `b` extend `a` by patches that all satisfy `Q`. -/
def Extends (Q : PatchOp → Prop) (a b : HookOut) : Prop :=
  ∃ added : List PatchOp, b.patches = a.patches ++ added ∧ ∀ op ∈ added, Q op

/-- The release `b` is the release `a` with possibly another status. -/
def sameButStatus (a b : deckhouseRelease) : Prop :=
  ∃ st : DeckhouseReleaseStatus, b = { a with Status := st }

/-- What the normalizer guarantees for a release in manual mode: a `Pending` release
that is not manually approved has `status.approved = false`. -/
def manualLaw (manual : Bool) (r : deckhouseRelease) : Prop :=
  r.Status.Phase = Phase.pending → manual = true → r.ManuallyApproved = false →
    r.Status.Approved = false

/-- The updater `b` is the updater `a` with possibly another count of releases that
wait for manual approval. -/
def sameButCount (a b : deckhouseUpdater) : Prop :=
  ∃ n : Nat, b = { a with totalPendingManualReleases := n }

/-- The updater `b` is the updater `a` with possibly other indices (predicted,
skipped, deployed, forced). -/
def sameButIndices (a b : deckhouseUpdater) : Prop :=
  b = { a with
        predictedReleaseIndex := b.predictedReleaseIndex
        skippedPatchesIndexes := b.skippedPatchesIndexes
        currentDeployedReleaseIndex := b.currentDeployedReleaseIndex
        forcedReleaseIndex := b.forcedReleaseIndex }

/-- The indices of the updater point into its releases: the predicted index is `-1`
or the position of a `Pending` release, the deployed index is `-1` or the position of
a `Deployed` release, the forced index is `-1` or the position of a release with the
force flag, and every skipped index is a position. -/
structure ValidIndices (du : deckhouseUpdater) : Prop where
  predicted : du.predictedReleaseIndex = -1 ∨ ∃ (p : Nat) (rp : deckhouseRelease),
    du.predictedReleaseIndex = (p : Int) ∧ du.releases[p]? = some rp
      ∧ rp.Status.Phase = Phase.pending
  deployed : du.currentDeployedReleaseIndex = -1 ∨ ∃ (c : Nat) (rc : deckhouseRelease),
    du.currentDeployedReleaseIndex = (c : Int) ∧ du.releases[c]? = some rc
      ∧ rc.Status.Phase = Phase.deployed
  forced : du.forcedReleaseIndex = -1 ∨ ∃ (k : Nat) (rk : deckhouseRelease),
    du.forcedReleaseIndex = (k : Int) ∧ du.releases[k]? = some rk
      ∧ rk.HasForceAnnotation = true
  skipped : ∀ z ∈ du.skippedPatchesIndexes, ∃ k : Nat, z = (k : Int) ∧ k < du.releases.length

/-- The release `v1.1.0`, `Pending` and approved, with a canary time of 200. -/
def canary110 : deckhouseRelease :=
  { pending110 with
    ApplyAfter := some 200
    Status := { Phase := Phase.pending, Approved := true, Message := "" } }

/-- The updater after `PredictNextRelease` for the releases `v1.0.0` (deployed) and
`r` (pending, the predicted one), in the given mode, with a ready pod that does not
run a bootstrap image and the clock at 100. -/
def predictedUpdater (manual : Bool) (pendingManual : Nat) (r : deckhouseRelease) :
    deckhouseUpdater :=
  { now := 100, inManualMode := manual, releases := [deployed100, r]
    totalPendingManualReleases := pendingManual, predictedReleaseIndex := 1
    skippedPatchesIndexes := [], currentDeployedReleaseIndex := 0, forcedReleaseIndex := -1
    deckhousePodIsReady := true, deckhouseIsBootstrapping := false }

/-- The release `v1.0.0`, `Pending` and approved: older than a deployed `v1.1.0`. -/
def pending100 : deckhouseRelease :=
  { mkRelease "v1.0.0" (mkVersion 1 0 0 "v1.0.0") Phase.pending with
    Status := { Phase := Phase.pending, Approved := true, Message := "" } }

/-- The release `v1.1.0`, `Deployed` and approved. -/
def deployed110 : deckhouseRelease :=
  { mkRelease "v1.1.0" (mkVersion 1 1 0 "v1.1.0") Phase.deployed with
    Status := { Phase := Phase.deployed, Approved := true, Message := "" } }

/-- The release `v1.2.0`, `Pending` and approved. -/
def pending120 : deckhouseRelease :=
  { mkRelease "v1.2.0" (mkVersion 1 2 0 "v1.2.0") Phase.pending with
    Status := { Phase := Phase.pending, Approved := true, Message := "" } }

/-- The release `v1.1.0`, `Pending` and approved. -/
def approved110 : deckhouseRelease :=
  { pending110 with Status := { Phase := Phase.pending, Approved := true, Message := "" } }

/-- The release `v1.1.0`, `Pending`, approved and carrying the force flag. -/
def forced110 : deckhouseRelease :=
  { approved110 with HasForceAnnotation := true }

/-- The release `v1.2.1`, `Pending` and approved. -/
def approved121 : deckhouseRelease :=
  { mkRelease "v1.2.1" (mkVersion 1 2 1 "v1.2.1") Phase.pending with
    Status := { Phase := Phase.pending, Approved := true, Message := "" } }

/-! ## The gates of `ApplyPredictedRelease`, one by one -/

/-- The message of the requirement check for a requirement `key` that is not met:
the not-registered form or the not-met form. -/
def requirementMessage (env : Env) (rl : deckhouseRelease) (key value : String) : String :=
  if (env.checkRequirement key value).notRegistered then
    env.quote key ++ " requirement not registered"
  else
    env.quote key ++ " requirement for deckhouseRelease "
      ++ env.quote (env.versionString rl.Version) ++ " not met: "
      ++ (env.checkRequirement key value).errText

/-- The message of the disruption check for a disruption `key` that applies. -/
def disruptionMessage (env : Env) (rl : deckhouseRelease) (key : String) : String :=
  "Release requires disruption approval (`kubectl annotate DeckhouseRelease "
    ++ rl.Name ++ " release.deckhouse.io/disruption-approved=true`): " ++ (env.hasDisruption key).2

/-- Check 1, cooldown: fails for a release that is not a patch and whose
`cooldownUntil` is later than now; the value is the message of the failure. -/
def cooldownGate (env : Env) (du : deckhouseUpdater) (rp : deckhouseRelease) (isPatch : Bool) :
    Option String :=
  if isPatch then none
  else
    match rp.CooldownUntil with
    | some t =>
      if du.now < t then some ("Release is in cooldown until: " ++ env.formatRFC822 t) else none
    | none => none

/-- Check 2, pod readiness: fails for a release that is not a patch when the pod is
not ready. -/
def podReadyGate (du : deckhouseUpdater) (isPatch : Bool) : Option String :=
  if isPatch then none
  else if du.deckhousePodIsReady then none
  else some "Waiting for Deckhouse pod to be ready"

/-- Check 3, canary: fails when `applyAfter` is later than now. -/
def canaryGate (env : Env) (du : deckhouseUpdater) (rp : deckhouseRelease) : Option String :=
  match rp.ApplyAfter with
  | some t =>
    if du.now < t then some ("Waiting for canary apply time: " ++ env.formatRFC822 t) else none
  | none => none

/-- Check 4, approval: fails for a release that is not a patch and not approved. -/
def approvalGate (rp : deckhouseRelease) (isPatch : Bool) : Option String :=
  if isPatch then none
  else if rp.Status.Approved then none
  else some "Waiting for manual approval"

/-- Check 5, requirements: fails when some requirement is not passed; the message
names the first such requirement in iteration order. -/
def requirementGate (env : Env) (rp : deckhouseRelease) : Option String :=
  (rp.Requirements.find? (fun kv => !(env.checkRequirement kv.1 kv.2).passed)).map
    (fun kv => requirementMessage env rp kv.1 kv.2)

/-- Check 6, disruptions: fails when the disruption approval mode is set and is not
`Auto`, the release has no disruption-approved annotation and some disruption key of
the release applies; the message is for the first such key. -/
def disruptionGate (env : Env) (input : HookInput) (rp : deckhouseRelease) : Option String :=
  match input.disruptionApprovalMode with
  | none => none
  | some dMode =>
    if dMode = "Auto" then none
    else if rp.HasDisruptionApprovedAnnotation then none
    else (rp.Disruptions.find? (fun key => (env.hasDisruption key).1)).map
      (fun key => disruptionMessage env rp key)

/-- The message of the first failing check in the order cooldown, pod readiness,
canary, approval, requirements, disruptions; `none` when every check passes. -/
def firstFailingGate (env : Env) (input : HookInput) (du : deckhouseUpdater)
    (rp : deckhouseRelease) (isPatch : Bool) : Option String :=
  [cooldownGate env du rp isPatch, podReadyGate du isPatch, canaryGate env du rp,
    approvalGate rp isPatch, requirementGate env rp, disruptionGate env input rp].findSome? id

/-- The outcome of a blocked `ApplyPredictedRelease`: the predicted release, at
position `p`, has been given to `updateStatus` once, with phase `Pending` and the
message `m`, on collectors `o` that hold the patches of `out`; the returned updater
holds the updated release and the returned patches are those of that one call. -/
def BlockedWith (env : Env) (out : HookOut) (du : deckhouseUpdater) (p : Nat)
    (rp : deckhouseRelease) (m : String) (result : Option (HookOut × deckhouseUpdater)) : Prop :=
  ∃ (out1 o : HookOut) (fl : List Bool),
    result = some (out1,
      { du with releases := du.releases.set p (updateStatus env o rp m Phase.pending fl).2 })
    ∧ o.patches = out.patches
    ∧ out1.patches = (updateStatus env o rp m Phase.pending fl).1.patches

/-- The value of `approved` in `updateStatus`: the first value of the variadic flag,
or the current `status.approved` of the release when no flag is passed. -/
def approvedArg (release : deckhouseRelease) (approvedFlag : List Bool) : Bool :=
  match approvedFlag with
  | b :: _ => b
  | [] => release.Status.Approved

/-- The status patch `updateStatus` emits for `release` when it emits one. -/
def statusPatchOf (env : Env) (release : deckhouseRelease) (msg : String) (phase : Phase)
    (approvedFlag : List Bool) : PatchOp :=
  PatchOp.mergeStatus release.Name
    { Phase := phase, Message := msg, Approved := approvedArg release approvedFlag
      TransitionTime := env.now }

/-- The release `updateStatus` leaves behind: `release` with the requested status. -/
def withStatus (release : deckhouseRelease) (msg : String) (phase : Phase)
    (approvedFlag : List Bool) : deckhouseRelease :=
  { release with
    Status := { Phase := phase, Approved := approvedArg release approvedFlag, Message := msg } }

/-- The status patches `runReleaseDeploy` emits for the predicted release `rp`: none
when it is `Deployed`, approved, with an empty message already. -/
def predictedOps (env : Env) (rp : deckhouseRelease) : List PatchOp :=
  if rp.Status = (withStatus rp "" Phase.deployed [true]).Status then []
  else [statusPatchOf env rp "" Phase.deployed [true]]

/-- The status patches `runReleaseDeploy` emits for the current release at position
`cur` of `releases`: none for the nil pointer, and none when the release is
`Outdated` with the message of an outdated release already. -/
def currentOps (env : Env) (releases : List deckhouseRelease) (cur : Option Nat) : List PatchOp :=
  match cur with
  | none => []
  | some c =>
    match releases[c]? with
    | none => []
    | some rc =>
      if rc.Status = (withStatus rc "Last Deployed release outdated" Phase.outdated []).Status
      then []
      else [statusPatchOf env rc "Last Deployed release outdated" Phase.outdated []]

/-- The release `v1.1.0`, `Pending` and approved, in cooldown until 200. -/
def cooling110 : deckhouseRelease :=
  { approved110 with CooldownUntil := some 200 }

/-- The release `v1.1.1`, `Pending` and approved. -/
def approved111 : deckhouseRelease :=
  { mkRelease "v1.1.1" (mkVersion 1 1 1 "v1.1.1") Phase.pending with
    Status := { Phase := Phase.pending, Approved := true, Message := "" } }

/-- The updater after `PredictNextRelease` for the releases `v1.0.0` (deployed),
`v1.1.0` (pending, skipped) and `v1.1.1` (pending, predicted). -/
def skippingUpdater : deckhouseUpdater :=
  { now := 100, inManualMode := false, releases := [deployed100, approved110, approved111]
    totalPendingManualReleases := 0, predictedReleaseIndex := 2
    skippedPatchesIndexes := [1], currentDeployedReleaseIndex := 0, forcedReleaseIndex := -1
    deckhousePodIsReady := true, deckhouseIsBootstrapping := false }

/-- The release `v1.0.1`, `Pending`, not approved, in cooldown until 200: a patch of
`v1.0.0`. -/
def patch101 : deckhouseRelease :=
  { mkRelease "v1.0.1" (mkVersion 1 0 1 "v1.0.1") Phase.pending with CooldownUntil := some 200 }

/-- The release `v1.0.1`, `Deployed` and approved. -/
def deployed101 : deckhouseRelease :=
  { mkRelease "v1.0.1" (mkVersion 1 0 1 "v1.0.1") Phase.deployed with
    Status := { Phase := Phase.deployed, Approved := true, Message := "" } }

/-- A Deckhouse pod that is not ready. -/
def notReadyPod : deckhousePodInfo :=
  { samplePod with Ready := false }

/-- A hook input in `Manual` mode with a pod that is not ready and an update window
that does not allow the current time. -/
def blockedEverywhereInput (releases : List deckhouseRelease) : HookInput :=
  { mkInput notReadyPod releases with updateMode := "Manual", updateWindows := some "[window]" }

/-- The environment `env` with another parser and another evaluator of update
windows; everything else is kept. -/
def withWindowCode (env : Env) (f : String → Except String (List Window))
    (g : List Window → Int → Bool) : Env :=
  { env with windowsFromJSON := f, windowsIsAllowed := g }

/-- Modelled from the spec: what one patch does to one release object of the sink;
`applyPatchOp` is this function on every release of the list. -/
def applyOpTo (r : deckhouseRelease) : PatchOp → deckhouseRelease
  | PatchOp.mergeStatus name st =>
    if r.Name = name then
      { r with Status := { Phase := st.Phase, Approved := st.Approved, Message := st.Message } }
    else r
  | PatchOp.removeAnnotation name key =>
    if r.Name = name then
      if key = "release.deckhouse.io/force" then { r with HasForceAnnotation := false }
      else if key = "release.deckhouse.io/suspended" then { r with HasSuspendAnnotation := false }
      else r
    else r
  | _ => r

/-- Modelled from the spec: one release object after the patches `ops`, applied in
emission order. -/
def applyOpsTo (r : deckhouseRelease) (ops : List PatchOp) : deckhouseRelease :=
  ops.foldl applyOpTo r

/-- The release is `Outdated` and approved. -/
def outdatedApproved (r : deckhouseRelease) : Prop :=
  r.Status.Phase = Phase.outdated ∧ r.Status.Approved = true

/-- The patch is a status patch that writes `Outdated`, approved. -/
def outdatingPatch (op : PatchOp) : Prop :=
  ∃ n st, op = PatchOp.mergeStatus n st ∧ st.Phase = Phase.outdated ∧ st.Approved = true

/-- The patch `op` leaves an `Outdated`, approved release named `n` in that state: if
it is a status patch of `n`, it writes `Outdated`, approved. -/
def harmlessTo (n : String) (op : PatchOp) : Prop :=
  ∀ st, op = PatchOp.mergeStatus n st → st.Phase = Phase.outdated ∧ st.Approved = true

/-- The names of the releases are pairwise different, as the names of the objects of
one kind in a cluster are. -/
def distinctNames (rs : List deckhouseRelease) : Prop :=
  (rs.map (fun r => r.Name)).Nodup

/-- The release `v0.9.0`, `Outdated`, not approved. -/
def outdated090 : deckhouseRelease :=
  mkRelease "v0.9.0" (mkVersion 0 9 0 "v0.9.0") Phase.outdated

/-- The release `v1.0.5`, `Suspended`. -/
def suspended105 : deckhouseRelease :=
  mkRelease "v1.0.5" (mkVersion 1 0 5 "v1.0.5") Phase.suspended

/-- The release `v1.2.0`, `Pending`, approved and carrying the force flag. -/
def forced120 : deckhouseRelease :=
  { pending120 with HasForceAnnotation := true }

/-- The updater after `PredictNextRelease` for an outdated, a deployed, a suspended and
a pending release followed by the forced `v1.2.0`. -/
def forcingUpdater : deckhouseUpdater :=
  { now := 100, inManualMode := false
    releases := [outdated090, deployed100, suspended105, approved110, forced120]
    totalPendingManualReleases := 0, predictedReleaseIndex := 3
    skippedPatchesIndexes := [], currentDeployedReleaseIndex := 1, forcedReleaseIndex := 4
    deckhousePodIsReady := true, deckhouseIsBootstrapping := false }

/-- The release `p` as the normalizer leaves it in the slice when it approves it: only
`status.approved` is set. -/
def approvedCopy (p : deckhouseRelease) : deckhouseRelease :=
  { p with Status := { p.Status with Approved := true } }

/-- The updater after `PredictNextRelease` for the sorted releases `d` (deployed) and
`p` (pending), without a forced release. -/
def pairUpdater (env : Env) (input : HookInput) (pod : deckhousePodInfo)
    (d p : deckhouseRelease) : deckhouseUpdater :=
  { newDeckhouseUpdater env.now input.updateMode pod.Ready (isBootstrapImage env pod) with
    releases := [d, approvedCopy p]
    currentDeployedReleaseIndex := 0
    predictedReleaseIndex := 1 }

/-- The release `v1.1.0`, `Pending`, carrying the suspend annotation. -/
def suspending110 : deckhouseRelease :=
  { pending110 with HasSuspendAnnotation := true }

/-- The statuses the end-to-end upgrade leaves: the release named `pName` is
`Deployed`, approved, with an empty message, and the other release is `Outdated` with
the message of an outdated release and its approval unchanged. -/
def upgradedStatus (pName : String) (r : deckhouseRelease) : deckhouseRelease :=
  if r.Name = pName then
    { r with Status := { Phase := Phase.deployed, Approved := true, Message := "" } }
  else
    { r with Status := { Phase := Phase.outdated, Approved := r.Status.Approved
                         Message := "Last Deployed release outdated" } }

/-- The value of `status.approved` the approval step resolves for a pending release:
not (manual mode and not manually approved). -/
def resolvedApproval (du : deckhouseUpdater) (release : deckhouseRelease) : Bool :=
  !(du.inManualMode && !release.ManuallyApproved)

/-- The message of the status patch of the approval step. -/
def approvalMessage (du : deckhouseUpdater) (release : deckhouseRelease) : String :=
  if resolvedApproval du release then "" else "Release is waiting for manual approval"

/-- The release tags of a bootstrap image, in lower case. -/
def bootstrapTags : List String :=
  ["alpha", "beta", "early-access", "stable", "rock-solid"]

/-! ## The normalizer, release by release -/

/-- The status of a suspended release. -/
def suspendedStatus : DeckhouseReleaseStatus :=
  { Phase := Phase.suspended, Approved := false, Message := "Release is suspended" }

/-- The patches of the initial-status step: one status patch to `Pending` for a
release without phase. -/
def initOps (env : Env) (a : deckhouseRelease) : List PatchOp :=
  if a.Status.Phase = Phase.empty then
    [PatchOp.mergeStatus a.Name
      { Phase := Phase.pending, Message := "", Approved := a.Status.Approved
        TransitionTime := env.now }]
  else []

/-- The release after the initial-status step. -/
def initRel (a : deckhouseRelease) : deckhouseRelease :=
  if a.Status.Phase = Phase.empty then
    { a with Status := { Phase := Phase.pending, Approved := a.Status.Approved, Message := "" } }
  else a

/-- The patches of the suspend step: for a release with the suspend annotation, the
removal of the annotation and, unless the release has the status of a suspended
release already, the status patch to `Suspended`. -/
def suspOps (env : Env) (r : deckhouseRelease) : List PatchOp :=
  if r.HasSuspendAnnotation then
    PatchOp.removeAnnotation r.Name "release.deckhouse.io/suspended"
      :: (if r.Status = suspendedStatus then []
          else [PatchOp.mergeStatus r.Name
            { Phase := Phase.suspended, Message := "Release is suspended", Approved := false
              TransitionTime := env.now }])
  else []

/-- The release after the suspend step. -/
def suspRel (r : deckhouseRelease) : deckhouseRelease :=
  if r.HasSuspendAnnotation then { r with Status := suspendedStatus } else r

/-- The patches of the approval step: for a `Pending` release whose resolved approval
differs from `status.approved`, the status patch with the resolved approval. -/
def manualOps (du : deckhouseUpdater) (r : deckhouseRelease) : List PatchOp :=
  if r.Status.Phase = Phase.pending ∧ resolvedApproval du r ≠ r.Status.Approved then
    [PatchOp.mergeStatus r.Name
      { Phase := Phase.pending, Message := approvalMessage du r
        Approved := resolvedApproval du r, TransitionTime := du.now }]
  else []

/-- The release after the approval step. -/
def manualRel (du : deckhouseUpdater) (r : deckhouseRelease) : deckhouseRelease :=
  if r.Status.Phase = Phase.pending then
    { r with Status := { r.Status with Approved := resolvedApproval du r } }
  else r

/-- The updater after the approval step: the counter of releases that wait for manual
approval is incremented for a `Pending` release that is not approved. -/
def manualCount (du : deckhouseUpdater) (r : deckhouseRelease) : deckhouseUpdater :=
  if r.Status.Phase = Phase.pending ∧ resolvedApproval du r = false then
    { du with totalPendingManualReleases := du.totalPendingManualReleases + 1 }
  else du

/-- The patches the three normalizer steps emit for the snapshot entry `a`. -/
def normOps (env : Env) (du : deckhouseUpdater) (a : deckhouseRelease) : List PatchOp :=
  initOps env a ++ suspOps env (initRel a) ++ manualOps du (suspRel (initRel a))

/-- The release the three normalizer steps make of the snapshot entry `a`. -/
def normRel (du : deckhouseUpdater) (a : deckhouseRelease) : deckhouseRelease :=
  manualRel du (suspRel (initRel a))

/-- The release `v0.9.0`, `Outdated`, carrying the force flag: a rollback. -/
def rollback090 : deckhouseRelease :=
  { outdated090 with HasForceAnnotation := true }

/-- The updater after `PredictNextRelease` for the forced `v0.9.0`, the deployed
`v1.0.0` and the pending `v1.2.0` and `v1.2.1`. -/
def rollbackUpdater : deckhouseUpdater :=
  { now := 100, inManualMode := false
    releases := [rollback090, deployed100, pending120, approved121]
    totalPendingManualReleases := 0, predictedReleaseIndex := 3
    skippedPatchesIndexes := [2], currentDeployedReleaseIndex := 1, forcedReleaseIndex := 0
    deckhousePodIsReady := true, deckhouseIsBootstrapping := false }

/-- What a status patch for the release named `n` can be in a pass over `input`: a
patch to `Pending` for a snapshot entry whose phase is `Pending` or none; a patch to
`Suspended`; a patch to `Outdated`; or a patch to `Deployed` for a snapshot entry
whose phase is `Pending` or none or that carries the force flag. -/
def statusPatchClass (input : HookInput) (n : String) (st : statusPatch) : Prop :=
  (st.Phase = Phase.pending
    ∧ ∃ a ∈ input.releases, a.Name = n
        ∧ (a.Status.Phase = Phase.pending ∨ a.Status.Phase = Phase.empty))
  ∨ st.Phase = Phase.suspended
  ∨ st.Phase = Phase.outdated
  ∨ (st.Phase = Phase.deployed
    ∧ ∃ a ∈ input.releases, a.Name = n
        ∧ ((a.Status.Phase = Phase.pending ∨ a.Status.Phase = Phase.empty)
          ∨ a.HasForceAnnotation = true))

/-- What the pass returns on the deployed `v1.0.0` and the pending `v1.1.0` in `Auto`
mode with a ready pod and no update windows: `v1.1.0` is approved and deployed. -/
def upgradeResult : HookResult :=
  { out := { patches := [PatchOp.mergeStatus "v1.1.0"
                { Phase := Phase.pending, Message := "", Approved := true
                  TransitionTime := 100 },
              PatchOp.createUpdatingCM "1.1.0",
              PatchOp.setDeploymentImage "registry/deckhouse:v1.1.0",
              PatchOp.mergeStatus "v1.1.0"
                { Phase := Phase.deployed, Message := "", Approved := true
                  TransitionTime := 100 },
              PatchOp.mergeStatus "v1.0.0"
                { Phase := Phase.outdated, Message := "Last Deployed release outdated"
                  Approved := true, TransitionTime := 100 }]
             metrics := [MetricOp.expire "d8_releases", MetricOp.expire "d8_updating"] }
    err := none }

/-- A version-change intent: the image patch of the deployment, or, on the tag-based
path, the deletion of the running pod. -/
def isVersionChange : PatchOp → Bool
  | PatchOp.setDeploymentImage _ => true
  | PatchOp.deletePod _ _ => true
  | _ => false

/-- At most one release of the list has phase `Deployed`. -/
def atMostOneDeployed (rs : List deckhouseRelease) : Prop :=
  ∀ (i j : Nat) (ri rj : deckhouseRelease), rs[i]? = some ri → rs[j]? = some rj →
    ri.Status.Phase = Phase.deployed → rj.Status.Phase = Phase.deployed → i = j

/-! # Properties -/

theorem sliceAt_natCast {α : Type} (xs : List α) (k : Nat) : sliceAt xs (k : Int) = xs[k]? := by
  unfold sliceAt
  have h : ¬ ((k : Int) < 0) := by omega
  simp [h]

theorem LastIdx.keep {P : deckhouseRelease → Prop} {rs : List deckhouseRelease} {n : Nat}
    {i : Int} {r : deckhouseRelease} (h : LastIdx P rs n i) (hr : rs[n]? = some r)
    (hP : ¬ P r) : LastIdx P rs (n + 1) i := by
  rcases h with ⟨hi, hno⟩ | ⟨k, rk, hi, hk, hrk, hPk, hlast⟩
  · refine Or.inl ⟨hi, ?_⟩
    intro j r1 hj hj1
    rcases Nat.lt_succ_iff_lt_or_eq.mp hj with hlt | heq
    · exact hno j r1 hlt hj1
    · subst heq
      rw [hr] at hj1
      cases hj1
      exact hP
  · refine Or.inr ⟨k, rk, hi, by omega, hrk, hPk, ?_⟩
    intro j r1 hkj hj hj1
    rcases Nat.lt_succ_iff_lt_or_eq.mp hj with hlt | heq
    · exact hlast j r1 hkj hlt hj1
    · subst heq
      rw [hr] at hj1
      cases hj1
      exact hP

theorem LastIdx.hit {P : deckhouseRelease → Prop} {rs : List deckhouseRelease} {n : Nat}
    {r : deckhouseRelease} (hr : rs[n]? = some r) (hP : P r) :
    LastIdx P rs (n + 1) (n : Int) := by
  refine Or.inr ⟨n, r, rfl, by omega, hr, hP, ?_⟩
  intro j r1 hnj hj _
  omega

theorem LastIdx.zero (P : deckhouseRelease → Prop) (rs : List deckhouseRelease) :
    LastIdx P rs 0 (-1) := by
  refine Or.inl ⟨rfl, ?_⟩
  intro j r hj
  omega

theorem sameLine_trans {a b c : deckhouseRelease} (h1 : sameLine a b) (h2 : sameLine b c) :
    sameLine a c :=
  ⟨h1.1.trans h2.1, h1.2.trans h2.2⟩

theorem sameLine_symm {a b : deckhouseRelease} (h : sameLine a b) : sameLine b a :=
  ⟨h.1.symm, h.2.symm⟩

theorem PredictedInv.skip {rs : List deckhouseRelease} {n : Nat} {predicted : Int}
    {skipped : List Int} {r : deckhouseRelease} (h : PredictedInv rs n predicted skipped)
    (hr : rs[n]? = some r)
    (hnot : predicted = -1 → r.Status.Phase ≠ Phase.pending)
    (hline : ∀ (p : Nat) (rp : deckhouseRelease), predicted = (p : Int) → rs[p]? = some rp →
      ¬ (r.Status.Phase = Phase.pending ∧ sameLine r rp)) :
    PredictedInv rs (n + 1) predicted skipped := by
  rcases h with ⟨hp, hs, hno⟩ | ⟨p, f, rp, rf, hp, hpn, hfp, hrp, hrf, hpp, hpf, hfirst, hsl, hlast, hpw, hmem⟩
  · refine Or.inl ⟨hp, hs, ?_⟩
    intro j r1 hj hj1
    rcases Nat.lt_succ_iff_lt_or_eq.mp hj with hlt | heq
    · exact hno j r1 hlt hj1
    · subst heq
      rw [hr] at hj1
      cases hj1
      exact hnot hp
  · refine Or.inr ⟨p, f, rp, rf, hp, by omega, hfp, hrp, hrf, hpp, hpf, hfirst, hsl, ?_, hpw, hmem⟩
    intro j r1 hpj hj hj1
    rcases Nat.lt_succ_iff_lt_or_eq.mp hj with hlt | heq
    · exact hlast j r1 hpj hlt hj1
    · subst heq
      rw [hr] at hj1
      cases hj1
      intro hc
      exact hline p rp hp hrp ⟨hc.1, sameLine_trans hc.2 (sameLine_symm hsl)⟩

theorem PredictedInv.first {rs : List deckhouseRelease} {n : Nat} {skipped : List Int}
    {r : deckhouseRelease} (h : PredictedInv rs n (-1) skipped) (hr : rs[n]? = some r)
    (hpend : r.Status.Phase = Phase.pending) :
    PredictedInv rs (n + 1) (n : Int) skipped := by
  rcases h with ⟨_, hs, hno⟩ | ⟨p, f, rp, rf, hp, _⟩
  · refine Or.inr ⟨n, n, r, r, rfl, by omega, le_refl n, hr, hr, hpend, hpend, ?_, ⟨rfl, rfl⟩,
      ?_, ?_, ?_⟩
    · intro j r1 hj hj1
      exact hno j r1 hj hj1
    · intro j r1 h1 h2
      omega
    · subst hs
      exact List.Pairwise.nil
    · intro z
      subst hs
      constructor
      · intro hz
        cases hz
      · rintro ⟨k, r1, _, hk, hk1, hk2, _⟩
        exact absurd hk2 (hno k r1 hk hk1)
  · omega

theorem PredictedInv.advance {rs : List deckhouseRelease} {n p : Nat} {skipped : List Int}
    {r rp : deckhouseRelease} (h : PredictedInv rs n (p : Int) skipped) (hr : rs[n]? = some r)
    (hrp : rs[p]? = some rp) (hpend : r.Status.Phase = Phase.pending) (hline : sameLine rp r) :
    PredictedInv rs (n + 1) (n : Int) (skipped ++ [(p : Int)]) := by
  rcases h with ⟨hp, _⟩ | ⟨p1, f, rp1, rf, hp, hpn, hfp, hrp1, hrf, hpp, hpf, hfirst, hsl, hlast, hpw, hmem⟩
  · omega
  · have hpp1 : p = p1 := by omega
    subst hpp1
    rw [hrp] at hrp1
    cases hrp1
    have hrline : sameLine r rf := sameLine_trans (sameLine_symm hline) hsl
    refine Or.inr ⟨n, f, r, rf, rfl, by omega, by omega, hr, hrf, hpend, hpf, hfirst, hrline,
      ?_, ?_, ?_⟩
    · intro j r1 h1 h2
      omega
    · rw [List.pairwise_append]
      refine ⟨hpw, List.pairwise_singleton _ _, ?_⟩
      intro a ha b hb
      rw [List.mem_singleton] at hb
      subst hb
      obtain ⟨k, _, hk, hkp, _⟩ := (hmem a).mp ha
      omega
    · intro z
      rw [List.mem_append, List.mem_singleton]
      constructor
      · rintro (hz | hz)
        · obtain ⟨k, r1, hk, hkp, hk1, hk2, hk3⟩ := (hmem z).mp hz
          exact ⟨k, r1, hk, by omega, hk1, hk2, hk3⟩
        · exact ⟨p, rp, hz, hpn, hrp, hpp, hsl⟩
      · rintro ⟨k, r1, hk, hkn, hk1, hk2, hk3⟩
        rcases Nat.lt_trichotomy k p with hlt | heq | hgt
        · exact Or.inl ((hmem z).mpr ⟨k, r1, hk, hlt, hk1, hk2, hk3⟩)
        · subst heq
          exact Or.inr hk
        · exact absurd ⟨hk2, hk3⟩ (hlast k r1 hgt hkn hk1)

theorem PredictedInv.index_cases {rs : List deckhouseRelease} {n : Nat} {predicted : Int}
    {skipped : List Int} (h : PredictedInv rs n predicted skipped) :
    predicted = -1 ∨ ∃ (p : Nat) (rp : deckhouseRelease), predicted = (p : Int) ∧ p < n
      ∧ rs[p]? = some rp ∧ rp.Status.Phase = Phase.pending := by
  rcases h with ⟨hp, _⟩ | ⟨p, f, rp, rf, hp, hpn, _, hrp, _, hpp, _⟩
  · exact Or.inl hp
  · exact Or.inr ⟨p, rp, hp, hpn, hrp, hpp⟩

/-- One pending release is processed without a panic and the invariant of the
prediction moves on by one position. -/
theorem processPendingRelease_inv {rs : List deckhouseRelease} {n : Nat} {du : deckhouseUpdater}
    {r : deckhouseRelease} (hrel : du.releases = rs)
    (h : PredictedInv rs n du.predictedReleaseIndex du.skippedPatchesIndexes)
    (hr : rs[n]? = some r) (hpend : r.Status.Phase = Phase.pending) :
    ∃ du1, processPendingRelease du (n : Int) r = some du1 ∧ du1.releases = rs
      ∧ du1.forcedReleaseIndex = du.forcedReleaseIndex
      ∧ du1.currentDeployedReleaseIndex = du.currentDeployedReleaseIndex
      ∧ PredictedInv rs (n + 1) du1.predictedReleaseIndex du1.skippedPatchesIndexes := by
  rcases h.index_cases with hnone | ⟨p, rp, hp, hpn, hrp, hpp⟩
  · have hlt : ¬ (du.predictedReleaseIndex ≥ 0) := by omega
    refine ⟨{ du with predictedReleaseIndex := (n : Int) },
      by simp only [processPendingRelease, hlt, if_false], hrel, rfl, rfl, ?_⟩
    rw [hnone] at h
    exact h.first hr hpend
  · have hge : du.predictedReleaseIndex ≥ 0 := by omega
    have hs : sliceAt du.releases du.predictedReleaseIndex = some rp := by
      rw [hrel, hp, sliceAt_natCast]
      exact hrp
    by_cases hmaj : rp.Version.major = r.Version.major
    · by_cases hmin : rp.Version.minor = r.Version.minor
      · refine ⟨{ du with
            skippedPatchesIndexes := du.skippedPatchesIndexes ++ [du.predictedReleaseIndex]
            predictedReleaseIndex := (n : Int) },
          by simp [processPendingRelease, hge, hs, hmaj, hmin], hrel, rfl, rfl, ?_⟩
        rw [hp] at h
        show PredictedInv rs (n + 1) (n : Int)
          (du.skippedPatchesIndexes ++ [du.predictedReleaseIndex])
        rw [hp]
        exact h.advance hr hrp hpend ⟨hmaj, hmin⟩
      · refine ⟨du, by simp [processPendingRelease, hge, hs, hmaj, hmin], hrel, rfl, rfl, ?_⟩
        refine h.skip hr (by omega) ?_
        intro p1 rp1 hp1 hrp1 hc
        have hpp1 : p = p1 := by omega
        subst hpp1
        rw [hrp] at hrp1
        cases hrp1
        exact hmin hc.2.2.symm
    · refine ⟨du, by simp [processPendingRelease, hge, hs, hmaj], hrel, rfl, rfl, ?_⟩
      refine h.skip hr (by omega) ?_
      intro p1 rp1 hp1 hrp1 hc
      have hpp1 : p = p1 := by omega
      subst hpp1
      rw [hrp] at hrp1
      cases hrp1
      exact hmaj hc.2.1.symm

/-- One iteration of the loop of `PredictNextRelease` does not panic and keeps the
loop invariant. -/
theorem predictStep_inv {rs : List deckhouseRelease} {n : Nat} {du : deckhouseUpdater}
    {r : deckhouseRelease} (h : PredictInv rs n du) (hr : rs[n]? = some r) :
    ∃ du1, predictStep du (n : Int) r = some du1 ∧ PredictInv rs (n + 1) du1 := by
  have hswitch : ∃ du0, (match r.Status.Phase with
      | Phase.outdated => some du
      | Phase.suspended => some du
      | Phase.pending => processPendingRelease du (n : Int) r
      | Phase.deployed => some { du with currentDeployedReleaseIndex := (n : Int) }
      | Phase.empty => some du) = some du0 ∧ du0.releases = rs
      ∧ du0.forcedReleaseIndex = du.forcedReleaseIndex
      ∧ LastIdx (fun r => r.Status.Phase = Phase.deployed) rs (n + 1)
          du0.currentDeployedReleaseIndex
      ∧ PredictedInv rs (n + 1) du0.predictedReleaseIndex du0.skippedPatchesIndexes := by
    cases hph : r.Status.Phase with
    | empty =>
      exact ⟨du, rfl, h.releases_eq, rfl, h.deployed.keep hr (by simp [hph]),
        h.predicted.skip hr (by simp [hph]) (by simp [hph])⟩
    | outdated =>
      exact ⟨du, rfl, h.releases_eq, rfl, h.deployed.keep hr (by simp [hph]),
        h.predicted.skip hr (by simp [hph]) (by simp [hph])⟩
    | suspended =>
      exact ⟨du, rfl, h.releases_eq, rfl, h.deployed.keep hr (by simp [hph]),
        h.predicted.skip hr (by simp [hph]) (by simp [hph])⟩
    | deployed =>
      exact ⟨{ du with currentDeployedReleaseIndex := (n : Int) }, rfl, h.releases_eq, rfl,
        LastIdx.hit hr hph, h.predicted.skip hr (by simp [hph]) (by simp [hph])⟩
    | pending =>
      obtain ⟨du1, h1, h2, h3, h4, h5⟩ := processPendingRelease_inv h.releases_eq h.predicted hr hph
      refine ⟨du1, h1, h2, h3, ?_, h5⟩
      rw [h4]
      exact h.deployed.keep hr (by simp [hph])
  obtain ⟨du0, h0, hrel, hf, hd, hp⟩ := hswitch
  by_cases hforce : r.HasForceAnnotation = true
  · refine ⟨{ du0 with forcedReleaseIndex := (n : Int) }, ?_, ⟨hrel, LastIdx.hit hr hforce, hd, hp⟩⟩
    simp only [predictStep, h0, hforce, if_true]
  · refine ⟨du0, ?_, ⟨hrel, ?_, hd, hp⟩⟩
    · simp only [predictStep, h0, hforce]
      simp
    · rw [hf]
      exact h.forced.keep hr hforce

theorem drop_eq_cons_getElem {α : Type} {xs : List α} {n : Nat} {x : α} {rest : List α}
    (h : xs.drop n = x :: rest) : xs[n]? = some x ∧ xs.drop (n + 1) = rest := by
  constructor
  · have h1 : (xs.drop n)[0]? = some x := by rw [h]; simp
    rw [List.getElem?_drop] at h1
    simpa using h1
  · have h2 : (xs.drop n).drop 1 = rest := by rw [h]; rfl
    rw [List.drop_drop] at h2
    rw [← h2, Nat.add_comm]

/-- The loop of `PredictNextRelease` over the positions from `n` on does not panic
and ends with the invariant for the whole list. -/
theorem predictLoop_inv (rs : List deckhouseRelease) :
    ∀ (suf : List deckhouseRelease) (n : Nat) (du : deckhouseUpdater),
      rs.drop n = suf → PredictInv rs n du →
      ∃ du1, predictLoop n suf du = some du1 ∧ PredictInv rs rs.length du1 := by
  intro suf
  induction suf with
  | nil =>
    intro n du hdrop h
    have hn : rs.length ≤ n := List.drop_eq_nil_iff.mp hdrop
    refine ⟨du, rfl, ⟨h.releases_eq, ?_, ?_, ?_⟩⟩
    · rcases h.forced with ⟨hi, hno⟩ | ⟨k, rk, hi, hk, hrk, hPk, hlast⟩
      · exact Or.inl ⟨hi, fun j r hj hj1 => hno j r (by omega) hj1⟩
      · have hk1 : k < rs.length := (List.getElem?_eq_some_iff.mp hrk).1
        exact Or.inr ⟨k, rk, hi, hk1, hrk, hPk, fun j r1 hkj hj hj1 => hlast j r1 hkj (by omega) hj1⟩
    · rcases h.deployed with ⟨hi, hno⟩ | ⟨k, rk, hi, hk, hrk, hPk, hlast⟩
      · exact Or.inl ⟨hi, fun j r hj hj1 => hno j r (by omega) hj1⟩
      · have hk1 : k < rs.length := (List.getElem?_eq_some_iff.mp hrk).1
        exact Or.inr ⟨k, rk, hi, hk1, hrk, hPk, fun j r1 hkj hj hj1 => hlast j r1 hkj (by omega) hj1⟩
    · rcases h.predicted with ⟨hp, hs, hno⟩ | ⟨p, f, rp, rf, hp, hpn, hfp, hrp, hrf, hpp, hpf, hfirst, hsl, hlast, hpw, hmem⟩
      · exact Or.inl ⟨hp, hs, fun j r hj hj1 => hno j r (by omega) hj1⟩
      · have hp1 : p < rs.length := (List.getElem?_eq_some_iff.mp hrp).1
        exact Or.inr ⟨p, f, rp, rf, hp, hp1, hfp, hrp, hrf, hpp, hpf, hfirst, hsl,
          fun j r1 hpj hj hj1 => hlast j r1 hpj (by omega) hj1, hpw, hmem⟩
  | cons r rest ih =>
    intro n du hdrop h
    obtain ⟨hr, hrest⟩ := drop_eq_cons_getElem hdrop
    obtain ⟨du1, hstep, hinv⟩ := predictStep_inv h hr
    obtain ⟨du2, hloop, hfin⟩ := ih (n + 1) du1 hrest hinv
    refine ⟨du2, ?_, hfin⟩
    simp only [predictLoop, hstep]
    exact hloop

/-- A fresh updater satisfies the loop invariant before the first iteration. -/
theorem PredictInv.fresh (now : Int) (mode : String) (podIsReady isBootstrapping : Bool)
    (rs : List deckhouseRelease) :
    PredictInv rs 0 (freshUpdater now mode podIsReady isBootstrapping rs) := by
  refine ⟨rfl, LastIdx.zero _ rs, LastIdx.zero _ rs, Or.inl ⟨rfl, rfl, ?_⟩⟩
  intro j r hj
  omega

/-- On a fresh updater `PredictNextRelease` returns, and its result satisfies the
invariant for the whole list. -/
theorem PredictNextRelease_inv (now : Int) (mode : String) (podIsReady isBootstrapping : Bool)
    (rs : List deckhouseRelease) :
    ∃ du, PredictNextRelease (freshUpdater now mode podIsReady isBootstrapping rs) = some du
      ∧ PredictInv rs rs.length du :=
  predictLoop_inv rs rs 0 _ rfl (PredictInv.fresh now mode podIsReady isBootstrapping rs)

/-- C7. On a fresh updater holding any release list (sorted lists included)
`PredictNextRelease` returns, and the predicted index is `-1` exactly when no release
is `Pending`; otherwise it is the position `p` of the last `Pending` release that has
the major and minor version of the first `Pending` release (position `f`). The
predicted release is therefore never `Outdated` or `Suspended`, and for
`1.2.0 (Pending)`, `1.3.0 (Pending)` the predicted release is `1.2.0`. -/
theorem predicted_index_characterization (now : Int) (mode : String)
    (podIsReady isBootstrapping : Bool) (rs : List deckhouseRelease) :
    (∃ du, PredictNextRelease (freshUpdater now mode podIsReady isBootstrapping rs) = some du
      ∧ (du.predictedReleaseIndex = -1 ↔ ∀ r ∈ rs, r.Status.Phase ≠ Phase.pending)
      ∧ (du.predictedReleaseIndex ≠ -1 →
          ∃ (p f : Nat) (rp rf : deckhouseRelease),
            du.predictedReleaseIndex = (p : Int) ∧ rs[p]? = some rp ∧ rs[f]? = some rf
            ∧ rf.Status.Phase = Phase.pending
            ∧ (∀ (j : Nat) (r : deckhouseRelease), j < f → rs[j]? = some r →
                r.Status.Phase ≠ Phase.pending)
            ∧ rp.Status.Phase = Phase.pending ∧ sameLine rp rf
            ∧ (∀ (j : Nat) (r : deckhouseRelease), p < j → rs[j]? = some r →
                ¬ (r.Status.Phase = Phase.pending ∧ sameLine r rf))
            ∧ rp.Status.Phase ≠ Phase.outdated ∧ rp.Status.Phase ≠ Phase.suspended))
    ∧ (PredictNextRelease (freshUpdater now mode podIsReady isBootstrapping
          [mkRelease "v1.2.0" (mkVersion 1 2 0 "v1.2.0") Phase.pending,
           mkRelease "v1.3.0" (mkVersion 1 3 0 "v1.3.0") Phase.pending])).map
        (fun du => du.predictedReleaseIndex) = some 0 := by
  refine ⟨?_, by simp [PredictNextRelease, predictLoop, predictStep, processPendingRelease,
    freshUpdater, newDeckhouseUpdater, mkRelease, mkVersion, sliceAt]⟩
  obtain ⟨du, hrun, hinv⟩ := PredictNextRelease_inv now mode podIsReady isBootstrapping rs
  refine ⟨du, hrun, ?_, ?_⟩
  · rcases hinv.predicted with ⟨hp, _, hno⟩ | ⟨p, f, rp, rf, hp, _, _, hrp, _, hpp, _⟩
    · refine ⟨fun _ r hr => ?_, fun _ => hp⟩
      obtain ⟨j, hj⟩ := List.mem_iff_getElem?.mp hr
      exact hno j r (List.getElem?_eq_some_iff.mp hj).1 hj
    · constructor
      · intro h
        omega
      · intro h
        exact absurd hpp (h rp (List.mem_iff_getElem?.mpr ⟨p, hrp⟩))
  · intro hne
    rcases hinv.predicted with ⟨hp, _⟩ | ⟨p, f, rp, rf, hp, _, _, hrp, hrf, hpp, hpf, hfirst, hsl, hlast, _⟩
    · exact absurd hp hne
    · refine ⟨p, f, rp, rf, hp, hrp, hrf, hpf, hfirst, hpp, hsl, ?_, by simp [hpp], by simp [hpp]⟩
      intro j r hpj hj
      exact hlast j r hpj (List.getElem?_eq_some_iff.mp hj).1 hj

/-- C8. On a fresh updater holding any release list (sorted lists included), after
`PredictNextRelease` the list `skippedPatchesIndexes` is strictly ascending and holds
exactly the positions, other than the predicted one, of the `Pending` releases that
have the major and minor version of the predicted release; each of them is smaller
than the predicted index, and nothing is skipped when nothing is predicted. For
`1.2.0`, `1.2.1`, `1.2.2`, all `Pending`, the predicted index is 2 and the skipped
list is `[0, 1]`. -/
theorem skipped_patches_characterization (now : Int) (mode : String)
    (podIsReady isBootstrapping : Bool) (rs : List deckhouseRelease) :
    (∃ du, PredictNextRelease (freshUpdater now mode podIsReady isBootstrapping rs) = some du
      ∧ (du.predictedReleaseIndex = -1 → du.skippedPatchesIndexes = [])
      ∧ ∀ (p : Nat) (rp : deckhouseRelease), du.predictedReleaseIndex = (p : Int) →
          rs[p]? = some rp →
          du.skippedPatchesIndexes.Pairwise (fun a b => a < b)
          ∧ (∀ z : Int, z ∈ du.skippedPatchesIndexes ↔
              ∃ (k : Nat) (r : deckhouseRelease), z = (k : Int) ∧ k ≠ p ∧ rs[k]? = some r
                ∧ r.Status.Phase = Phase.pending ∧ sameLine r rp)
          ∧ ∀ z ∈ du.skippedPatchesIndexes, z < (p : Int))
    ∧ (PredictNextRelease (freshUpdater now mode podIsReady isBootstrapping
          [mkRelease "v1.2.0" (mkVersion 1 2 0 "v1.2.0") Phase.pending,
           mkRelease "v1.2.1" (mkVersion 1 2 1 "v1.2.1") Phase.pending,
           mkRelease "v1.2.2" (mkVersion 1 2 2 "v1.2.2") Phase.pending])).map
        (fun du => (du.predictedReleaseIndex, du.skippedPatchesIndexes)) = some (2, [0, 1]) := by
  refine ⟨?_, by simp [PredictNextRelease, predictLoop, predictStep, processPendingRelease,
    freshUpdater, newDeckhouseUpdater, mkRelease, mkVersion, sliceAt]⟩
  obtain ⟨du, hrun, hinv⟩ := PredictNextRelease_inv now mode podIsReady isBootstrapping rs
  refine ⟨du, hrun, ?_, ?_⟩
  · intro hnone
    rcases hinv.predicted with ⟨_, hs, _⟩ | ⟨p, f, rp, rf, hp, _⟩
    · exact hs
    · omega
  · intro p rp hp hrp
    rcases hinv.predicted with ⟨hp1, _⟩ | ⟨p1, f, rp1, rf, hp1, _, _, hrp1, _, hpp, _, _, hsl, hlast, hpw, hmem⟩
    · omega
    · have hpp1 : p = p1 := by omega
      subst hpp1
      rw [hrp] at hrp1
      cases hrp1
      refine ⟨hpw, ?_, ?_⟩
      · intro z
        rw [hmem z]
        constructor
        · rintro ⟨k, r, hk, hkp, hk1, hk2, hk3⟩
          exact ⟨k, r, hk, by omega, hk1, hk2, sameLine_trans hk3 (sameLine_symm hsl)⟩
        · rintro ⟨k, r, hk, hkp, hk1, hk2, hk3⟩
          have hk4 : sameLine r rf := sameLine_trans hk3 hsl
          rcases Nat.lt_trichotomy k p with hlt | heq | hgt
          · exact ⟨k, r, hk, hlt, hk1, hk2, hk4⟩
          · exact absurd heq hkp
          · exact absurd ⟨hk2, hk4⟩ (hlast k r hgt (List.getElem?_eq_some_iff.mp hk1).1 hk1)
      · intro z hz
        obtain ⟨k, _, hk, hkp, _⟩ := (hmem z).mp hz
        omega

/-- C9. On a fresh updater holding any release list (sorted lists included), after
`PredictNextRelease` the forced index is `-1` exactly when no release carries the
force flag; otherwise it is the greatest position of a release carrying the flag,
whatever the phase of that release. -/
theorem forced_index_characterization (now : Int) (mode : String)
    (podIsReady isBootstrapping : Bool) (rs : List deckhouseRelease) :
    ∃ du, PredictNextRelease (freshUpdater now mode podIsReady isBootstrapping rs) = some du
      ∧ (du.forcedReleaseIndex = -1 ↔ ∀ r ∈ rs, r.HasForceAnnotation = false)
      ∧ (du.forcedReleaseIndex ≠ -1 →
          ∃ (k : Nat) (rk : deckhouseRelease), du.forcedReleaseIndex = (k : Int)
            ∧ rs[k]? = some rk ∧ rk.HasForceAnnotation = true
            ∧ ∀ (j : Nat) (r : deckhouseRelease), k < j → rs[j]? = some r →
                r.HasForceAnnotation = false) := by
  obtain ⟨du, hrun, hinv⟩ := PredictNextRelease_inv now mode podIsReady isBootstrapping rs
  refine ⟨du, hrun, ?_, ?_⟩
  · rcases hinv.forced with ⟨hi, hno⟩ | ⟨k, rk, hi, _, hrk, hPk, _⟩
    · refine ⟨fun _ r hr => ?_, fun _ => hi⟩
      obtain ⟨j, hj⟩ := List.mem_iff_getElem?.mp hr
      simpa using hno j r (List.getElem?_eq_some_iff.mp hj).1 hj
    · constructor
      · intro h
        omega
      · intro h
        have := h rk (List.mem_iff_getElem?.mpr ⟨k, hrk⟩)
        rw [hPk] at this
        cases this
  · intro hne
    rcases hinv.forced with ⟨hi, _⟩ | ⟨k, rk, hi, _, hrk, hPk, hlast⟩
    · exact absurd hi hne
    · refine ⟨k, rk, hi, hrk, hPk, ?_⟩
      intro j r hkj hj
      simpa using hlast j r hkj (List.getElem?_eq_some_iff.mp hj).1 hj

/-- C10. The forced release is also the currently deployed one (`v1.0.0`, followed by
a pending `v1.1.0`): `PredictNextRelease` sets both the forced and the deployed index
to 0, `ApplyForcedRelease` patches the image to `v1.0.0` and then writes `Outdated`
to that same release, so the forced release ends `Outdated`, not `Deployed`, also
after the patches of the whole pass are applied. The same happens to a forced release
that is a skipped patch (`v1.2.0` forced, `v1.2.1` pending): its `Deployed` patch is
followed by the `Outdated` patch of the skipped-patches loop. -/
theorem forced_deployed_release_ends_outdated :
    (PredictNextRelease (freshUpdater 100 "Auto" true false
        [{ deployed100 with HasForceAnnotation := true }, pending110])).map
      (fun du => (du.forcedReleaseIndex, du.currentDeployedReleaseIndex)) = some (0, 0)
    ∧ ((PredictNextRelease (freshUpdater 100 "Auto" true false
        [{ deployed100 with HasForceAnnotation := true }, pending110])).bind
        (fun du => ApplyForcedRelease sampleEnv
          (mkInput samplePod [{ deployed100 with HasForceAnnotation := true }, pending110])
          HookOut.init du)).map
      (fun r => (r.1.patches, r.2.releases.map (fun x => x.Status)))
      = some ([PatchOp.createUpdatingCM "1.0.0",
          PatchOp.setDeploymentImage "registry/deckhouse:v1.0.0",
          PatchOp.mergeStatus "v1.0.0"
            { Phase := Phase.outdated, Message := "Last Deployed release outdated"
              Approved := true, TransitionTime := 100 },
          PatchOp.removeAnnotation "v1.0.0" "release.deckhouse.io/force"],
        [{ Phase := Phase.outdated, Approved := true, Message := "Last Deployed release outdated" },
         { Phase := Phase.pending, Approved := false, Message := "" }])
    ∧ (updateDeckhouse sampleEnv
        (mkInput samplePod [{ deployed100 with HasForceAnnotation := true },
          { pending110 with Status := { Phase := Phase.pending, Approved := true, Message := "" } }])).map
      (fun res => (applyPatches
        [{ deployed100 with HasForceAnnotation := true },
          { pending110 with Status := { Phase := Phase.pending, Approved := true, Message := "" } }]
        res.out.patches).map (fun x => (x.Name, x.Status.Phase)))
      = some [("v1.0.0", Phase.outdated), ("v1.1.0", Phase.pending)]
    ∧ (updateDeckhouse sampleEnv
        (mkInput samplePod [{ pending120 with HasForceAnnotation := true }, approved121])).map
      (fun res => (res.out.patches.filter isStatusPatch,
        (applyPatches [{ pending120 with HasForceAnnotation := true }, approved121]
          res.out.patches).map (fun x => (x.Name, x.Status.Phase))))
      = some ([PatchOp.mergeStatus "v1.2.0"
            { Phase := Phase.deployed, Message := "", Approved := true, TransitionTime := 100 },
          PatchOp.mergeStatus "v1.2.0"
            { Phase := Phase.outdated, Message := "Skipped because of new patches"
              Approved := true, TransitionTime := 100 }],
        [("v1.2.0", Phase.outdated), ("v1.2.1", Phase.pending)]) := by
  refine ⟨by decide, by decide, by decide, by decide⟩

/-- C3. A fixed point on which the pass still emits status patches: one release,
`Pending`, not approved, blocked by an unregistered requirement, in `Auto` mode. The
normalizer patches `approved` to true and the requirement check patches it back to
false with the message already present, so applying the emitted patches gives back
the snapshot, and yet two status patches are emitted. -/
theorem fixed_point_pass_emits_status_patches :
    (updateDeckhouse sampleEnv (mkInput samplePod [blockedByRequirement])).map
        (fun res => res.out.patches)
      = some [PatchOp.mergeStatus "v1.1.0"
            { Phase := Phase.pending, Message := "", Approved := true, TransitionTime := 100 },
          PatchOp.mergeStatus "v1.1.0"
            { Phase := Phase.pending, Message := "\"unknown\" requirement not registered"
              Approved := false, TransitionTime := 100 }]
    ∧ (updateDeckhouse sampleEnv (mkInput samplePod [blockedByRequirement])).map
        (fun res => applyPatches [blockedByRequirement] res.out.patches)
      = some [blockedByRequirement]
    ∧ (updateDeckhouse sampleEnv (mkInput samplePod [blockedByRequirement])).map
        (fun res => (res.out.patches.filter isStatusPatch).length) = some 2 := by
  refine ⟨by decide, by decide, by decide⟩

/-- C6. The pod runs the bootstrap image `registry/deckhouse:stable`, the snapshot
holds exactly one release, `Pending` and not suspended, the mode is `Auto` and an
update window is configured that does not allow the current time: the pass writes
"Release is waiting for update window" and deploys nothing. Without a configured
window the same pass deploys the release. -/
theorem bootstrap_release_blocked_by_update_window :
    isBootstrapImage sampleEnv bootstrapPod = true
    ∧ updateDeckhouse sampleEnv
        { mkInput bootstrapPod [pending110] with updateWindows := some "[window]" }
      = some
        { out :=
            { patches :=
                [PatchOp.mergeStatus "v1.1.0"
                  { Phase := Phase.pending, Message := "", Approved := true, TransitionTime := 100 },
                 PatchOp.mergeStatus "v1.1.0"
                  { Phase := Phase.pending, Message := "Release is waiting for update window"
                    Approved := true, TransitionTime := 100 }]
              metrics := [MetricOp.expire "d8_releases", MetricOp.expire "d8_updating"] }
          err := none }
    ∧ (updateDeckhouse sampleEnv (mkInput bootstrapPod [pending110])).map
        (fun res => res.out.patches.filter isDeployOp)
      = some [PatchOp.createUpdatingCM "1.1.0",
          PatchOp.setDeploymentImage "registry/deckhouse:v1.1.0",
          PatchOp.mergeStatus "v1.1.0"
            { Phase := Phase.deployed, Message := "", Approved := true, TransitionTime := 100 }] := by
  refine ⟨by decide, by decide, by decide⟩

theorem Extends.none_added (Q : PatchOp → Prop) (a : HookOut) : Extends Q a a :=
  ⟨[], by simp, by simp⟩

theorem Extends.append {Q : PatchOp → Prop} {a b c : HookOut} (h1 : Extends Q a b)
    (h2 : Extends Q b c) : Extends Q a c := by
  obtain ⟨l1, e1, q1⟩ := h1
  obtain ⟨l2, e2, q2⟩ := h2
  refine ⟨l1 ++ l2, by rw [e2, e1, List.append_assoc], ?_⟩
  intro op hop
  rcases List.mem_append.mp hop with h | h
  · exact q1 op h
  · exact q2 op h

theorem Extends.mono {Q R : PatchOp → Prop} {a b : HookOut} (h : Extends Q a b)
    (hQR : ∀ op, Q op → R op) : Extends R a b := by
  obtain ⟨l, e, q⟩ := h
  exact ⟨l, e, fun op hop => hQR op (q op hop)⟩

theorem Extends.metric (Q : PatchOp → Prop) (a : HookOut) (m : MetricOp) :
    Extends Q a (a.metric m) :=
  ⟨[], by simp [HookOut.metric], by simp⟩

theorem Extends.patch {Q : PatchOp → Prop} (a : HookOut) (op : PatchOp) (h : Q op) :
    Extends Q a (a.patch op) :=
  ⟨[op], by simp [HookOut.patch], by simpa using h⟩

theorem Extends.forall {Q : PatchOp → Prop} {a b : HookOut} (h : Extends Q a b)
    (ha : ∀ op ∈ a.patches, Q op) : ∀ op ∈ b.patches, Q op := by
  obtain ⟨l, e, q⟩ := h
  intro op hop
  rw [e] at hop
  rcases List.mem_append.mp hop with h1 | h1
  · exact ha op h1
  · exact q op h1

theorem Extends.mem {Q : PatchOp → Prop} {a b : HookOut} (h : Extends Q a b) {op : PatchOp}
    (hop : op ∈ a.patches) : op ∈ b.patches := by
  obtain ⟨l, e, _⟩ := h
  rw [e]
  exact List.mem_append_left _ hop

/-- The two outcomes of `updateStatus`: nothing happens, the release having the
requested phase and message already; or one status patch is emitted and the status of
the release is replaced. -/
theorem updateStatus_cases (env : Env) (out : HookOut) (release : deckhouseRelease) (msg : String)
    (phase : Phase) (approvedFlag : List Bool) :
    (updateStatus env out release msg phase approvedFlag = (out, release)
      ∧ release.Status.Phase = phase ∧ release.Status.Message = msg)
    ∨ ∃ approved : Bool, updateStatus env out release msg phase approvedFlag
        = (out.patch (PatchOp.mergeStatus release.Name
            { Phase := phase, Message := msg, Approved := approved, TransitionTime := env.now }),
          { release with Status := { Phase := phase, Approved := approved, Message := msg } }) := by
  cases approvedFlag with
  | nil =>
    by_cases h : phase = release.Status.Phase ∧ msg = release.Status.Message
        ∧ release.Status.Approved = release.Status.Approved
    · exact Or.inl ⟨by unfold updateStatus; exact if_pos h, h.1.symm, h.2.1.symm⟩
    · exact Or.inr ⟨release.Status.Approved, by unfold updateStatus; exact if_neg h⟩
  | cons b rest =>
    by_cases h : phase = release.Status.Phase ∧ msg = release.Status.Message
        ∧ b = release.Status.Approved
    · exact Or.inl ⟨by unfold updateStatus; exact if_pos h, h.1.symm, h.2.1.symm⟩
    · exact Or.inr ⟨b, by unfold updateStatus; exact if_neg h⟩

/-- What `updateStatus` does: it emits at most one status patch, for the release it
is given and with the phase it is given, and changes nothing of the release but its
status. -/
theorem updateStatus_spec (env : Env) (out : HookOut) (release : deckhouseRelease) (msg : String)
    (phase : Phase) (approvedFlag : List Bool) :
    Extends (fun op => ∃ st, op = PatchOp.mergeStatus release.Name st ∧ st.Phase = phase
        ∧ st.Message = msg) out
      (updateStatus env out release msg phase approvedFlag).1
    ∧ (updateStatus env out release msg phase approvedFlag).1.metrics = out.metrics
    ∧ { (updateStatus env out release msg phase approvedFlag).2 with Status := release.Status }
        = release
    ∧ (updateStatus env out release msg phase approvedFlag).2.Status.Phase = phase
    ∧ (updateStatus env out release msg phase approvedFlag).2.Status.Message = msg := by
  rcases updateStatus_cases env out release msg phase approvedFlag with ⟨h, h1, h2⟩ | ⟨a, h⟩
  · rw [h]
    exact ⟨Extends.none_added _ _, rfl, rfl, h1, h2⟩
  · rw [h]
    exact ⟨Extends.patch _ _ ⟨_, rfl, rfl, rfl⟩, rfl, rfl, rfl, rfl⟩

/-- What `updateStatusAt` does on a valid position: no panic, at most one status
patch for the release at that position, and the slice keeps its length. -/
theorem updateStatusAt_spec (env : Env) (out : HookOut) (du : deckhouseUpdater) (i : Nat)
    (msg : String) (phase : Phase) (approvedFlag : List Bool) (r : deckhouseRelease)
    (hr : du.releases[i]? = some r) :
    ∃ out1 du1, updateStatusAt env out du i msg phase approvedFlag = some (out1, du1)
      ∧ Extends (fun op => ∃ st, op = PatchOp.mergeStatus r.Name st ∧ st.Phase = phase
          ∧ st.Message = msg) out out1
      ∧ out1.metrics = out.metrics
      ∧ du1 = { du with releases := du.releases.set i (updateStatus env out r msg phase approvedFlag).2 } := by
  refine ⟨_, _, by simp only [updateStatusAt, hr], (updateStatus_spec env out r msg phase approvedFlag).1,
    (updateStatus_spec env out r msg phase approvedFlag).2.1, rfl⟩

/-! ## The normalizer -/

theorem sameButStatus.of_self (a : deckhouseRelease) : sameButStatus a a :=
  ⟨a.Status, rfl⟩

theorem sameButStatus.comp {a b c : deckhouseRelease} (h1 : sameButStatus a b)
    (h2 : sameButStatus b c) : sameButStatus a c := by
  obtain ⟨s1, e1⟩ := h1
  obtain ⟨s2, e2⟩ := h2
  exact ⟨s2, by rw [e2, e1]⟩

theorem updateStatus_sameButStatus (env : Env) (out : HookOut) (release : deckhouseRelease)
    (msg : String) (phase : Phase) (approvedFlag : List Bool) :
    sameButStatus release (updateStatus env out release msg phase approvedFlag).2 := by
  rcases updateStatus_cases env out release msg phase approvedFlag with ⟨h, _, _⟩ | ⟨a, h⟩
  · rw [h]
    exact sameButStatus.of_self _
  · rw [h]
    exact ⟨_, rfl⟩

/-- The three normalizer steps on one release: the patches they emit do not deploy,
the updater changes in its counter only, the release changes in its status only, and
the manual-mode law holds for the result. -/
theorem prepareRelease_spec (env : Env) (out : HookOut) (du : deckhouseUpdater)
    (rl : deckhouseRelease) :
    Extends (fun op => isDeployOp op = false) out (prepareRelease env out du rl).1
    ∧ sameButCount du (prepareRelease env out du rl).2.1
    ∧ sameButStatus rl (prepareRelease env out du rl).2.2
    ∧ manualLaw du.inManualMode (prepareRelease env out du rl).2.2 := by
  have e1 : Extends (fun op => isDeployOp op = false) out (patchInitialStatus env out rl).1 := by
    unfold patchInitialStatus
    split
    · exact Extends.none_added _ _
    · refine (updateStatus_spec env out rl "" Phase.pending []).1.mono ?_
      rintro op ⟨st, rfl, hst, _⟩
      simp [isDeployOp, hst]
  have s1 : sameButStatus rl (patchInitialStatus env out rl).2 := by
    unfold patchInitialStatus
    split
    · exact sameButStatus.of_self _
    · exact updateStatus_sameButStatus _ _ _ _ _ _
  have e2 : ∀ (o : HookOut) (r : deckhouseRelease),
      Extends (fun op => isDeployOp op = false) o (patchSuspendedStatus env o r).1 := by
    intro o r
    unfold patchSuspendedStatus
    split
    · exact Extends.none_added _ _
    · have hp : Extends (fun op => isDeployOp op = false) o
          (o.patch (PatchOp.removeAnnotation r.Name "release.deckhouse.io/suspended")) :=
        Extends.patch _ _ rfl
      refine Extends.append hp ?_
      refine (updateStatus_spec env _ r "Release is suspended" Phase.suspended [false]).1.mono ?_
      rintro op ⟨st, rfl, hst, _⟩
      simp [isDeployOp, hst]
  have s2 : ∀ (o : HookOut) (r : deckhouseRelease),
      sameButStatus r (patchSuspendedStatus env o r).2 := by
    intro o r
    unfold patchSuspendedStatus
    split
    · exact sameButStatus.of_self _
    · exact updateStatus_sameButStatus _ _ _ _ _ _
  have m3 : ∀ (o : HookOut) (r : deckhouseRelease),
      Extends (fun op => isDeployOp op = false) o (patchManualRelease o du r).1
      ∧ sameButCount du (patchManualRelease o du r).2.1
      ∧ sameButStatus r (patchManualRelease o du r).2.2
      ∧ manualLaw du.inManualMode (patchManualRelease o du r).2.2 := by
    intro o r
    unfold patchManualRelease
    dsimp only
    split_ifs with h1 h2 h3 h4
    · exact ⟨Extends.none_added _ _, ⟨du.totalPendingManualReleases, rfl⟩, sameButStatus.of_self _,
        fun h => absurd h h1⟩
    · refine ⟨Extends.patch _ _ ?_, ⟨_, rfl⟩, ⟨_, rfl⟩, fun _ _ _ => rfl⟩
      simp only [isDeployOp, not_not.mp h1]
      rfl
    · refine ⟨Extends.none_added _ _, ⟨_, rfl⟩, sameButStatus.of_self _, fun _ _ _ => ?_⟩
      simpa using h3
    · refine ⟨Extends.none_added _ _, ⟨du.totalPendingManualReleases, rfl⟩, sameButStatus.of_self _, ?_⟩
      intro _ hm hna
      have hna1 : r.ManuallyApproved = false := hna
      exact absurd ⟨hm, by simp [hna1]⟩ h2
    · refine ⟨Extends.patch _ _ ?_, ⟨du.totalPendingManualReleases, rfl⟩, ⟨_, rfl⟩, ?_⟩
      · simp only [isDeployOp, not_not.mp h1]
        rfl
      · intro _ hm hna
        have hna1 : r.ManuallyApproved = false := hna
        exact absurd ⟨hm, by simp [hna1]⟩ h2
  unfold prepareRelease
  obtain ⟨m1, m2, m3a, m4⟩ := m3 (patchSuspendedStatus env (patchInitialStatus env out rl).1
    (patchInitialStatus env out rl).2).1 (patchSuspendedStatus env (patchInitialStatus env out rl).1
    (patchInitialStatus env out rl).2).2
  exact ⟨(e1.append (e2 _ _)).append m1, m2, (s1.comp (s2 _ _)).comp m3a, m4⟩

theorem sameButCount.of_same_count (a : deckhouseUpdater) : sameButCount a a :=
  ⟨a.totalPendingManualReleases, rfl⟩

theorem sameButCount.comp_count {a b c : deckhouseUpdater} (h1 : sameButCount a b)
    (h2 : sameButCount b c) : sameButCount a c := by
  obtain ⟨n1, e1⟩ := h1
  obtain ⟨n2, e2⟩ := h2
  exact ⟨n2, by rw [e2, e1]⟩

/-- The loop of `FetchAndPrepareReleases`: it emits no deploying patch, changes the
updater in its counter only, and appends to `acc` one normalized release per
snapshot entry, in snapshot order. -/
theorem prepareLoop_spec (env : Env) :
    ∀ (snap : List deckhouseRelease) (out : HookOut) (du : deckhouseUpdater)
      (acc : List deckhouseRelease),
      Extends (fun op => isDeployOp op = false) out (prepareLoop env snap out du acc).1
      ∧ sameButCount du (prepareLoop env snap out du acc).2.1
      ∧ ∃ l, (prepareLoop env snap out du acc).2.2 = acc ++ l
          ∧ List.Forall₂ sameButStatus snap l
          ∧ ∀ r ∈ l, manualLaw du.inManualMode r := by
  intro snap
  induction snap with
  | nil =>
    intro out du acc
    exact ⟨Extends.none_added _ _, sameButCount.of_same_count _, [], by simp [prepareLoop], List.Forall₂.nil,
      by simp⟩
  | cons rl snap ih =>
    intro out du acc
    obtain ⟨h1, h2, h3, h4⟩ := prepareRelease_spec env out du rl
    obtain ⟨i1, i2, l, i3, i4, i5⟩ := ih (prepareRelease env out du rl).1
      (prepareRelease env out du rl).2.1 (acc ++ [(prepareRelease env out du rl).2.2])
    have hmode : (prepareRelease env out du rl).2.1.inManualMode = du.inManualMode := by
      obtain ⟨n, hn⟩ := h2
      rw [hn]
    refine ⟨h1.append i1, h2.comp_count i2, (prepareRelease env out du rl).2.2 :: l, ?_,
      List.Forall₂.cons h3 i4, ?_⟩
    · show (prepareLoop env snap _ _ _).2.2 = _
      rw [i3]
      simp
    · intro r hr
      rcases List.mem_cons.mp hr with h | h
      · rw [h]
        exact h4
      · have := i5 r h
        rw [hmode] at this
        exact this

theorem insertByVersion_perm (env : Env) (r : deckhouseRelease) :
    ∀ xs : List deckhouseRelease, (insertByVersion env r xs).Perm (r :: xs) := by
  intro xs
  induction xs with
  | nil => exact List.Perm.refl _
  | cons x xs ih =>
    unfold insertByVersion
    split
    · exact (List.Perm.cons x ih).trans (List.Perm.swap r x xs)
    · exact List.Perm.refl _

/-- Sorting by version rearranges the releases and does nothing else. -/
theorem sortByVersion_perm (env : Env) :
    ∀ xs : List deckhouseRelease, (sortByVersion env xs).Perm xs := by
  intro xs
  induction xs with
  | nil => exact List.Perm.refl _
  | cons x xs ih =>
    unfold sortByVersion
    exact (insertByVersion_perm env x _).trans (List.Perm.cons x ih)

/-- The method `FetchAndPrepareReleases` on an updater without releases: it emits no
deploying patch, changes the updater in its counter and its releases only, and the
releases are a rearrangement of the normalized snapshot entries. -/
theorem FetchAndPrepareReleases_spec (env : Env) (input : HookInput) (out : HookOut)
    (du : deckhouseUpdater) (hrel : du.releases = []) :
    Extends (fun op => isDeployOp op = false) out (FetchAndPrepareReleases env input out du).1
    ∧ (∃ n, (FetchAndPrepareReleases env input out du).2
        = { du with
            totalPendingManualReleases := n
            releases := (FetchAndPrepareReleases env input out du).2.releases })
    ∧ ∃ l, List.Forall₂ sameButStatus input.releases l
        ∧ (FetchAndPrepareReleases env input out du).2.releases.Perm l
        ∧ ∀ r ∈ l, manualLaw du.inManualMode r := by
  unfold FetchAndPrepareReleases
  dsimp only
  split_ifs with hlen
  · refine ⟨Extends.none_added _ _, ⟨du.totalPendingManualReleases, rfl⟩, [], ?_, by simp [hrel],
      by simp⟩
    rw [List.length_eq_zero.mp hlen]
    exact List.Forall₂.nil
  · obtain ⟨h1, ⟨n, h2⟩, l, h3, h4, h5⟩ := prepareLoop_spec env input.releases out du []
    refine ⟨h1, ⟨n, ?_⟩, l, h4, ?_, h5⟩
    · rw [h2]
    · show (sortByVersion env _).Perm l
      rw [h3]
      simpa using sortByVersion_perm env l

/-- The updater after `FetchAndPrepareReleases` in `updateDeckhouse`: no deploying
patch has been emitted, the updater is as `newDeckhouseUpdater` made it but for the
counter and the releases, and the releases are a rearrangement of the normalized
snapshot entries. -/
theorem prepareUpdater_spec (env : Env) (input : HookInput) (pod : deckhousePodInfo) :
    (∀ op ∈ (prepareUpdater env input pod).1.patches, isDeployOp op = false)
    ∧ (∃ n, (prepareUpdater env input pod).2
        = { newDeckhouseUpdater env.now input.updateMode pod.Ready (isBootstrapImage env pod) with
            totalPendingManualReleases := n
            releases := (prepareUpdater env input pod).2.releases })
    ∧ ∃ l, List.Forall₂ sameButStatus input.releases l
        ∧ (prepareUpdater env input pod).2.releases.Perm l
        ∧ ∀ r ∈ l, manualLaw (input.updateMode == "Manual") r := by
  have hout : ∀ op ∈ (if pod.Ready = true then
        (if isUpdatingCMExists input = true then
          deleteUpdatingCM ((HookOut.init.metric (MetricOp.expire metricReleasesGroup)).metric
            (MetricOp.expire metricUpdatingGroup))
        else (HookOut.init.metric (MetricOp.expire metricReleasesGroup)).metric
            (MetricOp.expire metricUpdatingGroup))
      else if isUpdatingCMExists input = true then
        (HookOut.init.metric (MetricOp.expire metricReleasesGroup)).metric
          (MetricOp.set "d8_is_updating" 1 [] (some metricUpdatingGroup))
      else HookOut.init.metric (MetricOp.expire metricReleasesGroup)).patches,
      isDeployOp op = false := by
    split_ifs <;> simp [HookOut.init, HookOut.metric, deleteUpdatingCM, HookOut.patch, isDeployOp]
  obtain ⟨h1, h2, h3⟩ := FetchAndPrepareReleases_spec env input _
    (newDeckhouseUpdater env.now input.updateMode pod.Ready (isBootstrapImage env pod)) rfl
  exact ⟨h1.forall hout, h2, h3⟩

/-! ## The predictor on the prepared updater -/

theorem sameButIndices.of_same_indices (a : deckhouseUpdater) : sameButIndices a a := by
  unfold sameButIndices
  rfl

theorem sameButIndices.comp_indices {a b c : deckhouseUpdater} (h1 : sameButIndices a b)
    (h2 : sameButIndices b c) : sameButIndices a c := by
  unfold sameButIndices at *
  rw [h2, h1]

theorem processPendingRelease_frame {du du1 : deckhouseUpdater} {i : Int} {r : deckhouseRelease}
    (h : processPendingRelease du i r = some du1) : sameButIndices du du1 := by
  unfold processPendingRelease at h
  split_ifs at h with h1
  · split at h
    · cases h
    · split_ifs at h
      · cases h
        exact sameButIndices.of_same_indices _
      · cases h
        exact sameButIndices.of_same_indices _
      · cases h
        rfl
  · cases h
    rfl

theorem predictStep_frame {du du1 : deckhouseUpdater} {i : Int} {r : deckhouseRelease}
    (h : predictStep du i r = some du1) : sameButIndices du du1 := by
  unfold predictStep at h
  dsimp only at h
  split at h
  · cases h
  · rename_i du0 h0
    have hf : sameButIndices du du0 := by
      split at h0
      · cases h0
        exact sameButIndices.of_same_indices _
      · cases h0
        exact sameButIndices.of_same_indices _
      · exact processPendingRelease_frame h0
      · cases h0
        rfl
      · cases h0
        exact sameButIndices.of_same_indices _
    split_ifs at h
    · cases h
      exact hf.comp_indices rfl
    · cases h
      exact hf

theorem predictLoop_frame :
    ∀ (suf : List deckhouseRelease) (n : Nat) (du du1 : deckhouseUpdater),
      predictLoop n suf du = some du1 → sameButIndices du du1 := by
  intro suf
  induction suf with
  | nil =>
    intro n du du1 h
    cases h
    exact sameButIndices.of_same_indices _
  | cons r rest ih =>
    intro n du du1 h
    unfold predictLoop at h
    split at h
    · cases h
    · rename_i du0 h0
      exact (predictStep_frame h0).comp_indices (ih _ _ _ h)

/-- The loop invariant at the end of the list gives valid indices. -/
theorem PredictInv.valid {du : deckhouseUpdater} (h : PredictInv du.releases du.releases.length du) :
    ValidIndices du := by
  refine ⟨?_, ?_, ?_, ?_⟩
  · rcases h.predicted with ⟨hp, _⟩ | ⟨p, f, rp, rf, hp, _, _, hrp, _, hpp, _⟩
    · exact Or.inl hp
    · exact Or.inr ⟨p, rp, hp, hrp, hpp⟩
  · rcases h.deployed with ⟨hi, _⟩ | ⟨k, rk, hi, _, hrk, hPk, _⟩
    · exact Or.inl hi
    · exact Or.inr ⟨k, rk, hi, hrk, hPk⟩
  · rcases h.forced with ⟨hi, _⟩ | ⟨k, rk, hi, _, hrk, hPk, _⟩
    · exact Or.inl hi
    · exact Or.inr ⟨k, rk, hi, hrk, hPk⟩
  · intro z hz
    rcases h.predicted with ⟨_, hs, _⟩ | ⟨p, f, rp, rf, _, hpn, _, _, _, _, _, _, _, _, _, hmem⟩
    · rw [hs] at hz
      cases hz
    · obtain ⟨k, _, hk, hkp, _⟩ := (hmem z).mp hz
      exact ⟨k, hk, by omega⟩

/-- On an updater whose indices are still unset `PredictNextRelease` returns; the
result satisfies the loop invariant for the whole list, has valid indices, and
differs from the argument in the indices only. -/
theorem PredictNextRelease_total (du : deckhouseUpdater) (h1 : du.predictedReleaseIndex = -1)
    (h2 : du.skippedPatchesIndexes = []) (h3 : du.currentDeployedReleaseIndex = -1)
    (h4 : du.forcedReleaseIndex = -1) :
    ∃ du1, PredictNextRelease du = some du1 ∧ PredictInv du.releases du.releases.length du1
      ∧ sameButIndices du du1 ∧ du1.releases = du.releases ∧ ValidIndices du1 := by
  have hinit : PredictInv du.releases 0 du := by
    refine ⟨rfl, ?_, ?_, Or.inl ⟨h1, h2, ?_⟩⟩
    · rw [h4]
      exact LastIdx.zero _ _
    · rw [h3]
      exact LastIdx.zero _ _
    · intro j r hj
      omega
  obtain ⟨du1, hrun, hinv⟩ := predictLoop_inv du.releases du.releases 0 du rfl hinit
  have hrel : du1.releases = du.releases := hinv.releases_eq
  refine ⟨du1, hrun, hinv, predictLoop_frame _ _ _ _ hrun, hrel, ?_⟩
  apply PredictInv.valid
  rw [hrel]
  exact hinv

/-! ## The gates and the deployer -/

/-- The requirement check writes at most one status patch, to phase `Pending` for the
release it checks, and changes that release in its status only. -/
theorem checkRequirementsLoop_spec (env : Env) (out : HookOut) (rl : deckhouseRelease) :
    ∀ reqs : List (String × String),
      Extends (fun op => ∃ st, op = PatchOp.mergeStatus rl.Name st ∧ st.Phase = Phase.pending)
        out (checkRequirementsLoop env out rl reqs).1
      ∧ sameButStatus rl (checkRequirementsLoop env out rl reqs).2.1 := by
  intro reqs
  induction reqs with
  | nil => exact ⟨Extends.none_added _ _, sameButStatus.of_self _⟩
  | cons kv rest ih =>
    obtain ⟨key, value⟩ := kv
    unfold checkRequirementsLoop
    dsimp only
    split_ifs with h1 h2
    · exact ih
    · exact ⟨(updateStatus_spec env out rl _ Phase.pending [false]).1.mono
        (fun op ⟨st, h, hp, _⟩ => ⟨st, h, hp⟩), updateStatus_sameButStatus _ _ _ _ _ _⟩
    · exact ⟨(updateStatus_spec env out rl _ Phase.pending [false]).1.mono
        (fun op ⟨st, h, hp, _⟩ => ⟨st, h, hp⟩), updateStatus_sameButStatus _ _ _ _ _ _⟩

/-- The disruption check writes at most one status patch, to phase `Pending` for the
release it checks, and changes that release in its status only. -/
theorem checkReleaseDisruptions_spec (env : Env) (input : HookInput) (out : HookOut)
    (rl : deckhouseRelease) :
    Extends (fun op => ∃ st, op = PatchOp.mergeStatus rl.Name st ∧ st.Phase = Phase.pending)
      out (checkReleaseDisruptions env input out rl).1
    ∧ sameButStatus rl (checkReleaseDisruptions env input out rl).2.1 := by
  have hloop : ∀ keys : List String,
      Extends (fun op => ∃ st, op = PatchOp.mergeStatus rl.Name st ∧ st.Phase = Phase.pending)
        out (checkDisruptionsLoop env out rl keys).1
      ∧ sameButStatus rl (checkDisruptionsLoop env out rl keys).2.1 := by
    intro keys
    induction keys with
    | nil => exact ⟨Extends.none_added _ _, sameButStatus.of_self _⟩
    | cons key rest ih =>
      unfold checkDisruptionsLoop
      dsimp only
      split_ifs with h1
      · exact ⟨(updateStatus_spec env out rl _ Phase.pending []).1.mono
          (fun op ⟨st, h, hp, _⟩ => ⟨st, h, hp⟩), updateStatus_sameButStatus _ _ _ _ _ _⟩
      · exact ih
  unfold checkReleaseDisruptions
  split
  · exact ⟨Extends.none_added _ _, sameButStatus.of_self _⟩
  · split_ifs
    · exact ⟨Extends.none_added _ _, sameButStatus.of_self _⟩
    · exact hloop _

/-- The loop over the skipped patches does not panic when every skipped index is a
position of the slice, and writes status patches to phase `Outdated` only. -/
theorem skippedLoop_spec (env : Env) (releases : List deckhouseRelease) :
    ∀ (idxs : List Int) (out : HookOut),
      (∀ z ∈ idxs, ∃ k : Nat, z = (k : Int) ∧ k < releases.length) →
      ∃ out1, skippedLoop env releases idxs out = some out1
        ∧ Extends (fun op => ∃ n st, op = PatchOp.mergeStatus n st ∧ st.Phase = Phase.outdated)
            out out1 := by
  intro idxs
  induction idxs with
  | nil =>
    intro out _
    exact ⟨out, rfl, Extends.none_added _ _⟩
  | cons z rest ih =>
    intro out hv
    obtain ⟨k, hk, hlt⟩ := hv z (List.mem_cons_self _ _)
    have hs : sliceAt releases z = some (releases[k]) := by
      rw [hk, sliceAt_natCast]
      exact List.getElem?_eq_getElem hlt
    obtain ⟨out1, h1, h2⟩ := ih
      (updateStatus env out releases[k] "Skipped because of new patches" Phase.outdated [true]).1
      (fun z1 hz1 => hv z1 (List.mem_cons_of_mem _ hz1))
    refine ⟨out1, ?_, Extends.append ?_ h2⟩
    · simp only [skippedLoop, hs]
      exact h1
    · exact (updateStatus_spec env out releases[k] _ Phase.outdated [true]).1.mono
        (fun op ⟨st, h, hp, _⟩ => ⟨_, st, h, hp⟩)

/-- What `runReleaseDeploy` does for a predicted release at a valid position, a
current release that is nil or at a valid position, and valid skipped indices: no
panic; the marker and the image patch for the predicted release are emitted, followed
by status patches only, of which only one to the predicted release can say
`Deployed`; the updater keeps its fields except the statuses in the slice. -/
theorem runReleaseDeploy_spec (env : Env) (input : HookInput) (out : HookOut)
    (du : deckhouseUpdater) (p : Nat) (cur : Option Nat) (rp : deckhouseRelease)
    (hrp : du.releases[p]? = some rp) (hcur : ∀ c, cur = some c → c < du.releases.length)
    (hsk : ∀ z ∈ du.skippedPatchesIndexes, ∃ k : Nat, z = (k : Int) ∧ k < du.releases.length) :
    ∃ out1 du1, runReleaseDeploy env input out du p cur = some (out1, du1)
      ∧ Extends (fun op => ∃ n st, op = PatchOp.mergeStatus n st
            ∧ (st.Phase = Phase.deployed → n = rp.Name))
          ((createUpdatingCM out (env.versionString rp.Version)).patch
            (PatchOp.setDeploymentImage (input.registry ++ ":" ++ rp.Version.original))) out1
      ∧ du1.forcedReleaseIndex = du.forcedReleaseIndex
      ∧ du1.releases.length = du.releases.length := by
  obtain ⟨out3, du3, h3, e3, _, hdu3⟩ := updateStatusAt_spec env
    ((createUpdatingCM out (env.versionString rp.Version)).patch
      (PatchOp.setDeploymentImage (input.registry ++ ":" ++ rp.Version.original)))
    du p "" Phase.deployed [true] rp hrp
  have hlen3 : du3.releases.length = du.releases.length := by
    rw [hdu3]
    simp
  have hafter : ∃ out4 du4,
      (match cur with
        | some c => updateStatusAt env out3 du3 c "Last Deployed release outdated" Phase.outdated []
        | none => some (out3, du3)) = some (out4, du4)
      ∧ Extends (fun op => ∃ n st, op = PatchOp.mergeStatus n st
            ∧ (st.Phase = Phase.deployed → n = rp.Name)) out3 out4
      ∧ du4.forcedReleaseIndex = du3.forcedReleaseIndex
      ∧ du4.skippedPatchesIndexes = du3.skippedPatchesIndexes
      ∧ du4.releases.length = du3.releases.length := by
    cases cur with
    | none => exact ⟨out3, du3, rfl, Extends.none_added _ _, rfl, rfl, rfl⟩
    | some c =>
      have hc : c < du3.releases.length := by
        rw [hlen3]
        exact hcur c rfl
      obtain ⟨out4, du4, h4, e4, _, hdu4⟩ := updateStatusAt_spec env out3 du3 c
        "Last Deployed release outdated" Phase.outdated [] _ (List.getElem?_eq_getElem hc)
      refine ⟨out4, du4, h4, e4.mono ?_, by rw [hdu4], by rw [hdu4], by rw [hdu4]; simp⟩
      rintro op ⟨st, hop, hph, _⟩
      refine ⟨_, st, hop, fun hd => ?_⟩
      rw [hph] at hd
      cases hd
  obtain ⟨out4, du4, h4, e4, hf4, hs4, hlen4⟩ := hafter
  obtain ⟨out5, h5, e5⟩ := skippedLoop_spec env du4.releases du4.skippedPatchesIndexes out4 (by
    intro z hz
    rw [hs4, hdu3] at hz
    obtain ⟨k, hk, hlt⟩ := hsk z hz
    exact ⟨k, hk, by rw [hlen4, hlen3]; exact hlt⟩)
  refine ⟨out5, du4, ?_, ?_, by rw [hf4, hdu3], by rw [hlen4, hlen3]⟩
  · simp only [runReleaseDeploy, hrp, h3, h4, h5]
  · refine (e3.mono ?_).append (e4.append (e5.mono ?_))
    · rintro op ⟨st, hop, _, _⟩
      exact ⟨_, st, hop, fun _ => rfl⟩
    · rintro op ⟨n, st, hop, hph⟩
      refine ⟨n, st, hop, fun hd => ?_⟩
      rw [hph] at hd
      cases hd

theorem sameButStatus.name {a b : deckhouseRelease} (h : sameButStatus a b) : b.Name = a.Name := by
  obtain ⟨st, e⟩ := h
  rw [e]

/-- The gates of `ApplyPredictedRelease` from the canary check on, for a predicted
release at a valid position: no panic, and either nothing deploying is emitted, or
the canary time has passed, the release is approved or a patch, and the only status
patch that can say `Deployed` is one for the predicted release. -/
theorem applyPredictedGates_spec (env : Env) (input : HookInput) (out : HookOut)
    (du : deckhouseUpdater) (p : Nat) (rp : deckhouseRelease) (cur : Option Nat) (isPatch : Bool)
    (hp : du.predictedReleaseIndex = (p : Int)) (hrp : du.releases[p]? = some rp)
    (hcur : ∀ c, cur = some c → c < du.releases.length)
    (hsk : ∀ z ∈ du.skippedPatchesIndexes, ∃ k : Nat, z = (k : Int) ∧ k < du.releases.length) :
    ∃ out1 du1, applyPredictedGates env input out du rp cur isPatch = some (out1, du1)
      ∧ (Extends (fun op => isDeployOp op = false) out out1
        ∨ ((∀ t, rp.ApplyAfter = some t → ¬ du.now < t)
          ∧ (rp.Status.Approved = true ∨ isPatch = true)
          ∧ Extends (fun op => ∀ n st, op = PatchOp.mergeStatus n st →
              st.Phase = Phase.deployed → n = rp.Name) out out1)) := by
  have hnat : du.predictedReleaseIndex.toNat = p := by
    rw [hp]
    rfl
  have hplt : p < du.releases.length := (List.getElem?_eq_some_iff.mp hrp).1
  have pendingNoDeploy : ∀ (name : String) (op : PatchOp),
      (∃ st, op = PatchOp.mergeStatus name st ∧ st.Phase = Phase.pending) →
      isDeployOp op = false := by
    rintro name op ⟨st, rfl, hst⟩
    simp [isDeployOp, hst]
  unfold applyPredictedGates
  dsimp only
  rw [hnat]
  split
  · rename_i t hcb
    obtain ⟨out1, du1, h1, e1, _, _⟩ := updateStatusAt_spec env out du p
      ("Waiting for canary apply time: " ++ env.formatRFC822 t) Phase.pending [] rp hrp
    exact ⟨out1, du1, h1, Or.inl (e1.mono (fun op ⟨st, h, hph, _⟩ =>
      pendingNoDeploy rp.Name op ⟨st, h, hph⟩))⟩
  · rename_i hcb
    have hcanary : ∀ t, rp.ApplyAfter = some t → ¬ du.now < t := by
      intro t ht hlt
      rw [ht] at hcb
      simp [hlt] at hcb
    split_ifs with happ hreq hdis
    · obtain ⟨out1, du1, h1, e1, _, _⟩ := updateStatusAt_spec env
        (out.metric (MetricOp.set "d8_release_waiting_manual" du.totalPendingManualReleases
          [("name", rp.Name)] (some metricReleasesGroup)))
        du p "Waiting for manual approval" Phase.pending [] rp hrp
      exact ⟨out1, du1, h1, Or.inl ((Extends.metric _ _ _).append (e1.mono (fun op ⟨st, h, hph, _⟩ =>
        pendingNoDeploy rp.Name op ⟨st, h, hph⟩)))⟩
    · have hreqE := checkRequirementsLoop_spec env out rp rp.Requirements
      have hdisE := checkReleaseDisruptions_spec env input
        (checkReleaseRequirements env out rp).1 (checkReleaseRequirements env out rp).2.1
      have hname1 : (checkReleaseRequirements env out rp).2.1.Name = rp.Name := hreqE.2.name
      have hname2 : (checkReleaseDisruptions env input (checkReleaseRequirements env out rp).1
          (checkReleaseRequirements env out rp).2.1).2.1.Name = rp.Name :=
        hdisE.2.name.trans hname1
      obtain ⟨out1, du1, h1, e1, _, _⟩ := runReleaseDeploy_spec env input
        (checkReleaseDisruptions env input (checkReleaseRequirements env out rp).1
          (checkReleaseRequirements env out rp).2.1).1
        { du with releases := ((du.releases.set p (checkReleaseRequirements env out rp).2.1).set p
            (checkReleaseDisruptions env input (checkReleaseRequirements env out rp).1
              (checkReleaseRequirements env out rp).2.1).2.1) }
        p cur (checkReleaseDisruptions env input (checkReleaseRequirements env out rp).1
          (checkReleaseRequirements env out rp).2.1).2.1
        (by simp [hplt]) (by simpa using hcur) (by simpa using hsk)
      refine ⟨out1, du1, h1, Or.inr ⟨hcanary, ?_, ?_⟩⟩
      · by_cases ha : rp.Status.Approved = true
        · exact Or.inl ha
        · by_cases hi : isPatch = true
          · exact Or.inr hi
          · exact absurd ⟨ha, hi⟩ happ
      · have step1 : Extends (fun op => ∀ n st, op = PatchOp.mergeStatus n st →
            st.Phase = Phase.deployed → n = rp.Name) out
            (checkReleaseDisruptions env input (checkReleaseRequirements env out rp).1
              (checkReleaseRequirements env out rp).2.1).1 := by
          refine (hreqE.1.mono ?_).append (hdisE.1.mono ?_)
          · rintro op ⟨st, rfl, hph⟩ n st1 heq hd
            cases heq
            exact absurd (hph.symm.trans hd) (by decide)
          · rintro op ⟨st, rfl, hph⟩ n st1 heq hd
            cases heq
            exact absurd (hph.symm.trans hd) (by decide)
        refine step1.append (Extends.append ?_ (e1.mono ?_))
        · refine (Extends.patch _ _ ?_).append (Extends.patch _ _ ?_)
          · intro n st heq
            cases heq
          · intro n st heq
            cases heq
        · rintro op ⟨n, st, rfl, hn⟩ n1 st1 heq hd
          cases heq
          rw [← hname2]
          exact hn hd
    · refine ⟨_, _, rfl, Or.inl ?_⟩
      refine (((checkRequirementsLoop_spec env out rp rp.Requirements).1.mono
        (pendingNoDeploy rp.Name)).append ?_).append (Extends.metric _ _ _)
      exact (checkReleaseDisruptions_spec env input _ _).1.mono (pendingNoDeploy _)
    · refine ⟨_, _, rfl, Or.inl ?_⟩
      exact ((checkRequirementsLoop_spec env out rp rp.Requirements).1.mono
        (pendingNoDeploy rp.Name)).append (Extends.metric _ _ _)

theorem currentReleasePtr_spec {du : deckhouseUpdater} (hv : ValidIndices du) :
    ∃ cur, currentReleasePtr du = some cur ∧ ∀ c, cur = some c → c < du.releases.length := by
  rcases hv.deployed with h | ⟨c, rc, hc, hrc, _⟩
  · refine ⟨none, by simp [currentReleasePtr, h], ?_⟩
    intro c hc
    cases hc
  · have hne : du.currentDeployedReleaseIndex ≠ -1 := by omega
    have hs : sliceAt du.releases du.currentDeployedReleaseIndex = some rc := by
      rw [hc, sliceAt_natCast]
      exact hrc
    refine ⟨some c, ?_, ?_⟩
    · simp only [currentReleasePtr, hne, ne_eq, not_false_eq_true, if_true, hs]
      rw [hc]
      rfl
    · intro c1 hc1
      cases hc1
      exact (List.getElem?_eq_some_iff.mp hrc).1

theorem PredictedReleaseIsPatch_total {du : deckhouseUpdater} (hv : ValidIndices du) :
    ∃ b, PredictedReleaseIsPatch du = some b := by
  unfold PredictedReleaseIsPatch
  split_ifs with h1 h2
  · exact ⟨false, rfl⟩
  · exact ⟨false, rfl⟩
  · rcases hv.deployed with h | ⟨c, rc, hc, hrc, _⟩
    · exact absurd h h1
    · rcases hv.predicted with h | ⟨p, rp, hp, hrp, _⟩
      · exact absurd h h2
      · have hs1 : sliceAt du.releases du.currentDeployedReleaseIndex = some rc := by
          rw [hc, sliceAt_natCast]
          exact hrc
        have hs2 : sliceAt du.releases du.predictedReleaseIndex = some rp := by
          rw [hp, sliceAt_natCast]
          exact hrp
        rw [hs1, hs2]
        dsimp only
        split_ifs
        · exact ⟨false, rfl⟩
        · exact ⟨false, rfl⟩
        · exact ⟨true, rfl⟩

/-- What `ApplyPredictedRelease` does on an updater with valid indices and a predicted
release: no panic, and either nothing deploying is emitted, or the conditions of a
deploy hold (the bootstrap bypass applies; or the canary time has passed, the release
is approved or a patch, and for a release that is not a patch the pod is ready and
the cooldown has passed) and the only status patch that can say `Deployed` is one
for the predicted release. -/
theorem ApplyPredictedRelease_spec (env : Env) (input : HookInput) (out : HookOut)
    (du : deckhouseUpdater) (hv : ValidIndices du) (p : Nat) (rp : deckhouseRelease)
    (hp : du.predictedReleaseIndex = (p : Int)) (hrp : du.releases[p]? = some rp) :
    ∃ out1 du1, ApplyPredictedRelease env input out du = some (out1, du1)
      ∧ (Extends (fun op => isDeployOp op = false) out out1
        ∨ (((du.deckhouseIsBootstrapping = true ∧ du.releases.length = 1)
            ∨ ((∀ t, rp.ApplyAfter = some t → ¬ du.now < t)
              ∧ (rp.Status.Approved = true ∨ PredictedReleaseIsPatch du = some true)
              ∧ (PredictedReleaseIsPatch du = some false → du.deckhousePodIsReady = true
                  ∧ ∀ t, rp.CooldownUntil = some t → ¬ du.now < t)))
          ∧ Extends (fun op => ∀ n st, op = PatchOp.mergeStatus n st →
              st.Phase = Phase.deployed → n = rp.Name) out out1)) := by
  have hne : ¬ du.predictedReleaseIndex = -1 := by omega
  have hs : sliceAt du.releases du.predictedReleaseIndex = some rp := by
    rw [hp, sliceAt_natCast]
    exact hrp
  have hnat : du.predictedReleaseIndex.toNat = p := by
    rw [hp]
    rfl
  obtain ⟨cur, hcur, hcurv⟩ := currentReleasePtr_spec hv
  obtain ⟨b, hb⟩ := PredictedReleaseIsPatch_total hv
  have pendingNoDeploy : ∀ (op : PatchOp) (msg : String),
      (∃ st, op = PatchOp.mergeStatus rp.Name st ∧ st.Phase = Phase.pending ∧ st.Message = msg) →
      isDeployOp op = false := by
    rintro op msg ⟨st, rfl, hst, _⟩
    simp [isDeployOp, hst]
  unfold ApplyPredictedRelease
  rw [if_neg hne, hs]
  dsimp only
  rw [hcur, hnat]
  dsimp only
  by_cases hboot : du.deckhouseIsBootstrapping = true ∧ du.releases.length = 1
  · rw [if_pos hboot]
    obtain ⟨out1, du1, h1, e1, _, _⟩ := runReleaseDeploy_spec env input out du p cur rp hrp hcurv
      hv.skipped
    refine ⟨out1, du1, h1, Or.inr ⟨Or.inl hboot, ?_⟩⟩
    refine Extends.append ?_ (e1.mono ?_)
    · refine (Extends.patch _ _ ?_).append (Extends.patch _ _ ?_)
      · intro n st heq
        cases heq
      · intro n st heq
        cases heq
    · rintro op ⟨n, st, rfl, hn⟩ n1 st1 heq hd
      cases heq
      exact hn hd
  · rw [if_neg hboot, hb]
    dsimp only
    have hgates : ∀ (hcool : b = false → du.deckhousePodIsReady = true
          ∧ ∀ t, rp.CooldownUntil = some t → ¬ du.now < t),
        ∃ out1 du1, applyPredictedGates env input out du rp cur b = some (out1, du1)
          ∧ (Extends (fun op => isDeployOp op = false) out out1
            ∨ (((du.deckhouseIsBootstrapping = true ∧ du.releases.length = 1)
                ∨ ((∀ t, rp.ApplyAfter = some t → ¬ du.now < t)
                  ∧ (rp.Status.Approved = true ∨ some b = some true)
                  ∧ (some b = some false → du.deckhousePodIsReady = true
                      ∧ ∀ t, rp.CooldownUntil = some t → ¬ du.now < t)))
              ∧ Extends (fun op => ∀ n st, op = PatchOp.mergeStatus n st →
                  st.Phase = Phase.deployed → n = rp.Name) out out1)) := by
      intro hcool
      obtain ⟨out1, du1, h1, h2⟩ := applyPredictedGates_spec env input out du p rp cur b hp hrp
        hcurv hv.skipped
      refine ⟨out1, du1, h1, ?_⟩
      rcases h2 with h2 | ⟨c1, c2, c3⟩
      · exact Or.inl h2
      · refine Or.inr ⟨Or.inr ⟨c1, ?_, ?_⟩, c3⟩
        · rcases c2 with c2 | c2
          · exact Or.inl c2
          · exact Or.inr (by rw [c2])
        · intro hbf
          exact hcool (Option.some.inj hbf)
    cases b with
    | true =>
      rw [if_neg (by simp)]
      exact hgates (fun h => by cases h)
    | false =>
      rw [if_pos (by simp)]
      split
      · rename_i t hcb
        obtain ⟨out1, du1, h1, e1, _, _⟩ := updateStatusAt_spec env out du p
          ("Release is in cooldown until: " ++ env.formatRFC822 t) Phase.pending [] rp hrp
        exact ⟨out1, du1, h1, Or.inl (e1.mono (fun op h => pendingNoDeploy op _ h))⟩
      · rename_i hcb
        have hcool : ∀ t, rp.CooldownUntil = some t → ¬ du.now < t := by
          intro t ht hlt
          rw [ht] at hcb
          simp [hlt] at hcb
        by_cases hready : du.deckhousePodIsReady = true
        · rw [if_neg (not_not.mpr hready)]
          exact hgates (fun _ => ⟨hready, hcool⟩)
        · rw [if_pos hready]
          obtain ⟨out1, du1, h1, e1, _, _⟩ := updateStatusAt_spec env out du p
            "Waiting for Deckhouse pod to be ready" Phase.pending [] rp hrp
          exact ⟨out1, du1, h1, Or.inl (e1.mono (fun op h => pendingNoDeploy op _ h))⟩

/-! ## The pass -/

theorem forall₂_mem_left {R : deckhouseRelease → deckhouseRelease → Prop}
    {l1 l2 : List deckhouseRelease} (h : List.Forall₂ R l1 l2) {a : deckhouseRelease}
    (ha : a ∈ l1) : ∃ b ∈ l2, R a b := by
  induction h with
  | nil => cases ha
  | cons hab _ ih =>
    rcases List.mem_cons.mp ha with h1 | h1
    · subst h1
      exact ⟨_, List.mem_cons_self _ _, hab⟩
    · obtain ⟨b, hb, hr⟩ := ih h1
      exact ⟨b, List.mem_cons_of_mem _ hb, hr⟩

/-- The updater that `updateDeckhouse` hands to its decision part: the result of
`PredictNextRelease` on the prepared updater has valid indices, satisfies the loop
invariant, carries the clock, the mode and the pod flags of the pass, and holds a
rearrangement of the normalized snapshot. -/
theorem passUpdater_spec (env : Env) (input : HookInput) (pod : deckhousePodInfo)
    (du : deckhouseUpdater)
    (hpred : PredictNextRelease (prepareUpdater env input pod).2 = some du) :
    ValidIndices du ∧ PredictInv du.releases du.releases.length du
      ∧ du.now = env.now ∧ du.inManualMode = (input.updateMode == "Manual")
      ∧ du.deckhousePodIsReady = pod.Ready
      ∧ du.deckhouseIsBootstrapping = isBootstrapImage env pod
      ∧ du.releases = (prepareUpdater env input pod).2.releases
      ∧ du.releases.length = input.releases.length
      ∧ ∃ l, List.Forall₂ sameButStatus input.releases l ∧ du.releases.Perm l
          ∧ ∀ r ∈ l, manualLaw (input.updateMode == "Manual") r := by
  obtain ⟨_, ⟨n, hfresh⟩, l, hl1, hl2, hl3⟩ := prepareUpdater_spec env input pod
  obtain ⟨du1, h1, hinv, hframe, hrel, hvalid⟩ := PredictNextRelease_total
    (prepareUpdater env input pod).2 (by rw [hfresh]; rfl) (by rw [hfresh]; rfl)
    (by rw [hfresh]; rfl) (by rw [hfresh]; rfl)
  rw [hpred] at h1
  cases h1
  have hfields : du.now = env.now ∧ du.inManualMode = (input.updateMode == "Manual")
      ∧ du.deckhousePodIsReady = pod.Ready
      ∧ du.deckhouseIsBootstrapping = isBootstrapImage env pod := by
    unfold sameButIndices at hframe
    rw [hframe, hfresh]
    exact ⟨rfl, rfl, rfl, rfl⟩
  refine ⟨hvalid, ?_, hfields.1, hfields.2.1, hfields.2.2.1, hfields.2.2.2, hrel, ?_, l, hl1, ?_,
    hl3⟩
  · rw [hrel]
    exact hinv
  · rw [hrel, hl2.length_eq, hl1.length_eq]
  · rw [hrel]
    exact hl2

/-- The hook on the release-channel path with a pod: it is the early return on an
empty release list, or the decision part on the predicted updater. -/
theorem updateDeckhouse_eq (env : Env) (input : HookInput) (pod : deckhousePodInfo)
    (du : deckhouseUpdater) (hpod : getDeckhousePod input.deckhouse_pod = some (some pod))
    (hchan : input.releaseChannelExists = true)
    (hpred : PredictNextRelease (prepareUpdater env input pod).2 = some du) :
    updateDeckhouse env input
      = if (prepareUpdater env input pod).2.releases.length = 0 then
          some { out := (prepareUpdater env input pod).1, err := none }
        else decidePass env input (prepareUpdater env input pod).1 du := by
  unfold updateDeckhouse
  rw [hpod]
  dsimp only
  rw [if_neg (by simp [hchan]), hpred]

/-- The method `ApplyPredictedRelease` on an updater with valid indices, with or
without a predicted release: no panic, and either nothing deploying is emitted or
there is a predicted release, the conditions of a deploy hold for it and only a
status patch for it can say `Deployed`. -/
theorem ApplyPredictedRelease_total (env : Env) (input : HookInput) (out : HookOut)
    (du : deckhouseUpdater) (hv : ValidIndices du) :
    ∃ out1 du1, ApplyPredictedRelease env input out du = some (out1, du1)
      ∧ (Extends (fun op => isDeployOp op = false) out out1
        ∨ ∃ (p : Nat) (rp : deckhouseRelease), du.predictedReleaseIndex = (p : Int)
          ∧ du.releases[p]? = some rp
          ∧ ((du.deckhouseIsBootstrapping = true ∧ du.releases.length = 1)
            ∨ ((∀ t, rp.ApplyAfter = some t → ¬ du.now < t)
              ∧ (rp.Status.Approved = true ∨ PredictedReleaseIsPatch du = some true)
              ∧ (PredictedReleaseIsPatch du = some false → du.deckhousePodIsReady = true
                  ∧ ∀ t, rp.CooldownUntil = some t → ¬ du.now < t)))
          ∧ Extends (fun op => ∀ n st, op = PatchOp.mergeStatus n st →
              st.Phase = Phase.deployed → n = rp.Name) out out1) := by
  rcases hv.predicted with h | ⟨p, rp, hp, hrp, _⟩
  · exact ⟨out, du, by simp [ApplyPredictedRelease, h], Or.inl (Extends.none_added _ _)⟩
  · obtain ⟨out1, du1, h1, h2⟩ := ApplyPredictedRelease_spec env input out du hv p rp hp hrp
    refine ⟨out1, du1, h1, ?_⟩
    rcases h2 with h2 | ⟨c, e⟩
    · exact Or.inl h2
    · exact Or.inr ⟨p, rp, hp, hrp, c, e⟩

/-- The decision part of `updateDeckhouse` when no release is forced, as a case
analysis: it does not panic, and its result either is the result of
`ApplyPredictedRelease` or extends the collectors by patches that do not deploy. -/
theorem decidePass_cases (env : Env) (input : HookInput) (out : HookOut)
    (du : deckhouseUpdater) (hv : ValidIndices du) (hforce : HasForceRelease du = false)
    (C : HookResult → Prop)
    (happly : ∃ res, finishPass (ApplyPredictedRelease env input out du) = some res ∧ C res)
    (hblocked : ∀ res : HookResult, Extends (fun op => isDeployOp op = false) out res.out → C res) :
    ∃ res, decidePass env input out du = some res ∧ C res := by
  obtain ⟨b, hb⟩ := PredictedReleaseIsPatch_total hv
  unfold decidePass
  by_cases hlast : LastReleaseDeployed du = true
  · rw [if_pos hlast]
    exact ⟨_, rfl, hblocked _ (Extends.none_added _ _)⟩
  · rw [if_neg hlast, if_neg (by simp [hforce]), hb]
    cases b with
    | true => exact happly
    | false =>
      dsimp only
      by_cases hman : du.inManualMode = true
      · rw [if_neg (not_not.mpr hman)]
        exact happly
      · rw [if_pos hman]
        cases hw : getUpdateWindows env input with
        | error err => exact ⟨_, rfl, hblocked _ (Extends.none_added _ _)⟩
        | ok windows =>
          dsimp only
          by_cases hperm : isUpdatePermitted env windows = true
          · rw [if_neg (not_not.mpr hperm)]
            exact happly
          · rw [if_pos hperm]
            rcases hv.predicted with h | ⟨p, rp, hp, hrp, _⟩
            · refine ⟨{ out := out, err := none }, ?_, hblocked _ (Extends.none_added _ _)⟩
              simp [PredictedRelease, h]
            · have hs : sliceAt du.releases du.predictedReleaseIndex = some rp := by
                rw [hp, sliceAt_natCast]
                exact hrp
              have hne : ¬ du.predictedReleaseIndex = -1 := by omega
              obtain ⟨out1, du1, h1, e1, _, _⟩ := updateStatusAt_spec env out du p
                "Release is waiting for update window" Phase.pending [] rp hrp
              have hpr : PredictedRelease du = some (some p) := by
                unfold PredictedRelease
                rw [if_neg hne, hs, hp]
                rfl
              refine ⟨{ out := out1, err := none }, ?_, hblocked _ (e1.mono ?_)⟩
              · rw [hpr]
                dsimp only
                rw [h1]
                rfl
              · rintro op ⟨st, rfl, hst, _⟩
                simp [isDeployOp, hst]

/-- The decision part of `updateDeckhouse` when no release is forced: no panic, and
either nothing deploying is emitted or there is a predicted release, the conditions of
a deploy hold for it and only a status patch for it can say `Deployed`. -/
theorem decidePass_unforced (env : Env) (input : HookInput) (out : HookOut)
    (du : deckhouseUpdater) (hv : ValidIndices du) (hforce : HasForceRelease du = false) :
    ∃ res, decidePass env input out du = some res
      ∧ (Extends (fun op => isDeployOp op = false) out res.out
        ∨ ∃ (p : Nat) (rp : deckhouseRelease), du.predictedReleaseIndex = (p : Int)
          ∧ du.releases[p]? = some rp
          ∧ ((du.deckhouseIsBootstrapping = true ∧ du.releases.length = 1)
            ∨ ((∀ t, rp.ApplyAfter = some t → ¬ du.now < t)
              ∧ (rp.Status.Approved = true ∨ PredictedReleaseIsPatch du = some true)
              ∧ (PredictedReleaseIsPatch du = some false → du.deckhousePodIsReady = true
                  ∧ ∀ t, rp.CooldownUntil = some t → ¬ du.now < t)))
          ∧ Extends (fun op => ∀ n st, op = PatchOp.mergeStatus n st →
              st.Phase = Phase.deployed → n = rp.Name) out res.out) := by
  refine decidePass_cases env input out du hv hforce _ ?_ (fun res h => Or.inl h)
  obtain ⟨out1, du1, h1, h2⟩ := ApplyPredictedRelease_total env input out du hv
  exact ⟨{ out := out1, err := none }, by rw [h1]; rfl, h2⟩

/-- The hook on the release-channel path when no release is forced: no panic, and
either no emitted patch deploys, or there is a predicted release, the conditions of a
deploy hold for it and every emitted status patch that says `Deployed` is for it. -/
theorem updateDeckhouse_unforced (env : Env) (input : HookInput) (pod : deckhousePodInfo)
    (du : deckhouseUpdater) (hpod : getDeckhousePod input.deckhouse_pod = some (some pod))
    (hchan : input.releaseChannelExists = true)
    (hpred : PredictNextRelease (prepareUpdater env input pod).2 = some du)
    (hforce : HasForceRelease du = false) :
    ∃ res, updateDeckhouse env input = some res
      ∧ ((∀ op ∈ res.out.patches, isDeployOp op = false)
        ∨ ∃ (p : Nat) (rp : deckhouseRelease), du.predictedReleaseIndex = (p : Int)
          ∧ du.releases[p]? = some rp
          ∧ ((du.deckhouseIsBootstrapping = true ∧ du.releases.length = 1)
            ∨ ((∀ t, rp.ApplyAfter = some t → ¬ du.now < t)
              ∧ (rp.Status.Approved = true ∨ PredictedReleaseIsPatch du = some true)
              ∧ (PredictedReleaseIsPatch du = some false → du.deckhousePodIsReady = true
                  ∧ ∀ t, rp.CooldownUntil = some t → ¬ du.now < t)))
          ∧ ∀ op ∈ res.out.patches, ∀ n st, op = PatchOp.mergeStatus n st →
              st.Phase = Phase.deployed → n = rp.Name) := by
  have hbase := (prepareUpdater_spec env input pod).1
  obtain ⟨hv, _⟩ := passUpdater_spec env input pod du hpred
  rw [updateDeckhouse_eq env input pod du hpod hchan hpred]
  by_cases hlen : (prepareUpdater env input pod).2.releases.length = 0
  · rw [if_pos hlen]
    exact ⟨_, rfl, Or.inl hbase⟩
  · rw [if_neg hlen]
    obtain ⟨res, h1, h2⟩ := decidePass_unforced env input (prepareUpdater env input pod).1 du hv
      hforce
    refine ⟨res, h1, ?_⟩
    rcases h2 with h2 | ⟨p, rp, hp, hrp, c, e⟩
    · exact Or.inl (h2.forall hbase)
    · refine Or.inr ⟨p, rp, hp, hrp, c, e.forall ?_⟩
      intro op hop n st heq hd
      have := hbase op hop
      rw [heq] at this
      simp [isDeployOp, hd] at this

/-- C4 (amended). On the release-channel path, when no release is forced and the
bootstrap bypass does not apply (the pod does not run a bootstrap image, or the
snapshot does not hold exactly one release), a predicted release whose `applyAfter`
is later than now is not deployed: the pass returns and emits no marker, no image
patch and no status patch to `Deployed`, whether the release is a patch or not. -/
theorem canary_law (env : Env) (input : HookInput) (pod : deckhousePodInfo)
    (du : deckhouseUpdater) (p : Nat) (rp : deckhouseRelease) (t : Int)
    (hpod : getDeckhousePod input.deckhouse_pod = some (some pod))
    (hchan : input.releaseChannelExists = true)
    (hpred : PredictNextRelease (prepareUpdater env input pod).2 = some du)
    (hforce : HasForceRelease du = false)
    (hboot : ¬ (isBootstrapImage env pod = true ∧ input.releases.length = 1))
    (hp : du.predictedReleaseIndex = (p : Int)) (hrp : du.releases[p]? = some rp)
    (hafter : rp.ApplyAfter = some t) (hnow : env.now < t) :
    ∃ res, updateDeckhouse env input = some res
      ∧ ∀ op ∈ res.out.patches, isDeployOp op = false := by
  obtain ⟨_, _, hnowEq, _, _, hbootEq, _, hlen, _⟩ := passUpdater_spec env input pod du hpred
  obtain ⟨res, h1, h2⟩ := updateDeckhouse_unforced env input pod du hpod hchan hpred hforce
  refine ⟨res, h1, ?_⟩
  rcases h2 with h2 | ⟨p1, rp1, hp1, hrp1, c, _⟩
  · exact h2
  · have hpp : p = p1 := by omega
    subst hpp
    rw [hrp] at hrp1
    cases hrp1
    rcases c with c | ⟨c, _⟩
    · rw [hbootEq, hlen] at c
      exact absurd c hboot
    · rw [hnowEq] at c
      exact absurd hnow (c t hafter)

/-- C5 (amended). On the release-channel path in `Manual` mode, when no release is
forced and the bootstrap bypass does not apply (the pod does not run a bootstrap
image, or the snapshot does not hold exactly one release), a predicted release that
is not a patch of the deployed release and is not manually approved is not deployed:
the pass returns and emits no marker, no image patch and no status patch to
`Deployed`, whatever the update windows and the requirement and disruption verdicts
are. -/
theorem manual_mode_law (env : Env) (input : HookInput) (pod : deckhousePodInfo)
    (du : deckhouseUpdater) (p : Nat) (rp : deckhouseRelease)
    (hpod : getDeckhousePod input.deckhouse_pod = some (some pod))
    (hchan : input.releaseChannelExists = true)
    (hpred : PredictNextRelease (prepareUpdater env input pod).2 = some du)
    (hmanual : input.updateMode = "Manual")
    (hforce : HasForceRelease du = false)
    (hboot : ¬ (isBootstrapImage env pod = true ∧ input.releases.length = 1))
    (hp : du.predictedReleaseIndex = (p : Int)) (hrp : du.releases[p]? = some rp)
    (hpatch : PredictedReleaseIsPatch du = some false)
    (hna : rp.ManuallyApproved = false) :
    ∃ res, updateDeckhouse env input = some res
      ∧ ∀ op ∈ res.out.patches, isDeployOp op = false := by
  obtain ⟨hv, _, _, _, _, hbootEq, _, hlen, l, _, hperm, hlaw⟩ :=
    passUpdater_spec env input pod du hpred
  have hpend : rp.Status.Phase = Phase.pending := by
    rcases hv.predicted with h | ⟨p1, rp1, hp1, hrp1, hph⟩
    · omega
    · have hpp : p = p1 := by omega
      subst hpp
      rw [hrp] at hrp1
      cases hrp1
      exact hph
  have hmem : rp ∈ l := hperm.mem_iff.mp (List.mem_iff_getElem?.mpr ⟨p, hrp⟩)
  have hunapproved : rp.Status.Approved = false :=
    hlaw rp hmem hpend (by rw [hmanual]; rfl) hna
  obtain ⟨res, h1, h2⟩ := updateDeckhouse_unforced env input pod du hpod hchan hpred hforce
  refine ⟨res, h1, ?_⟩
  rcases h2 with h2 | ⟨p1, rp1, hp1, hrp1, c, _⟩
  · exact h2
  · have hpp : p = p1 := by omega
    subst hpp
    rw [hrp] at hrp1
    cases hrp1
    rcases c with c | ⟨_, c, _⟩
    · rw [hbootEq, hlen] at c
      exact absurd c hboot
    · rcases c with c | c
      · rw [hunapproved] at c
        cases c
      · rw [hpatch] at c
        cases c

/-- C2 (amended). On the release-channel path, when no release is forced, a deployed
release exists and every release that is `Pending` after normalization has a version
greater than that of the deployed release, the pass returns and every status patch
to `Deployed` it emits is for the predicted release, which is not the deployed
release and whose version is greater than that of the deployed release. -/
theorem no_regression (env : Env) (input : HookInput) (pod : deckhousePodInfo)
    (du : deckhouseUpdater) (c : Nat) (rc : deckhouseRelease)
    (hpod : getDeckhousePod input.deckhouse_pod = some (some pod))
    (hchan : input.releaseChannelExists = true)
    (hpred : PredictNextRelease (prepareUpdater env input pod).2 = some du)
    (hforce : HasForceRelease du = false)
    (hc : du.currentDeployedReleaseIndex = (c : Int)) (hrc : du.releases[c]? = some rc)
    (hnewer : ∀ r ∈ du.releases, r.Status.Phase = Phase.pending →
      env.lessThan rc.Version r.Version = true) :
    ∃ res, updateDeckhouse env input = some res
      ∧ ∀ n st, PatchOp.mergeStatus n st ∈ res.out.patches → st.Phase = Phase.deployed →
          ∃ (p : Nat) (rp : deckhouseRelease), du.predictedReleaseIndex = (p : Int)
            ∧ du.releases[p]? = some rp ∧ rp.Name = n ∧ p ≠ c
            ∧ env.lessThan rc.Version rp.Version = true := by
  obtain ⟨hv, _⟩ := passUpdater_spec env input pod du hpred
  have hdep : rc.Status.Phase = Phase.deployed := by
    rcases hv.deployed with h | ⟨c1, rc1, hc1, hrc1, hph⟩
    · omega
    · have hcc : c = c1 := by omega
      subst hcc
      rw [hrc] at hrc1
      cases hrc1
      exact hph
  obtain ⟨res, h1, h2⟩ := updateDeckhouse_unforced env input pod du hpod hchan hpred hforce
  refine ⟨res, h1, ?_⟩
  intro n st hmem hd
  rcases h2 with h2 | ⟨p, rp, hp, hrp, _, e⟩
  · have := h2 _ hmem
    simp [isDeployOp, hd] at this
  · have hpend : rp.Status.Phase = Phase.pending := by
      rcases hv.predicted with h | ⟨p1, rp1, hp1, hrp1, hph⟩
      · omega
      · have hpp : p = p1 := by omega
        subst hpp
        rw [hrp] at hrp1
        cases hrp1
        exact hph
    refine ⟨p, rp, hp, hrp, (e _ hmem n st rfl hd).symm, ?_,
      hnewer rp (List.mem_iff_getElem?.mpr ⟨p, hrp⟩) hpend⟩
    intro hpc
    subst hpc
    rw [hrp] at hrc
    cases hrc
    rw [hpend] at hdep
    cases hdep

theorem outdateLoop_extends (env : Env) (forced : Int) :
    ∀ (rs : List deckhouseRelease) (i : Nat) (out : HookOut),
      Extends (fun op => ∃ n st, op = PatchOp.mergeStatus n st ∧ st.Phase = Phase.outdated)
        out (outdateLoop env forced i rs out) := by
  intro rs
  induction rs with
  | nil =>
    intro i out
    exact Extends.none_added _ _
  | cons r rest ih =>
    intro i out
    unfold outdateLoop
    split_ifs
    · exact ((updateStatus_spec env out r "" Phase.outdated [true]).1.mono
        (fun op ⟨st, h, hp, _⟩ => ⟨_, st, h, hp⟩)).append (ih _ _)
    · exact ih _ _

/-- What `ApplyForcedRelease` does on an updater with valid indices and a forced
release at position `k`: no panic, and the marker, the image patch for the forced
release and the removal of its force annotation are emitted. -/
theorem ApplyForcedRelease_spec (env : Env) (input : HookInput) (out : HookOut)
    (du : deckhouseUpdater) (hv : ValidIndices du) (k : Nat) (rk : deckhouseRelease)
    (hk : du.forcedReleaseIndex = (k : Int)) (hrk : du.releases[k]? = some rk) :
    ∃ out1 du1, ApplyForcedRelease env input out du = some (out1, du1)
      ∧ PatchOp.createUpdatingCM (env.versionString rk.Version) ∈ out1.patches
      ∧ PatchOp.setDeploymentImage (input.registry ++ ":" ++ rk.Version.original) ∈ out1.patches
      ∧ PatchOp.removeAnnotation rk.Name "release.deckhouse.io/force" ∈ out1.patches := by
  have hne : ¬ du.forcedReleaseIndex = -1 := by omega
  have hs : sliceAt du.releases du.forcedReleaseIndex = some rk := by
    rw [hk, sliceAt_natCast]
    exact hrk
  have hnat : du.forcedReleaseIndex.toNat = k := by
    rw [hk]
    rfl
  obtain ⟨cur, hcur, hcurv⟩ := currentReleasePtr_spec hv
  obtain ⟨out1, du1, h1, e1, _, _⟩ := runReleaseDeploy_spec env input out du k cur rk hrk hcurv
    hv.skipped
  have e2 := outdateLoop_extends env du1.forcedReleaseIndex du1.releases 0
    (out1.patch (PatchOp.removeAnnotation rk.Name "release.deckhouse.io/force"))
  refine ⟨_, du1, ?_, e2.mem ?_, e2.mem ?_, e2.mem ?_⟩
  · unfold ApplyForcedRelease
    rw [if_neg hne, hs]
    dsimp only
    rw [hcur, hnat]
    dsimp only
    rw [h1]
  · have : PatchOp.createUpdatingCM (env.versionString rk.Version) ∈ out1.patches :=
      e1.mem (by simp [createUpdatingCM, HookOut.patch])
    simp [HookOut.patch, this]
  · have : PatchOp.setDeploymentImage (input.registry ++ ":" ++ rk.Version.original)
        ∈ out1.patches := e1.mem (by simp [createUpdatingCM, HookOut.patch])
    simp [HookOut.patch, this]
  · simp [HookOut.patch]

/-- C1 (amended). On the release-channel path, when at least one release of the
snapshot carries the force flag and the highest-versioned release is not `Deployed`
after normalization, the pass is the Forced-Override path: the forced index is the
last position with the force flag, `ApplyForcedRelease` returns, its patches are the
patches of the pass, and among them are the marker and the image patch for the forced
release and the removal of its force annotation. -/
theorem forced_precedence (env : Env) (input : HookInput) (pod : deckhousePodInfo)
    (du : deckhouseUpdater)
    (hpod : getDeckhousePod input.deckhouse_pod = some (some pod))
    (hchan : input.releaseChannelExists = true)
    (hpred : PredictNextRelease (prepareUpdater env input pod).2 = some du)
    (hforce : ∃ r ∈ input.releases, r.HasForceAnnotation = true)
    (hlast : ∀ r, du.releases.getLast? = some r → r.Status.Phase ≠ Phase.deployed) :
    ∃ (k : Nat) (rk : deckhouseRelease) (out1 : HookOut) (du1 : deckhouseUpdater),
      du.forcedReleaseIndex = (k : Int) ∧ du.releases[k]? = some rk
      ∧ rk.HasForceAnnotation = true
      ∧ (∀ (j : Nat) (r : deckhouseRelease), k < j → du.releases[j]? = some r →
          r.HasForceAnnotation = false)
      ∧ ApplyForcedRelease env input (prepareUpdater env input pod).1 du = some (out1, du1)
      ∧ updateDeckhouse env input = some { out := out1, err := none }
      ∧ PatchOp.createUpdatingCM (env.versionString rk.Version) ∈ out1.patches
      ∧ PatchOp.setDeploymentImage (input.registry ++ ":" ++ rk.Version.original) ∈ out1.patches
      ∧ PatchOp.removeAnnotation rk.Name "release.deckhouse.io/force" ∈ out1.patches := by
  obtain ⟨hv, hinv, _, _, _, _, hrel, hlen, l, hl1, hl2, _⟩ :=
    passUpdater_spec env input pod du hpred
  obtain ⟨r0, hr0, hf0⟩ := hforce
  obtain ⟨r1, hr1, hsame⟩ := forall₂_mem_left hl1 hr0
  have hr1f : r1.HasForceAnnotation = true := by
    obtain ⟨st, e⟩ := hsame
    rw [e]
    exact hf0
  have hr1mem : r1 ∈ du.releases := hl2.mem_iff.mpr hr1
  obtain ⟨j1, hj1⟩ := List.mem_iff_getElem?.mp hr1mem
  have hj1lt : j1 < du.releases.length := (List.getElem?_eq_some_iff.mp hj1).1
  rcases hinv.forced with ⟨_, hno⟩ | ⟨k, rk, hk, _, hrk, hPk, hlastk⟩
  · exact absurd hr1f (hno j1 r1 hj1lt hj1)
  · have hnotlast : ¬ LastReleaseDeployed du = true := by
      intro h
      have hcur : du.currentDeployedReleaseIndex = (du.releases.length : Int) - 1 := by
        simpa [LastReleaseDeployed] using h
      rcases hv.deployed with hd | ⟨c, rc, hc, hrc, hph⟩
      · omega
      · have hcl : c = du.releases.length - 1 := by omega
        have hgl : du.releases.getLast? = some rc := by
          rw [List.getLast?_eq_getElem?, ← hcl]
          exact hrc
        exact hlast rc hgl hph
    obtain ⟨out1, du1, h1, m1, m2, m3⟩ := ApplyForcedRelease_spec env input
      (prepareUpdater env input pod).1 du hv k rk hk hrk
    refine ⟨k, rk, out1, du1, hk, hrk, hPk, ?_, h1, ?_, m1, m2, m3⟩
    · intro j r hkj hj
      simpa using hlastk j r hkj (List.getElem?_eq_some_iff.mp hj).1 hj
    · rw [updateDeckhouse_eq env input pod du hpod hchan hpred]
      have hlen0 : ¬ (prepareUpdater env input pod).2.releases.length = 0 := by
        rw [← hrel]
        omega
      have hhas : HasForceRelease du = true := by
        simp only [HasForceRelease, hk, bne_iff_ne, ne_eq]
        omega
      rw [if_neg hlen0]
      unfold decidePass
      rw [if_neg hnotlast, if_pos hhas, h1]
      rfl

/-- C1, counterexample. The release `v1.0.0` carries the force flag and the newer
release `v1.1.0` is `Deployed`: the pass stops at `LastReleaseDeployed` and emits no
patch at all, so the forced release is not deployed. -/
theorem forced_release_ignored_when_last_is_deployed :
    (∃ r ∈ (mkInput samplePod [{ pending100 with HasForceAnnotation := true }, deployed110]).releases,
        r.HasForceAnnotation = true)
    ∧ updateDeckhouse sampleEnv
        (mkInput samplePod [{ pending100 with HasForceAnnotation := true }, deployed110])
      = some { out := { patches := []
                        metrics := [MetricOp.expire "d8_releases", MetricOp.expire "d8_updating"] }
               err := none } := by
  refine ⟨⟨{ pending100 with HasForceAnnotation := true }, by decide, rfl⟩, by decide⟩

/-- C1, witness. The forced release `v1.1.0` follows the deployed `v1.0.0`. -/
theorem forced_precedence_witness :
    getDeckhousePod (mkInput samplePod [deployed100, forced110]).deckhouse_pod
      = some (some samplePod)
    ∧ (mkInput samplePod [deployed100, forced110]).releaseChannelExists = true
    ∧ PredictNextRelease (prepareUpdater sampleEnv (mkInput samplePod [deployed100, forced110])
        samplePod).2 = some { predictedUpdater false 0 forced110 with forcedReleaseIndex := 1 }
    ∧ (∃ r ∈ (mkInput samplePod [deployed100, forced110]).releases, r.HasForceAnnotation = true)
    ∧ ∃ (k : Nat) (rk : deckhouseRelease) (out1 : HookOut) (du1 : deckhouseUpdater),
      ({ predictedUpdater false 0 forced110 with forcedReleaseIndex := 1 } :
          deckhouseUpdater).forcedReleaseIndex = (k : Int)
      ∧ ({ predictedUpdater false 0 forced110 with forcedReleaseIndex := 1 } :
          deckhouseUpdater).releases[k]? = some rk
      ∧ rk.HasForceAnnotation = true
      ∧ (∀ (j : Nat) (r : deckhouseRelease), k < j →
          ({ predictedUpdater false 0 forced110 with forcedReleaseIndex := 1 } :
            deckhouseUpdater).releases[j]? = some r → r.HasForceAnnotation = false)
      ∧ ApplyForcedRelease sampleEnv (mkInput samplePod [deployed100, forced110])
          (prepareUpdater sampleEnv (mkInput samplePod [deployed100, forced110]) samplePod).1
          { predictedUpdater false 0 forced110 with forcedReleaseIndex := 1 } = some (out1, du1)
      ∧ updateDeckhouse sampleEnv (mkInput samplePod [deployed100, forced110])
          = some { out := out1, err := none }
      ∧ PatchOp.createUpdatingCM (sampleEnv.versionString rk.Version) ∈ out1.patches
      ∧ PatchOp.setDeploymentImage
          ((mkInput samplePod [deployed100, forced110]).registry ++ ":" ++ rk.Version.original)
          ∈ out1.patches
      ∧ PatchOp.removeAnnotation rk.Name "release.deckhouse.io/force" ∈ out1.patches :=
  ⟨by decide, by decide, by decide, ⟨forced110, by decide, rfl⟩,
    forced_precedence sampleEnv (mkInput samplePod [deployed100, forced110]) samplePod
      { predictedUpdater false 0 forced110 with forcedReleaseIndex := 1 }
      (by decide) (by decide) (by decide) ⟨forced110, by decide, rfl⟩
      (by
        intro r h
        have hr : r = forced110 := by
          have h1 : some forced110 = some r := h
          exact (Option.some.inj h1).symm
        rw [hr]
        decide)⟩

/-- C2, counterexample. The pending release `v1.0.0` is older than the deployed
`v1.1.0` (and `v1.2.0` is pending too): no release is forced, the predicted release
is `v1.0.0`, and the pass deploys it, marking `v1.1.0` outdated. -/
theorem older_pending_release_is_deployed :
    (updateDeckhouse sampleEnv (mkInput samplePod [pending100, deployed110, pending120])).map
        (fun res => res.out.patches)
      = some [PatchOp.createUpdatingCM "1.0.0",
          PatchOp.setDeploymentImage "registry/deckhouse:v1.0.0",
          PatchOp.mergeStatus "v1.0.0"
            { Phase := Phase.deployed, Message := "", Approved := true, TransitionTime := 100 },
          PatchOp.mergeStatus "v1.1.0"
            { Phase := Phase.outdated, Message := "Last Deployed release outdated"
              Approved := true, TransitionTime := 100 }]
    ∧ (PredictNextRelease (prepareUpdater sampleEnv
        (mkInput samplePod [pending100, deployed110, pending120]) samplePod).2).map
        (fun du => (du.forcedReleaseIndex, du.currentDeployedReleaseIndex,
          du.predictedReleaseIndex)) = some (-1, 1, 0)
    ∧ sampleEnv.lessThan deployed110.Version pending100.Version = false := by
  refine ⟨by decide, by decide, by decide⟩

/-- C2, witness. The deployed `v1.0.0` is followed by the pending `v1.1.0`. -/
theorem no_regression_witness :
    getDeckhousePod (mkInput samplePod [deployed100, approved110]).deckhouse_pod
      = some (some samplePod)
    ∧ (mkInput samplePod [deployed100, approved110]).releaseChannelExists = true
    ∧ PredictNextRelease (prepareUpdater sampleEnv (mkInput samplePod [deployed100, approved110])
        samplePod).2 = some (predictedUpdater false 0 approved110)
    ∧ HasForceRelease (predictedUpdater false 0 approved110) = false
    ∧ (predictedUpdater false 0 approved110).currentDeployedReleaseIndex = ((0 : Nat) : Int)
    ∧ (predictedUpdater false 0 approved110).releases[0]? = some deployed100
    ∧ (∀ r ∈ (predictedUpdater false 0 approved110).releases, r.Status.Phase = Phase.pending →
        sampleEnv.lessThan deployed100.Version r.Version = true)
    ∧ ∃ res, updateDeckhouse sampleEnv (mkInput samplePod [deployed100, approved110]) = some res
      ∧ ∀ n st, PatchOp.mergeStatus n st ∈ res.out.patches → st.Phase = Phase.deployed →
          ∃ (p : Nat) (rp : deckhouseRelease),
            (predictedUpdater false 0 approved110).predictedReleaseIndex = (p : Int)
            ∧ (predictedUpdater false 0 approved110).releases[p]? = some rp ∧ rp.Name = n
            ∧ p ≠ 0 ∧ sampleEnv.lessThan deployed100.Version rp.Version = true :=
  ⟨by decide, by decide, by decide, by decide, by decide, by decide, by decide,
    no_regression sampleEnv (mkInput samplePod [deployed100, approved110]) samplePod
      (predictedUpdater false 0 approved110) 0 deployed100
      (by decide) (by decide) (by decide) (by decide) (by decide) (by decide) (by decide)⟩

/-- C4, counterexample. The pod runs a bootstrap image and the snapshot holds one
release, whose `applyAfter` (200) is later than now (100): no release is forced and
the pass deploys the release before its canary time. -/
theorem bootstrap_release_deployed_before_canary_time :
    canary110.ApplyAfter = some 200 ∧ sampleEnv.now < 200
    ∧ (PredictNextRelease (prepareUpdater sampleEnv (mkInput bootstrapPod [canary110])
        bootstrapPod).2).map (fun du => (du.forcedReleaseIndex, du.predictedReleaseIndex))
      = some (-1, 0)
    ∧ (updateDeckhouse sampleEnv (mkInput bootstrapPod [canary110])).map
        (fun res => res.out.patches)
      = some [PatchOp.createUpdatingCM "1.1.0",
          PatchOp.setDeploymentImage "registry/deckhouse:v1.1.0",
          PatchOp.mergeStatus "v1.1.0"
            { Phase := Phase.deployed, Message := "", Approved := true, TransitionTime := 100 }] := by
  refine ⟨rfl, by decide, by decide, by decide⟩

/-- C4, witness. The deployed `v1.0.0` is followed by the pending `v1.1.0` whose
`applyAfter` (200) is later than now (100). -/
theorem canary_law_witness :
    getDeckhousePod (mkInput samplePod [deployed100, canary110]).deckhouse_pod
      = some (some samplePod)
    ∧ (mkInput samplePod [deployed100, canary110]).releaseChannelExists = true
    ∧ PredictNextRelease (prepareUpdater sampleEnv (mkInput samplePod [deployed100, canary110])
        samplePod).2 = some (predictedUpdater false 0 canary110)
    ∧ HasForceRelease (predictedUpdater false 0 canary110) = false
    ∧ ¬ (isBootstrapImage sampleEnv samplePod = true
        ∧ (mkInput samplePod [deployed100, canary110]).releases.length = 1)
    ∧ (predictedUpdater false 0 canary110).predictedReleaseIndex = ((1 : Nat) : Int)
    ∧ (predictedUpdater false 0 canary110).releases[1]? = some canary110
    ∧ canary110.ApplyAfter = some 200 ∧ sampleEnv.now < 200
    ∧ ∃ res, updateDeckhouse sampleEnv (mkInput samplePod [deployed100, canary110]) = some res
      ∧ ∀ op ∈ res.out.patches, isDeployOp op = false :=
  ⟨by decide, by decide, by decide, by decide, by decide, by decide, by decide, rfl, by decide,
    canary_law sampleEnv (mkInput samplePod [deployed100, canary110]) samplePod
      (predictedUpdater false 0 canary110) 1 canary110 200
      (by decide) (by decide) (by decide) (by decide) (by decide) (by decide) (by decide) rfl
      (by decide)⟩

/-- C5, counterexample. The pod runs a bootstrap image, the mode is `Manual` and the
snapshot holds one release, which is not manually approved and not a patch (nothing
is deployed): no release is forced and the pass deploys the release. -/
theorem bootstrap_release_deployed_without_manual_approval :
    pending110.ManuallyApproved = false
    ∧ (PredictNextRelease (prepareUpdater sampleEnv
        { mkInput bootstrapPod [pending110] with updateMode := "Manual" } bootstrapPod).2).map
        (fun du => (du.inManualMode, du.forcedReleaseIndex, du.predictedReleaseIndex,
          PredictedReleaseIsPatch du)) = some (true, -1, 0, some false)
    ∧ (updateDeckhouse sampleEnv
        { mkInput bootstrapPod [pending110] with updateMode := "Manual" }).map
        (fun res => res.out.patches)
      = some [PatchOp.createUpdatingCM "1.1.0",
          PatchOp.setDeploymentImage "registry/deckhouse:v1.1.0",
          PatchOp.mergeStatus "v1.1.0"
            { Phase := Phase.deployed, Message := "", Approved := true, TransitionTime := 100 }] := by
  refine ⟨rfl, by decide, by decide⟩

/-- C5, witness. `Manual` mode, the deployed `v1.0.0` is followed by the pending
`v1.1.0` of the next minor line, which is not manually approved. -/
theorem manual_mode_law_witness :
    getDeckhousePod ({ mkInput samplePod [deployed100, pending110] with
        updateMode := "Manual" } : HookInput).deckhouse_pod = some (some samplePod)
    ∧ ({ mkInput samplePod [deployed100, pending110] with
        updateMode := "Manual" } : HookInput).releaseChannelExists = true
    ∧ PredictNextRelease (prepareUpdater sampleEnv
        { mkInput samplePod [deployed100, pending110] with updateMode := "Manual" }
        samplePod).2 = some (predictedUpdater true 1 pending110)
    ∧ ({ mkInput samplePod [deployed100, pending110] with
        updateMode := "Manual" } : HookInput).updateMode = "Manual"
    ∧ HasForceRelease (predictedUpdater true 1 pending110) = false
    ∧ ¬ (isBootstrapImage sampleEnv samplePod = true
        ∧ ({ mkInput samplePod [deployed100, pending110] with
            updateMode := "Manual" } : HookInput).releases.length = 1)
    ∧ (predictedUpdater true 1 pending110).predictedReleaseIndex = ((1 : Nat) : Int)
    ∧ (predictedUpdater true 1 pending110).releases[1]? = some pending110
    ∧ PredictedReleaseIsPatch (predictedUpdater true 1 pending110) = some false
    ∧ pending110.ManuallyApproved = false
    ∧ ∃ res, updateDeckhouse sampleEnv
        { mkInput samplePod [deployed100, pending110] with updateMode := "Manual" } = some res
      ∧ ∀ op ∈ res.out.patches, isDeployOp op = false :=
  ⟨by decide, by decide, by decide, rfl, by decide, by decide, by decide, by decide, by decide,
    rfl,
    manual_mode_law sampleEnv
      { mkInput samplePod [deployed100, pending110] with updateMode := "Manual" } samplePod
      (predictedUpdater true 1 pending110) 1 pending110
      (by decide) (by decide) (by decide) rfl (by decide) (by decide) (by decide) (by decide)
      (by decide) rfl⟩

/-! ## The gates, exactly -/

theorem set_getElem?_same {α : Type} :
    ∀ (l : List α) (i : Nat) (a : α), l[i]? = some a → l.set i a = l := by
  intro l
  induction l with
  | nil =>
    intro i a h
    rfl
  | cons x xs ih =>
    intro i a h
    cases i with
    | zero =>
      simp at h
      rw [h]
      rfl
    | succ j =>
      simp at h
      simp [ih j a h]

/-- The requirement check, exactly: it succeeds without writing when every
requirement passes, and otherwise writes `Pending`, not approved, with the message of
the first requirement that is not passed. -/
theorem checkRequirementsLoop_eq (env : Env) (out : HookOut) (rl : deckhouseRelease) :
    ∀ reqs : List (String × String),
      checkRequirementsLoop env out rl reqs
        = match reqs.find? (fun kv => !(env.checkRequirement kv.1 kv.2).passed) with
          | none => (out, rl, true)
          | some kv =>
            ((updateStatus env out rl (requirementMessage env rl kv.1 kv.2) Phase.pending
                [false]).1,
              (updateStatus env out rl (requirementMessage env rl kv.1 kv.2) Phase.pending
                [false]).2, false) := by
  intro reqs
  induction reqs with
  | nil => rfl
  | cons kv rest ih =>
    obtain ⟨key, value⟩ := kv
    unfold checkRequirementsLoop
    dsimp only
    by_cases hpass : (env.checkRequirement key value).passed = true
    · rw [if_neg (not_not.mpr hpass), ih]
      simp [List.find?, hpass]
    · rw [if_pos hpass]
      have hfalse : (env.checkRequirement key value).passed = false := by simpa using hpass
      simp only [List.find?, hfalse, Bool.not_false, requirementMessage]

/-- The disruption check, exactly: it succeeds without writing when the mode is
unset or `Auto`, when the release has the disruption-approved annotation or when no
disruption key applies, and otherwise writes `Pending` with the message of the first
key that applies. -/
theorem checkReleaseDisruptions_eq (env : Env) (input : HookInput) (out : HookOut)
    (rl : deckhouseRelease) :
    checkReleaseDisruptions env input out rl
      = match disruptionGate env input rl with
        | none => (out, rl, true)
        | some m =>
          ((updateStatus env out rl m Phase.pending []).1,
            (updateStatus env out rl m Phase.pending []).2, false) := by
  have hloop : ∀ keys : List String,
      checkDisruptionsLoop env out rl keys
        = if rl.HasDisruptionApprovedAnnotation = true then (out, rl, true)
          else match keys.find? (fun key => (env.hasDisruption key).1) with
            | none => (out, rl, true)
            | some key =>
              ((updateStatus env out rl (disruptionMessage env rl key) Phase.pending []).1,
                (updateStatus env out rl (disruptionMessage env rl key) Phase.pending []).2,
                false) := by
    intro keys
    induction keys with
    | nil =>
      unfold checkDisruptionsLoop
      split_ifs <;> rfl
    | cons key rest ih =>
      unfold checkDisruptionsLoop
      dsimp only
      by_cases happ : rl.HasDisruptionApprovedAnnotation = true
      · rw [if_neg (by simp [happ]), ih, if_pos happ, if_pos happ]
      · by_cases hd : (env.hasDisruption key).1 = true
        · rw [if_pos ⟨hd, happ⟩, if_neg happ]
          simp [List.find?, hd, disruptionMessage]
        · rw [if_neg (by simp [hd]), ih, if_neg happ, if_neg happ]
          have hfalse : (env.hasDisruption key).1 = false := by simpa using hd
          simp [List.find?, hfalse]
  unfold checkReleaseDisruptions disruptionGate
  cases hmode : input.disruptionApprovalMode with
  | none => rfl
  | some dMode =>
    dsimp only
    by_cases hauto : dMode = "Auto"
    · rw [if_pos hauto, if_pos hauto]
    · rw [if_neg hauto, if_neg hauto, hloop]
      by_cases happ : rl.HasDisruptionApprovedAnnotation = true
      · rw [if_pos happ, if_pos happ]
      · rw [if_neg happ, if_neg happ]
        cases rl.Disruptions.find? (fun key => (env.hasDisruption key).1) <;> rfl

/-- The checks of `ApplyPredictedRelease` from the canary check on, exactly: when one
of the checks canary, approval, requirements, disruptions fails, the release is
blocked with the message of the first one that fails; when none fails the release is
handed to `runReleaseDeploy` with collectors and updater unchanged. -/
theorem applyPredictedGates_exact (env : Env) (input : HookInput) (out : HookOut)
    (du : deckhouseUpdater) (p : Nat) (rp : deckhouseRelease) (cur : Option Nat) (b : Bool)
    (hp : du.predictedReleaseIndex = (p : Int)) (hrp : du.releases[p]? = some rp) :
    (∀ m, [canaryGate env du rp, approvalGate rp b, requirementGate env rp,
        disruptionGate env input rp].findSome? id = some m →
      BlockedWith env out du p rp m (applyPredictedGates env input out du rp cur b))
    ∧ ([canaryGate env du rp, approvalGate rp b, requirementGate env rp,
        disruptionGate env input rp].findSome? id = none →
      applyPredictedGates env input out du rp cur b = runReleaseDeploy env input out du p cur) := by
  have hnat : du.predictedReleaseIndex.toNat = p := by
    rw [hp]
    rfl
  have hblock : ∀ (o : HookOut) (m : String) (fl : List Bool), o.patches = out.patches →
      BlockedWith env out du p rp m (updateStatusAt env o du p m Phase.pending fl) := by
    intro o m fl ho
    refine ⟨_, o, fl, ?_, ho, rfl⟩
    simp only [updateStatusAt, hrp]
  unfold applyPredictedGates
  dsimp only
  rw [hnat]
  -- check 3: canary
  by_cases hcan : ∃ t, rp.ApplyAfter = some t ∧ du.now < t
  · obtain ⟨t, ht, hlt⟩ := hcan
    have hg : canaryGate env du rp
        = some ("Waiting for canary apply time: " ++ env.formatRFC822 t) := by
      simp [canaryGate, ht, hlt]
    simp only [ht, hlt, if_true, List.findSome?, hg, id]
    refine ⟨fun m hm => ?_, fun h => by cases h⟩
    cases hm
    exact hblock out _ [] rfl
  · have hcb : (match rp.ApplyAfter with
        | some t => if du.now < t then some t else none
        | none => none) = none := by
      cases ha : rp.ApplyAfter with
      | none => rfl
      | some t =>
        have : ¬ du.now < t := fun hlt => hcan ⟨t, ha, hlt⟩
        simp [this]
    have hg : canaryGate env du rp = none := by
      unfold canaryGate
      cases ha : rp.ApplyAfter with
      | none => rfl
      | some t =>
        have : ¬ du.now < t := fun hlt => hcan ⟨t, ha, hlt⟩
        simp [this]
    rw [hcb]
    dsimp only
    -- check 4: approval
    by_cases happ : ¬ rp.Status.Approved = true ∧ ¬ b = true
    · rw [if_pos happ]
      have hg4 : approvalGate rp b = some "Waiting for manual approval" := by
        simp [approvalGate, happ.1, happ.2]
      simp only [List.findSome?, hg, hg4, id]
      refine ⟨fun m hm => ?_, fun h => by cases h⟩
      cases hm
      exact hblock _ _ [] rfl
    · rw [if_neg happ]
      have hg4 : approvalGate rp b = none := by
        unfold approvalGate
        by_cases hb : b = true
        · simp [hb]
        · have : rp.Status.Approved = true := by
            by_contra hc
            exact happ ⟨hc, hb⟩
          simp [hb, this]
      -- check 5: requirements
      have hreq := checkRequirementsLoop_eq env out rp rp.Requirements
      unfold checkReleaseRequirements
      cases hf : rp.Requirements.find? (fun kv => !(env.checkRequirement kv.1 kv.2).passed) with
      | some kv =>
        rw [hf] at hreq
        have hg5 : requirementGate env rp = some (requirementMessage env rp kv.1 kv.2) := by
          simp [requirementGate, hf]
        rw [hreq]
        simp only [List.findSome?, hg, hg4, hg5, id, Bool.false_eq_true, not_false_eq_true,
          if_true]
        refine ⟨fun m hm => ?_, fun h => by cases h⟩
        cases hm
        exact ⟨_, out, [false], rfl, rfl, rfl⟩
      | none =>
        rw [hf] at hreq
        have hg5 : requirementGate env rp = none := by
          simp [requirementGate, hf]
        rw [hreq]
        simp only [not_true_eq_false, if_false]
        -- check 6: disruptions
        have hdis := checkReleaseDisruptions_eq env input out rp
        have hset : du.releases.set p rp = du.releases := set_getElem?_same _ _ _ hrp
        cases hd : disruptionGate env input rp with
        | some m1 =>
          rw [hd] at hdis
          rw [hdis]
          simp only [List.findSome?, hg, hg4, hg5, hd, id, Bool.false_eq_true,
            not_false_eq_true, if_true, hset]
          refine ⟨fun m hm => ?_, fun h => by cases h⟩
          cases hm
          exact ⟨_, out, [], rfl, rfl, rfl⟩
        | none =>
          rw [hd] at hdis
          rw [hdis]
          simp only [List.findSome?, hg, hg4, hg5, hd, id, not_true_eq_false, if_false, hset]
          exact ⟨fun m hm => (by cases hm), fun _ => trivial⟩

/-- The method `ApplyPredictedRelease` outside the bootstrap bypass, exactly: when
one of the six checks fails the release is blocked with the message of the first
failing check in the order cooldown, pod readiness, canary, approval, requirements,
disruptions; when none fails the release is handed to `runReleaseDeploy` with
collectors and updater unchanged. -/
theorem ApplyPredictedRelease_exact (env : Env) (input : HookInput) (out : HookOut)
    (du : deckhouseUpdater) (p : Nat) (rp : deckhouseRelease) (cur : Option Nat) (b : Bool)
    (hp : du.predictedReleaseIndex = (p : Int)) (hrp : du.releases[p]? = some rp)
    (hcur : currentReleasePtr du = some cur) (hb : PredictedReleaseIsPatch du = some b)
    (hboot : ¬ (du.deckhouseIsBootstrapping = true ∧ du.releases.length = 1)) :
    (∀ m, firstFailingGate env input du rp b = some m →
      BlockedWith env out du p rp m (ApplyPredictedRelease env input out du))
    ∧ (firstFailingGate env input du rp b = none →
      ApplyPredictedRelease env input out du = runReleaseDeploy env input out du p cur) := by
  have hne : ¬ du.predictedReleaseIndex = -1 := by omega
  have hs : sliceAt du.releases du.predictedReleaseIndex = some rp := by
    rw [hp, sliceAt_natCast]
    exact hrp
  have hnat : du.predictedReleaseIndex.toNat = p := by
    rw [hp]
    rfl
  have hgates := applyPredictedGates_exact env input out du p rp cur b hp hrp
  have hblock : ∀ (m : String),
      BlockedWith env out du p rp m (updateStatusAt env out du p m Phase.pending []) := by
    intro m
    refine ⟨_, out, [], ?_, rfl, rfl⟩
    simp only [updateStatusAt, hrp]
  unfold ApplyPredictedRelease
  rw [if_neg hne, hs]
  dsimp only
  rw [hcur, hnat]
  dsimp only
  rw [if_neg hboot, hb]
  dsimp only
  cases b with
  | true =>
    rw [if_neg (by simp)]
    have h1 : cooldownGate env du rp true = none := by simp [cooldownGate]
    have h2 : podReadyGate du true = none := by simp [podReadyGate]
    have hff : firstFailingGate env input du rp true
        = [canaryGate env du rp, approvalGate rp true, requirementGate env rp,
            disruptionGate env input rp].findSome? id := by
      simp only [firstFailingGate, List.findSome?, h1, h2, id]
    rw [hff]
    exact hgates
  | false =>
    rw [if_pos (by simp)]
    by_cases hcool : ∃ t, rp.CooldownUntil = some t ∧ du.now < t
    · obtain ⟨t, ht, hlt⟩ := hcool
      have h1 : cooldownGate env du rp false
          = some ("Release is in cooldown until: " ++ env.formatRFC822 t) := by
        simp [cooldownGate, ht, hlt]
      simp only [ht, hlt, if_true, firstFailingGate, List.findSome?, h1, id]
      refine ⟨fun m hm => ?_, fun h => (by cases h)⟩
      cases hm
      exact hblock _
    · have hcb : (match rp.CooldownUntil with
          | some t => if du.now < t then some t else none
          | none => none) = none := by
        cases ha : rp.CooldownUntil with
        | none => rfl
        | some t =>
          have : ¬ du.now < t := fun hlt => hcool ⟨t, ha, hlt⟩
          simp [this]
      have h1 : cooldownGate env du rp false = none := by
        unfold cooldownGate
        cases ha : rp.CooldownUntil with
        | none => rfl
        | some t =>
          have : ¬ du.now < t := fun hlt => hcool ⟨t, ha, hlt⟩
          simp [this]
      rw [hcb]
      dsimp only
      by_cases hready : du.deckhousePodIsReady = true
      · rw [if_neg (not_not.mpr hready)]
        have h2 : podReadyGate du false = none := by simp [podReadyGate, hready]
        have hff : firstFailingGate env input du rp false
            = [canaryGate env du rp, approvalGate rp false, requirementGate env rp,
                disruptionGate env input rp].findSome? id := by
          simp only [firstFailingGate, List.findSome?, h1, h2, id]
        rw [hff]
        exact hgates
      · rw [if_pos hready]
        have h2 : podReadyGate du false = some "Waiting for Deckhouse pod to be ready" := by
          simp [podReadyGate, hready]
        simp only [firstFailingGate, List.findSome?, h1, h2, id]
        refine ⟨fun m hm => ?_, fun h => (by cases h)⟩
        cases hm
        exact hblock _

/-- What a blocked `ApplyPredictedRelease` leaves behind: the predicted release sits
in the returned updater with phase `Pending`, the message `m` and otherwise
unchanged but for its status; the other releases are untouched; and the patch
collector has grown by nothing or by exactly one status patch, for that release, with
phase `Pending` and the message `m`. -/
theorem BlockedWith.summary {env : Env} {out : HookOut} {du : deckhouseUpdater} {p : Nat}
    {rp : deckhouseRelease} {m : String} {result : Option (HookOut × deckhouseUpdater)}
    (h : BlockedWith env out du p rp m result) (hrp : du.releases[p]? = some rp) :
    ∃ (out1 : HookOut) (r1 : deckhouseRelease),
      result = some (out1, { du with releases := du.releases.set p r1 })
      ∧ (du.releases.set p r1)[p]? = some r1
      ∧ sameButStatus rp r1 ∧ r1.Status.Phase = Phase.pending ∧ r1.Status.Message = m
      ∧ (out1.patches = out.patches
        ∨ ∃ a : Bool, out1.patches = out.patches ++ [PatchOp.mergeStatus rp.Name
            { Phase := Phase.pending, Message := m, Approved := a, TransitionTime := env.now }]) := by
  obtain ⟨out1, o, fl, hres, ho, hout⟩ := h
  have hplt : p < du.releases.length := (List.getElem?_eq_some_iff.mp hrp).1
  obtain ⟨_, _, _, hph, hmsg⟩ := updateStatus_spec env o rp m Phase.pending fl
  refine ⟨out1, _, hres, by simp [hplt], updateStatus_sameButStatus _ _ _ _ _ _, hph, hmsg, ?_⟩
  rcases updateStatus_cases env o rp m Phase.pending fl with ⟨hc, _, _⟩ | ⟨a, hc⟩
  · left
    rw [hout, hc, ho]
  · right
    refine ⟨a, ?_⟩
    rw [hout, hc]
    simp [HookOut.patch, ho]

/-! ## The deployer, exactly -/

/-- The function `updateStatus`, exactly: nothing happens when the release has the
requested status already, otherwise its one status patch is emitted; in both cases
the release has the requested status afterwards. -/
theorem updateStatus_eq (env : Env) (out : HookOut) (release : deckhouseRelease) (msg : String)
    (phase : Phase) (approvedFlag : List Bool) :
    updateStatus env out release msg phase approvedFlag
      = (if release.Status = (withStatus release msg phase approvedFlag).Status then out
          else out.patch (statusPatchOf env release msg phase approvedFlag),
        withStatus release msg phase approvedFlag) := by
  have key : ∀ a : Bool,
      (if phase = release.Status.Phase ∧ msg = release.Status.Message
          ∧ a = release.Status.Approved then (out, release)
        else (out.patch (PatchOp.mergeStatus release.Name
            { Phase := phase, Message := msg, Approved := a, TransitionTime := env.now }),
          { release with Status := { Phase := phase, Approved := a, Message := msg } }))
      = (if release.Status = { Phase := phase, Approved := a, Message := msg } then out
          else out.patch (PatchOp.mergeStatus release.Name
            { Phase := phase, Message := msg, Approved := a, TransitionTime := env.now }),
        { release with Status := { Phase := phase, Approved := a, Message := msg } }) := by
    intro a
    by_cases h : phase = release.Status.Phase ∧ msg = release.Status.Message
        ∧ a = release.Status.Approved
    · have hst : release.Status = { Phase := phase, Approved := a, Message := msg } := by
        obtain ⟨h1, h2, h3⟩ := h
        rw [h1, h2, h3]
      rw [if_pos h, if_pos hst]
      congr 1
      rw [← hst]
    · have hst : ¬ release.Status = { Phase := phase, Approved := a, Message := msg } := by
        intro hc
        apply h
        rw [hc]
        exact ⟨rfl, rfl, rfl⟩
      rw [if_neg h, if_neg hst]
  cases approvedFlag with
  | nil => exact key release.Status.Approved
  | cons b rest => exact key b

theorem updateStatusAt_eq (env : Env) (out : HookOut) (du : deckhouseUpdater) (i : Nat)
    (msg : String) (phase : Phase) (approvedFlag : List Bool) (r : deckhouseRelease)
    (hr : du.releases[i]? = some r) :
    updateStatusAt env out du i msg phase approvedFlag
      = some (if r.Status = (withStatus r msg phase approvedFlag).Status then out
          else out.patch (statusPatchOf env r msg phase approvedFlag),
        { du with releases := du.releases.set i (withStatus r msg phase approvedFlag) }) := by
  simp only [updateStatusAt, hr, updateStatus_eq]

/-- The loop over the skipped patches, for skipped indices that are positions of
`releases`: it does not panic, it only adds status patches to `Outdated`, approved,
and for every skipped release that does not have the status of a skipped release
already its status patch is among the added ones. -/
theorem skippedLoop_post (env : Env) (releases : List deckhouseRelease) :
    ∀ (idxs : List Int) (out : HookOut),
      (∀ z ∈ idxs, ∃ k : Nat, z = (k : Int) ∧ k < releases.length) →
      ∃ out1 added, skippedLoop env releases idxs out = some out1
        ∧ out1.patches = out.patches ++ added ∧ out1.metrics = out.metrics
        ∧ (∀ op ∈ added, ∃ n st, op = PatchOp.mergeStatus n st ∧ st.Phase = Phase.outdated
            ∧ st.Approved = true)
        ∧ ∀ (k : Nat) (r : deckhouseRelease), (k : Int) ∈ idxs → releases[k]? = some r →
            r.Status ≠ { Phase := Phase.outdated, Approved := true
                         Message := "Skipped because of new patches" } →
            statusPatchOf env r "Skipped because of new patches" Phase.outdated [true] ∈ added := by
  intro idxs
  induction idxs with
  | nil =>
    intro out _
    refine ⟨out, [], rfl, by simp, rfl, by simp, ?_⟩
    intro k r hk
    cases hk
  | cons z rest ih =>
    intro out hv
    obtain ⟨k0, hk0, hlt⟩ := hv z (List.mem_cons_self _ _)
    have hget : releases[k0]? = some releases[k0] := List.getElem?_eq_getElem hlt
    have hs : sliceAt releases z = some (releases[k0]) := by
      rw [hk0, sliceAt_natCast]
      exact hget
    obtain ⟨out1, added, h1, h2, h3, h4, h5⟩ := ih
      (updateStatus env out releases[k0] "Skipped because of new patches" Phase.outdated [true]).1
      (fun z1 hz1 => hv z1 (List.mem_cons_of_mem _ hz1))
    rw [updateStatus_eq] at h1 h2 h3
    dsimp only at h1 h2 h3
    by_cases hst : releases[k0].Status
        = (withStatus releases[k0] "Skipped because of new patches" Phase.outdated [true]).Status
    · rw [if_pos hst] at h1 h2 h3
      refine ⟨out1, added, ?_, h2, h3, h4, ?_⟩
      · simp only [skippedLoop, hs, updateStatus_eq, if_pos hst]
        exact h1
      · intro k r hk hr hne
        rcases List.mem_cons.mp hk with hk1 | hk1
        · have hkk : k = k0 := by omega
          subst hkk
          rw [hget] at hr
          cases hr
          exact absurd hst hne
        · exact h5 k r hk1 hr hne
    · rw [if_neg hst] at h1 h2 h3
      refine ⟨out1, statusPatchOf env releases[k0] "Skipped because of new patches"
        Phase.outdated [true] :: added, ?_, ?_, ?_, ?_, ?_⟩
      · simp only [skippedLoop, hs, updateStatus_eq, if_neg hst]
        exact h1
      · rw [h2]
        simp [HookOut.patch]
      · rw [h3]
        rfl
      · intro op hop
        rcases List.mem_cons.mp hop with h | h
        · exact ⟨_, _, h, rfl, rfl⟩
        · exact h4 op h
      · intro k r hk hr hne
        rcases List.mem_cons.mp hk with hk1 | hk1
        · have hkk : k = k0 := by omega
          subst hkk
          rw [hget] at hr
          cases hr
          exact List.mem_cons_self _ _
        · exact List.mem_cons_of_mem _ (h5 k r hk1 hr hne)

/-- The postcondition of `runReleaseDeploy` for a predicted release `rp` at position
`p`, a current release that is nil or at a position other than `p`, and skipped
indices that are positions: no panic; the collector has grown by the marker, the
image patch, the status patches of the predicted and of the current release and then
the status patches of the skipped releases; the predicted release is `Deployed`,
approved, with an empty message in the slice, the current release is `Outdated` with
its approval unchanged, and no other release of the slice has changed. -/
theorem runReleaseDeploy_post (env : Env) (input : HookInput) (out : HookOut)
    (du : deckhouseUpdater) (p : Nat) (cur : Option Nat) (rp : deckhouseRelease)
    (hrp : du.releases[p]? = some rp)
    (hcur : ∀ c, cur = some c → c ≠ p ∧ c < du.releases.length)
    (hsk : ∀ z ∈ du.skippedPatchesIndexes, ∃ k : Nat, z = (k : Int) ∧ k < du.releases.length) :
    ∃ (out1 : HookOut) (du1 : deckhouseUpdater) (skippedOps : List PatchOp),
      runReleaseDeploy env input out du p cur = some (out1, du1)
      ∧ out1.patches = out.patches
          ++ [PatchOp.createUpdatingCM (env.versionString rp.Version),
              PatchOp.setDeploymentImage (input.registry ++ ":" ++ rp.Version.original)]
          ++ predictedOps env rp ++ currentOps env du.releases cur ++ skippedOps
      ∧ out1.metrics = out.metrics
      ∧ (∀ op ∈ skippedOps, ∃ n st, op = PatchOp.mergeStatus n st ∧ st.Phase = Phase.outdated
          ∧ st.Approved = true)
      ∧ (du.skippedPatchesIndexes = [] → skippedOps = [])
      ∧ (∀ (k : Nat) (r : deckhouseRelease), (k : Int) ∈ du.skippedPatchesIndexes →
          du.releases[k]? = some r → r.Status.Phase = Phase.pending →
          statusPatchOf env r "Skipped because of new patches" Phase.outdated [true]
            ∈ skippedOps)
      ∧ du1 = { du with releases := du1.releases }
      ∧ du1.releases.length = du.releases.length
      ∧ du1.releases[p]? = some (withStatus rp "" Phase.deployed [true])
      ∧ (∀ (c : Nat) (rc : deckhouseRelease), cur = some c → du.releases[c]? = some rc →
          du1.releases[c]?
            = some (withStatus rc "Last Deployed release outdated" Phase.outdated []))
      ∧ ∀ i : Nat, i ≠ p → cur ≠ some i → du1.releases[i]? = du.releases[i]? := by
  have hplt : p < du.releases.length := (List.getElem?_eq_some_iff.mp hrp).1
  -- the releases after the updates of the predicted and of the current release
  obtain ⟨rels, hrels, hlen, hatp, hatc, hother, hrun⟩ :
      ∃ rels : List deckhouseRelease,
        rels.length = du.releases.length
        ∧ rels.length = du.releases.length
        ∧ rels[p]? = some (withStatus rp "" Phase.deployed [true])
        ∧ (∀ (c : Nat) (rc : deckhouseRelease), cur = some c → du.releases[c]? = some rc →
            rels[c]? = some (withStatus rc "Last Deployed release outdated" Phase.outdated []))
        ∧ (∀ i : Nat, i ≠ p → cur ≠ some i → rels[i]? = du.releases[i]?)
        ∧ runReleaseDeploy env input out du p cur
          = match skippedLoop env rels du.skippedPatchesIndexes
              { patches := out.patches
                  ++ [PatchOp.createUpdatingCM (env.versionString rp.Version),
                      PatchOp.setDeploymentImage (input.registry ++ ":" ++ rp.Version.original)]
                  ++ predictedOps env rp ++ currentOps env du.releases cur
                metrics := out.metrics } with
            | none => none
            | some out5 => some (out5, { du with releases := rels }) := by
    have h3 := updateStatusAt_eq env
      ((createUpdatingCM out (env.versionString rp.Version)).patch
        (PatchOp.setDeploymentImage (input.registry ++ ":" ++ rp.Version.original)))
      du p "" Phase.deployed [true] rp hrp
    cases cur with
    | none =>
      refine ⟨du.releases.set p (withStatus rp "" Phase.deployed [true]), by simp, by simp,
        by simp [hplt], ?_, ?_, ?_⟩
      · intro c rc hc
        cases hc
      · intro i hi _
        simp [List.getElem?_set, Ne.symm hi]
      · simp only [runReleaseDeploy, hrp, h3]
        unfold predictedOps currentOps
        by_cases hst : rp.Status = (withStatus rp "" Phase.deployed [true]).Status
        · simp [hst, createUpdatingCM, HookOut.patch]
        · simp [hst, createUpdatingCM, HookOut.patch]
    | some c =>
      obtain ⟨hcp, hclt⟩ := hcur c rfl
      have hrc : du.releases[c]? = some du.releases[c] := List.getElem?_eq_getElem hclt
      have hrc3 : (du.releases.set p (withStatus rp "" Phase.deployed [true]))[c]?
          = some du.releases[c] := by
        simp [List.getElem?_set, Ne.symm hcp, hclt]
      refine ⟨(du.releases.set p (withStatus rp "" Phase.deployed [true])).set c
          (withStatus du.releases[c] "Last Deployed release outdated" Phase.outdated []),
        by simp, by simp, ?_, ?_, ?_, ?_⟩
      · simp [List.getElem?_set, hcp, hplt]
      · intro c1 rc hc1 hr
        cases hc1
        rw [hrc] at hr
        cases hr
        simp [List.getElem?_set, hclt]
      · intro i hi hci
        have hci1 : c ≠ i := fun h => hci (by rw [h])
        simp [List.getElem?_set, hci1, Ne.symm hi]
      · have h4 : ∀ o : HookOut, updateStatusAt env o
            { du with releases := du.releases.set p (withStatus rp "" Phase.deployed [true]) }
            c "Last Deployed release outdated" Phase.outdated []
            = some (if du.releases[c].Status
                  = (withStatus du.releases[c] "Last Deployed release outdated"
                      Phase.outdated []).Status then o
                else o.patch (statusPatchOf env du.releases[c] "Last Deployed release outdated"
                  Phase.outdated []),
              { du with releases :=
                  ((du.releases.set p (withStatus rp "" Phase.deployed [true])).set c
                    (withStatus du.releases[c] "Last Deployed release outdated"
                      Phase.outdated [])) }) := by
          intro o
          exact updateStatusAt_eq env o _ c _ _ _ _ hrc3
        simp only [runReleaseDeploy, hrp, h3, h4]
        unfold predictedOps currentOps
        simp only [hrc]
        by_cases hst : rp.Status = (withStatus rp "" Phase.deployed [true]).Status
        · by_cases hst2 : du.releases[c].Status
              = (withStatus du.releases[c] "Last Deployed release outdated"
                  Phase.outdated []).Status
          · simp [hst, hst2, createUpdatingCM, HookOut.patch]
          · simp [hst, hst2, createUpdatingCM, HookOut.patch]
        · by_cases hst2 : du.releases[c].Status
              = (withStatus du.releases[c] "Last Deployed release outdated"
                  Phase.outdated []).Status
          · simp [hst, hst2, createUpdatingCM, HookOut.patch]
          · simp [hst, hst2, createUpdatingCM, HookOut.patch]
  obtain ⟨out5, added, h5, hp5, hm5, hq5, hmem5⟩ := skippedLoop_post env rels
    du.skippedPatchesIndexes
    { patches := out.patches
        ++ [PatchOp.createUpdatingCM (env.versionString rp.Version),
            PatchOp.setDeploymentImage (input.registry ++ ":" ++ rp.Version.original)]
        ++ predictedOps env rp ++ currentOps env du.releases cur
      metrics := out.metrics }
    (by
      intro z hz
      obtain ⟨k, hk, hlt⟩ := hsk z hz
      exact ⟨k, hk, by rw [hrels]; exact hlt⟩)
  refine ⟨out5, { du with releases := rels }, added, ?_, hp5, hm5, hq5, ?_, ?_, rfl, hlen, hatp,
    hatc, hother⟩
  · rw [hrun, h5]
  · intro hnil
    rw [hnil] at h5
    simp only [skippedLoop] at h5
    have := Option.some.inj h5
    rw [← this] at hp5
    simpa using hp5
  · intro k r hk hr hpend
    -- the copy of the skipped release that the loop patches
    have hklt : k < du.releases.length := (List.getElem?_eq_some_iff.mp hr).1
    have hcopy : ∃ r1, rels[k]? = some r1 ∧ r1.Name = r.Name
        ∧ r1.Status ≠ { Phase := Phase.outdated, Approved := true
                        Message := "Skipped because of new patches" } := by
      by_cases hkp : k = p
      · subst hkp
        rw [hrp] at hr
        cases hr
        refine ⟨_, hatp, rfl, ?_⟩
        simp [withStatus]
      · by_cases hkc : cur = some k
        · refine ⟨_, hatc k r hkc hr, rfl, ?_⟩
          simp [withStatus]
        · refine ⟨r, by rw [hother k hkp hkc]; exact hr, rfl, ?_⟩
          intro hc
          rw [hc] at hpend
          cases hpend
    obtain ⟨r1, hr1, hname, hne⟩ := hcopy
    have := hmem5 k r1 hk hr1 hne
    simpa [statusPatchOf, hname, approvedArg] using this

theorem predicted_is_pending {du : deckhouseUpdater} (hv : ValidIndices du) {p : Nat}
    {rp : deckhouseRelease} (hp : du.predictedReleaseIndex = (p : Int))
    (hrp : du.releases[p]? = some rp) : rp.Status.Phase = Phase.pending := by
  rcases hv.predicted with h | ⟨p1, rp1, hp1, hrp1, hph⟩
  · omega
  · have hpp : p = p1 := by omega
    subst hpp
    rw [hrp] at hrp1
    cases hrp1
    exact hph

/-- The pointer to the current release on an updater with valid indices and a
predicted release: it is computed without a panic and is nil or a position other than
the predicted one. -/
theorem currentReleasePtr_valid {du : deckhouseUpdater} (hv : ValidIndices du) {p : Nat}
    {rp : deckhouseRelease} (hp : du.predictedReleaseIndex = (p : Int))
    (hrp : du.releases[p]? = some rp) :
    ∃ cur, currentReleasePtr du = some cur
      ∧ ∀ c, cur = some c → c ≠ p ∧ c < du.releases.length := by
  have hpend := predicted_is_pending hv hp hrp
  rcases hv.deployed with h | ⟨c, rc, hc, hrc, hph⟩
  · refine ⟨none, by simp [currentReleasePtr, h], ?_⟩
    intro c hc
    cases hc
  · have hne : du.currentDeployedReleaseIndex ≠ -1 := by omega
    have hs : sliceAt du.releases du.currentDeployedReleaseIndex = some rc := by
      rw [hc, sliceAt_natCast]
      exact hrc
    refine ⟨some c, ?_, ?_⟩
    · simp only [currentReleasePtr, hne, ne_eq, not_false_eq_true, if_true, hs]
      rw [hc]
      rfl
    · intro c1 hc1
      cases hc1
      refine ⟨?_, (List.getElem?_eq_some_iff.mp hrc).1⟩
      intro hcp
      subst hcp
      rw [hrp] at hrc
      cases hrc
      rw [hpend] at hph
      cases hph

theorem cooldownGate_none (env : Env) (du : deckhouseUpdater) (rp : deckhouseRelease) (b : Bool)
    (h : b = true ∨ ∀ t, rp.CooldownUntil = some t → ¬ du.now < t) :
    cooldownGate env du rp b = none := by
  unfold cooldownGate
  rcases h with h | h
  · simp [h]
  · cases hc : rp.CooldownUntil with
    | none => simp
    | some t => simp [h t hc]

theorem canaryGate_none (env : Env) (du : deckhouseUpdater) (rp : deckhouseRelease)
    (h : ∀ t, rp.ApplyAfter = some t → ¬ du.now < t) : canaryGate env du rp = none := by
  unfold canaryGate
  cases hc : rp.ApplyAfter with
  | none => rfl
  | some t => simp [h t hc]

theorem requirementGate_none (env : Env) (rp : deckhouseRelease)
    (h : ∀ kv ∈ rp.Requirements, (env.checkRequirement kv.1 kv.2).passed = true) :
    requirementGate env rp = none := by
  unfold requirementGate
  have : rp.Requirements.find? (fun kv => !(env.checkRequirement kv.1 kv.2).passed) = none := by
    rw [List.find?_eq_none]
    intro kv hkv
    simp [h kv hkv]
  rw [this]
  rfl

theorem disruptionGate_none (env : Env) (input : HookInput) (rp : deckhouseRelease)
    (h : input.disruptionApprovalMode = none ∨ input.disruptionApprovalMode = some "Auto"
      ∨ rp.HasDisruptionApprovedAnnotation = true
      ∨ ∀ key ∈ rp.Disruptions, (env.hasDisruption key).1 = false) :
    disruptionGate env input rp = none := by
  unfold disruptionGate
  cases hm : input.disruptionApprovalMode with
  | none => rfl
  | some dMode =>
    dsimp only
    by_cases hauto : dMode = "Auto"
    · rw [if_pos hauto]
    · rw [if_neg hauto]
      by_cases happ : rp.HasDisruptionApprovedAnnotation = true
      · rw [if_pos happ]
      · rw [if_neg happ]
        rcases h with h | h | h | h
        · rw [hm] at h
          cases h
        · rw [hm] at h
          exact absurd (Option.some.inj h) hauto
        · exact absurd h happ
        · have : rp.Disruptions.find? (fun key => (env.hasDisruption key).1) = none := by
            rw [List.find?_eq_none]
            intro key hkey
            simp [h key hkey]
          rw [this]
          rfl

theorem firstFailingGate_of_gates (env : Env) (input : HookInput) (du : deckhouseUpdater)
    (rp : deckhouseRelease) (b : Bool)
    (h1 : cooldownGate env du rp b = none) (h2 : podReadyGate du b = none)
    (h3 : canaryGate env du rp = none) (h4 : approvalGate rp b = none) :
    firstFailingGate env input du rp b
      = match requirementGate env rp with
        | some m => some m
        | none => disruptionGate env input rp := by
  unfold firstFailingGate
  simp only [List.findSome?, h1, h2, h3, h4, id]
  cases requirementGate env rp with
  | some m => rfl
  | none =>
    dsimp only
    cases disruptionGate env input rp <;> rfl

/-- A blocked `ApplyPredictedRelease` on an updater with valid indices: no panic, the
predicted release ends `Pending` with the message of the first failing check, and
the collector grows by nothing or by the one status patch with that message. -/
theorem ApplyPredictedRelease_blocked (env : Env) (input : HookInput) (out : HookOut)
    (du : deckhouseUpdater) (hv : ValidIndices du) (p : Nat) (rp : deckhouseRelease) (b : Bool)
    (m : String) (hp : du.predictedReleaseIndex = (p : Int)) (hrp : du.releases[p]? = some rp)
    (hb : PredictedReleaseIsPatch du = some b)
    (hboot : ¬ (du.deckhouseIsBootstrapping = true ∧ du.releases.length = 1))
    (hfail : firstFailingGate env input du rp b = some m) :
    ∃ (out1 : HookOut) (r1 : deckhouseRelease),
      ApplyPredictedRelease env input out du
        = some (out1, { du with releases := du.releases.set p r1 })
      ∧ (du.releases.set p r1)[p]? = some r1
      ∧ sameButStatus rp r1 ∧ r1.Status.Phase = Phase.pending ∧ r1.Status.Message = m
      ∧ (out1.patches = out.patches
        ∨ ∃ a : Bool, out1.patches = out.patches ++ [PatchOp.mergeStatus rp.Name
            { Phase := Phase.pending, Message := m, Approved := a, TransitionTime := env.now }]) := by
  obtain ⟨cur, hcur, _⟩ := currentReleasePtr_valid hv hp hrp
  exact ((ApplyPredictedRelease_exact env input out du p rp cur b hp hrp hcur hb hboot).1 m
    hfail).summary hrp

/-- A passing `ApplyPredictedRelease` on an updater with valid indices: it is
`runReleaseDeploy` on the same collectors and updater, for the predicted release and
a current release that is nil or at another position. -/
theorem ApplyPredictedRelease_deploys (env : Env) (input : HookInput) (out : HookOut)
    (du : deckhouseUpdater) (hv : ValidIndices du) (p : Nat) (rp : deckhouseRelease) (b : Bool)
    (hp : du.predictedReleaseIndex = (p : Int)) (hrp : du.releases[p]? = some rp)
    (hb : PredictedReleaseIsPatch du = some b)
    (hboot : ¬ (du.deckhouseIsBootstrapping = true ∧ du.releases.length = 1))
    (hpass : firstFailingGate env input du rp b = none) :
    ∃ cur, currentReleasePtr du = some cur
      ∧ (∀ c, cur = some c → c ≠ p ∧ c < du.releases.length)
      ∧ ApplyPredictedRelease env input out du = runReleaseDeploy env input out du p cur := by
  obtain ⟨cur, hcur, hcv⟩ := currentReleasePtr_valid hv hp hrp
  exact ⟨cur, hcur, hcv,
    (ApplyPredictedRelease_exact env input out du p rp cur b hp hrp hcur hb hboot).2 hpass⟩

/-- C18. The deployer `runReleaseDeploy` for a predicted release `rp` at position `p`,
a current release that is nil or at a position other than `p`, and skipped indices
that are positions of `Pending` releases: it returns; the marker with the version of
`rp` and the image patch `<repo>:<original version of rp>` are emitted; `rp` is
`Deployed`, approved, with an empty message in the slice, and its status patch is
emitted unless it had that status already; the current release, when present, is
`Outdated` with the message "Last Deployed release outdated" and its approval
unchanged, and its status patch is emitted unless it had that status already; and
for every skipped index the status patch `Outdated`, approved, "Skipped because of
new patches" is emitted. -/
theorem deployer_postcondition (env : Env) (input : HookInput) (out : HookOut)
    (du : deckhouseUpdater) (p : Nat) (cur : Option Nat) (rp : deckhouseRelease)
    (hrp : du.releases[p]? = some rp)
    (hcur : ∀ c, cur = some c → c ≠ p ∧ c < du.releases.length)
    (hsk : ∀ z ∈ du.skippedPatchesIndexes, ∃ (k : Nat) (r : deckhouseRelease),
      z = (k : Int) ∧ du.releases[k]? = some r ∧ r.Status.Phase = Phase.pending) :
    ∃ (out1 : HookOut) (du1 : deckhouseUpdater),
      runReleaseDeploy env input out du p cur = some (out1, du1)
      ∧ PatchOp.createUpdatingCM (env.versionString rp.Version) ∈ out1.patches
      ∧ PatchOp.setDeploymentImage (input.registry ++ ":" ++ rp.Version.original) ∈ out1.patches
      ∧ du1.releases[p]? = some
          { rp with Status := { Phase := Phase.deployed, Approved := true, Message := "" } }
      ∧ (rp.Status ≠ { Phase := Phase.deployed, Approved := true, Message := "" } →
          PatchOp.mergeStatus rp.Name
            { Phase := Phase.deployed, Message := "", Approved := true
              TransitionTime := env.now } ∈ out1.patches)
      ∧ (∀ (c : Nat) (rc : deckhouseRelease), cur = some c → du.releases[c]? = some rc →
          du1.releases[c]? = some
            { rc with Status := { Phase := Phase.outdated, Approved := rc.Status.Approved,
                                  Message := "Last Deployed release outdated" } }
          ∧ (rc.Status ≠ { Phase := Phase.outdated, Approved := rc.Status.Approved,
                           Message := "Last Deployed release outdated" } →
              PatchOp.mergeStatus rc.Name
                { Phase := Phase.outdated, Message := "Last Deployed release outdated"
                  Approved := rc.Status.Approved, TransitionTime := env.now } ∈ out1.patches))
      ∧ ∀ (k : Nat) (r : deckhouseRelease), (k : Int) ∈ du.skippedPatchesIndexes →
          du.releases[k]? = some r →
          PatchOp.mergeStatus r.Name
            { Phase := Phase.outdated, Message := "Skipped because of new patches"
              Approved := true, TransitionTime := env.now } ∈ out1.patches := by
  obtain ⟨out1, du1, skippedOps, r1, r2, _, _, _, r6, _, _, r9, r10, _⟩ := runReleaseDeploy_post
    env input out du p cur rp hrp hcur (by
      intro z hz
      obtain ⟨k, r, hk, hr, _⟩ := hsk z hz
      exact ⟨k, hk, (List.getElem?_eq_some_iff.mp hr).1⟩)
  refine ⟨out1, du1, r1, ?_, ?_, r9, ?_, ?_, ?_⟩
  · rw [r2]
    simp
  · rw [r2]
    simp
  · intro hne
    rw [r2]
    have : predictedOps env rp = [PatchOp.mergeStatus rp.Name
        { Phase := Phase.deployed, Message := "", Approved := true
          TransitionTime := env.now }] := by
      unfold predictedOps
      exact if_neg hne
    rw [this]
    simp
  · intro c rc hc hrc
    refine ⟨r10 c rc hc hrc, ?_⟩
    intro hne
    rw [r2]
    have : currentOps env du.releases cur = [PatchOp.mergeStatus rc.Name
        { Phase := Phase.outdated, Message := "Last Deployed release outdated"
          Approved := rc.Status.Approved, TransitionTime := env.now }] := by
      unfold currentOps
      rw [hc]
      dsimp only
      rw [hrc]
      exact if_neg hne
    rw [this]
    simp
  · intro k r hk hr
    obtain ⟨k1, r1', hk1, hr1, hpend⟩ := hsk (k : Int) hk
    have hkk : k = k1 := by omega
    subst hkk
    rw [hr] at hr1
    cases hr1
    have := r6 k r hk hr hpend
    rw [r2]
    exact List.mem_append_right _ this

/-- C18, witness. The deployed `v1.0.0`, the skipped `v1.1.0` and the predicted
`v1.1.1`. -/
theorem deployer_postcondition_witness :
    skippingUpdater.releases[2]? = some approved111
    ∧ (∀ c, some 0 = some c → c ≠ 2 ∧ c < skippingUpdater.releases.length)
    ∧ (∀ z ∈ skippingUpdater.skippedPatchesIndexes, ∃ (k : Nat) (r : deckhouseRelease),
        z = (k : Int) ∧ skippingUpdater.releases[k]? = some r ∧ r.Status.Phase = Phase.pending)
    ∧ ∃ (out1 : HookOut) (du1 : deckhouseUpdater),
      runReleaseDeploy sampleEnv (mkInput samplePod skippingUpdater.releases) HookOut.init
          skippingUpdater 2 (some 0) = some (out1, du1)
      ∧ PatchOp.setDeploymentImage "registry/deckhouse:v1.1.1" ∈ out1.patches
      ∧ PatchOp.mergeStatus "v1.1.0"
          { Phase := Phase.outdated, Message := "Skipped because of new patches"
            Approved := true, TransitionTime := 100 } ∈ out1.patches := by
  have hcur : ∀ c, some 0 = some c → c ≠ 2 ∧ c < skippingUpdater.releases.length := by
    intro c hc
    cases hc
    decide
  have hsk : ∀ z ∈ skippingUpdater.skippedPatchesIndexes, ∃ (k : Nat) (r : deckhouseRelease),
      z = (k : Int) ∧ skippingUpdater.releases[k]? = some r
        ∧ r.Status.Phase = Phase.pending := by
    intro z hz
    have hz1 : z = 1 := by simpa [skippingUpdater] using hz
    exact ⟨1, approved110, hz1, rfl, rfl⟩
  obtain ⟨out1, du1, e1, _, e3, _, _, _, e7⟩ := deployer_postcondition sampleEnv
    (mkInput samplePod skippingUpdater.releases) HookOut.init skippingUpdater 2 (some 0)
    approved111 rfl hcur hsk
  exact ⟨rfl, hcur, hsk, out1, du1, e1, e3, e7 1 approved110 (by decide) rfl⟩

/-! ## The pass, path by path -/

/-- When the releases are not empty and the highest-versioned one is not `Deployed`,
`LastReleaseDeployed` is false. -/
theorem lastRelease_not_deployed {du : deckhouseUpdater} (hv : ValidIndices du)
    (hne : du.releases.length ≠ 0)
    (hlast : ∀ r, du.releases.getLast? = some r → r.Status.Phase ≠ Phase.deployed) :
    ¬ LastReleaseDeployed du = true := by
  intro h
  have hcur : du.currentDeployedReleaseIndex = (du.releases.length : Int) - 1 := by
    simpa [LastReleaseDeployed] using h
  rcases hv.deployed with hd | ⟨c, rc, hc, hrc, hph⟩
  · omega
  · have hcl : c = du.releases.length - 1 := by omega
    have hgl : du.releases.getLast? = some rc := by
      rw [List.getLast?_eq_getElem?, ← hcl]
      exact hrc
    exact hlast rc hgl hph

/-- The pass on the release-channel path when the newest release is not deployed, no
release is forced and the update windows are not in the way (the predicted release is
a patch, or the mode is `Manual`, or the windows permit the update): it is
`ApplyPredictedRelease` on the prepared collectors and the predicted updater. -/
theorem updateDeckhouse_applies (env : Env) (input : HookInput) (pod : deckhousePodInfo)
    (du : deckhouseUpdater) (hpod : getDeckhousePod input.deckhouse_pod = some (some pod))
    (hchan : input.releaseChannelExists = true)
    (hpred : PredictNextRelease (prepareUpdater env input pod).2 = some du)
    (hne : du.releases.length ≠ 0) (hlast : ¬ LastReleaseDeployed du = true)
    (hforce : HasForceRelease du = false)
    (hreach : PredictedReleaseIsPatch du = some true ∨ du.inManualMode = true
      ∨ ∃ windows, getUpdateWindows env input = Except.ok windows
          ∧ isUpdatePermitted env windows = true) :
    updateDeckhouse env input
      = finishPass (ApplyPredictedRelease env input (prepareUpdater env input pod).1 du) := by
  obtain ⟨hv, _, _, _, _, _, hrel, _⟩ := passUpdater_spec env input pod du hpred
  obtain ⟨b, hb⟩ := PredictedReleaseIsPatch_total hv
  rw [updateDeckhouse_eq env input pod du hpod hchan hpred, if_neg (by rw [← hrel]; exact hne)]
  unfold decidePass
  rw [if_neg hlast, if_neg (by simp [hforce]), hb]
  cases b with
  | true => rfl
  | false =>
    dsimp only
    rcases hreach with h | h | ⟨windows, hw, hperm⟩
    · rw [hb] at h
      cases h
    · rw [if_neg (not_not.mpr h)]
    · by_cases hman : du.inManualMode = true
      · rw [if_neg (not_not.mpr hman)]
      · rw [if_pos hman, hw]
        dsimp only
        rw [if_neg (not_not.mpr hperm)]

/-- C13, counterexample. The pending `v1.0.0` is a patch of the deployed `v1.0.1`,
which is the newest release: no release is forced, the predicted release is a patch,
its canary time is unset and it has no requirements or disruptions, and yet the pass
ends at `LastReleaseDeployed` and deploys nothing. -/
theorem patch_not_deployed_when_last_is_deployed :
    (PredictNextRelease (prepareUpdater sampleEnv (mkInput samplePod [pending100, deployed101])
        samplePod).2).map
        (fun du => (du.forcedReleaseIndex, du.predictedReleaseIndex,
          du.currentDeployedReleaseIndex, PredictedReleaseIsPatch du))
      = some (-1, 0, 1, some true)
    ∧ pending100.ApplyAfter = none ∧ pending100.Requirements = [] ∧ pending100.Disruptions = []
    ∧ updateDeckhouse sampleEnv (mkInput samplePod [pending100, deployed101])
      = some { out := { patches := []
                        metrics := [MetricOp.expire "d8_releases", MetricOp.expire "d8_updating"] }
               err := none } := by
  refine ⟨by decide, rfl, rfl, rfl, by decide⟩

/-- C13 (amended). On the release-channel path, when no release is forced, the
highest-versioned release is not `Deployed`, the predicted release is a patch of the
deployed release, its `applyAfter` is unset or not after now, every requirement
passes and no unapproved disruption applies, the pass deploys the patch (marker,
image patch and status patch to `Deployed`, approved), whatever the pod readiness,
`cooldownUntil`, `status.approved`, the update mode and the update windows are. -/
theorem patch_bypass (env : Env) (input : HookInput) (pod : deckhousePodInfo)
    (du : deckhouseUpdater) (p : Nat) (rp : deckhouseRelease)
    (hpod : getDeckhousePod input.deckhouse_pod = some (some pod))
    (hchan : input.releaseChannelExists = true)
    (hpred : PredictNextRelease (prepareUpdater env input pod).2 = some du)
    (hforce : HasForceRelease du = false)
    (hlast : ∀ r, du.releases.getLast? = some r → r.Status.Phase ≠ Phase.deployed)
    (hpatch : PredictedReleaseIsPatch du = some true)
    (hp : du.predictedReleaseIndex = (p : Int)) (hrp : du.releases[p]? = some rp)
    (hcanary : ∀ t, rp.ApplyAfter = some t → ¬ env.now < t)
    (hreq : ∀ kv ∈ rp.Requirements, (env.checkRequirement kv.1 kv.2).passed = true)
    (hdis : input.disruptionApprovalMode = none ∨ input.disruptionApprovalMode = some "Auto"
      ∨ rp.HasDisruptionApprovedAnnotation = true
      ∨ ∀ key ∈ rp.Disruptions, (env.hasDisruption key).1 = false) :
    ∃ (res : HookResult) (statusOps : List PatchOp),
      updateDeckhouse env input = some res ∧ res.err = none
      ∧ res.out.patches = (prepareUpdater env input pod).1.patches
          ++ [PatchOp.createUpdatingCM (env.versionString rp.Version),
              PatchOp.setDeploymentImage (input.registry ++ ":" ++ rp.Version.original),
              PatchOp.mergeStatus rp.Name
                { Phase := Phase.deployed, Message := "", Approved := true
                  TransitionTime := env.now }]
          ++ statusOps := by
  obtain ⟨hv, _, hnow, _, _, _, _, _⟩ := passUpdater_spec env input pod du hpred
  have hplt : p < du.releases.length := (List.getElem?_eq_some_iff.mp hrp).1
  obtain ⟨cur, hcur, hcv⟩ := currentReleasePtr_valid hv hp hrp
  have hcne : du.currentDeployedReleaseIndex ≠ -1 := by
    intro hc
    simp [PredictedReleaseIsPatch, hc] at hpatch
  have hlen2 : 2 ≤ du.releases.length := by
    rcases hv.deployed with hd | ⟨c, rc, hc, hrc, _⟩
    · exact absurd hd hcne
    · have hcs : currentReleasePtr du = some (some c) := by
        have hs : sliceAt du.releases du.currentDeployedReleaseIndex = some rc := by
          rw [hc, sliceAt_natCast]
          exact hrc
        simp only [currentReleasePtr, hcne, ne_eq, not_false_eq_true, if_true, hs]
        rw [hc]
        rfl
      rw [hcur] at hcs
      have := hcv c (Option.some.inj hcs)
      omega
  have hboot : ¬ (du.deckhouseIsBootstrapping = true ∧ du.releases.length = 1) := by
    intro h
    omega
  have hpass : firstFailingGate env input du rp true = none := by
    have h1 := cooldownGate_none env du rp true (Or.inl rfl)
    have h2 : podReadyGate du true = none := by simp [podReadyGate]
    have h3 := canaryGate_none env du rp (by rw [hnow]; exact hcanary)
    have h4 : approvalGate rp true = none := by simp [approvalGate]
    rw [firstFailingGate_of_gates env input du rp true h1 h2 h3 h4,
      requirementGate_none env rp hreq, disruptionGate_none env input rp hdis]
  obtain ⟨cur1, hcur1, _, hrun⟩ := ApplyPredictedRelease_deploys env input
    (prepareUpdater env input pod).1 du hv p rp true hp hrp hpatch hboot hpass
  obtain ⟨out1, du1, skippedOps, r1, r2, _⟩ := runReleaseDeploy_post env input
    (prepareUpdater env input pod).1 du p cur rp hrp hcv hv.skipped
  have hcc : cur1 = cur := by
    rw [hcur] at hcur1
    exact (Option.some.inj hcur1).symm
  rw [hcc] at hrun
  have hpend := predicted_is_pending hv hp hrp
  have hpo : predictedOps env rp = [PatchOp.mergeStatus rp.Name
      { Phase := Phase.deployed, Message := "", Approved := true
        TransitionTime := env.now }] := by
    unfold predictedOps
    rw [if_neg]
    · rfl
    · intro hc
      rw [hc] at hpend
      cases hpend
  refine ⟨{ out := out1, err := none }, currentOps env du.releases cur ++ skippedOps, ?_, rfl, ?_⟩
  · rw [updateDeckhouse_applies env input pod du hpod hchan hpred (by omega)
      (lastRelease_not_deployed hv (by omega) hlast) hforce (Or.inl hpatch), hrun, r1]
    rfl
  · show out1.patches = _
    rw [r2, hpo]
    simp

/-- C13, witness. `Manual` mode, the pod is not ready, the update window does not
allow now, and the pending patch `v1.0.1` of the deployed `v1.0.0` is not approved and in
cooldown. -/
theorem patch_bypass_witness :
    getDeckhousePod (blockedEverywhereInput [deployed100, patch101]).deckhouse_pod
      = some (some notReadyPod)
    ∧ (blockedEverywhereInput [deployed100, patch101]).releaseChannelExists = true
    ∧ PredictNextRelease (prepareUpdater sampleEnv (blockedEverywhereInput [deployed100, patch101])
        notReadyPod).2
      = some { predictedUpdater true 1 patch101 with deckhousePodIsReady := false }
    ∧ HasForceRelease { predictedUpdater true 1 patch101 with deckhousePodIsReady := false }
        = false
    ∧ PredictedReleaseIsPatch
        { predictedUpdater true 1 patch101 with deckhousePodIsReady := false } = some true
    ∧ patch101.Status.Approved = false ∧ patch101.CooldownUntil = some 200
    ∧ sampleEnv.now < 200 ∧ notReadyPod.Ready = false
    ∧ ∃ (res : HookResult) (statusOps : List PatchOp),
      updateDeckhouse sampleEnv (blockedEverywhereInput [deployed100, patch101]) = some res
      ∧ res.err = none
      ∧ res.out.patches = (prepareUpdater sampleEnv (blockedEverywhereInput [deployed100, patch101])
            notReadyPod).1.patches
          ++ [PatchOp.createUpdatingCM (sampleEnv.versionString patch101.Version),
              PatchOp.setDeploymentImage
                ((blockedEverywhereInput [deployed100, patch101]).registry ++ ":"
                  ++ patch101.Version.original),
              PatchOp.mergeStatus patch101.Name
                { Phase := Phase.deployed, Message := "", Approved := true
                  TransitionTime := sampleEnv.now }]
          ++ statusOps :=
  ⟨by decide, by decide, by decide, by decide, by decide, rfl, rfl, by decide, rfl,
    patch_bypass sampleEnv (blockedEverywhereInput [deployed100, patch101]) notReadyPod
      { predictedUpdater true 1 patch101 with deckhousePodIsReady := false } 1 patch101
      (by decide) (by decide) (by decide) (by decide)
      (by
        intro r h
        have hr : r = patch101 := by
          have h1 : some patch101 = some r := h
          exact (Option.some.inj h1).symm
        rw [hr]
        decide)
      (by decide) rfl rfl (fun t h => (by cases h)) (fun kv h => (by cases h))
      (Or.inl rfl)⟩

/-! ## Update windows -/

section Windows

variable (env : Env) (f : String → Except String (List Window)) (g : List Window → Int → Bool)

theorem updateStatus_windows (out : HookOut) (r : deckhouseRelease) (m : String) (ph : Phase)
    (fl : List Bool) :
    updateStatus (withWindowCode env f g) out r m ph fl = updateStatus env out r m ph fl := rfl

theorem updateStatusAt_windows (out : HookOut) (du : deckhouseUpdater) (i : Nat) (m : String)
    (ph : Phase) (fl : List Bool) :
    updateStatusAt (withWindowCode env f g) out du i m ph fl
      = updateStatusAt env out du i m ph fl := rfl

theorem insertByVersion_windows (r : deckhouseRelease) (xs : List deckhouseRelease) :
    insertByVersion (withWindowCode env f g) r xs = insertByVersion env r xs := by
  induction xs with
  | nil => rfl
  | cons x xs ih =>
    show (if byVersionLess env x r then x :: insertByVersion (withWindowCode env f g) r xs
      else r :: x :: xs) = _
    rw [ih]
    rfl

theorem sortByVersion_windows (xs : List deckhouseRelease) :
    sortByVersion (withWindowCode env f g) xs = sortByVersion env xs := by
  induction xs with
  | nil => rfl
  | cons x xs ih =>
    show insertByVersion (withWindowCode env f g) x (sortByVersion (withWindowCode env f g) xs) = _
    rw [ih, insertByVersion_windows]
    rfl

theorem prepareRelease_windows (out : HookOut) (du : deckhouseUpdater) (rl : deckhouseRelease) :
    prepareRelease (withWindowCode env f g) out du rl = prepareRelease env out du rl := rfl

theorem prepareLoop_windows (snap : List deckhouseRelease) (out : HookOut)
    (du : deckhouseUpdater) (acc : List deckhouseRelease) :
    prepareLoop (withWindowCode env f g) snap out du acc = prepareLoop env snap out du acc := by
  induction snap generalizing out du acc with
  | nil => rfl
  | cons rl snap ih =>
    show prepareLoop (withWindowCode env f g) snap _ _ _ = _
    rw [ih, prepareRelease_windows]
    rfl

theorem checkRequirementsLoop_windows (out : HookOut) (rl : deckhouseRelease)
    (reqs : List (String × String)) :
    checkRequirementsLoop (withWindowCode env f g) out rl reqs
      = checkRequirementsLoop env out rl reqs := by
  induction reqs with
  | nil => rfl
  | cons kv rest ih =>
    obtain ⟨key, value⟩ := kv
    simp only [checkRequirementsLoop, ih]
    rfl

theorem checkDisruptionsLoop_windows (out : HookOut) (rl : deckhouseRelease)
    (keys : List String) :
    checkDisruptionsLoop (withWindowCode env f g) out rl keys
      = checkDisruptionsLoop env out rl keys := by
  induction keys with
  | nil => rfl
  | cons key rest ih =>
    simp only [checkDisruptionsLoop, ih]
    rfl

theorem skippedLoop_windows (releases : List deckhouseRelease) (idx : List Int) (out : HookOut) :
    skippedLoop (withWindowCode env f g) releases idx out = skippedLoop env releases idx out := by
  induction idx generalizing out with
  | nil => rfl
  | cons i rest ih =>
    simp only [skippedLoop, ih]
    rfl

theorem outdateLoop_windows (forced : Int) (i : Nat) (rs : List deckhouseRelease)
    (out : HookOut) :
    outdateLoop (withWindowCode env f g) forced i rs out = outdateLoop env forced i rs out := by
  induction rs generalizing i out with
  | nil => rfl
  | cons r rest ih =>
    simp only [outdateLoop, ih]
    rfl

end Windows

section WindowsPass

variable (env : Env) (f : String → Except String (List Window)) (g : List Window → Int → Bool)
  (w : Option String)

theorem FetchAndPrepareReleases_windows (input : HookInput) (out : HookOut)
    (du : deckhouseUpdater) :
    FetchAndPrepareReleases (withWindowCode env f g) { input with updateWindows := w } out du
      = FetchAndPrepareReleases env input out du := by
  simp only [FetchAndPrepareReleases, prepareLoop_windows, sortByVersion_windows]

theorem prepareUpdater_windows (input : HookInput) (pod : deckhousePodInfo) :
    prepareUpdater (withWindowCode env f g) { input with updateWindows := w } pod
      = prepareUpdater env input pod := by
  simp only [prepareUpdater, FetchAndPrepareReleases_windows]
  rfl

theorem checkReleaseDisruptions_windows (input : HookInput) (out : HookOut)
    (rl : deckhouseRelease) :
    checkReleaseDisruptions (withWindowCode env f g) { input with updateWindows := w } out rl
      = checkReleaseDisruptions env input out rl := by
  simp only [checkReleaseDisruptions, checkDisruptionsLoop_windows]

theorem runReleaseDeploy_windows (input : HookInput) (out : HookOut) (du : deckhouseUpdater)
    (p : Nat) (c : Option Nat) :
    runReleaseDeploy (withWindowCode env f g) { input with updateWindows := w } out du p c
      = runReleaseDeploy env input out du p c := by
  simp only [runReleaseDeploy, updateStatusAt_windows, skippedLoop_windows]
  rfl

theorem applyPredictedGates_windows (input : HookInput) (out : HookOut) (du : deckhouseUpdater)
    (rp : deckhouseRelease) (c : Option Nat) (isPatch : Bool) :
    applyPredictedGates (withWindowCode env f g) { input with updateWindows := w } out du rp c
        isPatch
      = applyPredictedGates env input out du rp c isPatch := by
  simp only [applyPredictedGates, updateStatusAt_windows, checkReleaseRequirements,
    checkRequirementsLoop_windows, checkReleaseDisruptions_windows, runReleaseDeploy_windows]
  rfl

theorem ApplyPredictedRelease_windows (input : HookInput) (out : HookOut)
    (du : deckhouseUpdater) :
    ApplyPredictedRelease (withWindowCode env f g) { input with updateWindows := w } out du
      = ApplyPredictedRelease env input out du := by
  simp only [ApplyPredictedRelease, updateStatusAt_windows, applyPredictedGates_windows,
    runReleaseDeploy_windows]
  rfl

theorem ApplyForcedRelease_windows (input : HookInput) (out : HookOut)
    (du : deckhouseUpdater) :
    ApplyForcedRelease (withWindowCode env f g) { input with updateWindows := w } out du
      = ApplyForcedRelease env input out du := by
  simp only [ApplyForcedRelease, runReleaseDeploy_windows, outdateLoop_windows]

theorem tagUpdate_windows (out : HookOut) (pod : deckhousePodInfo) :
    tagUpdate (withWindowCode env f g) out pod = tagUpdate env out pod := rfl

end WindowsPass

/-- The decision part of the pass does not read the update windows when the updater
is in manual mode, when the predicted release is a patch, or when a release is
forced. -/
theorem decidePass_windows (env : Env) (f : String → Except String (List Window))
    (g : List Window → Int → Bool) (w : Option String) (input : HookInput) (out : HookOut)
    (du : deckhouseUpdater)
    (hcase : du.inManualMode = true ∨ PredictedReleaseIsPatch du = some true
      ∨ HasForceRelease du = true) :
    decidePass (withWindowCode env f g) { input with updateWindows := w } out du
      = decidePass env input out du := by
  simp only [decidePass, ApplyForcedRelease_windows, ApplyPredictedRelease_windows]
  by_cases hl : LastReleaseDeployed du = true
  · rw [if_pos hl, if_pos hl]
  · rw [if_neg hl, if_neg hl]
    by_cases hf : HasForceRelease du = true
    · rw [if_pos hf, if_pos hf]
    · rw [if_neg hf, if_neg hf]
      rcases hcase with hm | hpatch | hforce
      · rw [if_neg (not_not.mpr hm), if_neg (not_not.mpr hm)]
      · rw [hpatch]
      · exact absurd hforce hf

/-- C19. In `Manual` mode, or when the predicted release is a patch of the deployed
release, or when a release is forced, the result of the pass (the returned error,
the patches and the metrics) does not depend on the update windows: it is the same
for every configured value, every parser and every evaluator of the windows. -/
theorem update_window_independence (env : Env) (input : HookInput) (w : Option String)
    (f : String → Except String (List Window)) (g : List Window → Int → Bool)
    (hcase : input.updateMode = "Manual"
      ∨ ∃ pod du, getDeckhousePod input.deckhouse_pod = some (some pod)
          ∧ input.releaseChannelExists = true
          ∧ PredictNextRelease (prepareUpdater env input pod).2 = some du
          ∧ (PredictedReleaseIsPatch du = some true ∨ HasForceRelease du = true)) :
    updateDeckhouse (withWindowCode env f g) { input with updateWindows := w }
      = updateDeckhouse env input := by
  simp only [updateDeckhouse, prepareUpdater_windows, tagUpdate_windows]
  cases hpod : getDeckhousePod input.deckhouse_pod with
  | none => rfl
  | some o =>
    cases o with
    | none => rfl
    | some pod =>
      dsimp only
      by_cases hchan : input.releaseChannelExists = true
      · rw [if_neg (not_not.mpr hchan), if_neg (not_not.mpr hchan)]
        by_cases hlen : (prepareUpdater env input pod).2.releases.length = 0
        · rw [if_pos hlen, if_pos hlen]
        · rw [if_neg hlen, if_neg hlen]
          cases hpred : PredictNextRelease (prepareUpdater env input pod).2 with
          | none => rfl
          | some du =>
            dsimp only
            apply decidePass_windows
            rcases hcase with hm | ⟨pod1, du1, hpod1, _, hpred1, hc⟩
            · left
              obtain ⟨_, _, _, hman, _⟩ := passUpdater_spec env input pod du hpred
              rw [hman, hm]
              rfl
            · right
              rw [hpod] at hpod1
              cases hpod1
              rw [hpred] at hpred1
              cases hpred1
              exact hc
      · rw [if_pos hchan, if_pos hchan]

/-- C19, witness. In `Manual` mode the pass on a deployed `v1.0.0` and an approved
pending `v1.1.0` gives the same result without windows as with a window that does
not allow now. -/
theorem update_window_independence_witness :
    ({ mkInput samplePod [deployed100, approved110] with updateMode := "Manual" } : HookInput).updateMode
      = "Manual"
    ∧ updateDeckhouse (withWindowCode sampleEnv sampleEnv.windowsFromJSON (fun _ _ => false))
        { ({ mkInput samplePod [deployed100, approved110] with updateMode := "Manual" } : HookInput)
          with updateWindows := some "[window]" }
      = updateDeckhouse sampleEnv
          { mkInput samplePod [deployed100, approved110] with updateMode := "Manual" } :=
  ⟨rfl, update_window_independence sampleEnv
    { mkInput samplePod [deployed100, approved110] with updateMode := "Manual" }
    (some "[window]") sampleEnv.windowsFromJSON (fun _ _ => false) (Or.inl rfl)⟩

theorem applyPatchOp_eq_map (rs : List deckhouseRelease) (op : PatchOp) :
    applyPatchOp rs op = rs.map (fun r => applyOpTo r op) := by
  cases op <;> simp [applyPatchOp, applyOpTo]

theorem applyPatches_eq_map (ops : List PatchOp) :
    ∀ rs : List deckhouseRelease, applyPatches rs ops = rs.map (fun r => applyOpsTo r ops) := by
  induction ops with
  | nil =>
    intro rs
    simp [applyPatches, applyOpsTo]
  | cons op ops ih =>
    intro rs
    have h := ih (applyPatchOp rs op)
    unfold applyPatches at h ⊢
    rw [List.foldl_cons, h, applyPatchOp_eq_map, List.map_map]
    rfl

/-- The release at a position after the patches is the release at that position with
the patches applied to it. -/
theorem applyPatches_getElem? (rs : List deckhouseRelease) (ops : List PatchOp) (i : Nat)
    (r : deckhouseRelease) (h : rs[i]? = some r) :
    (applyPatches rs ops)[i]? = some (applyOpsTo r ops) := by
  rw [applyPatches_eq_map, List.getElem?_map, h]
  rfl

theorem applyPatches_length (rs : List deckhouseRelease) (ops : List PatchOp) :
    (applyPatches rs ops).length = rs.length := by
  rw [applyPatches_eq_map, List.length_map]

theorem applyOpTo_name (r : deckhouseRelease) (op : PatchOp) : (applyOpTo r op).Name = r.Name := by
  cases op with
  | mergeStatus name st =>
    by_cases h : r.Name = name <;> simp [applyOpTo, h]
  | removeAnnotation name key =>
    by_cases h : r.Name = name
    · by_cases h1 : key = "release.deckhouse.io/force"
      · simp [applyOpTo, h, h1]
      · by_cases h2 : key = "release.deckhouse.io/suspended" <;> simp [applyOpTo, h, h1, h2]
    · simp [applyOpTo, h]
  | _ => rfl

theorem applyOpsTo_name (ops : List PatchOp) :
    ∀ r : deckhouseRelease, (applyOpsTo r ops).Name = r.Name := by
  induction ops with
  | nil =>
    intro r
    rfl
  | cons op ops ih =>
    intro r
    show (applyOpsTo (applyOpTo r op) ops).Name = r.Name
    rw [ih, applyOpTo_name]

theorem applyOpsTo_append (r : deckhouseRelease) (ops1 ops2 : List PatchOp) :
    applyOpsTo r (ops1 ++ ops2) = applyOpsTo (applyOpsTo r ops1) ops2 := by
  unfold applyOpsTo
  rw [List.foldl_append]

theorem applyOpTo_keeps (r : deckhouseRelease) (op : PatchOp) (hr : outdatedApproved r)
    (hop : harmlessTo r.Name op) : outdatedApproved (applyOpTo r op) := by
  cases op with
  | mergeStatus name st =>
    by_cases h : r.Name = name
    · subst h
      have hst := hop st rfl
      simp only [applyOpTo, if_true]
      exact hst
    · simp only [applyOpTo, if_neg h]
      exact hr
  | removeAnnotation name key =>
    by_cases h : r.Name = name
    · by_cases h1 : key = "release.deckhouse.io/force"
      · simp only [applyOpTo, if_pos h, if_pos h1]
        exact hr
      · by_cases h2 : key = "release.deckhouse.io/suspended"
        · simp only [applyOpTo, if_pos h, if_neg h1, if_pos h2]
          exact hr
        · simp only [applyOpTo, if_pos h, if_neg h1, if_neg h2]
          exact hr
    · simp only [applyOpTo, if_neg h]
      exact hr
  | _ => exact hr

/-- An `Outdated`, approved release stays so under patches that are harmless to
it. -/
theorem applyOpsTo_keeps (ops : List PatchOp) :
    ∀ r : deckhouseRelease, outdatedApproved r → (∀ op ∈ ops, harmlessTo r.Name op) →
      outdatedApproved (applyOpsTo r ops) := by
  induction ops with
  | nil =>
    intro r hr _
    exact hr
  | cons op ops ih =>
    intro r hr hops
    show outdatedApproved (applyOpsTo (applyOpTo r op) ops)
    apply ih
    · exact applyOpTo_keeps r op hr (hops op (List.mem_cons_self _ _))
    · intro op1 hop1
      rw [applyOpTo_name]
      exact hops op1 (List.mem_cons_of_mem _ hop1)

/-- A release is `Outdated` and approved after the patches when one of them writes
that on it and the later ones are harmless to it. -/
theorem applyOpsTo_hit (r : deckhouseRelease) (ops1 ops2 : List PatchOp) (st : statusPatch)
    (hst : st.Phase = Phase.outdated ∧ st.Approved = true)
    (h2 : ∀ op ∈ ops2, harmlessTo r.Name op) :
    outdatedApproved (applyOpsTo r (ops1 ++ PatchOp.mergeStatus r.Name st :: ops2)) := by
  rw [applyOpsTo_append]
  show outdatedApproved
    (applyOpsTo (applyOpTo (applyOpsTo r ops1) (PatchOp.mergeStatus r.Name st)) ops2)
  have hn : (applyOpsTo r ops1).Name = r.Name := applyOpsTo_name ops1 r
  apply applyOpsTo_keeps
  · simp only [applyOpTo, if_pos hn]
    exact hst
  · intro op hop
    rw [applyOpTo_name, hn]
    exact h2 op hop

theorem outdatingPatch.harmless {op : PatchOp} (h : outdatingPatch op) (n : String) :
    harmlessTo n op := by
  intro st hop
  obtain ⟨n1, st1, e, h1, h2⟩ := h
  rw [e] at hop
  cases hop
  exact ⟨h1, h2⟩

theorem distinctNames_ne {rs : List deckhouseRelease} (h : distinctNames rs) {i j : Nat}
    {ri rj : deckhouseRelease} (hi : rs[i]? = some ri) (hj : rs[j]? = some rj) (hij : i ≠ j) :
    ri.Name ≠ rj.Name := by
  intro hn
  have hil : i < rs.length := (List.getElem?_eq_some_iff.mp hi).1
  have hjl : j < rs.length := (List.getElem?_eq_some_iff.mp hj).1
  unfold distinctNames at h
  have hil1 : i < (rs.map (fun r => r.Name)).length := by simpa using hil
  have hjl1 : j < (rs.map (fun r => r.Name)).length := by simpa using hjl
  have hinj : (rs.map (fun r => r.Name))[i] = (rs.map (fun r => r.Name))[j] → i = j :=
    (List.Nodup.getElem_inj_iff h).mp
  apply hij
  apply hinj
  have e1 : rs[i] = ri := (List.getElem?_eq_some_iff.mp hi).2
  have e2 : rs[j] = rj := (List.getElem?_eq_some_iff.mp hj).2
  simp [e1, e2, hn]

/-- The last loop of `ApplyForcedRelease` on the releases `rs`, the first of which has
index `i0`: it only adds status patches to `Outdated`, approved, and every release in
front of the forced index is `Outdated`, approved, with an empty message already or
gets such a patch. -/
theorem outdateLoop_post (env : Env) (forced : Int) :
    ∀ (rs : List deckhouseRelease) (i0 : Nat) (out : HookOut),
      ∃ added : List PatchOp,
        (outdateLoop env forced i0 rs out).patches = out.patches ++ added
        ∧ (outdateLoop env forced i0 rs out).metrics = out.metrics
        ∧ (∀ op ∈ added, outdatingPatch op)
        ∧ ∀ (j : Nat) (r : deckhouseRelease), rs[j]? = some r → ((i0 + j : Nat) : Int) < forced →
            r.Status = { Phase := Phase.outdated, Approved := true, Message := "" }
            ∨ PatchOp.mergeStatus r.Name
                { Phase := Phase.outdated, Message := "", Approved := true
                  TransitionTime := env.now } ∈ added := by
  intro rs
  induction rs with
  | nil =>
    intro i0 out
    refine ⟨[], by simp [outdateLoop], rfl, by simp, ?_⟩
    intro j r hr
    simp at hr
  | cons r0 rest ih =>
    intro i0 out
    by_cases hlt : (i0 : Int) < forced
    · obtain ⟨added, h1, h2, h3, h4⟩ := ih (i0 + 1)
        (updateStatus env out r0 "" Phase.outdated [true]).1
      rw [updateStatus_eq] at h1 h2
      dsimp only at h1 h2
      have hloop : outdateLoop env forced i0 (r0 :: rest) out
          = outdateLoop env forced (i0 + 1) rest
              (updateStatus env out r0 "" Phase.outdated [true]).1 := by
        simp only [outdateLoop, if_pos hlt]
      rw [hloop, updateStatus_eq]
      dsimp only
      by_cases hst : r0.Status = (withStatus r0 "" Phase.outdated [true]).Status
      · rw [if_pos hst] at h1 h2 ⊢
        refine ⟨added, h1, h2, h3, ?_⟩
        intro j r hr hj
        cases j with
        | zero =>
          have hr0 : r0 = r := by simpa using hr
          rw [← hr0]
          exact Or.inl hst
        | succ j =>
          have hr1 : rest[j]? = some r := by simpa using hr
          exact h4 j r hr1 (by push_cast at hj ⊢; omega)
      · rw [if_neg hst] at h1 h2 ⊢
        refine ⟨statusPatchOf env r0 "" Phase.outdated [true] :: added, ?_, h2, ?_, ?_⟩
        · rw [h1]
          simp [HookOut.patch]
        · intro op hop
          rcases List.mem_cons.mp hop with h | h
          · exact ⟨_, _, h, rfl, rfl⟩
          · exact h3 op h
        · intro j r hr hj
          cases j with
          | zero =>
            have hr0 : r0 = r := by simpa using hr
            rw [← hr0]
            exact Or.inr (List.mem_cons_self _ _)
          | succ j =>
            have hr1 : rest[j]? = some r := by simpa using hr
            rcases h4 j r hr1 (by push_cast at hj ⊢; omega) with h | h
            · exact Or.inl h
            · exact Or.inr (List.mem_cons_of_mem _ h)
    · obtain ⟨added, h1, h2, h3, h4⟩ := ih (i0 + 1) out
      have hloop : outdateLoop env forced i0 (r0 :: rest) out
          = outdateLoop env forced (i0 + 1) rest out := by
        simp only [outdateLoop, if_neg hlt]
      rw [hloop]
      refine ⟨added, h1, h2, h3, ?_⟩
      intro j r hr hj
      cases j with
      | zero =>
        exact absurd (by simpa using hj) hlt
      | succ j =>
        have hr1 : rest[j]? = some r := by simpa using hr
        exact h4 j r hr1 (by push_cast at hj ⊢; omega)

/-- What `runReleaseDeploy` does to the releases other than the predicted one, also
when the current release is the predicted release itself: no panic; every added patch
is a patch that is not a status patch, a status patch of the predicted release, a
status patch of the current release, or a status patch to `Outdated`, approved; the
current release ends with the message of an outdated release in the slice; the
releases that are neither predicted nor current are unchanged in the slice. -/
theorem runReleaseDeploy_frame (env : Env) (input : HookInput) (out : HookOut)
    (du : deckhouseUpdater) (p : Nat) (cur : Option Nat) (rp : deckhouseRelease)
    (hrp : du.releases[p]? = some rp)
    (hcur : ∀ c, cur = some c → c < du.releases.length)
    (hsk : ∀ z ∈ du.skippedPatchesIndexes, ∃ k : Nat, z = (k : Int) ∧ k < du.releases.length) :
    ∃ (out1 : HookOut) (du1 : deckhouseUpdater) (ops : List PatchOp),
      runReleaseDeploy env input out du p cur = some (out1, du1)
      ∧ out1.patches = out.patches ++ ops
      ∧ du1.forcedReleaseIndex = du.forcedReleaseIndex
      ∧ du1.releases.length = du.releases.length
      ∧ (∀ op ∈ ops, (∀ n st, op ≠ PatchOp.mergeStatus n st)
          ∨ (∃ st, op = PatchOp.mergeStatus rp.Name st)
          ∨ (∃ c rc st, cur = some c ∧ du.releases[c]? = some rc
              ∧ op = PatchOp.mergeStatus rc.Name st)
          ∨ outdatingPatch op)
      ∧ (∀ i : Nat, i ≠ p → cur ≠ some i → du1.releases[i]? = du.releases[i]?)
      ∧ ∀ (c : Nat) (rc : deckhouseRelease), cur = some c → du.releases[c]? = some rc →
          ∃ r, du1.releases[c]? = some r ∧ r.Name = rc.Name
            ∧ r.Status.Message = "Last Deployed release outdated" := by
  have hplt : p < du.releases.length := (List.getElem?_eq_some_iff.mp hrp).1
  have h3 := updateStatusAt_eq env
    ((createUpdatingCM out (env.versionString rp.Version)).patch
      (PatchOp.setDeploymentImage (input.registry ++ ":" ++ rp.Version.original)))
    du p "" Phase.deployed [true] rp hrp
  have hhead : ∀ op ∈ [PatchOp.createUpdatingCM (env.versionString rp.Version),
        PatchOp.setDeploymentImage (input.registry ++ ":" ++ rp.Version.original)]
        ++ predictedOps env rp,
      (∀ n st, op ≠ PatchOp.mergeStatus n st) ∨ (∃ st, op = PatchOp.mergeStatus rp.Name st) := by
    intro op hop
    rcases List.mem_append.mp hop with h | h
    · left
      intro n st hc
      rw [hc] at h
      simp at h
    · right
      unfold predictedOps at h
      by_cases hst : rp.Status = (withStatus rp "" Phase.deployed [true]).Status
      · rw [if_pos hst] at h
        cases h
      · rw [if_neg hst] at h
        exact ⟨_, List.mem_singleton.mp h⟩
  obtain ⟨rels, o4, ops4, hlen, ho4, hops4, hframe, hcurr, hrun⟩ :
      ∃ (rels : List deckhouseRelease) (o4 : HookOut) (ops4 : List PatchOp),
        rels.length = du.releases.length
        ∧ o4.patches = out.patches ++ ops4
        ∧ (∀ op ∈ ops4, (∀ n st, op ≠ PatchOp.mergeStatus n st)
            ∨ (∃ st, op = PatchOp.mergeStatus rp.Name st)
            ∨ (∃ c rc st, cur = some c ∧ du.releases[c]? = some rc
                ∧ op = PatchOp.mergeStatus rc.Name st)
            ∨ outdatingPatch op)
        ∧ (∀ i : Nat, i ≠ p → cur ≠ some i → rels[i]? = du.releases[i]?)
        ∧ (∀ (c : Nat) (rc : deckhouseRelease), cur = some c → du.releases[c]? = some rc →
            ∃ r, rels[c]? = some r ∧ r.Name = rc.Name
              ∧ r.Status.Message = "Last Deployed release outdated")
        ∧ runReleaseDeploy env input out du p cur
          = match skippedLoop env rels du.skippedPatchesIndexes o4 with
            | none => none
            | some out5 => some (out5, { du with releases := rels }) := by
    cases cur with
    | none =>
      refine ⟨du.releases.set p (withStatus rp "" Phase.deployed [true]),
        (if rp.Status = (withStatus rp "" Phase.deployed [true]).Status then
            (createUpdatingCM out (env.versionString rp.Version)).patch
              (PatchOp.setDeploymentImage (input.registry ++ ":" ++ rp.Version.original))
          else
            ((createUpdatingCM out (env.versionString rp.Version)).patch
              (PatchOp.setDeploymentImage (input.registry ++ ":" ++ rp.Version.original))).patch
              (statusPatchOf env rp "" Phase.deployed [true])),
        [PatchOp.createUpdatingCM (env.versionString rp.Version),
          PatchOp.setDeploymentImage (input.registry ++ ":" ++ rp.Version.original)]
          ++ predictedOps env rp, by simp, ?_, ?_, ?_, ?_, ?_⟩
      rotate_left
      · intro op hop
        rcases hhead op hop with h | h
        · exact Or.inl h
        · exact Or.inr (Or.inl h)
      · intro i hi _
        simp [List.getElem?_set, Ne.symm hi]
      · intro c rc hc
        cases hc
      · simp only [runReleaseDeploy, hrp, h3]
      · unfold predictedOps
        by_cases hst : rp.Status = (withStatus rp "" Phase.deployed [true]).Status
        · simp [hst, createUpdatingCM, HookOut.patch]
        · simp [hst, createUpdatingCM, HookOut.patch]
    | some c =>
      have hclt := hcur c rfl
      have hrc : du.releases[c]? = some du.releases[c] := List.getElem?_eq_getElem hclt
      obtain ⟨r3, hr3, hname3⟩ : ∃ r3,
          (du.releases.set p (withStatus rp "" Phase.deployed [true]))[c]? = some r3
          ∧ r3.Name = du.releases[c].Name := by
        by_cases hcp : c = p
        · refine ⟨withStatus rp "" Phase.deployed [true], ?_, ?_⟩
          · rw [hcp]
            simp [List.getElem?_set, hplt]
          · have e : du.releases[c]? = some rp := by
              rw [hcp]
              exact hrp
            have e1 : du.releases[c] = rp := (List.getElem?_eq_some_iff.mp e).2
            rw [e1]
            rfl
        · refine ⟨du.releases[c], ?_, rfl⟩
          simp [List.getElem?_set, Ne.symm hcp, hclt]
      have h4 : ∀ o : HookOut, updateStatusAt env o
          { du with releases := du.releases.set p (withStatus rp "" Phase.deployed [true]) }
          c "Last Deployed release outdated" Phase.outdated []
          = some (if r3.Status
                = (withStatus r3 "Last Deployed release outdated" Phase.outdated []).Status then o
              else o.patch (statusPatchOf env r3 "Last Deployed release outdated"
                Phase.outdated []),
            { du with releases :=
                ((du.releases.set p (withStatus rp "" Phase.deployed [true])).set c
                  (withStatus r3 "Last Deployed release outdated" Phase.outdated [])) }) := by
        intro o
        exact updateStatusAt_eq env o _ c _ _ _ _ hr3
      refine ⟨(du.releases.set p (withStatus rp "" Phase.deployed [true])).set c
          (withStatus r3 "Last Deployed release outdated" Phase.outdated []),
        (if r3.Status
            = (withStatus r3 "Last Deployed release outdated" Phase.outdated []).Status then
          (if rp.Status = (withStatus rp "" Phase.deployed [true]).Status then
            (createUpdatingCM out (env.versionString rp.Version)).patch
              (PatchOp.setDeploymentImage (input.registry ++ ":" ++ rp.Version.original))
          else
            ((createUpdatingCM out (env.versionString rp.Version)).patch
              (PatchOp.setDeploymentImage (input.registry ++ ":" ++ rp.Version.original))).patch
              (statusPatchOf env rp "" Phase.deployed [true]))
        else
          HookOut.patch (if rp.Status = (withStatus rp "" Phase.deployed [true]).Status then
            (createUpdatingCM out (env.versionString rp.Version)).patch
              (PatchOp.setDeploymentImage (input.registry ++ ":" ++ rp.Version.original))
          else
            ((createUpdatingCM out (env.versionString rp.Version)).patch
              (PatchOp.setDeploymentImage (input.registry ++ ":" ++ rp.Version.original))).patch
              (statusPatchOf env rp "" Phase.deployed [true]))
            (statusPatchOf env r3 "Last Deployed release outdated" Phase.outdated [])),
        ([PatchOp.createUpdatingCM (env.versionString rp.Version),
          PatchOp.setDeploymentImage (input.registry ++ ":" ++ rp.Version.original)]
          ++ predictedOps env rp)
          ++ (if r3.Status
                = (withStatus r3 "Last Deployed release outdated" Phase.outdated []).Status
              then [] else [statusPatchOf env r3 "Last Deployed release outdated"
                Phase.outdated []]),
        by simp, ?_, ?_, ?_, ?_, ?_⟩
      rotate_left
      · intro op hop
        rcases List.mem_append.mp hop with h | h
        · rcases hhead op h with h1 | h1
          · exact Or.inl h1
          · exact Or.inr (Or.inl h1)
        · by_cases hst2 : r3.Status
              = (withStatus r3 "Last Deployed release outdated" Phase.outdated []).Status
          · rw [if_pos hst2] at h
            cases h
          · rw [if_neg hst2] at h
            refine Or.inr (Or.inr (Or.inl ⟨c, du.releases[c],
              { Phase := Phase.outdated, Message := "Last Deployed release outdated"
                Approved := r3.Status.Approved, TransitionTime := env.now }, rfl, hrc, ?_⟩))
            rw [List.mem_singleton.mp h, ← hname3]
            rfl
      · intro i hi hci
        have hci1 : c ≠ i := fun h => hci (by rw [h])
        simp [List.getElem?_set, hci1, Ne.symm hi]
      · intro c1 rc hc1 hr
        cases hc1
        rw [hrc] at hr
        cases hr
        refine ⟨withStatus r3 "Last Deployed release outdated" Phase.outdated [], ?_, hname3, rfl⟩
        simp [List.getElem?_set, hclt]
      · simp only [runReleaseDeploy, hrp, h3, h4]
      · unfold predictedOps
        by_cases hst : rp.Status = (withStatus rp "" Phase.deployed [true]).Status
        · by_cases hst2 : r3.Status
              = (withStatus r3 "Last Deployed release outdated" Phase.outdated []).Status
          · simp [hst, hst2, createUpdatingCM, HookOut.patch]
          · simp [hst, hst2, createUpdatingCM, HookOut.patch]
        · by_cases hst2 : r3.Status
              = (withStatus r3 "Last Deployed release outdated" Phase.outdated []).Status
          · simp [hst, hst2, createUpdatingCM, HookOut.patch]
          · simp [hst, hst2, createUpdatingCM, HookOut.patch]
  obtain ⟨out5, added, h5, hp5, _, hq5, _⟩ := skippedLoop_post env rels
    du.skippedPatchesIndexes o4
    (by
      intro z hz
      obtain ⟨k, hk, hlt⟩ := hsk z hz
      exact ⟨k, hk, by rw [hlen]; exact hlt⟩)
  refine ⟨out5, { du with releases := rels }, ops4 ++ added, ?_, ?_, rfl, hlen, ?_, hframe, hcurr⟩
  · rw [hrun, h5]
  · rw [hp5, ho4, List.append_assoc]
  · intro op hop
    rcases List.mem_append.mp hop with h | h
    · exact hops4 op h
    · obtain ⟨n, st, e, h1, h2⟩ := hq5 op h
      exact Or.inr (Or.inr (Or.inr ⟨n, st, e, h1, h2⟩))

/-- C11. `ApplyForcedRelease` on an updater with valid indices whose forced index is
the position `k`, the releases having pairwise different names: it returns, the
removal of the force annotation of the forced release is among the patches it adds,
and after these patches are applied to the releases of the sorted list, every release
at a position in front of `k` is `Outdated` and approved, whatever its status was
before. -/
theorem forced_release_outdates_older (env : Env) (input : HookInput) (out : HookOut)
    (du : deckhouseUpdater) (hv : ValidIndices du) (k : Nat) (rk : deckhouseRelease)
    (hk : du.forcedReleaseIndex = (k : Int)) (hrk : du.releases[k]? = some rk)
    (hnames : distinctNames du.releases) :
    ∃ (out1 : HookOut) (du1 : deckhouseUpdater) (added : List PatchOp),
      ApplyForcedRelease env input out du = some (out1, du1)
      ∧ out1.patches = out.patches ++ added
      ∧ PatchOp.removeAnnotation rk.Name "release.deckhouse.io/force" ∈ added
      ∧ (applyPatches du.releases added).length = du.releases.length
      ∧ ∀ (i : Nat) (ri : deckhouseRelease), i < k → du.releases[i]? = some ri →
          ∃ r, (applyPatches du.releases added)[i]? = some r ∧ r.Name = ri.Name
            ∧ r.Status.Phase = Phase.outdated ∧ r.Status.Approved = true := by
  have hne : ¬ du.forcedReleaseIndex = -1 := by omega
  have hs : sliceAt du.releases du.forcedReleaseIndex = some rk := by
    rw [hk, sliceAt_natCast]
    exact hrk
  have hnat : du.forcedReleaseIndex.toNat = k := by
    rw [hk]
    rfl
  obtain ⟨cur, hcur, hcurv⟩ := currentReleasePtr_spec hv
  obtain ⟨out1, du1, ops, hrun, hops, hforced1, hlen1, hclass, hframe, hcurr⟩ :=
    runReleaseDeploy_frame env input out du k cur rk hrk hcurv hv.skipped
  obtain ⟨loopOps, hl1, _, hl3, hl4⟩ := outdateLoop_post env du1.forcedReleaseIndex du1.releases 0
    (out1.patch (PatchOp.removeAnnotation rk.Name "release.deckhouse.io/force"))
  refine ⟨outdateLoop env du1.forcedReleaseIndex 0 du1.releases
      (out1.patch (PatchOp.removeAnnotation rk.Name "release.deckhouse.io/force")),
    du1, ops ++ [PatchOp.removeAnnotation rk.Name "release.deckhouse.io/force"]
    ++ loopOps, ?_, ?_, by simp, applyPatches_length _ _, ?_⟩
  · unfold ApplyForcedRelease
    rw [if_neg hne, hs]
    dsimp only
    rw [hcur, hnat]
    dsimp only
    rw [hrun]
  · rw [hl1]
    simp [HookOut.patch, hops]
  · intro i ri hik hri
    refine ⟨_, applyPatches_getElem? _ _ i ri hri, applyOpsTo_name _ _, ?_⟩
    have hilt : i < du.releases.length := (List.getElem?_eq_some_iff.mp hri).1
    have hip : i ≠ k := by omega
    -- the copy of the release the last loop looks at
    obtain ⟨r1, hr1, hname1, hmsg1⟩ : ∃ r1, du1.releases[i]? = some r1 ∧ r1.Name = ri.Name
        ∧ (cur = some i → r1.Status.Message = "Last Deployed release outdated")
        ∧ (cur ≠ some i → r1 = ri) := by
      by_cases hci : cur = some i
      · obtain ⟨r, h1, h2, h3⟩ := hcurr i ri hci hri
        exact ⟨r, h1, h2, fun _ => h3, fun h => absurd hci h⟩
      · refine ⟨ri, ?_, rfl, fun h => absurd h hci, fun _ => rfl⟩
        rw [hframe i hip hci]
        exact hri
    have hloopHarmless : ∀ op ∈ loopOps, harmlessTo ri.Name op :=
      fun op hop => (hl3 op hop).harmless ri.Name
    have hbound : (((0 + i : Nat) : Int)) < du1.forcedReleaseIndex := by
      rw [hforced1, hk]
      push_cast
      omega
    rcases hl4 i r1 hr1 hbound with hst | hmem
    · -- no patch of the last loop: the release was `Outdated`, approved, before
      have hnc : cur ≠ some i := by
        intro hci
        have h1 := hmsg1.1 hci
        rw [hst] at h1
        exact absurd h1 (by decide)
      have hri1 : r1 = ri := hmsg1.2 hnc
      rw [hri1] at hst
      apply applyOpsTo_keeps
      · unfold outdatedApproved
        rw [hst]
        exact ⟨rfl, rfl⟩
      · intro op hop
        rcases List.mem_append.mp hop with h | h
        · rcases List.mem_append.mp h with h0 | h0
          · rcases hclass op h0 with hc | ⟨st, hc⟩ | ⟨c, rc, st, hcc, hrc, hc⟩ | hc
            · intro st hst1
              exact absurd hst1 (hc _ _)
            · intro st1 hst1
              rw [hc] at hst1
              have hn : rk.Name = ri.Name := by
                injection hst1
              exact absurd hn.symm (distinctNames_ne hnames hri hrk hip)
            · intro st1 hst1
              rw [hc] at hst1
              have hn : rc.Name = ri.Name := by
                injection hst1
              have hic : i ≠ c := by
                intro h1
                apply hnc
                rw [hcc, h1]
              exact absurd hn.symm (distinctNames_ne hnames hri hrc hic)
            · exact hc.harmless ri.Name
          · intro st hst1
            rw [List.mem_singleton.mp h0] at hst1
            cases hst1
        · exact hloopHarmless op h
    · -- the patch of the last loop is the last word on the release
      rw [hname1] at hmem
      obtain ⟨l1, l2, hsplit⟩ := List.append_of_mem hmem
      have h2 : ∀ op ∈ l2, harmlessTo ri.Name op := by
        intro op hop
        apply hloopHarmless
        rw [hsplit]
        exact List.mem_append_right _ (List.mem_cons_of_mem _ hop)
      have happ : ops ++ [PatchOp.removeAnnotation rk.Name "release.deckhouse.io/force"]
          ++ loopOps
          = (ops ++ [PatchOp.removeAnnotation rk.Name "release.deckhouse.io/force"] ++ l1)
            ++ PatchOp.mergeStatus ri.Name
                { Phase := Phase.outdated, Message := "", Approved := true
                  TransitionTime := env.now } :: l2 := by
        rw [hsplit]
        simp
      rw [happ]
      exact applyOpsTo_hit ri _ l2 _ ⟨rfl, rfl⟩ h2

/-- C11, witness. An outdated, a deployed, a suspended and a pending release in front
of the forced `v1.2.0`. -/
theorem forced_release_outdates_older_witness :
    PredictNextRelease (freshUpdater 100 "Auto" true false
        [outdated090, deployed100, suspended105, approved110, forced120])
      = some forcingUpdater
    ∧ distinctNames forcingUpdater.releases
    ∧ ∃ (out1 : HookOut) (du1 : deckhouseUpdater) (added : List PatchOp),
      ApplyForcedRelease sampleEnv (mkInput samplePod []) HookOut.init forcingUpdater
        = some (out1, du1)
      ∧ out1.patches = HookOut.init.patches ++ added
      ∧ PatchOp.removeAnnotation forced120.Name "release.deckhouse.io/force" ∈ added
      ∧ (applyPatches forcingUpdater.releases added).length = forcingUpdater.releases.length
      ∧ ∀ (i : Nat) (ri : deckhouseRelease), i < 4 → forcingUpdater.releases[i]? = some ri →
          ∃ r, (applyPatches forcingUpdater.releases added)[i]? = some r ∧ r.Name = ri.Name
            ∧ r.Status.Phase = Phase.outdated ∧ r.Status.Approved = true :=
  ⟨by decide, by unfold distinctNames; decide,
    forced_release_outdates_older sampleEnv (mkInput samplePod []) HookOut.init forcingUpdater
      ⟨Or.inr ⟨3, approved110, rfl, rfl, rfl⟩, Or.inr ⟨1, deployed100, rfl, rfl, rfl⟩,
        Or.inr ⟨4, forced120, rfl, rfl, rfl⟩, fun z hz => (by cases hz)⟩
      4 forced120 rfl rfl (by unfold distinctNames; decide)⟩

/-! ## A deployed and a pending release, end to end -/

/-- The normalizer leaves a `Deployed` release without suspend annotation alone. -/
theorem prepareRelease_deployed (env : Env) (out : HookOut) (du : deckhouseUpdater)
    (d : deckhouseRelease) (hd : d.Status.Phase = Phase.deployed)
    (hds : d.HasSuspendAnnotation = false) :
    prepareRelease env out du d = (out, du, d) := by
  simp [prepareRelease, patchInitialStatus, patchSuspendedStatus, patchManualRelease, hd, hds]

/-- The normalizer approves a `Pending` release without suspend annotation in `Auto`
mode and when the release is manually approved. -/
theorem prepareRelease_pending (env : Env) (out : HookOut) (du : deckhouseUpdater)
    (p : deckhouseRelease) (hp : p.Status.Phase = Phase.pending)
    (hps : p.HasSuspendAnnotation = false)
    (happr : du.inManualMode = false ∨ p.ManuallyApproved = true) :
    prepareRelease env out du p
      = (if p.Status.Approved then out
          else out.patch (PatchOp.mergeStatus p.Name
            { Phase := Phase.pending, Message := "", Approved := true, TransitionTime := du.now }),
        du, approvedCopy p) := by
  have hc : ¬ (du.inManualMode = true ∧ ¬ p.ManuallyApproved = true) := by
    rintro ⟨h1, h2⟩
    rcases happr with h | h
    · rw [h] at h1
      cases h1
    · exact h2 h
  have hne : ¬ p.Status.Phase = Phase.empty := by
    rw [hp]
    decide
  by_cases ha : p.Status.Approved = true
  · have e : approvedCopy p = p := by
      cases p with
      | mk n v ma hs hf hd rq ds aa cu st =>
        cases st with
        | mk ph ap msg =>
          simp only at ha
          simp [approvedCopy, ha]
    simp [prepareRelease, patchInitialStatus, patchSuspendedStatus, patchManualRelease, hp, hps,
      ha, e]
    intro h1 h2
    exact absurd ⟨h1, by simp [h2]⟩ hc
  · simp [prepareRelease, patchInitialStatus, patchSuspendedStatus, patchManualRelease, hp, hps,
      ha, approvedCopy]
    intro h1 h2
    exact absurd ⟨h1, by simp [h2]⟩ hc

/-- The updater and the patches after `FetchAndPrepareReleases` on a snapshot of a
deployed release `d` and a newer pending release `p`, in either order, none of them
suspended, `p` being approved by the normalizer, with a ready pod. -/
theorem prepareUpdater_pair (env : Env) (input : HookInput) (pod : deckhousePodInfo)
    (d p : deckhouseRelease) (hready : pod.Ready = true)
    (hsnap : input.releases = [d, p] ∨ input.releases = [p, d])
    (hd : d.Status.Phase = Phase.deployed) (hp : p.Status.Phase = Phase.pending)
    (hds : d.HasSuspendAnnotation = false) (hps : p.HasSuspendAnnotation = false)
    (hlt : env.lessThan d.Version p.Version = true)
    (hnlt : env.lessThan p.Version d.Version = false)
    (happr : input.updateMode ≠ "Manual" ∨ p.ManuallyApproved = true) :
    (prepareUpdater env input pod).2
      = { newDeckhouseUpdater env.now input.updateMode pod.Ready (isBootstrapImage env pod) with
          releases := [d, approvedCopy p] }
    ∧ (prepareUpdater env input pod).1.patches
      = (if isUpdatingCMExists input then [PatchOp.deleteUpdatingCM] else [])
        ++ (if p.Status.Approved then []
            else [PatchOp.mergeStatus p.Name
              { Phase := Phase.pending, Message := "", Approved := true
                TransitionTime := env.now }]) := by
  have happr1 : ∀ du : deckhouseUpdater, du.inManualMode = (input.updateMode == "Manual") →
      (du.inManualMode = false ∨ p.ManuallyApproved = true) := by
    intro du hdu
    rcases happr with h | h
    · left
      rw [hdu]
      simpa using h
    · exact Or.inr h
  have hv1 : (approvedCopy p).Version = p.Version := rfl
  have hsort1 : sortByVersion env [d, approvedCopy p] = [d, approvedCopy p] := by
    simp [sortByVersion, insertByVersion, byVersionLess, hv1, hnlt]
  have hsort2 : sortByVersion env [approvedCopy p, d] = [d, approvedCopy p] := by
    simp [sortByVersion, insertByVersion, byVersionLess, hv1, hlt]
  have hfetch : ∀ (out : HookOut) (du : deckhouseUpdater),
      du.inManualMode = (input.updateMode == "Manual") →
      FetchAndPrepareReleases env input out du
        = (if p.Status.Approved then out
            else out.patch (PatchOp.mergeStatus p.Name
              { Phase := Phase.pending, Message := "", Approved := true
                TransitionTime := du.now }),
          { du with releases := [d, approvedCopy p] }) := by
    intro out du hdu
    rcases hsnap with h | h
    · simp only [FetchAndPrepareReleases, h, prepareLoop, prepareRelease_deployed env _ _ d hd hds,
        prepareRelease_pending env _ _ p hp hps (happr1 du hdu), List.nil_append,
        List.cons_append, hsort1]
      simp
    · simp only [FetchAndPrepareReleases, h, prepareLoop,
        prepareRelease_pending env _ _ p hp hps (happr1 du hdu)]
      simp only [prepareRelease_deployed env _ _ d hd hds, List.nil_append,
        List.cons_append, hsort2]
      simp
  unfold prepareUpdater
  dsimp only
  rw [hfetch _ _ rfl]
  refine ⟨rfl, ?_⟩
  rw [if_pos hready]
  by_cases hcm : isUpdatingCMExists input = true
  · by_cases ha : p.Status.Approved = true
    · simp [hcm, ha, deleteUpdatingCM, HookOut.patch, HookOut.metric, HookOut.init]
    · simp [hcm, ha, deleteUpdatingCM, HookOut.patch, HookOut.metric, HookOut.init,
        newDeckhouseUpdater]
  · by_cases ha : p.Status.Approved = true
    · simp [hcm, ha, HookOut.patch, HookOut.metric, HookOut.init]
    · simp [hcm, ha, HookOut.patch, HookOut.metric, HookOut.init, newDeckhouseUpdater]

/-- The prediction on the sorted releases `d` (deployed) and `p` (pending), none of
them forced: `d` is the current release and `p` the predicted one. -/
theorem PredictNextRelease_pair (env : Env) (input : HookInput) (pod : deckhousePodInfo)
    (d p : deckhouseRelease)
    (hd : d.Status.Phase = Phase.deployed) (hp : p.Status.Phase = Phase.pending)
    (hdf : d.HasForceAnnotation = false) (hpf : p.HasForceAnnotation = false) :
    PredictNextRelease
        { newDeckhouseUpdater env.now input.updateMode pod.Ready (isBootstrapImage env pod) with
          releases := [d, approvedCopy p] }
      = some (pairUpdater env input pod d p) := by
  have hp1 : (approvedCopy p).Status.Phase = Phase.pending := hp
  have hpf1 : deckhouseRelease.HasForceAnnotation (approvedCopy p) = false := hpf
  simp [PredictNextRelease, predictLoop, predictStep, processPendingRelease, newDeckhouseUpdater,
    hd, hp1, hdf, hpf1, pairUpdater]

/-- C12, counterexample. The snapshot is the deployed `v1.0.0` and the pending
`v1.1.0` of a newer minor line, in `Auto` mode, with a ready pod, no force flag, no
cooldown or canary time, no requirements, no disruptions and no update windows, and
`v1.1.0` carries the suspend annotation: the normalizer suspends it, nothing is
deployed, `v1.1.0` ends `Suspended` and `v1.0.0` stays `Deployed`. -/
theorem suspended_pending_release_is_not_deployed :
    (mkInput samplePod [deployed100, suspending110]).updateMode = "Auto"
    ∧ (mkInput samplePod [deployed100, suspending110]).updateWindows = none
    ∧ samplePod.Ready = true
    ∧ deployed100.Status.Phase = Phase.deployed ∧ suspending110.Status.Phase = Phase.pending
    ∧ deployed100.HasForceAnnotation = false ∧ suspending110.HasForceAnnotation = false
    ∧ suspending110.CooldownUntil = none ∧ suspending110.ApplyAfter = none
    ∧ suspending110.Requirements = [] ∧ suspending110.Disruptions = []
    ∧ (updateDeckhouse sampleEnv (mkInput samplePod [deployed100, suspending110])).map
        (fun res => (res.err,
          (applyPatches [deployed100, suspending110] res.out.patches).map
            (fun r => (r.Name, r.Status.Phase)),
          res.out.patches.filter isDeployOp))
      = some (none, [("v1.0.0", Phase.deployed), ("v1.1.0", Phase.suspended)], []) := by
  refine ⟨rfl, rfl, rfl, rfl, rfl, rfl, rfl, rfl, rfl, rfl, rfl, by decide⟩

/-- C12 (amended). On the release-channel path with a ready pod, for a snapshot of
one `Deployed` release `d` and one newer `Pending` release `p` with different names,
in either order, none of them carrying the force flag or the suspend annotation, `p`
approved (`Auto` mode or manually approved), no cooldown or canary time in the
future, no requirements, no disruptions, and update windows that permit the update in
`Auto` mode: the pass returns no error, emits the image patch for `p`, and after its
patches `p` is `Deployed`, approved, with an empty message and `d` is `Outdated`. -/
theorem end_to_end_minor_upgrade (env : Env) (input : HookInput) (pod : deckhousePodInfo)
    (d p : deckhouseRelease)
    (hpod : getDeckhousePod input.deckhouse_pod = some (some pod))
    (hchan : input.releaseChannelExists = true)
    (hready : pod.Ready = true)
    (hsnap : input.releases = [d, p] ∨ input.releases = [p, d])
    (hname : d.Name ≠ p.Name)
    (hd : d.Status.Phase = Phase.deployed) (hp : p.Status.Phase = Phase.pending)
    (hlt : env.lessThan d.Version p.Version = true)
    (hnlt : env.lessThan p.Version d.Version = false)
    (hdf : d.HasForceAnnotation = false) (hpf : p.HasForceAnnotation = false)
    (hds : d.HasSuspendAnnotation = false) (hps : p.HasSuspendAnnotation = false)
    (happr : input.updateMode ≠ "Manual" ∨ p.ManuallyApproved = true)
    (hcool : ∀ t, p.CooldownUntil = some t → ¬ env.now < t)
    (hcanary : ∀ t, p.ApplyAfter = some t → ¬ env.now < t)
    (hreq : p.Requirements = []) (hdis : p.Disruptions = [])
    (hwin : input.updateMode ≠ "Manual" →
      ∃ windows, getUpdateWindows env input = Except.ok windows
        ∧ isUpdatePermitted env windows = true) :
    ∃ res : HookResult, updateDeckhouse env input = some res ∧ res.err = none
      ∧ PatchOp.setDeploymentImage (input.registry ++ ":" ++ p.Version.original)
          ∈ res.out.patches
      ∧ applyPatches input.releases res.out.patches
        = input.releases.map (upgradedStatus p.Name) := by
  obtain ⟨hprep2, hprep1⟩ := prepareUpdater_pair env input pod d p hready hsnap hd hp hds hps
    hlt hnlt happr
  have hpred : PredictNextRelease (prepareUpdater env input pod).2
      = some (pairUpdater env input pod d p) := by
    rw [hprep2]
    exact PredictNextRelease_pair env input pod d p hd hp hdf hpf
  obtain ⟨hv, _⟩ := passUpdater_spec env input pod _ hpred
  have hlen : (pairUpdater env input pod d p).releases.length = 2 := rfl
  have hnl : ¬ LastReleaseDeployed (pairUpdater env input pod d p) = true := by
    simp [LastReleaseDeployed, pairUpdater]
  have hforce : HasForceRelease (pairUpdater env input pod d p) = false := by
    simp [HasForceRelease, pairUpdater, newDeckhouseUpdater]
  have hreach : PredictedReleaseIsPatch (pairUpdater env input pod d p) = some true
      ∨ (pairUpdater env input pod d p).inManualMode = true
      ∨ ∃ windows, getUpdateWindows env input = Except.ok windows
          ∧ isUpdatePermitted env windows = true := by
    by_cases hm : input.updateMode = "Manual"
    · refine Or.inr (Or.inl ?_)
      show (input.updateMode == "Manual") = true
      rw [hm]
      rfl
    · exact Or.inr (Or.inr (hwin hm))
  have happly := updateDeckhouse_applies env input pod _ hpod hchan hpred (by rw [hlen]; decide)
    hnl hforce hreach
  obtain ⟨b, hb⟩ := PredictedReleaseIsPatch_total hv
  have hp1 : (pairUpdater env input pod d p).predictedReleaseIndex = ((1 : Nat) : Int) := rfl
  have hrp : (pairUpdater env input pod d p).releases[1]? = some (approvedCopy p) := rfl
  have hboot : ¬ ((pairUpdater env input pod d p).deckhouseIsBootstrapping = true
      ∧ (pairUpdater env input pod d p).releases.length = 1) := by
    rw [hlen]
    intro h
    exact absurd h.2 (by decide)
  have hpass : firstFailingGate env input (pairUpdater env input pod d p) (approvedCopy p) b
      = none := by
    have h1 := cooldownGate_none env (pairUpdater env input pod d p) (approvedCopy p) b
      (Or.inr hcool)
    have h2 : podReadyGate (pairUpdater env input pod d p) b = none := by
      have hr : (pairUpdater env input pod d p).deckhousePodIsReady = true := hready
      simp [podReadyGate, hr]
    have h3 := canaryGate_none env (pairUpdater env input pod d p) (approvedCopy p) hcanary
    have h4 : approvalGate (approvedCopy p) b = none := by
      simp [approvalGate, approvedCopy]
    rw [firstFailingGate_of_gates env input _ _ b h1 h2 h3 h4,
      requirementGate_none env _ (by
        intro kv hkv
        have hkv1 : kv ∈ p.Requirements := hkv
        rw [hreq] at hkv1
        cases hkv1),
      disruptionGate_none env input _ (Or.inr (Or.inr (Or.inr (by
        intro key hkey
        have hkey1 : key ∈ p.Disruptions := hkey
        rw [hdis] at hkey1
        cases hkey1))))]
  obtain ⟨cur, hcur, hcv, hrun⟩ := ApplyPredictedRelease_deploys env input
    (prepareUpdater env input pod).1 _ hv 1 (approvedCopy p) b hp1 hrp hb hboot hpass
  have hcur0 : cur = some 0 := by
    have h0 : currentReleasePtr (pairUpdater env input pod d p) = some (some 0) := by
      simp [currentReleasePtr, pairUpdater, sliceAt]
    rw [h0] at hcur
    exact (Option.some.inj hcur).symm
  obtain ⟨out1, du1, skippedOps, r1, r2, _, _, r5, _⟩ := runReleaseDeploy_post env input
    (prepareUpdater env input pod).1 _ 1 cur (approvedCopy p) hrp hcv hv.skipped
  have hsk : skippedOps = [] := r5 rfl
  have hpo : predictedOps env (approvedCopy p) = [PatchOp.mergeStatus p.Name
      { Phase := Phase.deployed, Message := "", Approved := true
        TransitionTime := env.now }] := by
    unfold predictedOps
    rw [if_neg]
    · rfl
    · intro hc
      have hc1 := congrArg DeckhouseReleaseStatus.Phase hc
      have hc2 : p.Status.Phase = Phase.deployed := hc1
      rw [hp] at hc2
      cases hc2
  have hco : currentOps env (pairUpdater env input pod d p).releases cur
      = [PatchOp.mergeStatus d.Name
          { Phase := Phase.outdated, Message := "Last Deployed release outdated"
            Approved := d.Status.Approved, TransitionTime := env.now }] := by
    rw [hcur0]
    have h0 : (pairUpdater env input pod d p).releases[0]? = some d := rfl
    simp only [currentOps, h0]
    rw [if_neg]
    · rfl
    · intro hc
      have hc1 := congrArg DeckhouseReleaseStatus.Phase hc
      have hc2 : d.Status.Phase = Phase.outdated := hc1
      rw [hd] at hc2
      cases hc2
  rw [hpo, hco, hsk, hprep1] at r2
  refine ⟨{ out := out1, err := none }, ?_, rfl, ?_, ?_⟩
  · rw [happly, hrun, r1]
    rfl
  · show _ ∈ out1.patches
    rw [r2]
    simp [approvedCopy]
  · show applyPatches input.releases out1.patches = _
    rw [r2]
    have hname1 : ¬ p.Name = d.Name := fun h => hname h.symm
    by_cases hcm : isUpdatingCMExists input = true
    · by_cases ha : p.Status.Approved = true
      · rcases hsnap with h | h
        · simp [h, hcm, ha, applyPatches, applyPatchOp, upgradedStatus, hname, hname1]
        · simp [h, hcm, ha, applyPatches, applyPatchOp, upgradedStatus, hname, hname1]
      · rcases hsnap with h | h
        · simp [h, hcm, ha, applyPatches, applyPatchOp, upgradedStatus, hname, hname1]
        · simp [h, hcm, ha, applyPatches, applyPatchOp, upgradedStatus, hname, hname1]
    · by_cases ha : p.Status.Approved = true
      · rcases hsnap with h | h
        · simp [h, hcm, ha, applyPatches, applyPatchOp, upgradedStatus, hname, hname1]
        · simp [h, hcm, ha, applyPatches, applyPatchOp, upgradedStatus, hname, hname1]
      · rcases hsnap with h | h
        · simp [h, hcm, ha, applyPatches, applyPatchOp, upgradedStatus, hname, hname1]
        · simp [h, hcm, ha, applyPatches, applyPatchOp, upgradedStatus, hname, hname1]

/-- C12, witness. Deployed `v1.0.0`, pending `v1.1.0`, `Auto` mode, no update
windows. -/
theorem end_to_end_minor_upgrade_witness :
    getDeckhousePod (mkInput samplePod [deployed100, pending110]).deckhouse_pod
      = some (some samplePod)
    ∧ deployed100.Name ≠ pending110.Name
    ∧ sampleEnv.lessThan deployed100.Version pending110.Version = true
    ∧ sampleEnv.lessThan pending110.Version deployed100.Version = false
    ∧ ∃ res : HookResult,
      updateDeckhouse sampleEnv (mkInput samplePod [deployed100, pending110]) = some res
      ∧ res.err = none
      ∧ PatchOp.setDeploymentImage
          ((mkInput samplePod [deployed100, pending110]).registry ++ ":"
            ++ pending110.Version.original) ∈ res.out.patches
      ∧ applyPatches (mkInput samplePod [deployed100, pending110]).releases res.out.patches
        = (mkInput samplePod [deployed100, pending110]).releases.map
            (upgradedStatus pending110.Name) :=
  ⟨by decide, by decide, by decide, by decide,
    end_to_end_minor_upgrade sampleEnv (mkInput samplePod [deployed100, pending110]) samplePod
      deployed100 pending110 (by decide) rfl rfl (Or.inl rfl) (by decide) rfl rfl (by decide)
      (by decide) rfl rfl rfl rfl (Or.inl (by decide)) (fun t h => (by cases h))
      (fun t h => (by cases h)) rfl rfl (fun _ => ⟨[], rfl, rfl⟩)⟩

/-! ## The normalizer steps and `updateStatus`, on their own -/

/-- C25. `updateStatus`, with `approved` defaulting to the current value of the release
when no flag is passed: when phase, message and approved all equal the current status
it emits nothing and leaves the release unchanged; when one of them differs it emits
exactly one status patch and sets the local status to the three values; a second call
with the same arguments, on the collectors and the release the first call left, emits
nothing more. -/
theorem status_transition_suppression (env : Env) (out : HookOut) (release : deckhouseRelease)
    (msg : String) (phase : Phase) (approvedFlag : List Bool) :
    (release.Status = (withStatus release msg phase approvedFlag).Status
      ↔ (phase = release.Status.Phase ∧ msg = release.Status.Message
          ∧ approvedArg release approvedFlag = release.Status.Approved))
    ∧ (release.Status = (withStatus release msg phase approvedFlag).Status →
        updateStatus env out release msg phase approvedFlag = (out, release))
    ∧ (release.Status ≠ (withStatus release msg phase approvedFlag).Status →
        updateStatus env out release msg phase approvedFlag
          = ({ out with patches := out.patches ++ [PatchOp.mergeStatus release.Name
                { Phase := phase, Message := msg, Approved := approvedArg release approvedFlag
                  TransitionTime := env.now }] },
             { release with Status := { Phase := phase
                                        Approved := approvedArg release approvedFlag
                                        Message := msg } }))
    ∧ updateStatus env (updateStatus env out release msg phase approvedFlag).1
          (updateStatus env out release msg phase approvedFlag).2 msg phase approvedFlag
        = updateStatus env out release msg phase approvedFlag := by
  have hiff : release.Status = (withStatus release msg phase approvedFlag).Status
      ↔ (phase = release.Status.Phase ∧ msg = release.Status.Message
          ∧ approvedArg release approvedFlag = release.Status.Approved) := by
    cases hs : release.Status with
    | mk ph ap m =>
      simp only [withStatus, DeckhouseReleaseStatus.mk.injEq]
      constructor
      · rintro ⟨h1, h2, h3⟩
        exact ⟨h1.symm, h3.symm, h2.symm⟩
      · rintro ⟨h1, h2, h3⟩
        exact ⟨h1.symm, h3.symm, h2.symm⟩
  have hself : ∀ r : deckhouseRelease, r.Status = (withStatus r msg phase approvedFlag).Status →
      withStatus r msg phase approvedFlag = r := by
    intro r h
    cases r with
    | mk n v ma hs hf hd rq ds aa cu st =>
      simp only [withStatus] at h ⊢
      rw [← h]
  refine ⟨hiff, ?_, ?_, ?_⟩
  · intro h
    rw [updateStatus_eq, if_pos h, hself release h]
  · intro h
    rw [updateStatus_eq, if_neg h]
    rfl
  · have h2 : (withStatus release msg phase approvedFlag).Status
        = (withStatus (withStatus release msg phase approvedFlag) msg phase approvedFlag).Status := by
      cases approvedFlag <;> rfl
    have hidem : ∀ o : HookOut,
        updateStatus env o (withStatus release msg phase approvedFlag) msg phase approvedFlag
          = (o, withStatus release msg phase approvedFlag) := by
      intro o
      rw [updateStatus_eq, if_pos h2, hself _ h2]
    rw [updateStatus_eq env out release msg phase approvedFlag]
    exact hidem _

/-- C22. The approval step `patchManualRelease`: a release whose phase is not `Pending`
is returned unchanged, with the collectors and the updater unchanged; for a `Pending`
release the returned `status.approved` is not (manual mode and not manually approved),
phase and message of the returned release are unchanged, and a status patch is
emitted, exactly one, iff that value differs from the incoming `status.approved`. -/
theorem manual_approval_resolution (out : HookOut) (du : deckhouseUpdater)
    (release : deckhouseRelease) :
    (release.Status.Phase ≠ Phase.pending →
      patchManualRelease out du release = (out, du, release))
    ∧ (release.Status.Phase = Phase.pending →
        (patchManualRelease out du release).2.2
          = { release with
              Status := { release.Status with Approved := resolvedApproval du release } }
        ∧ (resolvedApproval du release = release.Status.Approved →
            (patchManualRelease out du release).1 = out
            ∧ (patchManualRelease out du release).2.2 = release)
        ∧ (resolvedApproval du release ≠ release.Status.Approved →
            (patchManualRelease out du release).1
              = { out with patches := out.patches ++ [PatchOp.mergeStatus release.Name
                    { Phase := Phase.pending, Message := approvalMessage du release
                      Approved := resolvedApproval du release, TransitionTime := du.now }] })
        ∧ (patchManualRelease out du release).2.1
            = if resolvedApproval du release then du
              else { du with
                     totalPendingManualReleases := du.totalPendingManualReleases + 1 }) := by
  constructor
  · intro h
    simp [patchManualRelease, h]
  · intro h
    cases release with
    | mk n v ma hs hf hd rq ds aa cu st =>
      cases st with
      | mk ph ap m =>
        simp only at h
        subst h
        cases hm : du.inManualMode <;> cases ma <;> cases ap <;>
          simp [patchManualRelease, resolvedApproval, approvalMessage, hm, HookOut.patch]

/-! ## Splitting at the last separator -/

theorem lastIndexChar_of_not_mem (c : Char) :
    ∀ s : List Char, c ∉ s → lastIndexChar c s = none := by
  intro s
  induction s with
  | nil =>
    intro _
    rfl
  | cons x xs ih =>
    intro h
    have h1 : ¬ x = c := fun e => h (by rw [e]; exact List.mem_cons_self _ _)
    have h2 : c ∉ xs := fun e => h (List.mem_cons_of_mem _ e)
    simp only [lastIndexChar, ih h2, if_neg h1]

theorem lastIndexChar_not_mem (c : Char) :
    ∀ s : List Char, lastIndexChar c s = none → c ∉ s := by
  intro s
  induction s with
  | nil =>
    intro _ h
    cases h
  | cons x xs ih =>
    intro h
    cases hx : lastIndexChar c xs with
    | some j =>
      simp only [lastIndexChar, hx] at h
      cases h
    | none =>
      simp only [lastIndexChar, hx] at h
      by_cases hxc : x = c
      · rw [if_pos hxc] at h
        cases h
      · intro hmem
        rcases List.mem_cons.mp hmem with e | e
        · exact hxc e.symm
        · exact ih hx e

/-- The index `strings.LastIndex` finds in `before ++ c :: after`, when `c` does not
occur in `after`, is the length of `before`. -/
theorem lastIndexChar_split (c : Char) (after : List Char) (hn : c ∉ after) :
    ∀ before : List Char, lastIndexChar c (before ++ c :: after) = some before.length := by
  intro before
  induction before with
  | nil =>
    simp only [List.nil_append, lastIndexChar, lastIndexChar_of_not_mem c after hn, if_true,
      List.length_nil]
  | cons b bs ih =>
    show (match lastIndexChar c (bs ++ c :: after) with
      | some i => some (i + 1)
      | none => if b = c then some 0 else none) = some (bs.length + 1)
    rw [ih]

/-- When `strings.LastIndex` finds an index, the string splits there: the separator
stands at that index and does not occur behind it. -/
theorem lastIndexChar_some (c : Char) :
    ∀ (s : List Char) (i : Nat), lastIndexChar c s = some i →
      ∃ before after, s = before ++ c :: after ∧ c ∉ after ∧ i = before.length := by
  intro s
  induction s with
  | nil =>
    intro i h
    cases h
  | cons x xs ih =>
    intro i h
    cases hx : lastIndexChar c xs with
    | some j =>
      simp only [lastIndexChar, hx] at h
      obtain ⟨before, after, e, hn, hj⟩ := ih j hx
      refine ⟨x :: before, after, by rw [e]; rfl, hn, ?_⟩
      rw [← Option.some.inj h, hj]
      rfl
    | none =>
      simp only [lastIndexChar, hx] at h
      by_cases hxc : x = c
      · rw [if_pos hxc] at h
        refine ⟨[], xs, by rw [hxc]; rfl, lastIndexChar_not_mem c xs hx, ?_⟩
        rw [← Option.some.inj h]
        rfl
      · rw [if_neg hxc] at h
        cases h

theorem drop_split (c : Char) (after : List Char) :
    ∀ before : List Char, (before ++ c :: after).drop (before.length + 1) = after := by
  intro before
  induction before with
  | nil => rfl
  | cons b bs ih => simp [ih]

theorem take_split (c : Char) (after : List Char) :
    ∀ before : List Char, (before ++ c :: after).take before.length = before := by
  intro before
  induction before with
  | nil => rfl
  | cons b bs ih => simp [ih]

/-- The method `isBootstrapImage` on an image that splits into `repo`, the last `:`
and `tag`. -/
theorem isBootstrapImage_split (env : Env) (dpi : deckhousePodInfo) (repo tag : List Char)
    (h : dpi.Image.data = repo ++ ':' :: tag) (hn : ':' ∉ tag) :
    isBootstrapImage env dpi
      = (if tag = [] then false else decide (env.toLower (String.mk tag) ∈ bootstrapTags)) := by
  unfold isBootstrapImage
  rw [h, lastIndexChar_split ':' tag hn repo]
  dsimp only
  rw [drop_split]
  have he : (String.mk tag = "") ↔ tag = [] := by
    constructor
    · intro e
      exact congrArg String.data e
    · intro e
      rw [e]
  by_cases ht : tag = []
  · rw [if_pos (he.mpr ht), if_pos ht]
  · rw [if_neg (fun e => ht (he.mp e)), if_neg ht]
    simp [bootstrapTags]

/-- C27. `isBootstrapImage` is true iff the image contains `:` and the text after its
last `:` is not empty and, in lower case, one of alpha, beta, early-access, stable,
rock-solid (for a `strings.ToLower` that maps the empty string to itself the test on
emptiness can be left out); an image without `:` and an image with an empty tag are
not bootstrap images. -/
theorem bootstrap_image_detection (env : Env) (dpi : deckhousePodInfo) :
    (isBootstrapImage env dpi = true
      ↔ ∃ repo tag : List Char, dpi.Image.data = repo ++ ':' :: tag ∧ ':' ∉ tag ∧ tag ≠ []
          ∧ env.toLower (String.mk tag) ∈ bootstrapTags)
    ∧ (env.toLower "" = "" →
        (isBootstrapImage env dpi = true
          ↔ ∃ repo tag : List Char, dpi.Image.data = repo ++ ':' :: tag ∧ ':' ∉ tag
              ∧ env.toLower (String.mk tag) ∈ bootstrapTags))
    ∧ (':' ∉ dpi.Image.data → isBootstrapImage env dpi = false)
    ∧ (∀ repo : List Char, dpi.Image.data = repo ++ [':'] → isBootstrapImage env dpi = false) := by
  have hnone : ':' ∉ dpi.Image.data → isBootstrapImage env dpi = false := by
    intro h
    unfold isBootstrapImage
    rw [lastIndexChar_of_not_mem ':' _ h]
  have hiff : isBootstrapImage env dpi = true
      ↔ ∃ repo tag : List Char, dpi.Image.data = repo ++ ':' :: tag ∧ ':' ∉ tag ∧ tag ≠ []
          ∧ env.toLower (String.mk tag) ∈ bootstrapTags := by
    constructor
    · intro hb
      cases hl : lastIndexChar ':' dpi.Image.data with
      | none =>
        rw [hnone (lastIndexChar_not_mem ':' _ hl)] at hb
        cases hb
      | some i =>
        obtain ⟨repo, tag, e, hn, _⟩ := lastIndexChar_some ':' _ i hl
        rw [isBootstrapImage_split env dpi repo tag e hn] at hb
        by_cases ht : tag = []
        · rw [if_pos ht] at hb
          cases hb
        · rw [if_neg ht] at hb
          exact ⟨repo, tag, e, hn, ht, of_decide_eq_true hb⟩
    · rintro ⟨repo, tag, e, hn, ht, hmem⟩
      rw [isBootstrapImage_split env dpi repo tag e hn, if_neg ht]
      exact decide_eq_true hmem
  refine ⟨hiff, ?_, hnone, ?_⟩
  · intro hlow
    rw [hiff]
    constructor
    · rintro ⟨repo, tag, e, hn, _, hmem⟩
      exact ⟨repo, tag, e, hn, hmem⟩
    · rintro ⟨repo, tag, e, hn, hmem⟩
      refine ⟨repo, tag, e, hn, ?_, hmem⟩
      intro ht
      rw [ht] at hmem
      have h0 : env.toLower (String.mk []) = "" := hlow
      rw [h0] at hmem
      exact absurd hmem (by decide)
  · intro repo e
    rw [isBootstrapImage_split env dpi repo [] e (by simp), if_pos rfl]

/-! ## The tag-based path -/

/-- The function `tagUpdate` on a pod whose image and image ID are not empty and split
at the last `:` and at the last `@`: it asks for the registry client of `repo`, then
for the digest of `tag`, and deletes the pod when the digest differs from `hash`
after trimming. -/
theorem tagUpdate_split (env : Env) (out : HookOut) (pod : deckhousePodInfo)
    (repo tag pre hash : List Char) (h1 : pod.Image ≠ "") (h2 : pod.ImageID ≠ "")
    (hi : pod.Image.data = repo ++ ':' :: tag) (hni : ':' ∉ tag)
    (hd : pod.ImageID.data = pre ++ '@' :: hash) (hnd : '@' ∉ hash) :
    tagUpdate env out pod
      = match env.getRegistryClient (String.mk repo) with
        | some _ => { out := out, err := none }
        | none =>
          match env.digest (String.mk repo) (String.mk tag) with
          | Except.error _ =>
            { out := ((out.metric (MetricOp.inc "deckhouse_registry_check_total")).metric
                (MetricOp.inc "deckhouse_kube_image_digest_check_total")).metric
                (MetricOp.inc "deckhouse_registry_check_errors_total")
              err := none }
          | Except.ok repoDigest =>
            if env.trimSpace repoDigest = env.trimSpace (String.mk hash) then
              { out := ((out.metric (MetricOp.inc "deckhouse_registry_check_total")).metric
                  (MetricOp.inc "deckhouse_kube_image_digest_check_total")).metric
                  (MetricOp.set "deckhouse_kube_image_digest_check_success" 1 [] none)
                err := none }
            else
              { out := (((out.metric (MetricOp.inc "deckhouse_registry_check_total")).metric
                  (MetricOp.inc "deckhouse_kube_image_digest_check_total")).metric
                  (MetricOp.set "deckhouse_kube_image_digest_check_success" 1 [] none)).patch
                  (PatchOp.deletePod pod.Namespace pod.Name)
                err := none } := by
  unfold tagUpdate
  rw [if_neg (fun h => h1 h.1), if_neg (fun h => h.elim h1 h2), hd,
    lastIndexChar_split '@' hash hnd pre]
  dsimp only
  rw [hi, lastIndexChar_split ':' tag hni repo]
  dsimp only
  rw [drop_split, drop_split, take_split]

/-- C24. The tag-based path as a case analysis. An empty image or image ID: nothing is
emitted, no error. Otherwise an image ID without `@` or an image without `:`: an error
is returned and nothing is emitted. Otherwise, `tag` being the text after the last `:`
of the image and `hash` the text after the last `@` of the image ID: no error is
returned, and the deletion of the pod is the one patch emitted when the registry
client and the digest of `tag` are obtained without error and the digest differs from
`hash` after trimming; no patch is emitted otherwise. No patch other than that
deletion is ever emitted. -/
theorem tag_update_decision (env : Env) (out : HookOut) (pod : deckhousePodInfo) :
    ((pod.Image = "" ∨ pod.ImageID = "") → tagUpdate env out pod = { out := out, err := none })
    ∧ (pod.Image ≠ "" → pod.ImageID ≠ "" →
        ('@' ∉ pod.ImageID.data ∨ ':' ∉ pod.Image.data) →
        (tagUpdate env out pod).out = out ∧ (tagUpdate env out pod).err ≠ none)
    ∧ (∀ repo tag pre hash : List Char, pod.Image ≠ "" → pod.ImageID ≠ "" →
        pod.Image.data = repo ++ ':' :: tag → ':' ∉ tag →
        pod.ImageID.data = pre ++ '@' :: hash → '@' ∉ hash →
        (tagUpdate env out pod).err = none
        ∧ ((env.getRegistryClient (String.mk repo) = none
            ∧ ∃ dg, env.digest (String.mk repo) (String.mk tag) = Except.ok dg
                ∧ env.trimSpace dg ≠ env.trimSpace (String.mk hash)) →
            (tagUpdate env out pod).out.patches
              = out.patches ++ [PatchOp.deletePod pod.Namespace pod.Name])
        ∧ (¬ (env.getRegistryClient (String.mk repo) = none
            ∧ ∃ dg, env.digest (String.mk repo) (String.mk tag) = Except.ok dg
                ∧ env.trimSpace dg ≠ env.trimSpace (String.mk hash)) →
            (tagUpdate env out pod).out.patches = out.patches))
    ∧ ((tagUpdate env out pod).out.patches = out.patches
        ∨ (tagUpdate env out pod).out.patches
            = out.patches ++ [PatchOp.deletePod pod.Namespace pod.Name]) := by
  have hempty : (pod.Image = "" ∨ pod.ImageID = "") →
      tagUpdate env out pod = { out := out, err := none } := by
    intro h
    unfold tagUpdate
    by_cases hb : pod.Image = "" ∧ pod.ImageID = ""
    · rw [if_pos hb]
    · rw [if_neg hb, if_pos h]
  have herr : pod.Image ≠ "" → pod.ImageID ≠ "" →
      ('@' ∉ pod.ImageID.data ∨ ':' ∉ pod.Image.data) →
      (tagUpdate env out pod).out = out ∧ (tagUpdate env out pod).err ≠ none := by
    intro h1 h2 h
    unfold tagUpdate
    rw [if_neg (fun h => h1 h.1), if_neg (fun h => h.elim h1 h2)]
    cases hl : lastIndexChar '@' pod.ImageID.data with
    | none => exact ⟨rfl, by simp⟩
    | some i =>
      dsimp only
      rcases h with h | h
      · exact absurd (lastIndexChar_of_not_mem '@' _ h) (by rw [hl]; simp)
      · rw [lastIndexChar_of_not_mem ':' _ h]
        exact ⟨rfl, by simp⟩
  have hsplit : ∀ repo tag pre hash : List Char, pod.Image ≠ "" → pod.ImageID ≠ "" →
      pod.Image.data = repo ++ ':' :: tag → ':' ∉ tag →
      pod.ImageID.data = pre ++ '@' :: hash → '@' ∉ hash →
      (tagUpdate env out pod).err = none
      ∧ ((env.getRegistryClient (String.mk repo) = none
          ∧ ∃ dg, env.digest (String.mk repo) (String.mk tag) = Except.ok dg
              ∧ env.trimSpace dg ≠ env.trimSpace (String.mk hash)) →
          (tagUpdate env out pod).out.patches
            = out.patches ++ [PatchOp.deletePod pod.Namespace pod.Name])
      ∧ (¬ (env.getRegistryClient (String.mk repo) = none
          ∧ ∃ dg, env.digest (String.mk repo) (String.mk tag) = Except.ok dg
              ∧ env.trimSpace dg ≠ env.trimSpace (String.mk hash)) →
          (tagUpdate env out pod).out.patches = out.patches) := by
    intro repo tag pre hash h1 h2 hi hni hd hnd
    rw [tagUpdate_split env out pod repo tag pre hash h1 h2 hi hni hd hnd]
    cases hc : env.getRegistryClient (String.mk repo) with
    | some e =>
      refine ⟨rfl, ?_, fun _ => rfl⟩
      rintro ⟨h, _⟩
      cases h
    | none =>
      cases hdg : env.digest (String.mk repo) (String.mk tag) with
      | error e =>
        refine ⟨rfl, ?_, fun _ => rfl⟩
        rintro ⟨_, dg, h, _⟩
        cases h
      | ok dg =>
        dsimp only
        by_cases heq : env.trimSpace dg = env.trimSpace (String.mk hash)
        · rw [if_pos heq]
          refine ⟨rfl, ?_, fun _ => rfl⟩
          rintro ⟨_, dg1, h, hne⟩
          cases h
          exact absurd heq hne
        · rw [if_neg heq]
          refine ⟨rfl, fun _ => rfl, ?_⟩
          intro hno
          exact absurd ⟨rfl, dg, rfl, heq⟩ hno
  refine ⟨hempty, herr, hsplit, ?_⟩
  by_cases h1 : pod.Image = ""
  · rw [hempty (Or.inl h1)]
    exact Or.inl rfl
  · by_cases h2 : pod.ImageID = ""
    · rw [hempty (Or.inr h2)]
      exact Or.inl rfl
    · cases hl : lastIndexChar '@' pod.ImageID.data with
      | none =>
        rw [(herr h1 h2 (Or.inl (lastIndexChar_not_mem '@' _ hl))).1]
        exact Or.inl rfl
      | some i =>
        cases hl2 : lastIndexChar ':' pod.Image.data with
        | none =>
          rw [(herr h1 h2 (Or.inr (lastIndexChar_not_mem ':' _ hl2))).1]
          exact Or.inl rfl
        | some j =>
          obtain ⟨pre, hash, hd, hnd, _⟩ := lastIndexChar_some '@' _ i hl
          obtain ⟨repo, tag, hi, hni, _⟩ := lastIndexChar_some ':' _ j hl2
          obtain ⟨_, hyes, hno⟩ := hsplit repo tag pre hash h1 h2 hi hni hd hnd
          by_cases hc : env.getRegistryClient (String.mk repo) = none
              ∧ ∃ dg, env.digest (String.mk repo) (String.mk tag) = Except.ok dg
                  ∧ env.trimSpace dg ≠ env.trimSpace (String.mk hash)
          · exact Or.inr (hyes hc)
          · exact Or.inl (hno hc)

/-! ## Index safety -/

/-- The method `PredictedRelease` on an updater with valid indices does not panic. -/
theorem PredictedRelease_total {du : deckhouseUpdater} (hv : ValidIndices du) :
    ∃ x, PredictedRelease du = some x := by
  unfold PredictedRelease
  rcases hv.predicted with h | ⟨p, rp, hp, hrp, _⟩
  · exact ⟨none, by rw [if_pos h]⟩
  · have hne : ¬ du.predictedReleaseIndex = -1 := by omega
    have hs : sliceAt du.releases du.predictedReleaseIndex = some rp := by
      rw [hp, sliceAt_natCast]
      exact hrp
    rw [if_neg hne, hs]
    exact ⟨_, rfl⟩

/-- The method `ApplyForcedRelease` on an updater with valid indices does not panic. -/
theorem ApplyForcedRelease_total (env : Env) (input : HookInput) (out : HookOut)
    (du : deckhouseUpdater) (hv : ValidIndices du) :
    ∃ r, ApplyForcedRelease env input out du = some r := by
  rcases hv.forced with h | ⟨k, rk, hk, hrk, _⟩
  · refine ⟨(out, du), ?_⟩
    unfold ApplyForcedRelease
    rw [if_pos h]
  · obtain ⟨out1, du1, h1, _⟩ := ApplyForcedRelease_spec env input out du hv k rk hk hrk
    exact ⟨_, h1⟩

/-- C30. For every release list, `PredictNextRelease` on a fresh updater returns; each
of the predicted, deployed and forced index is `-1` or a position of the list, every
skipped index is a position, the deployed index is `-1` iff no release is `Deployed`
and is otherwise the last position of a `Deployed` release; and on the result
`PredictedReleaseIsPatch`, `PredictedRelease`, `ApplyPredictedRelease`,
`ApplyForcedRelease` and `runReleaseDeploy` (with the pointers these callers pass)
return without an index out of range. -/
theorem index_safety (now : Int) (mode : String) (ready boot : Bool)
    (rs : List deckhouseRelease) :
    ∃ du, PredictNextRelease (freshUpdater now mode ready boot rs) = some du
      ∧ du.releases = rs
      ∧ (du.predictedReleaseIndex = -1
          ∨ ∃ p : Nat, du.predictedReleaseIndex = (p : Int) ∧ p < rs.length)
      ∧ (du.currentDeployedReleaseIndex = -1
          ∨ ∃ c : Nat, du.currentDeployedReleaseIndex = (c : Int) ∧ c < rs.length)
      ∧ (du.forcedReleaseIndex = -1
          ∨ ∃ k : Nat, du.forcedReleaseIndex = (k : Int) ∧ k < rs.length)
      ∧ (∀ z ∈ du.skippedPatchesIndexes, ∃ k : Nat, z = (k : Int) ∧ k < rs.length)
      ∧ (du.currentDeployedReleaseIndex = -1 ↔ ∀ r ∈ rs, r.Status.Phase ≠ Phase.deployed)
      ∧ (∀ c : Nat, du.currentDeployedReleaseIndex = (c : Int) →
          (∃ rc, rs[c]? = some rc ∧ rc.Status.Phase = Phase.deployed)
          ∧ ∀ (j : Nat) (r : deckhouseRelease), c < j → rs[j]? = some r →
              r.Status.Phase ≠ Phase.deployed)
      ∧ (∃ b, PredictedReleaseIsPatch du = some b)
      ∧ (∃ x, PredictedRelease du = some x)
      ∧ ∀ (env : Env) (input : HookInput) (out : HookOut),
          (∃ r, ApplyPredictedRelease env input out du = some r)
          ∧ (∃ r, ApplyForcedRelease env input out du = some r)
          ∧ ∀ (p : Nat) (cur : Option Nat),
              (du.predictedReleaseIndex = (p : Int) ∨ du.forcedReleaseIndex = (p : Int)) →
              currentReleasePtr du = some cur →
              ∃ r, runReleaseDeploy env input out du p cur = some r := by
  obtain ⟨du, hpred, hinv, _, hrel, hv⟩ :=
    PredictNextRelease_total (freshUpdater now mode ready boot rs) rfl rfl rfl rfl
  have hrel1 : du.releases = rs := hrel
  have hinv1 : PredictInv rs rs.length du := hinv
  have hlt : ∀ (i : Nat) (r : deckhouseRelease), rs[i]? = some r → i < rs.length :=
    fun i r h => (List.getElem?_eq_some_iff.mp h).1
  refine ⟨du, hpred, hrel1, ?_, ?_, ?_, ?_, ?_, ?_, PredictedReleaseIsPatch_total hv,
    PredictedRelease_total hv, ?_⟩
  · rcases hv.predicted with h | ⟨p, rp, hp, hrp, _⟩
    · exact Or.inl h
    · rw [hrel1] at hrp
      exact Or.inr ⟨p, hp, hlt p rp hrp⟩
  · rcases hv.deployed with h | ⟨c, rc, hc, hrc, _⟩
    · exact Or.inl h
    · rw [hrel1] at hrc
      exact Or.inr ⟨c, hc, hlt c rc hrc⟩
  · rcases hv.forced with h | ⟨k, rk, hk, hrk, _⟩
    · exact Or.inl h
    · rw [hrel1] at hrk
      exact Or.inr ⟨k, hk, hlt k rk hrk⟩
  · intro z hz
    obtain ⟨k, hk, hklt⟩ := hv.skipped z hz
    rw [hrel1] at hklt
    exact ⟨k, hk, hklt⟩
  · rcases hinv1.deployed with ⟨h, hno⟩ | ⟨c, rc, hc, hclt, hrc, hph, _⟩
    · refine ⟨fun _ => ?_, fun _ => h⟩
      intro r hr
      obtain ⟨j, hj⟩ := List.mem_iff_getElem?.mp hr
      exact hno j r (hlt j r hj) hj
    · constructor
      · intro h
        omega
      · intro hall
        exact absurd hph (hall rc (List.mem_iff_getElem?.mpr ⟨c, hrc⟩))
  · intro c hc
    rcases hinv1.deployed with ⟨h, _⟩ | ⟨c1, rc, hc1, _, hrc, hph, hlast⟩
    · omega
    · have hcc : c = c1 := by omega
      subst hcc
      refine ⟨⟨rc, hrc, hph⟩, ?_⟩
      intro j r hcj hr
      exact hlast j r hcj (hlt j r hr) hr
  · intro env input out
    obtain ⟨o1, d1, h1, _⟩ := ApplyPredictedRelease_total env input out du hv
    refine ⟨⟨_, h1⟩, ApplyForcedRelease_total env input out du hv, ?_⟩
    intro p cur hp hcur
    obtain ⟨cur1, hcur1, hcv⟩ := currentReleasePtr_spec hv
    have hcc : cur = cur1 := by
      rw [hcur] at hcur1
      exact Option.some.inj hcur1
    subst hcc
    have hrp : ∃ rp, du.releases[p]? = some rp := by
      rcases hp with hp | hp
      · rcases hv.predicted with h | ⟨p1, rp, hp1, hrp, _⟩
        · omega
        · have hpp : p = p1 := by omega
          subst hpp
          exact ⟨rp, hrp⟩
      · rcases hv.forced with h | ⟨p1, rp, hp1, hrp, _⟩
        · omega
        · have hpp : p = p1 := by omega
          subst hpp
          exact ⟨rp, hrp⟩
    obtain ⟨rp, hrp⟩ := hrp
    obtain ⟨o2, d2, h2, _⟩ := runReleaseDeploy_spec env input out du p cur rp hrp hcv hv.skipped
    exact ⟨_, h2⟩

/-! ## Frames -/

/-- C28. `ApplyPredictedRelease` on the updater `PredictNextRelease` returns, when
there is no predicted release or, outside the bootstrap bypass, one of the checks
fails: it returns; it adds at most one patch, a status patch for the predicted release
with phase `Pending` (so no marker, no image patch, no `Deployed`); in the slice only
the predicted release can change, and its phase stays `Pending`; the deployed release
and the skipped patches keep their status. -/
theorem blocked_pass_frame (env : Env) (input : HookInput) (out : HookOut) (now : Int)
    (mode : String) (ready boot : Bool) (rs : List deckhouseRelease) (du : deckhouseUpdater)
    (hpred : PredictNextRelease (freshUpdater now mode ready boot rs) = some du)
    (hblocked : du.predictedReleaseIndex = -1
      ∨ ∃ (p : Nat) (rp : deckhouseRelease) (b : Bool) (m : String),
          du.predictedReleaseIndex = (p : Int) ∧ du.releases[p]? = some rp
          ∧ PredictedReleaseIsPatch du = some b
          ∧ ¬ (du.deckhouseIsBootstrapping = true ∧ du.releases.length = 1)
          ∧ firstFailingGate env input du rp b = some m) :
    ∃ (out1 : HookOut) (du1 : deckhouseUpdater) (added : List PatchOp),
      ApplyPredictedRelease env input out du = some (out1, du1)
      ∧ out1.patches = out.patches ++ added
      ∧ added.length ≤ 1
      ∧ (∀ op ∈ added, isDeployOp op = false
          ∧ ∃ (p : Nat) (rp : deckhouseRelease) (st : statusPatch),
              du.predictedReleaseIndex = (p : Int) ∧ du.releases[p]? = some rp
              ∧ op = PatchOp.mergeStatus rp.Name st ∧ st.Phase = Phase.pending)
      ∧ du1.releases.length = du.releases.length
      ∧ (∀ i : Nat, (i : Int) ≠ du.predictedReleaseIndex → du1.releases[i]? = du.releases[i]?)
      ∧ (∀ (p : Nat) (r1 : deckhouseRelease), du.predictedReleaseIndex = (p : Int) →
          du1.releases[p]? = some r1 → r1.Status.Phase = Phase.pending)
      ∧ (∀ c : Nat, du.currentDeployedReleaseIndex = (c : Int) →
          du1.releases[c]? = du.releases[c]?)
      ∧ (∀ k : Nat, (k : Int) ∈ du.skippedPatchesIndexes →
          du1.releases[k]? = du.releases[k]?) := by
  obtain ⟨du0, hpred0, hinv, _, hrel, hv⟩ :=
    PredictNextRelease_total (freshUpdater now mode ready boot rs) rfl rfl rfl rfl
  have hdu : du0 = du := by
    rw [hpred] at hpred0
    exact (Option.some.inj hpred0).symm
  subst hdu
  have hinv1 : PredictInv du0.releases du0.releases.length du0 := by
    rw [hrel]
    exact hinv
  rcases hblocked with hnone | ⟨p, rp, b, m, hp, hrp, hb, hboot, hfail⟩
  · refine ⟨out, du0, [], ?_, by simp, by simp, ?_, rfl, fun _ _ => rfl, ?_, fun _ _ => rfl,
      fun _ _ => rfl⟩
    · unfold ApplyPredictedRelease
      rw [if_pos hnone]
    · intro op hop
      cases hop
    · intro p r1 hp
      omega
  · obtain ⟨out1, r1, hrun, hat, _, hph, _, hpatches⟩ :=
      ApplyPredictedRelease_blocked env input out du0 hv p rp b m hp hrp hb hboot hfail
    have hplt : p < du0.releases.length := (List.getElem?_eq_some_iff.mp hrp).1
    have hother : ∀ i : Nat, i ≠ p → (du0.releases.set p r1)[i]? = du0.releases[i]? := by
      intro i hi
      simp [List.getElem?_set, Ne.symm hi]
    obtain ⟨added, hadded, hcases⟩ : ∃ added : List PatchOp, out1.patches = out.patches ++ added
        ∧ (added = [] ∨ ∃ a : Bool, added = [PatchOp.mergeStatus rp.Name
            { Phase := Phase.pending, Message := m, Approved := a
              TransitionTime := env.now }]) := by
      rcases hpatches with h | ⟨a, h⟩
      · exact ⟨[], by simp [h], Or.inl rfl⟩
      · exact ⟨_, h, Or.inr ⟨a, rfl⟩⟩
    refine ⟨out1, { du0 with releases := du0.releases.set p r1 }, added, hrun, hadded, ?_, ?_,
      by simp, ?_, ?_, ?_, ?_⟩
    · rcases hcases with h | ⟨a, h⟩ <;> simp [h]
    · intro op hop
      rcases hcases with h | ⟨a, h⟩
      · rw [h] at hop
        cases hop
      · rw [h] at hop
        rw [List.mem_singleton.mp hop]
        exact ⟨rfl, p, rp, _, hp, hrp, rfl, rfl⟩
    · intro i hi
      exact hother i (fun e => hi (by rw [e, hp]))
    · intro p1 r2 hp1 hr2
      have hpp : p1 = p := by omega
      subst hpp
      have e : (du0.releases.set p1 r1)[p1]? = some r2 := hr2
      rw [hat] at e
      rw [← Option.some.inj e]
      exact hph
    · intro c hc
      apply hother
      intro hcp
      subst hcp
      rcases hv.deployed with h | ⟨c1, rc, hc1, hrc, hd⟩
      · omega
      · have hcc : c = c1 := by omega
        subst hcc
        rw [hrp] at hrc
        cases hrc
        have hpend := predicted_is_pending hv hp hrp
        rw [hpend] at hd
        cases hd
    · intro k hk
      apply hother
      intro hkp
      subst hkp
      rcases hinv1.predicted with ⟨h, _⟩ | ⟨p1, f, rp1, rf, hp1, _, _, _, _, _, _, _, _, _, _, hmem⟩
      · omega
      · obtain ⟨k1, r, hk1, hlt, _⟩ := (hmem (k : Int)).mp hk
        omega

/-- C28, witness. The predicted `v1.1.0` is in cooldown: the pass is blocked by the
cooldown check. -/
theorem blocked_pass_frame_witness :
    PredictNextRelease (freshUpdater 100 "Auto" true false [deployed100, cooling110])
      = some (predictedUpdater false 0 cooling110)
    ∧ firstFailingGate sampleEnv (mkInput samplePod [deployed100, cooling110])
        (predictedUpdater false 0 cooling110) cooling110 false
      = some "Release is in cooldown until: later"
    ∧ ∃ (out1 : HookOut) (du1 : deckhouseUpdater) (added : List PatchOp),
      ApplyPredictedRelease sampleEnv (mkInput samplePod [deployed100, cooling110]) HookOut.init
          (predictedUpdater false 0 cooling110) = some (out1, du1)
      ∧ out1.patches = HookOut.init.patches ++ added
      ∧ added.length ≤ 1
      ∧ (∀ op ∈ added, isDeployOp op = false
          ∧ ∃ (p : Nat) (rp : deckhouseRelease) (st : statusPatch),
              (predictedUpdater false 0 cooling110).predictedReleaseIndex = (p : Int)
              ∧ (predictedUpdater false 0 cooling110).releases[p]? = some rp
              ∧ op = PatchOp.mergeStatus rp.Name st ∧ st.Phase = Phase.pending)
      ∧ du1.releases.length = (predictedUpdater false 0 cooling110).releases.length
      ∧ (∀ i : Nat, (i : Int) ≠ (predictedUpdater false 0 cooling110).predictedReleaseIndex →
          du1.releases[i]? = (predictedUpdater false 0 cooling110).releases[i]?)
      ∧ (∀ (p : Nat) (r1 : deckhouseRelease),
          (predictedUpdater false 0 cooling110).predictedReleaseIndex = (p : Int) →
          du1.releases[p]? = some r1 → r1.Status.Phase = Phase.pending)
      ∧ (∀ c : Nat, (predictedUpdater false 0 cooling110).currentDeployedReleaseIndex = (c : Int) →
          du1.releases[c]? = (predictedUpdater false 0 cooling110).releases[c]?)
      ∧ (∀ k : Nat, (k : Int) ∈ (predictedUpdater false 0 cooling110).skippedPatchesIndexes →
          du1.releases[k]? = (predictedUpdater false 0 cooling110).releases[k]?) :=
  ⟨by decide, by decide,
    blocked_pass_frame sampleEnv (mkInput samplePod [deployed100, cooling110]) HookOut.init 100
      "Auto" true false [deployed100, cooling110] (predictedUpdater false 0 cooling110)
      (by decide)
      (Or.inr ⟨1, cooling110, false, "Release is in cooldown until: later", rfl, rfl,
        by decide, by decide, by decide⟩)⟩

/-! ## The normalizer, exactly -/

theorem patchInitialStatus_eq (env : Env) (out : HookOut) (a : deckhouseRelease) :
    patchInitialStatus env out a
      = ({ out with patches := out.patches ++ initOps env a }, initRel a) := by
  unfold patchInitialStatus initOps initRel
  by_cases h : a.Status.Phase = Phase.empty
  · rw [if_neg (not_not.mpr h), if_pos h, if_pos h, updateStatus_eq, if_neg]
    · rfl
    · intro hc
      have := congrArg DeckhouseReleaseStatus.Phase hc
      rw [h] at this
      cases this
  · rw [if_pos h, if_neg h, if_neg h]
    simp

theorem patchSuspendedStatus_eq (env : Env) (out : HookOut) (r : deckhouseRelease) :
    patchSuspendedStatus env out r
      = ({ out with patches := out.patches ++ suspOps env r }, suspRel r) := by
  unfold patchSuspendedStatus suspOps suspRel
  by_cases h : r.HasSuspendAnnotation = true
  · rw [if_neg (not_not.mpr h), if_pos h, if_pos h, updateStatus_eq]
    by_cases hs : r.Status = suspendedStatus
    · have hs1 : r.Status
          = (withStatus r "Release is suspended" Phase.suspended [false]).Status := hs
      rw [if_pos hs1, if_pos hs]
      refine Prod.ext rfl ?_
      show withStatus r "Release is suspended" Phase.suspended [false] = _
      rfl
    · have hs1 : ¬ r.Status
          = (withStatus r "Release is suspended" Phase.suspended [false]).Status := hs
      rw [if_neg hs1, if_neg hs]
      refine Prod.ext ?_ rfl
      simp [HookOut.patch, statusPatchOf, approvedArg]
  · rw [if_pos h, if_neg h, if_neg h]
    simp

theorem patchManualRelease_eq (out : HookOut) (du : deckhouseUpdater) (r : deckhouseRelease) :
    patchManualRelease out du r
      = ({ out with patches := out.patches ++ manualOps du r }, manualCount du r,
          manualRel du r) := by
  cases r with
  | mk n v ma hs hf hd rq ds aa cu st =>
    cases st with
    | mk ph ap m =>
      cases ph <;> cases hm : du.inManualMode <;> cases ma <;> cases ap <;>
        simp [patchManualRelease, manualOps, manualCount, manualRel, resolvedApproval,
          approvalMessage, hm, HookOut.patch]

/-- The three normalizer steps on one snapshot entry: the collector grows by `normOps`,
the release becomes `normRel`, the updater changes in its counter only. -/
theorem prepareRelease_eq (env : Env) (out : HookOut) (du : deckhouseUpdater)
    (a : deckhouseRelease) :
    prepareRelease env out du a
      = ({ out with patches := out.patches ++ normOps env du a },
          manualCount du (suspRel (initRel a)), normRel du a) := by
  unfold prepareRelease
  simp only [patchInitialStatus_eq, patchSuspendedStatus_eq, patchManualRelease_eq, normOps,
    normRel, List.append_assoc]

theorem manualCount_same (du : deckhouseUpdater) (r : deckhouseRelease) :
    sameButCount du (manualCount du r) := by
  unfold manualCount
  split
  · exact ⟨_, rfl⟩
  · exact ⟨du.totalPendingManualReleases, rfl⟩

theorem normOps_count (env : Env) (du : deckhouseUpdater) (n : Nat) :
    normOps env { du with totalPendingManualReleases := n } = normOps env du :=
  funext fun _ => rfl

theorem normRel_count (du : deckhouseUpdater) (n : Nat) :
    normRel { du with totalPendingManualReleases := n } = normRel du :=
  funext fun _ => rfl

/-- The loop of `FetchAndPrepareReleases`, exactly: the collector grows by the
normalizer patches of the snapshot entries in snapshot order, and the normalized
entries are appended to `acc`. -/
theorem prepareLoop_eq (env : Env) :
    ∀ (snap : List deckhouseRelease) (out : HookOut) (du : deckhouseUpdater)
      (acc : List deckhouseRelease),
      (prepareLoop env snap out du acc).1
        = { out with patches := out.patches ++ (snap.map (normOps env du)).flatten }
      ∧ (prepareLoop env snap out du acc).2.2 = acc ++ snap.map (normRel du) := by
  intro snap
  induction snap with
  | nil =>
    intro out du acc
    simp [prepareLoop]
  | cons a rest ih =>
    intro out du acc
    obtain ⟨n, hn⟩ := manualCount_same du (suspRel (initRel a))
    have h := ih { out with patches := out.patches ++ normOps env du a }
      (manualCount du (suspRel (initRel a))) (acc ++ [normRel du a])
    rw [hn] at h
    have e : prepareLoop env (a :: rest) out du acc
        = prepareLoop env rest { out with patches := out.patches ++ normOps env du a }
            { du with totalPendingManualReleases := n } (acc ++ [normRel du a]) := by
      simp only [prepareLoop, prepareRelease_eq, hn]
    rw [e]
    rw [normOps_count env du n, normRel_count du n] at h
    obtain ⟨h1, h2⟩ := h
    constructor
    · rw [h1]
      simp
    · rw [h2]
      simp

/-- The normalized release is the snapshot entry with possibly another status. -/
theorem normRel_same (du : deckhouseUpdater) (a : deckhouseRelease) :
    sameButStatus a (normRel du a) := by
  have h1 : sameButStatus a (initRel a) := by
    unfold initRel
    split
    · exact ⟨_, rfl⟩
    · exact sameButStatus.of_self a
  have h2 : ∀ r, sameButStatus r (suspRel r) := by
    intro r
    unfold suspRel
    split
    · exact ⟨_, rfl⟩
    · exact sameButStatus.of_self r
  have h3 : ∀ r, sameButStatus r (manualRel du r) := by
    intro r
    unfold manualRel
    split
    · exact ⟨_, rfl⟩
    · exact sameButStatus.of_self r
  exact (h1.comp (h2 _)).comp (h3 _)

/-- A release with the suspend annotation is normalized to the status of a suspended
release; the removal of the annotation is among its patches, and so is a status patch
to `Suspended` unless its phase was `Suspended` already. -/
theorem normRel_suspended (env : Env) (du : deckhouseUpdater) (a : deckhouseRelease)
    (hs : a.HasSuspendAnnotation = true) :
    normRel du a = { a with Status := suspendedStatus }
    ∧ manualCount du (suspRel (initRel a)) = du
    ∧ normOps env du a
      = initOps env a ++ [PatchOp.removeAnnotation a.Name "release.deckhouse.io/suspended"]
        ++ (if a.Status = suspendedStatus then []
            else [PatchOp.mergeStatus a.Name
              { Phase := Phase.suspended, Message := "Release is suspended", Approved := false
                TransitionTime := env.now }]) := by
  have hi : deckhouseRelease.HasSuspendAnnotation (initRel a) = true := by
    unfold initRel
    split
    · exact hs
    · exact hs
  have hn : (initRel a).Name = a.Name := by
    unfold initRel
    split <;> rfl
  have hsr : suspRel (initRel a) = { a with Status := suspendedStatus } := by
    unfold suspRel
    rw [if_pos hi]
    unfold initRel
    split <;> rfl
  have hst : (initRel a).Status = suspendedStatus ↔ a.Status = suspendedStatus := by
    unfold initRel
    by_cases he : a.Status.Phase = Phase.empty
    · rw [if_pos he]
      constructor
      · intro h
        have := congrArg DeckhouseReleaseStatus.Phase h
        cases this
      · intro h
        rw [h] at he
        cases he
    · rw [if_neg he]
  refine ⟨?_, ?_, ?_⟩
  · unfold normRel
    rw [hsr]
    unfold manualRel
    rw [if_neg]
    intro h
    cases h
  · rw [hsr]
    unfold manualCount
    rw [if_neg]
    rintro ⟨h, _⟩
    cases h
  · unfold normOps
    rw [hsr]
    have hm : manualOps du { a with Status := suspendedStatus } = [] := by
      unfold manualOps
      rw [if_neg]
      rintro ⟨h, _⟩
      cases h
    rw [hm, List.append_nil]
    unfold suspOps
    rw [if_pos hi, hn]
    by_cases h : a.Status = suspendedStatus
    · rw [if_pos (hst.mpr h), if_pos h]
      simp
    · rw [if_neg (fun e => h (hst.mp e)), if_neg h]
      simp

/-- The phase of a normalized release without the suspend annotation: `Pending` for a
snapshot entry without phase, the phase of the entry otherwise. -/
theorem normRel_phase (du : deckhouseUpdater) (a : deckhouseRelease)
    (hs : a.HasSuspendAnnotation = false) :
    (normRel du a).Status.Phase
      = if a.Status.Phase = Phase.empty then Phase.pending else a.Status.Phase := by
  have hi : deckhouseRelease.HasSuspendAnnotation (initRel a) = false := by
    unfold initRel
    split
    · exact hs
    · exact hs
  have hsr : suspRel (initRel a) = initRel a := by
    unfold suspRel
    rw [if_neg (by rw [hi]; decide)]
  unfold normRel
  rw [hsr]
  have hm : ∀ r, (manualRel du r).Status.Phase = r.Status.Phase := by
    intro r
    unfold manualRel
    split <;> rfl
  rw [hm]
  unfold initRel
  split <;> rfl

/-- Every normalizer patch of the snapshot entry `a` is the removal of its suspend
annotation or a status patch for it, to `Suspended`, or to `Pending` when the phase of
`a` is `Pending` or none. -/
theorem normOps_class (env : Env) (du : deckhouseUpdater) (a : deckhouseRelease) :
    ∀ op ∈ normOps env du a,
      op = PatchOp.removeAnnotation a.Name "release.deckhouse.io/suspended"
      ∨ ∃ st, op = PatchOp.mergeStatus a.Name st
          ∧ ((st.Phase = Phase.pending
              ∧ (a.Status.Phase = Phase.pending ∨ a.Status.Phase = Phase.empty))
            ∨ st.Phase = Phase.suspended) := by
  intro op hop
  have hn : (initRel a).Name = a.Name := by
    unfold initRel
    split <;> rfl
  have hn2 : (suspRel (initRel a)).Name = a.Name := by
    unfold suspRel
    split
    · exact hn
    · exact hn
  unfold normOps at hop
  rcases List.mem_append.mp hop with h | h
  · rcases List.mem_append.mp h with h1 | h1
    · unfold initOps at h1
      by_cases he : a.Status.Phase = Phase.empty
      · rw [if_pos he] at h1
        exact Or.inr ⟨_, List.mem_singleton.mp h1, Or.inl ⟨rfl, Or.inr he⟩⟩
      · rw [if_neg he] at h1
        cases h1
    · unfold suspOps at h1
      by_cases hs : deckhouseRelease.HasSuspendAnnotation (initRel a) = true
      · rw [if_pos hs, hn] at h1
        rcases List.mem_cons.mp h1 with h2 | h2
        · exact Or.inl h2
        · by_cases hst : (initRel a).Status = suspendedStatus
          · rw [if_pos hst] at h2
            cases h2
          · rw [if_neg hst] at h2
            exact Or.inr ⟨_, List.mem_singleton.mp h2, Or.inr rfl⟩
      · rw [if_neg hs] at h1
        cases h1
  · unfold manualOps at h
    by_cases hc : (suspRel (initRel a)).Status.Phase = Phase.pending
        ∧ resolvedApproval du (suspRel (initRel a)) ≠ (suspRel (initRel a)).Status.Approved
    · rw [if_pos hc, hn2] at h
      refine Or.inr ⟨_, List.mem_singleton.mp h, Or.inl ⟨rfl, ?_⟩⟩
      have hp := hc.1
      unfold suspRel at hp
      by_cases hs : deckhouseRelease.HasSuspendAnnotation (initRel a) = true
      · rw [if_pos hs] at hp
        cases hp
      · rw [if_neg hs] at hp
        unfold initRel at hp
        by_cases he : a.Status.Phase = Phase.empty
        · exact Or.inr he
        · rw [if_neg he] at hp
          exact Or.inl hp
    · rw [if_neg hc] at h
      cases h

/-- The updater and the patches after `FetchAndPrepareReleases`, exactly: the releases
are the normalized snapshot entries, sorted, and the patches are the deletion of the
marker, if any, followed by the normalizer patches of the entries in snapshot
order. -/
theorem prepareUpdater_norm (env : Env) (input : HookInput) (pod : deckhousePodInfo) :
    (prepareUpdater env input pod).2.releases
      = sortByVersion env (input.releases.map (normRel (newDeckhouseUpdater env.now
          input.updateMode pod.Ready (isBootstrapImage env pod))))
    ∧ ∃ pre : List PatchOp,
        (prepareUpdater env input pod).1.patches
          = pre ++ (input.releases.map (normOps env (newDeckhouseUpdater env.now
              input.updateMode pod.Ready (isBootstrapImage env pod)))).flatten
        ∧ ∀ op ∈ pre, op = PatchOp.deleteUpdatingCM := by
  have hfetch : ∀ (out : HookOut) (du : deckhouseUpdater), du.releases = [] →
      (FetchAndPrepareReleases env input out du).2.releases
        = sortByVersion env (input.releases.map (normRel du))
      ∧ (FetchAndPrepareReleases env input out du).1.patches
        = out.patches ++ (input.releases.map (normOps env du)).flatten := by
    intro out du hdu
    unfold FetchAndPrepareReleases
    by_cases hlen : input.releases.length = 0
    · have hnil : input.releases = [] := List.length_eq_zero.mp hlen
      rw [if_pos hlen, hnil, hdu]
      simp [sortByVersion]
    · rw [if_neg hlen]
      obtain ⟨h1, h2⟩ := prepareLoop_eq env input.releases out du []
      dsimp only
      rw [h1, h2]
      simp
  unfold prepareUpdater
  dsimp only
  obtain ⟨h1, h2⟩ := hfetch
    (if pod.Ready = true then
      if isUpdatingCMExists input = true then
        deleteUpdatingCM ((HookOut.init.metric (MetricOp.expire metricReleasesGroup)).metric
          (MetricOp.expire metricUpdatingGroup))
      else (HookOut.init.metric (MetricOp.expire metricReleasesGroup)).metric
          (MetricOp.expire metricUpdatingGroup)
    else if isUpdatingCMExists input = true then
      (HookOut.init.metric (MetricOp.expire metricReleasesGroup)).metric
        (MetricOp.set "d8_is_updating" 1 [] (some metricUpdatingGroup))
    else HookOut.init.metric (MetricOp.expire metricReleasesGroup))
    (newDeckhouseUpdater env.now input.updateMode pod.Ready (isBootstrapImage env pod)) rfl
  refine ⟨h1, _, h2, ?_⟩
  intro op hop
  by_cases hr : pod.Ready = true
  · by_cases hcm : isUpdatingCMExists input = true
    · simp [hr, hcm, deleteUpdatingCM, HookOut.patch, HookOut.metric, HookOut.init] at hop
      exact hop
    · simp [hr, hcm, HookOut.metric, HookOut.init] at hop
  · by_cases hcm : isUpdatingCMExists input = true
    · simp [hr, hcm, HookOut.metric, HookOut.init] at hop
    · simp [hr, hcm, HookOut.metric, HookOut.init] at hop

/-- The releases of the updater of a pass are the normalized snapshot entries. -/
theorem passUpdater_mem (env : Env) (input : HookInput) (pod : deckhousePodInfo)
    (du : deckhouseUpdater)
    (hpred : PredictNextRelease (prepareUpdater env input pod).2 = some du)
    (b : deckhouseRelease) :
    b ∈ du.releases ↔ ∃ a ∈ input.releases, b = normRel (newDeckhouseUpdater env.now
        input.updateMode pod.Ready (isBootstrapImage env pod)) a := by
  obtain ⟨_, _, _, _, _, _, hrel, _⟩ := passUpdater_spec env input pod du hpred
  rw [hrel, (prepareUpdater_norm env input pod).1, (sortByVersion_perm env _).mem_iff,
    List.mem_map]
  constructor
  · rintro ⟨a, ha, e⟩
    exact ⟨a, ha, e.symm⟩
  · rintro ⟨a, ha, e⟩
    exact ⟨a, ha, e.symm⟩

/-- The normalizer patches of every snapshot entry are among the patches of the
prepared collectors. -/
theorem prepareUpdater_ops_mem (env : Env) (input : HookInput) (pod : deckhousePodInfo)
    (a : deckhouseRelease) (ha : a ∈ input.releases) (op : PatchOp)
    (hop : op ∈ normOps env (newDeckhouseUpdater env.now input.updateMode pod.Ready
      (isBootstrapImage env pod)) a) :
    op ∈ (prepareUpdater env input pod).1.patches := by
  obtain ⟨_, pre, hpre, _⟩ := prepareUpdater_norm env input pod
  rw [hpre]
  apply List.mem_append_right
  rw [List.mem_flatten]
  exact ⟨_, List.mem_map.mpr ⟨a, ha, rfl⟩, hop⟩

/-- C23. A snapshot entry with the suspend annotation, whatever its phase: the
normalizer requests the removal of the annotation, the normalized status is
`Suspended`, not approved, with the message "Release is suspended", and the approval
step leaves release, counter and collectors alone; in every pass whose snapshot holds
the entry, the normalized entry is in the slice of the updater, the removal of the
annotation is among the patches, and the predicted release is a release without the
suspend annotation, so it is not this entry. -/
theorem suspend_handling (env : Env) (out : HookOut) (du : deckhouseUpdater)
    (a : deckhouseRelease) (hs : a.HasSuspendAnnotation = true) :
    prepareRelease env out du a
      = ({ out with
           patches := out.patches
             ++ (initOps env a
               ++ [PatchOp.removeAnnotation a.Name "release.deckhouse.io/suspended"]
               ++ (if a.Status = suspendedStatus then []
                   else [PatchOp.mergeStatus a.Name
                     { Phase := Phase.suspended, Message := "Release is suspended"
                       Approved := false, TransitionTime := env.now }])) },
          du, { a with Status := suspendedStatus })
    ∧ ∀ (input : HookInput) (pod : deckhousePodInfo) (du1 : deckhouseUpdater),
        a ∈ input.releases →
        PredictNextRelease (prepareUpdater env input pod).2 = some du1 →
        { a with Status := suspendedStatus } ∈ du1.releases
        ∧ PatchOp.removeAnnotation a.Name "release.deckhouse.io/suspended"
            ∈ (prepareUpdater env input pod).1.patches
        ∧ ∀ (p : Nat) (rp : deckhouseRelease), du1.predictedReleaseIndex = (p : Int) →
            du1.releases[p]? = some rp →
            rp.HasSuspendAnnotation = false ∧ rp ≠ { a with Status := suspendedStatus } := by
  constructor
  · obtain ⟨h1, h2, h3⟩ := normRel_suspended env du a hs
    rw [prepareRelease_eq, h1, h2, h3]
  · intro input pod du1 ha hpred
    obtain ⟨hv, _⟩ := passUpdater_spec env input pod du1 hpred
    obtain ⟨h1, _, h3⟩ := normRel_suspended env (newDeckhouseUpdater env.now input.updateMode
      pod.Ready (isBootstrapImage env pod)) a hs
    refine ⟨?_, ?_, ?_⟩
    · rw [passUpdater_mem env input pod du1 hpred]
      exact ⟨a, ha, h1.symm⟩
    · apply prepareUpdater_ops_mem env input pod a ha
      rw [h3]
      simp
    · intro p rp hp hrp
      have hpend := predicted_is_pending hv hp hrp
      obtain ⟨a1, ha1, e⟩ := (passUpdater_mem env input pod du1 hpred rp).mp
        (List.mem_iff_getElem?.mpr ⟨p, hrp⟩)
      have hns : a1.HasSuspendAnnotation = false := by
        cases hc : a1.HasSuspendAnnotation with
        | false => rfl
        | true =>
          obtain ⟨h4, _⟩ := normRel_suspended env (newDeckhouseUpdater env.now input.updateMode
            pod.Ready (isBootstrapImage env pod)) a1 hc
          rw [e, h4] at hpend
          cases hpend
      have hrs : rp.HasSuspendAnnotation = false := by
        obtain ⟨st, est⟩ := normRel_same (newDeckhouseUpdater env.now input.updateMode
          pod.Ready (isBootstrapImage env pod)) a1
        rw [e, est]
        exact hns
      refine ⟨hrs, ?_⟩
      intro hc
      rw [hc] at hrs
      have hs1 : a.HasSuspendAnnotation = false := hrs
      rw [hs] at hs1
      cases hs1

/-- C23, witness. The pending `v1.1.0` with the suspend annotation. -/
theorem suspend_handling_witness :
    suspending110.Status.Phase = Phase.pending
    ∧ prepareRelease sampleEnv HookOut.init (freshUpdater 100 "Auto" true false []) suspending110
      = ({ HookOut.init with
           patches := HookOut.init.patches
             ++ (initOps sampleEnv suspending110
               ++ [PatchOp.removeAnnotation suspending110.Name "release.deckhouse.io/suspended"]
               ++ (if suspending110.Status = suspendedStatus then []
                   else [PatchOp.mergeStatus suspending110.Name
                     { Phase := Phase.suspended, Message := "Release is suspended"
                       Approved := false, TransitionTime := sampleEnv.now }])) },
          freshUpdater 100 "Auto" true false [],
          { suspending110 with Status := suspendedStatus }) :=
  ⟨rfl, (suspend_handling sampleEnv HookOut.init (freshUpdater 100 "Auto" true false [])
    suspending110 rfl).1⟩

/-! ## The deployer and the forced path, patch by patch -/

/-- The loop over the skipped patches, by name: it does not panic when the skipped
indices are positions, and every patch it adds is the status patch to `Outdated`,
approved, of the release at a skipped index. -/
theorem skippedLoop_names (env : Env) (releases : List deckhouseRelease) :
    ∀ (idxs : List Int) (out : HookOut),
      (∀ z ∈ idxs, ∃ k : Nat, z = (k : Int) ∧ k < releases.length) →
      ∃ out1 added, skippedLoop env releases idxs out = some out1
        ∧ out1.patches = out.patches ++ added ∧ out1.metrics = out.metrics
        ∧ ∀ op ∈ added, ∃ (k : Nat) (r : deckhouseRelease), (k : Int) ∈ idxs
            ∧ releases[k]? = some r
            ∧ op = statusPatchOf env r "Skipped because of new patches" Phase.outdated [true] := by
  intro idxs
  induction idxs with
  | nil =>
    intro out _
    refine ⟨out, [], rfl, by simp, rfl, ?_⟩
    intro op hop
    cases hop
  | cons z rest ih =>
    intro out hv
    obtain ⟨k0, hk0, hlt⟩ := hv z (List.mem_cons_self _ _)
    have hget : releases[k0]? = some releases[k0] := List.getElem?_eq_getElem hlt
    have hs : sliceAt releases z = some (releases[k0]) := by
      rw [hk0, sliceAt_natCast]
      exact hget
    obtain ⟨out1, added, h1, h2, h3, h4⟩ := ih
      (updateStatus env out releases[k0] "Skipped because of new patches" Phase.outdated [true]).1
      (fun z1 hz1 => hv z1 (List.mem_cons_of_mem _ hz1))
    rw [updateStatus_eq] at h1 h2 h3
    dsimp only at h1 h2 h3
    have h4a : ∀ op ∈ added, ∃ (k : Nat) (r : deckhouseRelease), (k : Int) ∈ z :: rest
        ∧ releases[k]? = some r
        ∧ op = statusPatchOf env r "Skipped because of new patches" Phase.outdated [true] := by
      intro op hop
      obtain ⟨k, r, hk, hr, e⟩ := h4 op hop
      exact ⟨k, r, List.mem_cons_of_mem _ hk, hr, e⟩
    by_cases hst : releases[k0].Status
        = (withStatus releases[k0] "Skipped because of new patches" Phase.outdated [true]).Status
    · rw [if_pos hst] at h1 h2 h3
      refine ⟨out1, added, ?_, h2, h3, h4a⟩
      simp only [skippedLoop, hs, updateStatus_eq, if_pos hst]
      exact h1
    · rw [if_neg hst] at h1 h2 h3
      refine ⟨out1, statusPatchOf env releases[k0] "Skipped because of new patches"
        Phase.outdated [true] :: added, ?_, ?_, ?_, ?_⟩
      · simp only [skippedLoop, hs, updateStatus_eq, if_neg hst]
        exact h1
      · rw [h2]
        simp [HookOut.patch]
      · rw [h3]
        rfl
      · intro op hop
        rcases List.mem_cons.mp hop with h | h
        · exact ⟨k0, releases[k0], by rw [hk0]; exact List.mem_cons_self _ _, hget, h⟩
        · exact h4a op h

/-- The last loop of `ApplyForcedRelease`, by name: every patch it adds is the status
patch to `Outdated`, approved, with an empty message, of a release in front of the
forced index. -/
theorem outdateLoop_names (env : Env) (forced : Int) :
    ∀ (rs : List deckhouseRelease) (i0 : Nat) (out : HookOut),
      ∃ added : List PatchOp,
        (outdateLoop env forced i0 rs out).patches = out.patches ++ added
        ∧ (outdateLoop env forced i0 rs out).metrics = out.metrics
        ∧ ∀ op ∈ added, ∃ (j : Nat) (r : deckhouseRelease), rs[j]? = some r
            ∧ ((i0 + j : Nat) : Int) < forced
            ∧ op = PatchOp.mergeStatus r.Name
                { Phase := Phase.outdated, Message := "", Approved := true
                  TransitionTime := env.now } := by
  intro rs
  induction rs with
  | nil =>
    intro i0 out
    refine ⟨[], by simp [outdateLoop], rfl, ?_⟩
    intro op hop
    cases hop
  | cons r0 rest ih =>
    intro i0 out
    have hshift : ∀ (o : HookOut) (added : List PatchOp),
        (∀ op ∈ added, ∃ (j : Nat) (r : deckhouseRelease), rest[j]? = some r
            ∧ ((i0 + 1 + j : Nat) : Int) < forced
            ∧ op = PatchOp.mergeStatus r.Name
                { Phase := Phase.outdated, Message := "", Approved := true
                  TransitionTime := env.now }) →
        ∀ op ∈ added, ∃ (j : Nat) (r : deckhouseRelease), (r0 :: rest)[j]? = some r
            ∧ ((i0 + j : Nat) : Int) < forced
            ∧ op = PatchOp.mergeStatus r.Name
                { Phase := Phase.outdated, Message := "", Approved := true
                  TransitionTime := env.now } := by
      intro o added h op hop
      obtain ⟨j, r, hr, hj, e⟩ := h op hop
      exact ⟨j + 1, r, by simpa using hr, by push_cast at hj ⊢; omega, e⟩
    by_cases hlt : (i0 : Int) < forced
    · obtain ⟨added, h1, h2, h3⟩ := ih (i0 + 1)
        (updateStatus env out r0 "" Phase.outdated [true]).1
      rw [updateStatus_eq] at h1 h2
      dsimp only at h1 h2
      have hloop : outdateLoop env forced i0 (r0 :: rest) out
          = outdateLoop env forced (i0 + 1) rest
              (updateStatus env out r0 "" Phase.outdated [true]).1 := by
        simp only [outdateLoop, if_pos hlt]
      rw [hloop, updateStatus_eq]
      dsimp only
      by_cases hst : r0.Status = (withStatus r0 "" Phase.outdated [true]).Status
      · rw [if_pos hst] at h1 h2 ⊢
        exact ⟨added, h1, h2, hshift out added h3⟩
      · rw [if_neg hst] at h1 h2 ⊢
        refine ⟨statusPatchOf env r0 "" Phase.outdated [true] :: added, ?_, h2, ?_⟩
        · rw [h1]
          simp [HookOut.patch]
        · intro op hop
          rcases List.mem_cons.mp hop with h | h
          · exact ⟨0, r0, by simp, by simpa using hlt, h⟩
          · exact hshift out added h3 op h
    · obtain ⟨added, h1, h2, h3⟩ := ih (i0 + 1) out
      have hloop : outdateLoop env forced i0 (r0 :: rest) out
          = outdateLoop env forced (i0 + 1) rest out := by
        simp only [outdateLoop, if_neg hlt]
      rw [hloop]
      exact ⟨added, h1, h2, hshift out added h3⟩

theorem set_name (l : List deckhouseRelease) (j : Nat) (x : deckhouseRelease)
    (hx : ∀ r0, l[j]? = some r0 → x.Name = r0.Name) :
    ∀ (i : Nat) (r1 : deckhouseRelease), (l.set j x)[i]? = some r1 →
      ∃ r0, l[i]? = some r0 ∧ r1.Name = r0.Name := by
  intro i r1 h
  by_cases hij : j = i
  · subst hij
    have hlt : j < l.length := by
      have := (List.getElem?_eq_some_iff.mp h).1
      simpa using this
    have e : (l.set j x)[j]? = some x := by simp [List.getElem?_set, hlt]
    rw [e] at h
    cases h
    exact ⟨l[j], List.getElem?_eq_getElem hlt, hx _ (List.getElem?_eq_getElem hlt)⟩
  · have e : (l.set j x)[i]? = l[i]? := by simp [List.getElem?_set, hij]
    rw [e] at h
    exact ⟨r1, h, rfl⟩

/-- The method `runReleaseDeploy`, exactly, for a predicted release `rp` at position
`p`, a current release that is nil or at a position (possibly `p` itself) and skipped
indices that are positions: no panic; the collector grows by the marker, the image
patch, the status patch of the predicted release, the status patch of the current
release as it stands after that, and status patches to `Outdated`, approved, of
releases at skipped indices; the metrics are unchanged; the slice keeps its length
and its names, and its releases other than the predicted and the current one. -/
theorem runReleaseDeploy_exact (env : Env) (input : HookInput) (out : HookOut)
    (du : deckhouseUpdater) (p : Nat) (cur : Option Nat) (rp : deckhouseRelease)
    (hrp : du.releases[p]? = some rp)
    (hcur : ∀ c, cur = some c → c < du.releases.length)
    (hsk : ∀ z ∈ du.skippedPatchesIndexes, ∃ k : Nat, z = (k : Int) ∧ k < du.releases.length) :
    ∃ (out1 : HookOut) (du1 : deckhouseUpdater) (skippedOps : List PatchOp),
      runReleaseDeploy env input out du p cur = some (out1, du1)
      ∧ out1.patches = out.patches
          ++ [PatchOp.createUpdatingCM (env.versionString rp.Version),
              PatchOp.setDeploymentImage (input.registry ++ ":" ++ rp.Version.original)]
          ++ predictedOps env rp
          ++ currentOps env (du.releases.set p (withStatus rp "" Phase.deployed [true])) cur
          ++ skippedOps
      ∧ out1.metrics = out.metrics
      ∧ (∀ op ∈ skippedOps, ∃ (k : Nat) (r : deckhouseRelease) (st : statusPatch),
          (k : Int) ∈ du.skippedPatchesIndexes ∧ du.releases[k]? = some r
          ∧ op = PatchOp.mergeStatus r.Name st ∧ st.Phase = Phase.outdated
          ∧ st.Approved = true)
      ∧ du1 = { du with releases := du1.releases }
      ∧ du1.releases.length = du.releases.length
      ∧ (∀ (i : Nat) (r1 : deckhouseRelease), du1.releases[i]? = some r1 →
          ∃ r0, du.releases[i]? = some r0 ∧ r1.Name = r0.Name)
      ∧ ∀ i : Nat, i ≠ p → cur ≠ some i → du1.releases[i]? = du.releases[i]? := by
  have hplt : p < du.releases.length := (List.getElem?_eq_some_iff.mp hrp).1
  have h3 := updateStatusAt_eq env
    ((createUpdatingCM out (env.versionString rp.Version)).patch
      (PatchOp.setDeploymentImage (input.registry ++ ":" ++ rp.Version.original)))
    du p "" Phase.deployed [true] rp hrp
  have hname3 : ∀ (i : Nat) (r1 : deckhouseRelease),
      (du.releases.set p (withStatus rp "" Phase.deployed [true]))[i]? = some r1 →
      ∃ r0, du.releases[i]? = some r0 ∧ r1.Name = r0.Name := by
    apply set_name
    intro r0 h0
    rw [hrp] at h0
    cases h0
    rfl
  obtain ⟨rels, hlen, hnames, hframe, hrun⟩ :
      ∃ rels : List deckhouseRelease,
        rels.length = du.releases.length
        ∧ (∀ (i : Nat) (r1 : deckhouseRelease), rels[i]? = some r1 →
            ∃ r0, du.releases[i]? = some r0 ∧ r1.Name = r0.Name)
        ∧ (∀ i : Nat, i ≠ p → cur ≠ some i → rels[i]? = du.releases[i]?)
        ∧ runReleaseDeploy env input out du p cur
          = match skippedLoop env rels du.skippedPatchesIndexes
              { patches := out.patches
                  ++ [PatchOp.createUpdatingCM (env.versionString rp.Version),
                      PatchOp.setDeploymentImage (input.registry ++ ":" ++ rp.Version.original)]
                  ++ predictedOps env rp
                  ++ currentOps env (du.releases.set p (withStatus rp "" Phase.deployed [true]))
                      cur
                metrics := out.metrics } with
            | none => none
            | some out5 => some (out5, { du with releases := rels }) := by
    cases cur with
    | none =>
      refine ⟨du.releases.set p (withStatus rp "" Phase.deployed [true]), by simp, hname3,
        ?_, ?_⟩
      · intro i hi _
        simp [List.getElem?_set, Ne.symm hi]
      · simp only [runReleaseDeploy, hrp, h3]
        unfold predictedOps currentOps
        by_cases hst : rp.Status = (withStatus rp "" Phase.deployed [true]).Status
        · simp [hst, createUpdatingCM, HookOut.patch]
        · simp [hst, createUpdatingCM, HookOut.patch]
    | some c =>
      have hclt := hcur c rfl
      obtain ⟨r3, hr3⟩ : ∃ r3,
          (du.releases.set p (withStatus rp "" Phase.deployed [true]))[c]? = some r3 :=
        ⟨_, List.getElem?_eq_getElem (by simpa using hclt)⟩
      have h4 : ∀ o : HookOut, updateStatusAt env o
          { du with releases := du.releases.set p (withStatus rp "" Phase.deployed [true]) }
          c "Last Deployed release outdated" Phase.outdated []
          = some (if r3.Status
                = (withStatus r3 "Last Deployed release outdated" Phase.outdated []).Status then o
              else o.patch (statusPatchOf env r3 "Last Deployed release outdated"
                Phase.outdated []),
            { du with releases :=
                ((du.releases.set p (withStatus rp "" Phase.deployed [true])).set c
                  (withStatus r3 "Last Deployed release outdated" Phase.outdated [])) }) := by
        intro o
        exact updateStatusAt_eq env o _ c _ _ _ _ hr3
      refine ⟨(du.releases.set p (withStatus rp "" Phase.deployed [true])).set c
          (withStatus r3 "Last Deployed release outdated" Phase.outdated []), by simp, ?_, ?_, ?_⟩
      · intro i r1 h
        obtain ⟨r2, h2, e2⟩ := set_name _ c
          (withStatus r3 "Last Deployed release outdated" Phase.outdated [])
          (by
            intro r0 h0
            rw [hr3] at h0
            cases h0
            rfl) i r1 h
        obtain ⟨r0, h0, e0⟩ := hname3 i r2 h2
        exact ⟨r0, h0, e2.trans e0⟩
      · intro i hi hci
        have hci1 : c ≠ i := fun h => hci (by rw [h])
        simp [List.getElem?_set, hci1, Ne.symm hi]
      · simp only [runReleaseDeploy, hrp, h3, h4]
        unfold predictedOps currentOps
        simp only [hr3]
        by_cases hst : rp.Status = (withStatus rp "" Phase.deployed [true]).Status
        · by_cases hst2 : r3.Status
              = (withStatus r3 "Last Deployed release outdated" Phase.outdated []).Status
          · simp [hst, hst2, createUpdatingCM, HookOut.patch]
          · simp [hst, hst2, createUpdatingCM, HookOut.patch]
        · by_cases hst2 : r3.Status
              = (withStatus r3 "Last Deployed release outdated" Phase.outdated []).Status
          · simp [hst, hst2, createUpdatingCM, HookOut.patch]
          · simp [hst, hst2, createUpdatingCM, HookOut.patch]
  obtain ⟨out5, added, h5, hp5, hm5, hq5⟩ := skippedLoop_names env rels
    du.skippedPatchesIndexes
    { patches := out.patches
        ++ [PatchOp.createUpdatingCM (env.versionString rp.Version),
            PatchOp.setDeploymentImage (input.registry ++ ":" ++ rp.Version.original)]
        ++ predictedOps env rp
        ++ currentOps env (du.releases.set p (withStatus rp "" Phase.deployed [true])) cur
      metrics := out.metrics }
    (by
      intro z hz
      obtain ⟨k, hk, hlt⟩ := hsk z hz
      exact ⟨k, hk, by rw [hlen]; exact hlt⟩)
  refine ⟨out5, { du with releases := rels }, added, ?_, hp5, hm5, ?_, rfl, hlen, hnames, hframe⟩
  · rw [hrun, h5]
  · intro op hop
    obtain ⟨k, r, hk, hr, e⟩ := hq5 op hop
    obtain ⟨r0, h0, e0⟩ := hnames k r hr
    refine ⟨k, r0, (statusPatch.mk Phase.outdated "Skipped because of new patches" true env.now),
      hk, h0, ?_, rfl, rfl⟩
    rw [e, ← e0]
    rfl

/-! ## The pass, case by case -/

/-- The method `ApplyPredictedRelease` on an updater with valid indices: either it
returns with at most status patches to `Pending` for the predicted release added, or
there is a predicted release and the method is `runReleaseDeploy` for it and the
current release. -/
theorem ApplyPredictedRelease_cases (env : Env) (input : HookInput) (out : HookOut)
    (du : deckhouseUpdater) (hv : ValidIndices du) :
    (∃ (out1 : HookOut) (du1 : deckhouseUpdater) (added : List PatchOp),
      ApplyPredictedRelease env input out du = some (out1, du1)
      ∧ out1.patches = out.patches ++ added
      ∧ ∀ op ∈ added, ∃ (p : Nat) (rp : deckhouseRelease) (st : statusPatch),
          du.predictedReleaseIndex = (p : Int) ∧ du.releases[p]? = some rp
          ∧ op = PatchOp.mergeStatus rp.Name st ∧ st.Phase = Phase.pending)
    ∨ ∃ (p : Nat) (rp : deckhouseRelease) (cur : Option Nat),
        du.predictedReleaseIndex = (p : Int) ∧ du.releases[p]? = some rp
        ∧ currentReleasePtr du = some cur
        ∧ (∀ c, cur = some c → c ≠ p ∧ c < du.releases.length)
        ∧ ApplyPredictedRelease env input out du
            = runReleaseDeploy env input out du p cur := by
  rcases hv.predicted with hnone | ⟨p, rp, hp, hrp, _⟩
  · left
    refine ⟨out, du, [], ?_, by simp, ?_⟩
    · unfold ApplyPredictedRelease
      rw [if_pos hnone]
    · intro op hop
      cases hop
  · obtain ⟨cur, hcur, hcv⟩ := currentReleasePtr_valid hv hp hrp
    by_cases hboot : du.deckhouseIsBootstrapping = true ∧ du.releases.length = 1
    · right
      refine ⟨p, rp, cur, hp, hrp, hcur, hcv, ?_⟩
      have hne : ¬ du.predictedReleaseIndex = -1 := by omega
      have hs : sliceAt du.releases du.predictedReleaseIndex = some rp := by
        rw [hp, sliceAt_natCast]
        exact hrp
      have hnat : du.predictedReleaseIndex.toNat = p := by
        rw [hp]
        rfl
      unfold ApplyPredictedRelease
      rw [if_neg hne, hs]
      dsimp only
      rw [hcur]
      dsimp only
      rw [if_pos hboot, hnat]
    · obtain ⟨b, hb⟩ := PredictedReleaseIsPatch_total hv
      cases hf : firstFailingGate env input du rp b with
      | none =>
        right
        obtain ⟨cur1, hcur1, hcv1, hrun⟩ := ApplyPredictedRelease_deploys env input out du hv p rp
          b hp hrp hb hboot hf
        exact ⟨p, rp, cur1, hp, hrp, hcur1, hcv1, hrun⟩
      | some m =>
        left
        obtain ⟨out1, r1, hrun, _, _, _, _, hpatches⟩ :=
          ApplyPredictedRelease_blocked env input out du hv p rp b m hp hrp hb hboot hf
        rcases hpatches with h | ⟨a, h⟩
        · refine ⟨out1, _, [], hrun, by simp [h], ?_⟩
          intro op hop
          cases hop
        · refine ⟨out1, _, _, hrun, h, ?_⟩
          intro op hop
          rw [List.mem_singleton.mp hop]
          exact ⟨p, rp, _, hp, hrp, rfl, rfl⟩

/-- The pass on the release-channel path, as a case analysis: it returns, and either
it adds to the patches of the normalizer at most status patches to `Pending` for the
predicted release, or it runs `runReleaseDeploy` for the predicted or the forced
release and then adds, on the forced path, the removal of the force annotation and
status patches to `Outdated`, approved, with an empty message, for releases in front
of the forced one. -/
theorem updateDeckhouse_cases (env : Env) (input : HookInput) (pod : deckhousePodInfo)
    (du : deckhouseUpdater) (hpod : getDeckhousePod input.deckhouse_pod = some (some pod))
    (hchan : input.releaseChannelExists = true)
    (hpred : PredictNextRelease (prepareUpdater env input pod).2 = some du) :
    ∃ res : HookResult, updateDeckhouse env input = some res
      ∧ ((∃ added : List PatchOp,
            res.out.patches = (prepareUpdater env input pod).1.patches ++ added
            ∧ ∀ op ∈ added, ∃ (p : Nat) (rp : deckhouseRelease) (st : statusPatch),
                du.predictedReleaseIndex = (p : Int) ∧ du.releases[p]? = some rp
                ∧ op = PatchOp.mergeStatus rp.Name st ∧ st.Phase = Phase.pending)
        ∨ ∃ (p : Nat) (rp : deckhouseRelease) (cur : Option Nat) (out1 : HookOut)
            (du1 : deckhouseUpdater) (tail : List PatchOp),
            du.releases[p]? = some rp
            ∧ (du.predictedReleaseIndex = (p : Int) ∨ du.forcedReleaseIndex = (p : Int))
            ∧ currentReleasePtr du = some cur
            ∧ (∀ c, cur = some c → c < du.releases.length)
            ∧ runReleaseDeploy env input (prepareUpdater env input pod).1 du p cur
                = some (out1, du1)
            ∧ res.out.patches = out1.patches ++ tail
            ∧ ∀ op ∈ tail,
                op = PatchOp.removeAnnotation rp.Name "release.deckhouse.io/force"
                ∨ ∃ (j : Nat) (r : deckhouseRelease), j < p ∧ du.releases[j]? = some r
                    ∧ op = PatchOp.mergeStatus r.Name
                        { Phase := Phase.outdated, Message := "", Approved := true
                          TransitionTime := env.now }) := by
  obtain ⟨hv, _, _, hman, _, _, hrel, _⟩ := passUpdater_spec env input pod du hpred
  -- a pass that stops with the prepared collectors
  have hstop : ∀ err : Option String,
      (∃ added : List PatchOp,
        ({ out := (prepareUpdater env input pod).1, err := err } : HookResult).out.patches
          = (prepareUpdater env input pod).1.patches ++ added
        ∧ ∀ op ∈ added, ∃ (p : Nat) (rp : deckhouseRelease) (st : statusPatch),
            du.predictedReleaseIndex = (p : Int) ∧ du.releases[p]? = some rp
            ∧ op = PatchOp.mergeStatus rp.Name st ∧ st.Phase = Phase.pending) := by
    intro err
    refine ⟨[], by simp, ?_⟩
    intro op hop
    cases hop
  -- a pass that ends in `ApplyPredictedRelease`
  have happly : ∃ res : HookResult,
      finishPass (ApplyPredictedRelease env input (prepareUpdater env input pod).1 du) = some res
      ∧ ((∃ added : List PatchOp,
            res.out.patches = (prepareUpdater env input pod).1.patches ++ added
            ∧ ∀ op ∈ added, ∃ (p : Nat) (rp : deckhouseRelease) (st : statusPatch),
                du.predictedReleaseIndex = (p : Int) ∧ du.releases[p]? = some rp
                ∧ op = PatchOp.mergeStatus rp.Name st ∧ st.Phase = Phase.pending)
        ∨ ∃ (p : Nat) (rp : deckhouseRelease) (cur : Option Nat) (out1 : HookOut)
            (du1 : deckhouseUpdater) (tail : List PatchOp),
            du.releases[p]? = some rp
            ∧ (du.predictedReleaseIndex = (p : Int) ∨ du.forcedReleaseIndex = (p : Int))
            ∧ currentReleasePtr du = some cur
            ∧ (∀ c, cur = some c → c < du.releases.length)
            ∧ runReleaseDeploy env input (prepareUpdater env input pod).1 du p cur
                = some (out1, du1)
            ∧ res.out.patches = out1.patches ++ tail
            ∧ ∀ op ∈ tail,
                op = PatchOp.removeAnnotation rp.Name "release.deckhouse.io/force"
                ∨ ∃ (j : Nat) (r : deckhouseRelease), j < p ∧ du.releases[j]? = some r
                    ∧ op = PatchOp.mergeStatus r.Name
                        { Phase := Phase.outdated, Message := "", Approved := true
                          TransitionTime := env.now }) := by
    rcases ApplyPredictedRelease_cases env input (prepareUpdater env input pod).1 du hv with
      ⟨out1, du1, added, hrun, hadd, hcls⟩ | ⟨p, rp, cur, hp, hrp, hcur, hcv, hrun⟩
    · refine ⟨{ out := out1, err := none }, by rw [hrun]; rfl, Or.inl ⟨added, hadd, hcls⟩⟩
    · obtain ⟨out1, du1, h1, _⟩ := runReleaseDeploy_spec env input
        (prepareUpdater env input pod).1 du p cur rp hrp (fun c hc => (hcv c hc).2) hv.skipped
      refine ⟨{ out := out1, err := none }, by rw [hrun, h1]; rfl,
        Or.inr ⟨p, rp, cur, out1, du1, [], hrp, Or.inl hp, hcur, fun c hc => (hcv c hc).2, h1,
          by simp, ?_⟩⟩
      intro op hop
      cases hop
  rw [updateDeckhouse_eq env input pod du hpod hchan hpred]
  by_cases hlen : (prepareUpdater env input pod).2.releases.length = 0
  · rw [if_pos hlen]
    exact ⟨_, rfl, Or.inl (hstop none)⟩
  rw [if_neg hlen]
  unfold decidePass
  by_cases hlast : LastReleaseDeployed du = true
  · rw [if_pos hlast]
    exact ⟨_, rfl, Or.inl (hstop none)⟩
  rw [if_neg hlast]
  by_cases hforce : HasForceRelease du = true
  · rw [if_pos hforce]
    have hne : ¬ du.forcedReleaseIndex = -1 := by
      simpa [HasForceRelease] using hforce
    rcases hv.forced with h | ⟨k, rk, hk, hrk, _⟩
    · exact absurd h hne
    · have hs : sliceAt du.releases du.forcedReleaseIndex = some rk := by
        rw [hk, sliceAt_natCast]
        exact hrk
      have hnat : du.forcedReleaseIndex.toNat = k := by
        rw [hk]
        rfl
      obtain ⟨cur, hcur, hcurv⟩ := currentReleasePtr_spec hv
      obtain ⟨out1, du1, skippedOps, hrun, _, _, _, hdu1, _, hnames, _⟩ :=
        runReleaseDeploy_exact env input (prepareUpdater env input pod).1 du k cur rk hrk hcurv
          hv.skipped
      have hf1 : du1.forcedReleaseIndex = du.forcedReleaseIndex := by
        rw [hdu1]
      obtain ⟨loopOps, hl1, _, hl3⟩ := outdateLoop_names env du1.forcedReleaseIndex du1.releases 0
        (out1.patch (PatchOp.removeAnnotation rk.Name "release.deckhouse.io/force"))
      refine ⟨HookResult.mk (outdateLoop env du1.forcedReleaseIndex 0 du1.releases
          (out1.patch (PatchOp.removeAnnotation rk.Name "release.deckhouse.io/force")))
        none, ?_, Or.inr ⟨k, rk, cur, out1, du1,
          [PatchOp.removeAnnotation rk.Name "release.deckhouse.io/force"] ++ loopOps, hrk,
          Or.inr hk, hcur, hcurv, hrun, ?_, ?_⟩⟩
      · unfold ApplyForcedRelease
        rw [if_neg hne, hs]
        dsimp only
        rw [hcur, hnat]
        dsimp only
        rw [hrun]
        rfl
      · show (outdateLoop env du1.forcedReleaseIndex 0 du1.releases
          (out1.patch (PatchOp.removeAnnotation rk.Name "release.deckhouse.io/force"))).patches = _
        rw [hl1]
        simp [HookOut.patch]
      · intro op hop
        rcases List.mem_append.mp hop with h | h
        · exact Or.inl (List.mem_singleton.mp h)
        · obtain ⟨j, r1, hr1, hj, e⟩ := hl3 op h
          obtain ⟨r0, h0, e0⟩ := hnames j r1 hr1
          refine Or.inr ⟨j, r0, ?_, h0, ?_⟩
          · rw [hf1, hk] at hj
            push_cast at hj
            omega
          · rw [e, e0]
  rw [if_neg hforce]
  obtain ⟨b, hb⟩ := PredictedReleaseIsPatch_total hv
  rw [hb]
  cases b with
  | true => exact happly
  | false =>
    dsimp only
    by_cases hm : du.inManualMode = true
    · rw [if_neg (not_not.mpr hm)]
      exact happly
    · rw [if_pos hm]
      cases hw : getUpdateWindows env input with
      | error e =>
        exact ⟨_, rfl, Or.inl (hstop _)⟩
      | ok windows =>
        dsimp only
        by_cases hperm : isUpdatePermitted env windows = true
        · rw [if_neg (not_not.mpr hperm)]
          exact happly
        · rw [if_pos hperm]
          rcases hv.predicted with hnone | ⟨p, rp, hp, hrp, _⟩
          · have hpr : PredictedRelease du = some none := by
              unfold PredictedRelease
              rw [if_pos hnone]
            rw [hpr]
            exact ⟨_, rfl, Or.inl (hstop none)⟩
          · have hpr : PredictedRelease du = some (some p) := by
              have hs : sliceAt du.releases du.predictedReleaseIndex = some rp := by
                rw [hp, sliceAt_natCast]
                exact hrp
              have hn1 : ¬ du.predictedReleaseIndex = -1 := by omega
              simp only [PredictedRelease, hn1, if_false, hs]
              rw [hp]
              rfl
            rw [hpr]
            dsimp only
            rw [updateStatusAt_eq env _ du p _ _ _ rp hrp]
            by_cases hst : rp.Status = (withStatus rp "Release is waiting for update window"
                Phase.pending []).Status
            · rw [if_pos hst]
              exact ⟨_, rfl, Or.inl (hstop none)⟩
            · rw [if_neg hst]
              refine ⟨_, rfl, Or.inl ⟨[statusPatchOf env rp
                "Release is waiting for update window" Phase.pending []], rfl, ?_⟩⟩
              intro op hop
              rw [List.mem_singleton.mp hop]
              exact ⟨p, rp, _, hp, hrp, rfl, rfl⟩

/-! ## The status of a release after the patches -/

/-- The status of a release after the patches: its status before when no status patch
is for it, the status of one of the status patches for it otherwise. -/
theorem applyOpsTo_status_cases (ops : List PatchOp) :
    ∀ r : deckhouseRelease,
      ((∀ st, PatchOp.mergeStatus r.Name st ∉ ops) ∧ (applyOpsTo r ops).Status = r.Status)
      ∨ ∃ st, PatchOp.mergeStatus r.Name st ∈ ops
          ∧ (applyOpsTo r ops).Status
            = { Phase := st.Phase, Approved := st.Approved, Message := st.Message } := by
  induction ops with
  | nil =>
    intro r
    exact Or.inl ⟨fun st h => (by cases h), rfl⟩
  | cons op rest ih =>
    intro r
    have hname : (applyOpTo r op).Name = r.Name := applyOpTo_name r op
    have hstep : applyOpsTo r (op :: rest) = applyOpsTo (applyOpTo r op) rest := rfl
    rw [hstep]
    rcases ih (applyOpTo r op) with ⟨hno, hst⟩ | ⟨st, hmem, hst⟩
    · rw [hname] at hno
      by_cases htarget : ∃ st, op = PatchOp.mergeStatus r.Name st
      · obtain ⟨st, e⟩ := htarget
        right
        refine ⟨st, by rw [e]; exact List.mem_cons_self _ _, ?_⟩
        rw [hst, e]
        simp [applyOpTo]
      · left
        refine ⟨?_, ?_⟩
        · intro st h
          rcases List.mem_cons.mp h with h1 | h1
          · exact htarget ⟨st, h1.symm⟩
          · exact hno st h1
        · rw [hst]
          cases op with
          | mergeStatus name st =>
            by_cases hn : r.Name = name
            · exact absurd ⟨st, by rw [hn]⟩ htarget
            · simp [applyOpTo, hn]
          | removeAnnotation name key =>
            by_cases hn : r.Name = name
            · by_cases h1 : key = "release.deckhouse.io/force"
              · simp [applyOpTo, hn, h1]
              · by_cases h2 : key = "release.deckhouse.io/suspended" <;>
                  simp [applyOpTo, hn, h1, h2]
            · simp [applyOpTo, hn]
          | _ => rfl
    · right
      rw [hname] at hmem
      exact ⟨st, List.mem_cons_of_mem _ hmem, hst⟩

/-- A release that no status patch and no annotation removal is for is unchanged by
the patches. -/
theorem applyOpsTo_untouched (ops : List PatchOp) :
    ∀ r : deckhouseRelease, (∀ st, PatchOp.mergeStatus r.Name st ∉ ops) →
      (∀ key, PatchOp.removeAnnotation r.Name key ∉ ops) → applyOpsTo r ops = r := by
  induction ops with
  | nil =>
    intro r _ _
    rfl
  | cons op rest ih =>
    intro r h1 h2
    have hstep : applyOpsTo r (op :: rest) = applyOpsTo (applyOpTo r op) rest := rfl
    have hop : applyOpTo r op = r := by
      cases op with
      | mergeStatus name st =>
        have hn : ¬ r.Name = name := by
          intro e
          exact h1 st (by rw [e]; exact List.mem_cons_self _ _)
        simp [applyOpTo, hn]
      | removeAnnotation name key =>
        have hn : ¬ r.Name = name := by
          intro e
          exact h2 key (by rw [e]; exact List.mem_cons_self _ _)
        simp [applyOpTo, hn]
      | _ => rfl
    rw [hstep, hop]
    exact ih r (fun st h => h1 st (List.mem_cons_of_mem _ h))
      (fun key h => h2 key (List.mem_cons_of_mem _ h))

theorem currentReleasePtr_index {du : deckhouseUpdater} {c : Nat}
    (h : currentReleasePtr du = some (some c)) : du.currentDeployedReleaseIndex = (c : Int) := by
  unfold currentReleasePtr at h
  by_cases hne : du.currentDeployedReleaseIndex ≠ -1
  · rw [if_pos hne] at h
    cases hs : sliceAt du.releases du.currentDeployedReleaseIndex with
    | none =>
      rw [hs] at h
      cases h
    | some r =>
      rw [hs] at h
      have hc : du.currentDeployedReleaseIndex.toNat = c := by
        injection h with h1
        injection h1
      have hnn : ¬ du.currentDeployedReleaseIndex < 0 := by
        intro hneg
        unfold sliceAt at hs
        rw [if_pos hneg] at hs
        cases hs
      omega
  · rw [if_neg hne] at h
    cases h

/-- C29, counterexample. The forced release is the outdated `v0.9.0` at index 0, the
deployed release is `v1.0.0`, and the pending `v1.2.0` (index 2) is a skipped patch of
the predicted `v1.2.1`: `ApplyForcedRelease` emits a status patch to `Outdated` for
`v1.2.0`, a pending release behind the forced index that is not the deployed
release. -/
theorem forced_path_outdates_newer_skipped_patch :
    PredictNextRelease (freshUpdater 100 "Auto" true false
        [rollback090, deployed100, pending120, approved121]) = some rollbackUpdater
    ∧ rollbackUpdater.forcedReleaseIndex = 0 ∧ rollbackUpdater.currentDeployedReleaseIndex = 1
    ∧ rollbackUpdater.releases[2]? = some pending120
    ∧ pending120.Status.Phase = Phase.pending
    ∧ (ApplyForcedRelease sampleEnv (mkInput samplePod []) HookOut.init rollbackUpdater).map
        (fun r => (r.1.patches.filter (fun op => isStatusPatch op),
          (applyPatches rollbackUpdater.releases r.1.patches).map
            (fun x => (x.Name, x.Status.Phase))))
      = some ([PatchOp.mergeStatus "v0.9.0"
            { Phase := Phase.deployed, Message := "", Approved := true, TransitionTime := 100 },
          PatchOp.mergeStatus "v1.0.0"
            { Phase := Phase.outdated, Message := "Last Deployed release outdated"
              Approved := true, TransitionTime := 100 },
          PatchOp.mergeStatus "v1.2.0"
            { Phase := Phase.outdated, Message := "Skipped because of new patches"
              Approved := true, TransitionTime := 100 }],
        [("v0.9.0", Phase.deployed), ("v1.0.0", Phase.outdated), ("v1.2.0", Phase.outdated),
          ("v1.2.1", Phase.pending)]) := by
  refine ⟨by decide, rfl, rfl, rfl, rfl, by decide⟩

/-- The method `ApplyForcedRelease`, exactly, on an updater with valid indices and a
forced release `rk` at position `k`: the patches it adds are the marker, the image
patch, the status patch of the forced release, the status patch of the current
release, status patches to `Outdated` for releases at skipped indices, the removal of
the force annotation, and status patches to `Outdated` for releases in front of the
forced index. -/
theorem ApplyForcedRelease_exact (env : Env) (input : HookInput) (out : HookOut)
    (du : deckhouseUpdater) (hv : ValidIndices du) (k : Nat) (rk : deckhouseRelease)
    (hk : du.forcedReleaseIndex = (k : Int)) (hrk : du.releases[k]? = some rk) :
    ∃ (out1 : HookOut) (du1 : deckhouseUpdater) (cur : Option Nat)
      (skippedOps loopOps : List PatchOp),
      ApplyForcedRelease env input out du = some (out1, du1)
      ∧ currentReleasePtr du = some cur
      ∧ (∀ c, cur = some c → c < du.releases.length)
      ∧ out1.patches = out.patches
          ++ ([PatchOp.createUpdatingCM (env.versionString rk.Version),
              PatchOp.setDeploymentImage (input.registry ++ ":" ++ rk.Version.original)]
            ++ predictedOps env rk
            ++ currentOps env (du.releases.set k (withStatus rk "" Phase.deployed [true])) cur
            ++ skippedOps
            ++ [PatchOp.removeAnnotation rk.Name "release.deckhouse.io/force"]
            ++ loopOps)
      ∧ (∀ op ∈ skippedOps, ∃ (s : Nat) (r : deckhouseRelease) (st : statusPatch),
          (s : Int) ∈ du.skippedPatchesIndexes ∧ du.releases[s]? = some r
          ∧ op = PatchOp.mergeStatus r.Name st ∧ st.Phase = Phase.outdated
          ∧ st.Approved = true)
      ∧ ∀ op ∈ loopOps, ∃ (j : Nat) (r : deckhouseRelease), j < k ∧ du.releases[j]? = some r
          ∧ op = PatchOp.mergeStatus r.Name
              { Phase := Phase.outdated, Message := "", Approved := true
                TransitionTime := env.now } := by
  have hne : ¬ du.forcedReleaseIndex = -1 := by omega
  have hs : sliceAt du.releases du.forcedReleaseIndex = some rk := by
    rw [hk, sliceAt_natCast]
    exact hrk
  have hnat : du.forcedReleaseIndex.toNat = k := by
    rw [hk]
    rfl
  obtain ⟨cur, hcur, hcurv⟩ := currentReleasePtr_spec hv
  obtain ⟨out1, du1, skippedOps, hrun, hpatches, _, hskip, hdu1, _, hnames, _⟩ :=
    runReleaseDeploy_exact env input out du k cur rk hrk hcurv hv.skipped
  have hf1 : du1.forcedReleaseIndex = du.forcedReleaseIndex := by
    rw [hdu1]
  obtain ⟨loopOps, hl1, _, hl3⟩ := outdateLoop_names env du1.forcedReleaseIndex du1.releases 0
    (out1.patch (PatchOp.removeAnnotation rk.Name "release.deckhouse.io/force"))
  refine ⟨outdateLoop env du1.forcedReleaseIndex 0 du1.releases
      (out1.patch (PatchOp.removeAnnotation rk.Name "release.deckhouse.io/force")),
    du1, cur, skippedOps, loopOps, ?_, hcur, hcurv, ?_, hskip, ?_⟩
  · unfold ApplyForcedRelease
    rw [if_neg hne, hs]
    dsimp only
    rw [hcur, hnat]
    dsimp only
    rw [hrun]
  · rw [hl1]
    simp [HookOut.patch, hpatches]
  · intro op hop
    obtain ⟨j, r1, hr1, hj, e⟩ := hl3 op hop
    obtain ⟨r0, h0, e0⟩ := hnames j r1 hr1
    refine ⟨j, r0, ?_, h0, ?_⟩
    · rw [hf1, hk] at hj
      push_cast at hj
      omega
    · rw [e, e0]

/-- The status patches of the current release that `runReleaseDeploy` emits are for
the release at the deployed index and write `Outdated`. -/
theorem currentOps_class (env : Env) (du : deckhouseUpdater) (p : Nat) (x : deckhouseRelease)
    (hx : ∀ r0, du.releases[p]? = some r0 → x.Name = r0.Name) (cur : Option Nat)
    (hcur : currentReleasePtr du = some cur) :
    ∀ op ∈ currentOps env (du.releases.set p x) cur,
      ∃ (c : Nat) (rc : deckhouseRelease) (st : statusPatch),
        du.currentDeployedReleaseIndex = (c : Int) ∧ du.releases[c]? = some rc
        ∧ op = PatchOp.mergeStatus rc.Name st ∧ st.Phase = Phase.outdated := by
  intro op hop
  cases cur with
  | none =>
    simp [currentOps] at hop
  | some c =>
    have hc := currentReleasePtr_index hcur
    unfold currentOps at hop
    dsimp only at hop
    cases hr : (du.releases.set p x)[c]? with
    | none =>
      rw [hr] at hop
      cases hop
    | some r3 =>
      rw [hr] at hop
      dsimp only at hop
      obtain ⟨r0, h0, e0⟩ := set_name du.releases p x hx c r3 hr
      by_cases hst : r3.Status
          = (withStatus r3 "Last Deployed release outdated" Phase.outdated []).Status
      · rw [if_pos hst] at hop
        cases hop
      · rw [if_neg hst] at hop
        refine ⟨c, r0, (statusPatch.mk Phase.outdated "Last Deployed release outdated"
          r3.Status.Approved env.now), hc, h0, ?_, rfl⟩
        rw [List.mem_singleton.mp hop, ← e0]
        rfl

/-- The status patch of the predicted release that `runReleaseDeploy` emits. -/
theorem predictedOps_class (env : Env) (rp : deckhouseRelease) :
    ∀ op ∈ predictedOps env rp, op = PatchOp.mergeStatus rp.Name
      { Phase := Phase.deployed, Message := "", Approved := true, TransitionTime := env.now } := by
  intro op hop
  unfold predictedOps at hop
  by_cases hst : rp.Status = (withStatus rp "" Phase.deployed [true]).Status
  · rw [if_pos hst] at hop
    cases hop
  · rw [if_neg hst] at hop
    exact List.mem_singleton.mp hop

theorem currentReleasePtr_of_index {du : deckhouseUpdater} {c : Nat} {rc : deckhouseRelease}
    (hc : du.currentDeployedReleaseIndex = (c : Int)) (hrc : du.releases[c]? = some rc) :
    currentReleasePtr du = some (some c) := by
  have hne : du.currentDeployedReleaseIndex ≠ -1 := by omega
  have hs : sliceAt du.releases du.currentDeployedReleaseIndex = some rc := by
    rw [hc, sliceAt_natCast]
    exact hrc
  simp only [currentReleasePtr, hne, ne_eq, not_false_eq_true, if_true, hs]
  rw [hc]
  rfl

/-- The status patch of a `Deployed` current release other than the predicted one is
emitted: it writes `Outdated` with the message of an outdated release and leaves
`approved` as it is. -/
theorem currentOps_deployed (env : Env) (rs : List deckhouseRelease) (p : Nat)
    (x : deckhouseRelease) (c : Nat) (rc : deckhouseRelease) (hcp : c ≠ p)
    (hrc : rs[c]? = some rc) (hd : rc.Status.Phase = Phase.deployed) :
    currentOps env (rs.set p x) (some c)
      = [PatchOp.mergeStatus rc.Name
          (statusPatch.mk Phase.outdated "Last Deployed release outdated" rc.Status.Approved
            env.now)] := by
  have h : (rs.set p x)[c]? = some rc := by
    rw [← hrc]
    simp [List.getElem?_set, Ne.symm hcp]
  simp only [currentOps, h]
  rw [if_neg]
  · rfl
  · intro hc
    have := congrArg DeckhouseReleaseStatus.Phase hc
    have h2 : rc.Status.Phase = Phase.outdated := this
    rw [hd] at h2
    cases h2

/-- C29 (amended). `ApplyForcedRelease` on an updater with valid indices whose forced
index is the position `k`, the releases having pairwise different names: it returns,
and a release behind the forced index that is neither the deployed release nor a
skipped patch gets no status patch and no annotation patch, so it is unchanged after
the patches (a pending one stays `Pending`); the deployed release, when it is not the
forced one, is `Outdated` after the patches. -/
theorem forced_path_frame (env : Env) (input : HookInput) (out : HookOut)
    (du : deckhouseUpdater) (hv : ValidIndices du) (k : Nat) (rk : deckhouseRelease)
    (hk : du.forcedReleaseIndex = (k : Int)) (hrk : du.releases[k]? = some rk)
    (hnames : distinctNames du.releases) :
    ∃ (out1 : HookOut) (du1 : deckhouseUpdater) (added : List PatchOp),
      ApplyForcedRelease env input out du = some (out1, du1)
      ∧ out1.patches = out.patches ++ added
      ∧ (∀ (i : Nat) (ri : deckhouseRelease), k < i → du.releases[i]? = some ri →
          du.currentDeployedReleaseIndex ≠ (i : Int) →
          (i : Int) ∉ du.skippedPatchesIndexes →
          (∀ st, PatchOp.mergeStatus ri.Name st ∉ added)
          ∧ (applyPatches du.releases added)[i]? = some ri)
      ∧ ∀ (c : Nat) (rc : deckhouseRelease), c ≠ k →
          du.currentDeployedReleaseIndex = (c : Int) → du.releases[c]? = some rc →
          ∃ r, (applyPatches du.releases added)[c]? = some r ∧ r.Name = rc.Name
            ∧ r.Status.Phase = Phase.outdated := by
  obtain ⟨out1, du1, cur, skippedOps, loopOps, hrun, hcur, hcurv, hpatches, hskip, hloop⟩ :=
    ApplyForcedRelease_exact env input out du hv k rk hk hrk
  have hcurcls := currentOps_class env du k (withStatus rk "" Phase.deployed [true])
    (by
      intro r0 h0
      rw [hrk] at h0
      cases h0
      rfl) cur hcur
  -- every patch that is for a release, with the position of that release
  have hclass : ∀ op ∈ [PatchOp.createUpdatingCM (env.versionString rk.Version),
        PatchOp.setDeploymentImage (input.registry ++ ":" ++ rk.Version.original)]
      ++ predictedOps env rk
      ++ currentOps env (du.releases.set k (withStatus rk "" Phase.deployed [true])) cur
      ++ skippedOps
      ++ [PatchOp.removeAnnotation rk.Name "release.deckhouse.io/force"]
      ++ loopOps,
      ∀ n : String, ((∃ st, op = PatchOp.mergeStatus n st)
          ∨ ∃ key, op = PatchOp.removeAnnotation n key) →
        ∃ (j : Nat) (r : deckhouseRelease), du.releases[j]? = some r ∧ r.Name = n
          ∧ (j ≤ k ∨ du.currentDeployedReleaseIndex = (j : Int)
              ∨ (j : Int) ∈ du.skippedPatchesIndexes)
          ∧ (j ≠ k → ∀ st, op = PatchOp.mergeStatus n st → st.Phase = Phase.outdated) := by
    intro op hop n htouch
    simp only [List.mem_append, List.mem_cons, List.mem_singleton, List.not_mem_nil,
      or_false] at hop
    rcases hop with ((((h | h) | h) | h) | h) | h
    · rcases h with h | h
      · rw [h] at htouch
        rcases htouch with ⟨st, e⟩ | ⟨key, e⟩ <;> cases e
      · rw [h] at htouch
        rcases htouch with ⟨st, e⟩ | ⟨key, e⟩ <;> cases e
    · have e := predictedOps_class env rk op h
      refine ⟨k, rk, hrk, ?_, Or.inl (le_refl k), fun hne => absurd rfl hne⟩
      rw [e] at htouch
      rcases htouch with ⟨st, e1⟩ | ⟨key, e1⟩
      · injection e1
      · cases e1
    · obtain ⟨c, rc, st, hc, hrc, e, hph⟩ := hcurcls op h
      refine ⟨c, rc, hrc, ?_, Or.inr (Or.inl hc), ?_⟩
      · rw [e] at htouch
        rcases htouch with ⟨st1, e1⟩ | ⟨key, e1⟩
        · injection e1
        · cases e1
      · intro _ st1 e1
        rw [e] at e1
        injection e1 with _ e2
        rw [← e2]
        exact hph
    · obtain ⟨s, r, st, hs, hr, e, hph, _⟩ := hskip op h
      refine ⟨s, r, hr, ?_, Or.inr (Or.inr hs), ?_⟩
      · rw [e] at htouch
        rcases htouch with ⟨st1, e1⟩ | ⟨key, e1⟩
        · injection e1
        · cases e1
      · intro _ st1 e1
        rw [e] at e1
        injection e1 with _ e2
        rw [← e2]
        exact hph
    · refine ⟨k, rk, hrk, ?_, Or.inl (le_refl k), fun hne => absurd rfl hne⟩
      rw [h] at htouch
      rcases htouch with ⟨st1, e1⟩ | ⟨key, e1⟩
      · cases e1
      · injection e1
    · obtain ⟨j, r, hj, hr, e⟩ := hloop op h
      refine ⟨j, r, hr, ?_, Or.inl (le_of_lt hj), ?_⟩
      · rw [e] at htouch
        rcases htouch with ⟨st1, e1⟩ | ⟨key, e1⟩
        · injection e1
        · cases e1
      · intro _ st1 e1
        rw [e] at e1
        injection e1 with _ e2
        rw [← e2]
  refine ⟨out1, du1, _, hrun, hpatches, ?_, ?_⟩
  · intro i ri hki hri hci hsi
    have hno : ∀ op ∈ [PatchOp.createUpdatingCM (env.versionString rk.Version),
          PatchOp.setDeploymentImage (input.registry ++ ":" ++ rk.Version.original)]
        ++ predictedOps env rk
        ++ currentOps env (du.releases.set k (withStatus rk "" Phase.deployed [true])) cur
        ++ skippedOps
        ++ [PatchOp.removeAnnotation rk.Name "release.deckhouse.io/force"]
        ++ loopOps,
        ¬ ((∃ st, op = PatchOp.mergeStatus ri.Name st)
          ∨ ∃ key, op = PatchOp.removeAnnotation ri.Name key) := by
      intro op hop htouch
      obtain ⟨j, r, hr, hn, hpos, _⟩ := hclass op hop ri.Name htouch
      have hji : j = i := by
        by_contra hne
        exact distinctNames_ne hnames hr hri hne hn
      subst hji
      rcases hpos with h | h | h
      · omega
      · exact hci h
      · exact hsi h
    have h1 : ∀ st, PatchOp.mergeStatus ri.Name st ∉ _ :=
      fun st hmem => hno _ hmem (Or.inl ⟨st, rfl⟩)
    refine ⟨h1, ?_⟩
    rw [applyPatches_getElem? _ _ i ri hri, applyOpsTo_untouched _ ri h1
      (fun key hmem => hno _ hmem (Or.inr ⟨key, rfl⟩))]
  · intro c rc hck hc hrc
    refine ⟨_, applyPatches_getElem? _ _ c rc hrc, applyOpsTo_name _ _, ?_⟩
    have hdep : rc.Status.Phase = Phase.deployed := by
      rcases hv.deployed with h | ⟨c1, rc1, hc1, hrc1, hd⟩
      · omega
      · have hcc : c = c1 := by omega
        subst hcc
        rw [hrc] at hrc1
        cases hrc1
        exact hd
    rcases applyOpsTo_status_cases
      ([PatchOp.createUpdatingCM (env.versionString rk.Version),
          PatchOp.setDeploymentImage (input.registry ++ ":" ++ rk.Version.original)]
        ++ predictedOps env rk
        ++ currentOps env (du.releases.set k (withStatus rk "" Phase.deployed [true])) cur
        ++ skippedOps
        ++ [PatchOp.removeAnnotation rk.Name "release.deckhouse.io/force"]
        ++ loopOps) rc with ⟨hno, _⟩ | ⟨st, hmem, hst⟩
    · -- the status patch of the current release is emitted
      exfalso
      have hcurc : cur = some c := by
        have h1 := currentReleasePtr_of_index hc hrc
        rw [hcur] at h1
        exact Option.some.inj h1
      apply hno (statusPatch.mk Phase.outdated "Last Deployed release outdated"
        rc.Status.Approved env.now)
      rw [hcurc, currentOps_deployed env du.releases k (withStatus rk "" Phase.deployed [true]) c
        rc hck hrc hdep]
      simp
    · rw [hst]
      obtain ⟨j, r, hr, hn, _, hout⟩ := hclass _ hmem rc.Name (Or.inl ⟨st, rfl⟩)
      have hjc : j = c := by
        by_contra hne
        exact distinctNames_ne hnames hr hrc hne hn
      subst hjc
      exact hout hck st rfl

/-- C29, witness. The forced `v0.9.0` at index 0, the deployed `v1.0.0`, the skipped
`v1.2.0` and the predicted `v1.2.1`: `v1.2.1` is unchanged and `v1.0.0` ends
`Outdated`. -/
theorem forced_path_frame_witness :
    distinctNames rollbackUpdater.releases
    ∧ ∃ (out1 : HookOut) (du1 : deckhouseUpdater) (added : List PatchOp),
      ApplyForcedRelease sampleEnv (mkInput samplePod []) HookOut.init rollbackUpdater
        = some (out1, du1)
      ∧ out1.patches = HookOut.init.patches ++ added
      ∧ (∀ (i : Nat) (ri : deckhouseRelease), 0 < i → rollbackUpdater.releases[i]? = some ri →
          rollbackUpdater.currentDeployedReleaseIndex ≠ (i : Int) →
          (i : Int) ∉ rollbackUpdater.skippedPatchesIndexes →
          (∀ st, PatchOp.mergeStatus ri.Name st ∉ added)
          ∧ (applyPatches rollbackUpdater.releases added)[i]? = some ri)
      ∧ ∀ (c : Nat) (rc : deckhouseRelease), c ≠ 0 →
          rollbackUpdater.currentDeployedReleaseIndex = (c : Int) →
          rollbackUpdater.releases[c]? = some rc →
          ∃ r, (applyPatches rollbackUpdater.releases added)[c]? = some r ∧ r.Name = rc.Name
            ∧ r.Status.Phase = Phase.outdated :=
  ⟨by unfold distinctNames; decide,
    forced_path_frame sampleEnv (mkInput samplePod []) HookOut.init rollbackUpdater
      ⟨Or.inr ⟨3, approved121, rfl, rfl, rfl⟩, Or.inr ⟨1, deployed100, rfl, rfl, rfl⟩,
        Or.inr ⟨0, rollback090, rfl, rfl, rfl⟩,
        fun z hz => ⟨2, List.mem_singleton.mp hz, by decide⟩⟩
      0 rollback090 rfl rfl (by unfold distinctNames; decide)⟩

/-! ## Every status patch of a pass -/

theorem prepareUpdater_predicts (env : Env) (input : HookInput) (pod : deckhousePodInfo) :
    ∃ du, PredictNextRelease (prepareUpdater env input pod).2 = some du := by
  obtain ⟨_, ⟨n, hfresh⟩, _⟩ := prepareUpdater_spec env input pod
  obtain ⟨du1, h1, _⟩ := PredictNextRelease_total
    (prepareUpdater env input pod).2 (by rw [hfresh]; rfl) (by rw [hfresh]; rfl)
    (by rw [hfresh]; rfl) (by rw [hfresh]; rfl)
  exact ⟨du1, h1⟩

theorem normRel_suspended_phase (du : deckhouseUpdater) (a : deckhouseRelease)
    (hs : a.HasSuspendAnnotation = true) : (normRel du a).Status.Phase = Phase.suspended := by
  have hi : deckhouseRelease.HasSuspendAnnotation (initRel a) = true := by
    unfold initRel
    split
    · exact hs
    · exact hs
  have e1 : (suspRel (initRel a)).Status = suspendedStatus := by
    unfold suspRel
    rw [if_pos hi]
  have e2 : (suspRel (initRel a)).Status.Phase = Phase.suspended := by
    rw [e1]
    rfl
  unfold normRel manualRel
  rw [if_neg (by rw [e2]; decide)]
  exact e2

/-- A normalized release that is `Pending` comes from a snapshot entry without the
suspend annotation whose phase is `Pending` or none. -/
theorem normRel_pending_origin (du : deckhouseUpdater) (a : deckhouseRelease)
    (h : (normRel du a).Status.Phase = Phase.pending) :
    a.HasSuspendAnnotation = false
    ∧ (a.Status.Phase = Phase.pending ∨ a.Status.Phase = Phase.empty) := by
  cases hs : a.HasSuspendAnnotation with
  | true =>
    rw [normRel_suspended_phase du a hs] at h
    cases h
  | false =>
    refine ⟨rfl, ?_⟩
    rw [normRel_phase du a hs] at h
    by_cases he : a.Status.Phase = Phase.empty
    · exact Or.inr he
    · rw [if_neg he] at h
      exact Or.inl h

/-- A normalized release that is `Deployed` comes from a `Deployed` snapshot entry
without the suspend annotation. -/
theorem normRel_deployed_origin (du : deckhouseUpdater) (a : deckhouseRelease)
    (h : (normRel du a).Status.Phase = Phase.deployed) :
    a.HasSuspendAnnotation = false ∧ a.Status.Phase = Phase.deployed := by
  cases hs : a.HasSuspendAnnotation with
  | true =>
    rw [normRel_suspended_phase du a hs] at h
    cases h
  | false =>
    refine ⟨rfl, ?_⟩
    rw [normRel_phase du a hs] at h
    by_cases he : a.Status.Phase = Phase.empty
    · rw [if_pos he] at h
      cases h
    · rw [if_neg he] at h
      exact h

/-- Every patch of the prepared collectors is the deletion of the marker or a
normalizer patch of a snapshot entry. -/
theorem prepareUpdater_ops_origin (env : Env) (input : HookInput) (pod : deckhousePodInfo)
    (op : PatchOp) (hop : op ∈ (prepareUpdater env input pod).1.patches) :
    op = PatchOp.deleteUpdatingCM
    ∨ ∃ a ∈ input.releases, op ∈ normOps env (newDeckhouseUpdater env.now input.updateMode
        pod.Ready (isBootstrapImage env pod)) a := by
  obtain ⟨_, pre, hpre, hcm⟩ := prepareUpdater_norm env input pod
  rw [hpre] at hop
  rcases List.mem_append.mp hop with h | h
  · exact Or.inl (hcm op h)
  · obtain ⟨l, hl, hmem⟩ := List.mem_flatten.mp h
    obtain ⟨a, ha, e⟩ := List.mem_map.mp hl
    rw [← e] at hmem
    exact Or.inr ⟨a, ha, hmem⟩

/-- The tag-based path adds no patch but the deletion of the pod. -/
theorem tagUpdate_no_status (env : Env) (pod : deckhousePodInfo) :
    ∀ op ∈ (tagUpdate env HookOut.init pod).out.patches,
      op = PatchOp.deletePod pod.Namespace pod.Name := by
  intro op hop
  unfold tagUpdate at hop
  split at hop
  · simp [HookOut.init] at hop
  · split at hop
    · simp [HookOut.init] at hop
    · split at hop
      · simp [HookOut.init] at hop
      · split at hop
        · simp [HookOut.init] at hop
        · dsimp only at hop
          split at hop
          · simp [HookOut.init] at hop
          · split at hop
            · simp [HookOut.init, HookOut.metric] at hop
            · split at hop
              · simp [HookOut.init, HookOut.metric] at hop
              · simp [HookOut.init, HookOut.metric, HookOut.patch] at hop
                exact hop

/-- The predicted release of a pass comes from a snapshot entry of the same name whose
phase is `Pending` or none and that does not carry the suspend annotation. -/
theorem predicted_origin (env : Env) (input : HookInput) (pod : deckhousePodInfo)
    (du : deckhouseUpdater)
    (hpred : PredictNextRelease (prepareUpdater env input pod).2 = some du)
    (p : Nat) (rp : deckhouseRelease) (hp : du.predictedReleaseIndex = (p : Int))
    (hrp : du.releases[p]? = some rp) :
    ∃ a ∈ input.releases, a.Name = rp.Name ∧ a.HasSuspendAnnotation = false
      ∧ (a.Status.Phase = Phase.pending ∨ a.Status.Phase = Phase.empty) := by
  obtain ⟨hv, _⟩ := passUpdater_spec env input pod du hpred
  have hpend := predicted_is_pending hv hp hrp
  obtain ⟨a, ha, e⟩ := (passUpdater_mem env input pod du hpred rp).mp
    (List.mem_iff_getElem?.mpr ⟨p, hrp⟩)
  rw [e] at hpend
  obtain ⟨h1, h2⟩ := normRel_pending_origin _ a hpend
  refine ⟨a, ha, ?_, h1, h2⟩
  rw [e]
  exact ((normRel_same _ a).name).symm

/-- The forced release of a pass comes from a snapshot entry of the same name that
carries the force flag. -/
theorem forced_origin (env : Env) (input : HookInput) (pod : deckhousePodInfo)
    (du : deckhouseUpdater)
    (hpred : PredictNextRelease (prepareUpdater env input pod).2 = some du)
    (k : Nat) (rk : deckhouseRelease) (hk : du.forcedReleaseIndex = (k : Int))
    (hrk : du.releases[k]? = some rk) :
    ∃ a ∈ input.releases, a.Name = rk.Name ∧ a.HasForceAnnotation = true := by
  obtain ⟨hv, _⟩ := passUpdater_spec env input pod du hpred
  have hforce : rk.HasForceAnnotation = true := by
    rcases hv.forced with h | ⟨k1, rk1, hk1, hrk1, hf⟩
    · omega
    · have hkk : k = k1 := by omega
      subst hkk
      rw [hrk] at hrk1
      cases hrk1
      exact hf
  obtain ⟨a, ha, e⟩ := (passUpdater_mem env input pod du hpred rk).mp
    (List.mem_iff_getElem?.mpr ⟨k, hrk⟩)
  obtain ⟨st, est⟩ := normRel_same (newDeckhouseUpdater env.now input.updateMode pod.Ready
    (isBootstrapImage env pod)) a
  refine ⟨a, ha, ?_, ?_⟩
  · rw [e, est]
  · rw [e, est] at hforce
    exact hforce

/-- Every status patch of the prepared collectors is a patch to `Suspended`, or a patch
to `Pending` for a snapshot entry whose phase is `Pending` or none. -/
theorem prepareUpdater_patch_class (env : Env) (input : HookInput) (pod : deckhousePodInfo)
    (n : String) (st : statusPatch)
    (h : PatchOp.mergeStatus n st ∈ (prepareUpdater env input pod).1.patches) :
    (st.Phase = Phase.pending
      ∧ ∃ a ∈ input.releases, a.Name = n
          ∧ (a.Status.Phase = Phase.pending ∨ a.Status.Phase = Phase.empty))
    ∨ st.Phase = Phase.suspended := by
  rcases prepareUpdater_ops_origin env input pod _ h with h1 | ⟨a, ha, hop⟩
  · cases h1
  · rcases normOps_class env _ a _ hop with h2 | ⟨st1, e, hcls⟩
    · cases h2
    · injection e with e1 e2
      rw [e2]
      rcases hcls with ⟨hp, hph⟩ | hs
      · exact Or.inl ⟨hp, a, ha, e1.symm, hph⟩
      · exact Or.inr hs

/-- Every status patch of a pass is of one of the four kinds of `statusPatchClass`. -/
theorem updateDeckhouse_patch_class (env : Env) (input : HookInput) (res : HookResult)
    (hres : updateDeckhouse env input = some res) :
    ∀ (n : String) (st : statusPatch), PatchOp.mergeStatus n st ∈ res.out.patches →
      statusPatchClass input n st := by
  intro n st hmem
  cases hpod : getDeckhousePod input.deckhouse_pod with
  | none =>
    simp only [updateDeckhouse, hpod] at hres
    cases hres
  | some o =>
    cases o with
    | none =>
      simp only [updateDeckhouse, hpod] at hres
      rw [← Option.some.inj hres] at hmem
      cases hmem
    | some pod =>
      by_cases hchan : input.releaseChannelExists = true
      · obtain ⟨du, hpred⟩ := prepareUpdater_predicts env input pod
        obtain ⟨hv, _⟩ := passUpdater_spec env input pod du hpred
        obtain ⟨res1, hres1, hcases⟩ := updateDeckhouse_cases env input pod du hpod hchan hpred
        have hrr : res1 = res := by
          rw [hres] at hres1
          exact (Option.some.inj hres1).symm
        subst hrr
        have hprep : ∀ (n : String) (st : statusPatch),
            PatchOp.mergeStatus n st ∈ (prepareUpdater env input pod).1.patches →
            statusPatchClass input n st := by
          intro n st h
          rcases prepareUpdater_patch_class env input pod n st h with h1 | h1
          · exact Or.inl h1
          · exact Or.inr (Or.inl h1)
        rcases hcases with ⟨added, hpatches, hadded⟩
          | ⟨p, rp, cur, out1, du1, tail, hrp, hpf, hcur, hcurv, hrun, hpatches, htail⟩
        · rw [hpatches] at hmem
          rcases List.mem_append.mp hmem with h | h
          · exact hprep n st h
          · obtain ⟨p, rp, st1, hp, hrp, e, hph⟩ := hadded _ h
            injection e with e1 e2
            obtain ⟨a, ha, hn, _, hphase⟩ := predicted_origin env input pod du hpred p rp hp hrp
            left
            rw [e2]
            exact ⟨hph, a, ha, by rw [hn, e1], hphase⟩
        · obtain ⟨out2, du2, skippedOps, hrun2, hp2, _, hskip, _⟩ :=
            runReleaseDeploy_exact env input (prepareUpdater env input pod).1 du p cur rp hrp
              hcurv hv.skipped
          have hoo : out2 = out1 := by
            rw [hrun] at hrun2
            have := Option.some.inj hrun2
            exact (congrArg Prod.fst this).symm
          subst hoo
          rw [hpatches, hp2] at hmem
          simp only [List.mem_append, List.mem_cons, List.mem_singleton, List.not_mem_nil,
            or_false] at hmem
          rcases hmem with ((((h | h) | h) | h) | h) | h
          · exact hprep n st h
          · rcases h with h | h <;> cases h
          · have e := predictedOps_class env rp _ h
            injection e with e1 e2
            right
            right
            right
            rw [e2]
            refine ⟨rfl, ?_⟩
            rcases hpf with hp | hk
            · obtain ⟨a, ha, hn, _, hphase⟩ :=
                predicted_origin env input pod du hpred p rp hp hrp
              exact ⟨a, ha, by rw [hn, e1], Or.inl hphase⟩
            · obtain ⟨a, ha, hn, hforce⟩ := forced_origin env input pod du hpred p rp hk hrp
              exact ⟨a, ha, by rw [hn, e1], Or.inr hforce⟩
          · obtain ⟨c, rc, st1, _, _, e, hph⟩ := currentOps_class env du p
              (withStatus rp "" Phase.deployed [true])
              (by
                intro r0 h0
                rw [hrp] at h0
                cases h0
                rfl) cur hcur _ h
            injection e with e1 e2
            right
            right
            left
            rw [e2]
            exact hph
          · obtain ⟨s, r, st1, _, _, e, hph, _⟩ := hskip _ h
            injection e with e1 e2
            right
            right
            left
            rw [e2]
            exact hph
          · rcases htail _ h with e | ⟨j, r, _, _, e⟩
            · cases e
            · injection e with e1 e2
              right
              right
              left
              rw [e2]
      · simp only [updateDeckhouse, hpod] at hres
        rw [if_pos (by simpa using hchan)] at hres
        rw [← Option.some.inj hres] at hmem
        have := tagUpdate_no_status env pod _ hmem
        cases this

theorem distinctNames_eq {rs : List deckhouseRelease} (h : distinctNames rs)
    {a b : deckhouseRelease} (ha : a ∈ rs) (hb : b ∈ rs) (hn : a.Name = b.Name) : a = b := by
  obtain ⟨i, hi⟩ := List.mem_iff_getElem?.mp ha
  obtain ⟨j, hj⟩ := List.mem_iff_getElem?.mp hb
  by_cases hij : i = j
  · subst hij
    rw [hi] at hj
    exact Option.some.inj hj
  · exact absurd hn (distinctNames_ne h hi hj hij)

/-- C26, counterexample. The outdated `v0.9.0` carries the force flag, `v1.0.0` is
deployed and `v1.2.0`, `v1.2.1` are pending: the pass deploys `v0.9.0`, which moves
from `Outdated` back to `Deployed`. -/
theorem forced_outdated_release_is_deployed_again :
    rollback090.Status.Phase = Phase.outdated
    ∧ (updateDeckhouse sampleEnv
        (mkInput samplePod [rollback090, deployed100, pending120, approved121])).map
        (fun res => (res.err,
          (applyPatches [rollback090, deployed100, pending120, approved121]
            res.out.patches).map (fun r => (r.Name, r.Status.Phase))))
      = some (none, [("v0.9.0", Phase.deployed), ("v1.0.0", Phase.outdated),
          ("v1.2.0", Phase.outdated), ("v1.2.1", Phase.pending)]) := by
  refine ⟨rfl, by decide⟩

/-- C26 (amended). For every pass that returns, on a snapshot of releases with
pairwise different names, and every release of the snapshot: after the status patches
of the pass a release that was `Deployed` is not `Pending`, and a release that was
`Outdated` is not `Pending`, and is `Deployed` only if it carries the force flag. -/
theorem phase_monotonicity (env : Env) (input : HookInput) (res : HookResult)
    (hres : updateDeckhouse env input = some res) (hnames : distinctNames input.releases)
    (i : Nat) (a r : deckhouseRelease) (ha : input.releases[i]? = some a)
    (hr : (applyPatches input.releases res.out.patches)[i]? = some r) :
    (a.Status.Phase = Phase.deployed → r.Status.Phase ≠ Phase.pending)
    ∧ (a.Status.Phase = Phase.outdated →
        r.Status.Phase ≠ Phase.pending
        ∧ (r.Status.Phase = Phase.deployed → a.HasForceAnnotation = true)) := by
  have hr1 : r = applyOpsTo a res.out.patches := by
    rw [applyPatches_getElem? _ _ i a ha] at hr
    exact (Option.some.inj hr).symm
  have hamem : a ∈ input.releases := List.mem_iff_getElem?.mpr ⟨i, ha⟩
  -- the status after the patches is the status before or the status of a patch of the pass
  have hcases : r.Status = a.Status
      ∨ ∃ st, statusPatchClass input a.Name st ∧ r.Status.Phase = st.Phase := by
    rcases applyOpsTo_status_cases res.out.patches a with ⟨_, h⟩ | ⟨st, hmem, h⟩
    · left
      rw [hr1]
      exact h
    · right
      refine ⟨st, updateDeckhouse_patch_class env input res hres a.Name st hmem, ?_⟩
      rw [hr1, h]
  have hpend : r.Status.Phase = Phase.pending →
      a.Status.Phase = Phase.pending ∨ a.Status.Phase = Phase.empty := by
    intro hp
    rcases hcases with h | ⟨st, hcls, hph⟩
    · rw [h] at hp
      exact Or.inl hp
    · rw [hph] at hp
      rcases hcls with ⟨_, a1, ha1, hn, hphase⟩ | h | h | ⟨h, _⟩
      · rw [distinctNames_eq hnames ha1 hamem hn] at hphase
        exact hphase
      · rw [hp] at h
        cases h
      · rw [hp] at h
        cases h
      · rw [hp] at h
        cases h
  refine ⟨?_, ?_⟩
  · intro hd hp
    rcases hpend hp with h | h <;> rw [hd] at h <;> cases h
  · intro ho
    refine ⟨?_, ?_⟩
    · intro hp
      rcases hpend hp with h | h <;> rw [ho] at h <;> cases h
    · intro hd
      rcases hcases with h | ⟨st, hcls, hph⟩
      · rw [h, ho] at hd
        cases hd
      · rw [hph] at hd
        rcases hcls with ⟨h, _⟩ | h | h | ⟨_, a1, ha1, hn, hphase⟩
        · rw [hd] at h
          cases h
        · rw [hd] at h
          cases h
        · rw [hd] at h
          cases h
        · rw [distinctNames_eq hnames ha1 hamem hn] at hphase
          rcases hphase with (h | h) | h
          · rw [ho] at h
            cases h
          · rw [ho] at h
            cases h
          · exact h

/-- C26, witness. The pass on the deployed `v1.0.0` and the pending `v1.1.0`: after the
patches `v1.0.0`, which was `Deployed`, is not `Pending`. -/
theorem phase_monotonicity_witness :
    updateDeckhouse sampleEnv (mkInput samplePod [deployed100, pending110]) = some upgradeResult
    ∧ ((deployed100.Status.Phase = Phase.deployed →
          (withStatus deployed100 "Last Deployed release outdated" Phase.outdated []).Status.Phase
            ≠ Phase.pending)
      ∧ (deployed100.Status.Phase = Phase.outdated →
          (withStatus deployed100 "Last Deployed release outdated" Phase.outdated []).Status.Phase
            ≠ Phase.pending
          ∧ ((withStatus deployed100 "Last Deployed release outdated"
                Phase.outdated []).Status.Phase = Phase.deployed →
              deployed100.HasForceAnnotation = true))) :=
  ⟨by decide,
    phase_monotonicity sampleEnv (mkInput samplePod [deployed100, pending110]) upgradeResult
      (by decide) (by unfold distinctNames; decide) 0 deployed100
      (withStatus deployed100 "Last Deployed release outdated" Phase.outdated []) rfl
      (by decide)⟩

/-! ## One deployed release, one version change -/

theorem tagUpdate_length (env : Env) (pod : deckhousePodInfo) :
    (tagUpdate env HookOut.init pod).out.patches.length ≤ 1 := by
  have h : ∀ l : List PatchOp, l = (tagUpdate env HookOut.init pod).out.patches →
      l.length ≤ 1 := by
    intro l hl
    unfold tagUpdate at hl
    split at hl
    · simp [HookOut.init] at hl
      simp [hl]
    · split at hl
      · simp [HookOut.init] at hl
        simp [hl]
      · split at hl
        · simp [HookOut.init] at hl
          simp [hl]
        · split at hl
          · simp [HookOut.init] at hl
            simp [hl]
          · dsimp only at hl
            split at hl
            · simp [HookOut.init] at hl
              simp [hl]
            · split at hl
              · simp [HookOut.init, HookOut.metric] at hl
                simp [hl]
              · split at hl
                · simp [HookOut.init, HookOut.metric] at hl
                  simp [hl]
                · simp [HookOut.init, HookOut.metric, HookOut.patch] at hl
                  simp [hl]
  exact h _ rfl

theorem filter_versionChange_nil (ops : List PatchOp)
    (h : ∀ op ∈ ops, isVersionChange op = false) : ops.filter isVersionChange = [] := by
  rw [List.filter_eq_nil_iff]
  intro op hop
  rw [h op hop]
  decide

theorem prepareUpdater_no_versionChange (env : Env) (input : HookInput)
    (pod : deckhousePodInfo) :
    ∀ op ∈ (prepareUpdater env input pod).1.patches, isVersionChange op = false := by
  intro op hop
  rcases prepareUpdater_ops_origin env input pod op hop with h | ⟨a, _, h⟩
  · rw [h]
    rfl
  · rcases normOps_class env _ a op h with e | ⟨st, e, _⟩
    · rw [e]
      rfl
    · rw [e]
      rfl

/-- The deployed release of a pass on the release-channel path, when the snapshot has
at most one `Deployed` entry: every status patch to `Deployed` is for one release `T`;
when there is such a `T`, every other `Deployed` snapshot entry gets a status patch;
and the pass emits at most one version-change patch. -/
theorem updateDeckhouse_deployed_target (env : Env) (input : HookInput)
    (pod : deckhousePodInfo) (du : deckhouseUpdater) (res : HookResult)
    (hpod : getDeckhousePod input.deckhouse_pod = some (some pod))
    (hchan : input.releaseChannelExists = true)
    (hpred : PredictNextRelease (prepareUpdater env input pod).2 = some du)
    (hres : updateDeckhouse env input = some res)
    (hone : ∀ a b : deckhouseRelease, a ∈ input.releases → b ∈ input.releases →
      a.Status.Phase = Phase.deployed → b.Status.Phase = Phase.deployed → a = b) :
    ∃ T : Option String,
      (∀ (n : String) (st : statusPatch), PatchOp.mergeStatus n st ∈ res.out.patches →
        st.Phase = Phase.deployed → T = some n)
      ∧ (∀ t, T = some t → ∀ a ∈ input.releases, a.Status.Phase = Phase.deployed →
          a.Name ≠ t → ∃ st, PatchOp.mergeStatus a.Name st ∈ res.out.patches)
      ∧ (res.out.patches.filter isVersionChange).length ≤ 1 := by
  obtain ⟨hv, hinv, _⟩ := passUpdater_spec env input pod du hpred
  obtain ⟨res1, hres1, hcases⟩ := updateDeckhouse_cases env input pod du hpod hchan hpred
  have hrr : res1 = res := by
    rw [hres] at hres1
    exact (Option.some.inj hres1).symm
  subst hrr
  have hprepnd : ∀ (n : String) (st : statusPatch),
      PatchOp.mergeStatus n st ∈ (prepareUpdater env input pod).1.patches →
      st.Phase ≠ Phase.deployed := by
    intro n st h hd
    rcases prepareUpdater_patch_class env input pod n st h with ⟨h1, _⟩ | h1
    · rw [hd] at h1
      cases h1
    · rw [hd] at h1
      cases h1
  rcases hcases with ⟨added, hpatches, hadded⟩
    | ⟨p, rp, cur, out1, du1, tail, hrp, hpf, hcur, hcurv, hrun, hpatches, htail⟩
  · refine ⟨none, ?_, fun t ht => (by cases ht), ?_⟩
    · intro n st hmem hd
      exfalso
      rw [hpatches] at hmem
      rcases List.mem_append.mp hmem with h | h
      · exact hprepnd n st h hd
      · obtain ⟨p, rp, st1, _, _, e, hph⟩ := hadded _ h
        injection e with e1 e2
        rw [← e2, hd] at hph
        cases hph
    · rw [hpatches, List.filter_append,
        filter_versionChange_nil _ (prepareUpdater_no_versionChange env input pod),
        filter_versionChange_nil added (by
          intro op hop
          obtain ⟨p, rp, st1, _, _, e, _⟩ := hadded op hop
          rw [e]
          rfl)]
      simp
  · obtain ⟨out2, du2, skippedOps, hrun2, hp2, _, hskip, _⟩ :=
      runReleaseDeploy_exact env input (prepareUpdater env input pod).1 du p cur rp hrp
        hcurv hv.skipped
    have hoo : out2 = out1 := by
      rw [hrun] at hrun2
      have := Option.some.inj hrun2
      exact (congrArg Prod.fst this).symm
    subst hoo
    have hcurcls := currentOps_class env du p (withStatus rp "" Phase.deployed [true])
      (by
        intro r0 h0
        rw [hrp] at h0
        cases h0
        rfl) cur hcur
    refine ⟨some rp.Name, ?_, ?_, ?_⟩
    · intro n st hmem hd
      rw [hpatches, hp2] at hmem
      simp only [List.mem_append, List.mem_cons, List.mem_singleton, List.not_mem_nil,
        or_false] at hmem
      rcases hmem with ((((h | h) | h) | h) | h) | h
      · exact absurd hd (hprepnd n st h)
      · rcases h with h | h <;> cases h
      · have e := predictedOps_class env rp _ h
        injection e with e1 e2
        rw [e1]
      · exfalso
        obtain ⟨c, rc, st1, _, _, e, hph⟩ := hcurcls _ h
        injection e with e1 e2
        rw [← e2, hd] at hph
        cases hph
      · exfalso
        obtain ⟨s, r, st1, _, _, e, hph, _⟩ := hskip _ h
        injection e with e1 e2
        rw [← e2, hd] at hph
        cases hph
      · exfalso
        rcases htail _ h with e | ⟨j, r, _, _, e⟩
        · cases e
        · injection e with e1 e2
          rw [e2] at hd
          cases hd
    · intro t ht a ha hd hne
      have htn : t = rp.Name := (Option.some.inj ht).symm
      rw [htn] at hne
      cases hs : a.HasSuspendAnnotation with
      | true =>
        obtain ⟨_, _, hops⟩ := normRel_suspended env (newDeckhouseUpdater env.now
          input.updateMode pod.Ready (isBootstrapImage env pod)) a hs
        have hns : ¬ a.Status = suspendedStatus := by
          intro hc
          rw [hc] at hd
          cases hd
        refine ⟨statusPatch.mk Phase.suspended "Release is suspended" false env.now, ?_⟩
        rw [hpatches, hp2]
        have hm := prepareUpdater_ops_mem env input pod a ha
          (PatchOp.mergeStatus a.Name
            { Phase := Phase.suspended, Message := "Release is suspended", Approved := false
              TransitionTime := env.now })
          (by
            rw [hops, if_neg hns]
            simp)
        simp only [List.mem_append]
        exact Or.inl (Or.inl (Or.inl (Or.inl (Or.inl hm))))
      | false =>
        -- the entry is the current release of the updater
        have hb : normRel (newDeckhouseUpdater env.now input.updateMode pod.Ready
            (isBootstrapImage env pod)) a ∈ du.releases :=
          (passUpdater_mem env input pod du hpred _).mpr ⟨a, ha, rfl⟩
        have hbd : (normRel (newDeckhouseUpdater env.now input.updateMode pod.Ready
            (isBootstrapImage env pod)) a).Status.Phase = Phase.deployed := by
          rw [normRel_phase _ a hs, hd]
          rfl
        obtain ⟨jb, hjb⟩ := List.mem_iff_getElem?.mp hb
        have hjlt : jb < du.releases.length := (List.getElem?_eq_some_iff.mp hjb).1
        rcases hinv.deployed with ⟨_, hno⟩ | ⟨c, rc, hc, _, hrc, hrcd, _⟩
        · exact absurd hbd (hno jb _ hjlt hjb)
        · obtain ⟨a1, ha1, e1⟩ := (passUpdater_mem env input pod du hpred rc).mp
            (List.mem_iff_getElem?.mpr ⟨c, hrc⟩)
          rw [e1] at hrcd
          obtain ⟨_, ha1d⟩ := normRel_deployed_origin _ a1 hrcd
          have haa : a1 = a := hone a1 a ha1 ha ha1d hd
          have hrcn : rc.Name = a.Name := by
            rw [e1, haa]
            exact (normRel_same _ a).name
          have hcp : c ≠ p := by
            intro hcp
            subst hcp
            rw [hrp] at hrc
            cases hrc
            exact hne hrcn.symm
          have hcurc : cur = some c := by
            have h1 := currentReleasePtr_of_index hc hrc
            rw [hcur] at h1
            exact Option.some.inj h1
          have hrcd1 : rc.Status.Phase = Phase.deployed := by
            rw [e1]
            exact hrcd
          refine ⟨statusPatch.mk Phase.outdated "Last Deployed release outdated"
            rc.Status.Approved env.now, ?_⟩
          rw [hpatches, hp2, hcurc, currentOps_deployed env du.releases p
            (withStatus rp "" Phase.deployed [true]) c rc hcp hrc hrcd1, hrcn]
          simp
    · rw [hpatches, hp2]
      simp only [List.filter_append]
      rw [filter_versionChange_nil _ (prepareUpdater_no_versionChange env input pod),
        filter_versionChange_nil (predictedOps env rp) (by
          intro op hop
          rw [predictedOps_class env rp op hop]
          rfl),
        filter_versionChange_nil (currentOps env _ cur) (by
          intro op hop
          obtain ⟨c, rc, st1, _, _, e, _⟩ := hcurcls op hop
          rw [e]
          rfl),
        filter_versionChange_nil skippedOps (by
          intro op hop
          obtain ⟨s, r, st1, _, _, e, _⟩ := hskip op hop
          rw [e]
          rfl),
        filter_versionChange_nil tail (by
          intro op hop
          rcases htail op hop with e | ⟨j, r, _, _, e⟩
          · rw [e]
            rfl
          · rw [e]
            rfl)]
      simp [List.filter, isVersionChange]

/-- C21. For every pass that returns, on a snapshot of releases with pairwise different
names of which at most one is `Deployed`: after the status patches of the pass at most
one release is `Deployed`, and the pass emits at most one version-change patch (the
image patch of the deployment or, on the tag-based path, the deletion of the pod). -/
theorem single_deployed_invariant (env : Env) (input : HookInput) (res : HookResult)
    (hres : updateDeckhouse env input = some res) (hnames : distinctNames input.releases)
    (hone : atMostOneDeployed input.releases) :
    atMostOneDeployed (applyPatches input.releases res.out.patches)
    ∧ (res.out.patches.filter isVersionChange).length ≤ 1 := by
  have hone1 : ∀ a b : deckhouseRelease, a ∈ input.releases → b ∈ input.releases →
      a.Status.Phase = Phase.deployed → b.Status.Phase = Phase.deployed → a = b := by
    intro a b ha hb had hbd
    obtain ⟨i, hi⟩ := List.mem_iff_getElem?.mp ha
    obtain ⟨j, hj⟩ := List.mem_iff_getElem?.mp hb
    have hij := hone i j a b hi hj had hbd
    subst hij
    rw [hi] at hj
    exact Option.some.inj hj
  -- the release that the pass deploys, if any
  obtain ⟨T, hT1, hT2, hcount⟩ : ∃ T : Option String,
      (∀ (n : String) (st : statusPatch), PatchOp.mergeStatus n st ∈ res.out.patches →
        st.Phase = Phase.deployed → T = some n)
      ∧ (∀ t, T = some t → ∀ a ∈ input.releases, a.Status.Phase = Phase.deployed →
          a.Name ≠ t → ∃ st, PatchOp.mergeStatus a.Name st ∈ res.out.patches)
      ∧ (res.out.patches.filter isVersionChange).length ≤ 1 := by
    cases hpod : getDeckhousePod input.deckhouse_pod with
    | none =>
      simp only [updateDeckhouse, hpod] at hres
      cases hres
    | some o =>
      cases o with
      | none =>
        simp only [updateDeckhouse, hpod] at hres
        rw [← Option.some.inj hres]
        refine ⟨none, ?_, fun t ht => (by cases ht), by simp [HookOut.init]⟩
        intro n st hmem
        cases hmem
      | some pod =>
        by_cases hchan : input.releaseChannelExists = true
        · obtain ⟨du, hpred⟩ := prepareUpdater_predicts env input pod
          exact updateDeckhouse_deployed_target env input pod du res hpod hchan hpred hres hone1
        · simp only [updateDeckhouse, hpod] at hres
          rw [if_pos (by simpa using hchan)] at hres
          rw [← Option.some.inj hres]
          refine ⟨none, ?_, fun t ht => (by cases ht), ?_⟩
          · intro n st hmem
            have := tagUpdate_no_status env pod _ hmem
            cases this
          · exact le_trans (List.length_filter_le _ _) (tagUpdate_length env pod)
  refine ⟨?_, hcount⟩
  -- a release that is `Deployed` after the patches is the deployed one, or was
  -- `Deployed` in a pass that deploys nothing
  have hkey : ∀ (i : Nat) (a r : deckhouseRelease), input.releases[i]? = some a →
      (applyPatches input.releases res.out.patches)[i]? = some r →
      r.Status.Phase = Phase.deployed →
      T = some a.Name ∨ (T = none ∧ a.Status.Phase = Phase.deployed) := by
    intro i a r ha hr hd
    have hr1 : r = applyOpsTo a res.out.patches := by
      rw [applyPatches_getElem? _ _ i a ha] at hr
      exact (Option.some.inj hr).symm
    have hamem : a ∈ input.releases := List.mem_iff_getElem?.mpr ⟨i, ha⟩
    rcases applyOpsTo_status_cases res.out.patches a with ⟨hno, h⟩ | ⟨st, hmem, h⟩
    · have had : a.Status.Phase = Phase.deployed := by
        rw [← h, ← hr1]
        exact hd
      cases hT : T with
      | none => exact Or.inr ⟨rfl, had⟩
      | some t =>
        left
        by_cases hn : a.Name = t
        · rw [hn]
        · obtain ⟨st, hmem⟩ := hT2 t hT a hamem had hn
          exact absurd hmem (hno st)
    · left
      apply hT1 a.Name st hmem
      rw [hr1, h] at hd
      exact hd
  intro i j ri rj hri hrj hdi hdj
  have hleni : i < input.releases.length := by
    have := (List.getElem?_eq_some_iff.mp hri).1
    rw [applyPatches_length] at this
    exact this
  have hlenj : j < input.releases.length := by
    have := (List.getElem?_eq_some_iff.mp hrj).1
    rw [applyPatches_length] at this
    exact this
  have hai : input.releases[i]? = some input.releases[i] := List.getElem?_eq_getElem hleni
  have haj : input.releases[j]? = some input.releases[j] := List.getElem?_eq_getElem hlenj
  rcases hkey i _ ri hai hri hdi with h1 | ⟨h1, hd1⟩
  · rcases hkey j _ rj haj hrj hdj with h2 | ⟨h2, _⟩
    · rw [h1] at h2
      have hn : input.releases[i].Name = input.releases[j].Name := Option.some.inj h2
      by_contra hij
      exact distinctNames_ne hnames hai haj hij hn
    · rw [h1] at h2
      cases h2
  · rcases hkey j _ rj haj hrj hdj with h2 | ⟨_, hd2⟩
    · rw [h1] at h2
      cases h2
    · exact hone i j _ _ hai haj hd1 hd2

/-- C21, witness. The pass on the deployed `v1.0.0` and the pending `v1.1.0`. -/
theorem single_deployed_invariant_witness :
    updateDeckhouse sampleEnv (mkInput samplePod [deployed100, pending110]) = some upgradeResult
    ∧ distinctNames (mkInput samplePod [deployed100, pending110]).releases
    ∧ atMostOneDeployed
        (applyPatches (mkInput samplePod [deployed100, pending110]).releases
          upgradeResult.out.patches)
    ∧ (upgradeResult.out.patches.filter isVersionChange).length ≤ 1 :=
  ⟨by decide, by unfold distinctNames; decide,
    single_deployed_invariant sampleEnv (mkInput samplePod [deployed100, pending110])
      upgradeResult (by decide) (by unfold distinctNames; decide)
      (by
        intro i j ri rj hi hj hdi hdj
        have h2 : ∀ (k : Nat) (r : deckhouseRelease),
            [deployed100, pending110][k]? = some r → r.Status.Phase = Phase.deployed →
            k = 0 := by
          intro k r hk hd
          match k with
          | 0 => rfl
          | 1 =>
            have e : pending110 = r := by simpa using hk
            rw [← e] at hd
            cases hd
          | k + 2 => simp at hk
        rw [h2 i ri hi hdi, h2 j rj hj hdj])⟩

end Deckhouse
